import Mathlib

/-! # PBS Pro network server core (`src/lib/Libnet/net_server.c`)

A shallow embedding of the connection table and the event loop of
`net_server.c`, with theorems about the behaviour of the code.

Conventions of the embedding.

* C `int` values are `Int`; array indices are `Int` as in the source, and an
  access outside the array is undefined behaviour, rendered as `none`.
* A function of the source that can hit undefined behaviour, abort, or loop
  returns an `Option`; `none` stands for "does not return normally".
* Loops carry a fuel argument; the theorems show that the fuel given by the
  callers is enough.
* Function pointers are natural numbers, `0` being the null pointer.  What an
  application function does when it is called is given by the environment
  (`Env`), as are the results of system and security-library calls.
* Calls that leave the module (system calls, security library, handlers and
  hooks, the log) are recorded in a trace.
-/

namespace PBS

/-! ## Data model -/

/-- Modelled from the spec: `enum conn_type` is declared in `net_connect.h`, which is
not among the sources.  The constructors are the six types of the data model,
under the names the code uses; `Primary` and `Secondary` are `0` and `1`
(the code indexes `read_func` with them). -/
inductive conn_type where
  | Primary
  | Secondary
  | FromClientDIS
  | RppComm
  | ChildPipe
  | Idle
  deriving DecidableEq, Repr

/-- The integer value of a connection type (`(int)cn_active`). -/
def conn_type.toInt : conn_type → Int
  | .Primary => 0
  | .Secondary => 1
  | .FromClientDIS => 2
  | .RppComm => 3
  | .ChildPipe => 4
  | .Idle => 5

/-- Modelled from the spec: `struct connection` is declared in `net_connect.h`, which is
not among the sources.  The fields are those `net_server.c` reads and writes. -/
structure connection where
  /-- socket descriptor, `-1` when the slot is empty -/
  cn_sock : Int
  /-- application handle, or `-1` -/
  cn_handle : Int
  /-- peer address, host byte order -/
  cn_addr : Nat
  /-- peer port (`unsigned short`) -/
  cn_port : Nat
  /-- authentication flags -/
  cn_authen : Nat
  /-- connection type -/
  cn_active : conn_type
  /-- time of last activity -/
  cn_lasttime : Int
  /-- function to call when data is ready (`0` = null) -/
  cn_func : Nat
  /-- function to call on close (`0` = null) -/
  cn_oncl : Nat
  /-- user name, a C string -/
  cn_username : List Nat
  /-- host name, a C string -/
  cn_hostname : List Nat
  /-- opaque user data pointer -/
  cn_data : Nat
  deriving DecidableEq, Repr

/-- Modelled from the spec: the flag `PBS_NET_CONN_AUTHENTICATED` of `net_connect.h`
(not among the sources); the three flags are distinct bits of `cn_authen`. -/
def PBS_NET_CONN_AUTHENTICATED : Nat := 1

/-- Modelled from the spec: the flag `PBS_NET_CONN_FROM_PRIVIL` of `net_connect.h`
(not among the sources). -/
def PBS_NET_CONN_FROM_PRIVIL : Nat := 2

/-- Modelled from the spec: the flag `PBS_NET_CONN_NOTIMEOUT` of `net_connect.h`
(not among the sources). -/
def PBS_NET_CONN_NOTIMEOUT : Nat := 4

/-- `IPPORT_RESERVED` of `<netinet/in.h>`. -/
def IPPORT_RESERVED : Nat := 1024

/-- One entry of the `poll(2)` array. -/
structure pollfd where
  fd : Int
  events : Nat
  revents : Nat
  deriving DecidableEq, Repr

/-- `POLLIN` of `<poll.h>`. -/
def POLLIN : Nat := 1
/-- `POLLERR` of `<poll.h>`. -/
def POLLERR : Nat := 8
/-- `POLLHUP` of `<poll.h>`. -/
def POLLHUP : Nat := 16
/-- `POLLNVAL` of `<poll.h>`. -/
def POLLNVAL : Nat := 32

/-- `EINTR` of `<errno.h>`. -/
def EINTR : Int := 4
/-- `EBADF` of `<errno.h>`. -/
def EBADF : Int := 9

/-- The file-scope variables of `net_server.c`, and the function-scope static
`initialized` of `init_network`.  `svr_conn` and `pollfds` are the arrays the
two pointers point to; a null pointer is the empty array. -/
structure NetState where
  svr_conn : List connection
  max_connection : Int
  num_connections : Int
  net_is_initialized : Int
  maxfdx : Int
  pollfds : List pollfd
  read_func0 : Nat
  read_func1 : Nat
  initialized : Int
  deriving DecidableEq, Repr

/-- The variables as the C initialisers leave them at program start. -/
def NetState.startup : NetState :=
  { svr_conn := [], max_connection := -1, num_connections := 0,
    net_is_initialized := 0, maxfdx := 0, pollfds := [],
    read_func0 := 0, read_func1 := 0, initialized := 0 }

/-- Messages the module writes with `log_err`. -/
inductive LogMsg where
  | insufficient_memory
  | socket_failed
  | bind_failed
  | listen_failed
  | timeout_connection
  | bad_arguments
  | unable_to_authenticate
  | poll_failed
  | accept_failed
  | connection_refused
  | problem_closing
  | out_of_sync
  deriving DecidableEq, Repr

/-- Modelled from the spec: the return codes of the security library (`libsec.h`, not
among the sources): `OK`, `CheckPort`, or a failure. -/
inductive CS_ret where
  | CS_SUCCESS
  | CS_AUTH_CHECK_PORT
  | CS_FATAL
  deriving DecidableEq, Repr

/-- Calls that leave the module, in the order they are made. -/
inductive Event where
  /-- `CS_server_auth(sd)` called from `engage_authentication` for slot `idx`, and its result -/
  | server_auth (idx : Int) (sd : Int) (ret : CS_ret)
  /-- `svr_conn[idx].cn_func(sd)` called from `wait_request`; `active` and `authen`
  are the slot's type and flags at the moment of the call -/
  | func (idx : Int) (f : Nat) (sd : Int) (active : conn_type) (authen : Nat)
  /-- `svr_conn[idx].cn_oncl(sd)` called from `close_conn` -/
  | oncl (idx : Int) (f : Nat) (sd : Int)
  /-- `CS_close_socket(sd)` -/
  | cs_close_socket (sd : Int)
  /-- `close(fd)` -/
  | close (fd : Int)
  /-- `accept(sd, ...)` and the descriptor it returned -/
  | accept (sd : Int) (newsock : Int)
  /-- `log_err` -/
  | log_err (msg : LogMsg)
  deriving DecidableEq, Repr

/-- The module's variables together with the clock read by `time()` and the
trace of outside calls made so far. -/
structure World where
  net : NetState
  now : Int
  trace : List Event
  deriving DecidableEq, Repr

/-- Append an event to the trace. -/
def World.emit (w : World) (e : Event) : World :=
  { w with trace := w.trace ++ [e] }

/-! ## Array access -/

/-- Read `a[i]`; `none` when `i` is outside the array. -/
def aget {α : Type} (a : List α) (i : Int) : Option α :=
  if i < 0 then none else a[i.toNat]?

/-- Write `a[i] = v`; `none` when `i` is outside the array. -/
def aset {α : Type} (a : List α) (i : Int) (v : α) : Option (List α) :=
  if 0 ≤ i ∧ i < a.length then some (a.set i.toNat v) else none

/-- The C remainder `a % b` (truncating); `none` for a zero divisor. -/
def c_mod (a b : Int) : Option Int :=
  if b = 0 then none else some (Int.tmod a b)

/-- Conversion of an `int` to `unsigned int`. -/
def toU32 (x : Int) : Int := x % 4294967296

/-! ## Slot lookup -/

/-- The `while` loop of `connection_find_usable_index`, entered with index `i`. -/
def find_usable_loop (svr_conn : List connection) (max_connection j : Int) :
    Nat → Int → Option Int
  | 0, _ => none
  | fuel + 1, i => do
    let c ← aget svr_conn i
    if c.cn_sock ≠ -1 then
      let i' ← c_mod (i + 1) max_connection
      if i' = j then some (-1) else find_usable_loop svr_conn max_connection j fuel i'
    else
      some i

/-- `connection_find_usable_index`: an unused slot for `sock`, or `-1`. -/
def connection_find_usable_index (s : NetState) (sock : Int) : Option Int := do
  let j ← c_mod sock s.max_connection
  find_usable_loop s.svr_conn s.max_connection j s.max_connection.toNat j

/-- The `while` loop of `connection_find_actual_index`, entered with index `i`. -/
def find_actual_loop (svr_conn : List connection) (max_connection j sock : Int) :
    Nat → Int → Option Int
  | 0, _ => none
  | fuel + 1, i => do
    let c ← aget svr_conn i
    if toU32 c.cn_sock ≠ toU32 sock then
      let i' ← c_mod (i + 1) max_connection
      if i' = j then some (-1) else find_actual_loop svr_conn max_connection j sock fuel i'
    else
      some i

/-- `connection_find_actual_index`: the slot that holds `sock`, or `-1`. -/
def connection_find_actual_index (s : NetState) (sock : Int) : Option Int := do
  let j ← c_mod sock s.max_connection
  find_actual_loop s.svr_conn s.max_connection j sock s.max_connection.toNat j

/-! ## The outside world -/

/-- Modelled from the spec: what lies outside `net_server.c`: the security library, the
application's handlers and hooks, `accept(2)` and `poll(2)`, and the idle limit
`PBS_NET_MAXCONNECTIDLE` of `server_limits.h` (not among the sources).
Every answer may depend on the whole current world, so that successive calls
may answer differently. -/
structure Env where
  /-- result of `CS_server_auth(sd)` -/
  CS_server_auth : World → Int → CS_ret
  /-- result of `CS_close_socket(sd)` -/
  CS_close_socket : World → Int → CS_ret
  /-- the module's variables after the application function `f` was called with `sd` -/
  user_func : Nat → Int → World → NetState
  /-- `accept(sd)`: the new descriptor (`-1` on failure), the peer address and port -/
  accept : World → Int → Int × Nat × Nat
  /-- `poll`: `some errno` when it fails -/
  poll_errno : World → Option Int
  /-- `poll`: the events reported for the descriptor at an index of `pollfds` -/
  poll_revents : World → Nat → Nat
  /-- the idle limit in seconds -/
  PBS_NET_MAXCONNECTIDLE : Int

/-- The address of the static function `accept_conn`. -/
def accept_conn_ptr : Nat := 1

/-! ## The poll set -/

/-- `selpoll_fd_set`: put the descriptor of slot `cndx` into the poll set. -/
def selpoll_fd_set (s : NetState) (cndx : Int) : Option NetState := do
  let c ← aget s.svr_conn cndx
  let sock := c.cn_sock
  let p ← aget s.pollfds cndx
  let pollfds ← aset s.pollfds cndx { p with fd := sock, revents := 0 }
  some { s with pollfds := pollfds,
                maxfdx := if cndx > s.maxfdx then cndx else s.maxfdx }

/-- The `while` loop of `selpoll_fd_clr`, which lowers `maxfdx` over vacant entries. -/
def selpoll_fd_clr_loop (pollfds : List pollfd) : Nat → Int → Option Int
  | 0, _ => none
  | fuel + 1, maxfdx =>
    if maxfdx > 0 then do
      let p ← aget pollfds maxfdx
      if p.fd = -1 then selpoll_fd_clr_loop pollfds fuel (maxfdx - 1) else some maxfdx
    else
      some maxfdx

/-- `selpoll_fd_clr`: take slot `cndx` out of the poll set. -/
def selpoll_fd_clr (s : NetState) (cndx : Int) : Option NetState := do
  let p ← aget s.pollfds cndx
  let pollfds ← aset s.pollfds cndx { p with fd := -1, revents := 0 }
  if cndx = s.maxfdx then do
    let maxfdx ← selpoll_fd_clr_loop pollfds (cndx.toNat + 1) (s.maxfdx - 1)
    some { s with pollfds := pollfds, maxfdx := maxfdx }
  else
    some { s with pollfds := pollfds }

/-! ## Registration and release -/

/-- `add_conn`: register `sock`; returns the slot index, or `-1` when the table is full. -/
def add_conn (w : World) (sock : Int) (type : conn_type) (addr : Nat) (port : Nat)
    (func : Nat) : Option (Int × World) := do
  let conn_idx ← connection_find_usable_index w.net sock
  if conn_idx = -1 then
    some (-1, w)
  else do
    let c ← aget w.net.svr_conn conn_idx
    let c1 : connection :=
      { c with cn_sock := sock, cn_active := type, cn_addr := addr,
               cn_port := port % 65536, cn_lasttime := w.now, cn_func := func,
               cn_oncl := 0, cn_authen := 0 }
    let c2 : connection :=
      if port < IPPORT_RESERVED then
        { c1 with cn_authen := c1.cn_authen ||| PBS_NET_CONN_FROM_PRIVIL }
      else c1
    let svr_conn ← aset w.net.svr_conn conn_idx c2
    let net1 : NetState :=
      { w.net with num_connections := w.net.num_connections + 1, svr_conn := svr_conn }
    let net2 ← selpoll_fd_set net1 conn_idx
    some (conn_idx, { w with net := net2 })

/-- `cleanup_conn`: reset slot `cndx` and take it out of the poll set. -/
def cleanup_conn (s : NetState) (cndx : Int) : Option NetState := do
  let s1 ← selpoll_fd_clr s cndx
  let c ← aget s1.svr_conn cndx
  let svr_conn ← aset s1.svr_conn cndx
    { c with cn_sock := -1, cn_addr := 0, cn_handle := -1, cn_active := conn_type.Idle,
             cn_func := 0, cn_authen := 0, cn_username := [], cn_hostname := [],
             cn_data := 0 }
  some { s1 with svr_conn := svr_conn }

/-- `accept_conn`: the handler of a listening socket. -/
def accept_conn (env : Env) (w : World) (sd : Int) : Option World := do
  let conn_idx ← connection_find_actual_index w.net sd
  if conn_idx = -1 then
    some w
  else do
    let c ← aget w.net.svr_conn conn_idx
    let svr_conn ← aset w.net.svr_conn conn_idx { c with cn_lasttime := w.now }
    let w1 : World := { w with net := { w.net with svr_conn := svr_conn } }
    let r := env.accept w1 sd
    let newsock := r.1
    let w2 := w1.emit (Event.accept sd newsock)
    if newsock = -1 then
      some (w2.emit (Event.log_err LogMsg.accept_failed))
    else if w2.net.num_connections ≥ w2.net.max_connection then
      some ((w2.emit (Event.close newsock)).emit (Event.log_err LogMsg.connection_refused))
    else do
      let c2 ← aget w2.net.svr_conn conn_idx
      let k := c2.cn_active.toInt
      let f ← if k = 0 then some w2.net.read_func0
              else if k = 1 then some w2.net.read_func1 else none
      let r2 ← add_conn w2 newsock conn_type.FromClientDIS r.2.1 r.2.2 f
      some r2.2

/-- Call through a function pointer: the null pointer cannot be called,
`accept_conn` is the function above, any other function belongs to the
application. -/
def call_func (env : Env) (f : Nat) (sd : Int) (w : World) : Option World :=
  if f = 0 then none
  else if f = accept_conn_ptr then accept_conn env w sd
  else some { w with net := env.user_func f sd w }

/-- `close_conn`: close the connection on descriptor `sd`. -/
def close_conn (env : Env) (w : World) (sd : Int) : Option World :=
  if sd < 0 ∨ w.net.max_connection ≤ sd then
    some w
  else do
    let conn_idx ← connection_find_actual_index w.net sd
    if conn_idx = -1 then
      some w
    else do
      let c ← aget w.net.svr_conn conn_idx
      if c.cn_active = conn_type.Idle then
        some w
      else do
        let w1 : World :=
          if c.cn_active ≠ conn_type.ChildPipe then
            let r := env.CS_close_socket w sd
            let wa := w.emit (Event.cs_close_socket sd)
            let wb := if r ≠ CS_ret.CS_SUCCESS then
                        wa.emit (Event.log_err LogMsg.problem_closing)
                      else wa
            wb.emit (Event.close sd)
          else
            w.emit (Event.close sd)
        let w2 ← if c.cn_oncl ≠ 0 then
                   call_func env c.cn_oncl sd (w1.emit (Event.oncl conn_idx c.cn_oncl sd))
                 else some w1
        let net ← cleanup_conn w2.net conn_idx
        some { w2 with net := { net with num_connections := net.num_connections - 1 } }

/-! ## Initialisation -/

/-- The `for` loop of `connection_init`, which empties the slots from `i` on. -/
def connection_init_loop (max_connection : Int) :
    Nat → Int → List connection → Option (List connection)
  | 0, i, svr_conn => if i < max_connection then none else some svr_conn
  | fuel + 1, i, svr_conn =>
    if i < max_connection then do
      let c ← aget svr_conn i
      let svr_conn1 ← aset svr_conn i
        { c with cn_sock := -1, cn_active := conn_type.Idle, cn_username := [],
                 cn_hostname := [], cn_data := 0 }
      connection_init_loop max_connection fuel (i + 1) svr_conn1
    else
      some svr_conn

/-- `connection_init`.  `nfiles` is the descriptor limit reported by the system,
`mem` the result of `malloc`: `none` for a null pointer, otherwise the
(arbitrary) content of the fresh array. -/
def connection_init (nfiles : Int) (mem : Option (Nat → connection)) (w : World) :
    Option (Int × World) :=
  let alloc : Option (Int × World) :=
    if w.net.max_connection < 0 then
      if nfiles > 0 then
        match mem with
        | none =>
          some (-1, { w with net := { w.net with max_connection := nfiles, svr_conn := [] } }.emit
            (Event.log_err LogMsg.insufficient_memory))
        | some g =>
          some (0, { w with net := { w.net with max_connection := nfiles,
                                                svr_conn := (List.range nfiles.toNat).map g } })
      else
        some (-1, w)
    else
      some (0, w)
  match alloc with
  | some (0, w1) => do
    let svr_conn ← connection_init_loop w1.net.max_connection w1.net.max_connection.toNat 0
      w1.net.svr_conn
    some (0, { w1 with net := { w1.net with svr_conn := svr_conn } })
  | r => r

/-- `selpoll_init`: allocate and clear the poll array.  `mem` is the result of
`malloc`, as in `connection_init`; the loop writes all three fields of every
entry, so the result is the array of `max_connection` vacant entries. -/
def selpoll_init (mem : Option (Nat → pollfd)) (w : World) : Int × World :=
  match mem with
  | none => (-1, { w with net := { w.net with pollfds := [] } }.emit
      (Event.log_err LogMsg.insufficient_memory))
  | some _ =>
    (0, { w with net := { w.net with
      pollfds := List.replicate w.net.max_connection.toNat
        { fd := -1, events := POLLIN, revents := 0 } } })

/-! ## The event loop -/

/-- `engage_authentication` on slot `i` (the argument `&svr_conn[i]`). -/
def engage_authentication (env : Env) (w : World) (i : Int) : Option (Int × World) := do
  let c ← aget w.net.svr_conn i
  let sd := c.cn_sock
  if sd < 0 then
    some (-1, w.emit (Event.log_err LogMsg.bad_arguments))
  else
    let ret := env.CS_server_auth w sd
    let w1 := w.emit (Event.server_auth i sd ret)
    if ret = CS_ret.CS_SUCCESS then do
      let svr_conn ← aset w1.net.svr_conn i
        { c with cn_authen := c.cn_authen ||| PBS_NET_CONN_AUTHENTICATED }
      some (0, { w1 with net := { w1.net with svr_conn := svr_conn } })
    else if ret = CS_ret.CS_AUTH_CHECK_PORT then
      if c.cn_authen &&& PBS_NET_CONN_FROM_PRIVIL ≠ 0 then do
        let svr_conn ← aset w1.net.svr_conn i
          { c with cn_authen := c.cn_authen ||| PBS_NET_CONN_AUTHENTICATED }
        some (0, { w1 with net := { w1.net with svr_conn := svr_conn } })
      else
        some (0, w1)
    else
      some (-1, w1.emit (Event.log_err LogMsg.unable_to_authenticate))

/-- The `for` loop of `connection_idlecheck`, from slot `i` on. -/
def connection_idlecheck_loop (env : Env) (now : Int) : Nat → Int → World → Option World
  | 0, i, w => if i < w.net.max_connection then none else some w
  | fuel + 1, i, w =>
    if i < w.net.max_connection then do
      let cp ← aget w.net.svr_conn i
      if cp.cn_active ≠ conn_type.FromClientDIS then
        connection_idlecheck_loop env now fuel (i + 1) w
      else if now - cp.cn_lasttime ≤ env.PBS_NET_MAXCONNECTIDLE then
        connection_idlecheck_loop env now fuel (i + 1) w
      else if cp.cn_authen &&& PBS_NET_CONN_NOTIMEOUT ≠ 0 then
        connection_idlecheck_loop env now fuel (i + 1) w
      else do
        let w1 := w.emit (Event.log_err LogMsg.timeout_connection)
        let w2 ← close_conn env w1 cp.cn_sock
        connection_idlecheck_loop env now fuel (i + 1) w2
    else
      some w

/-- `connection_idlecheck`: close the client connections that have timed out. -/
def connection_idlecheck (env : Env) (w : World) : Option World :=
  connection_idlecheck_loop env w.now w.net.max_connection.toNat 0 w

/-- `selpoll_fd_isset`: is slot `cndx` ready for reading. -/
def selpoll_fd_isset (w : World) (cndx : Int) : Option (Int × World) := do
  let c ← aget w.net.svr_conn cndx
  let sock := c.cn_sock
  if sock < 0 then
    some (0, w)
  else do
    let p ← aget w.net.pollfds cndx
    if p.fd < 0 then
      some (0, w)
    else if p.fd ≠ sock then do
      let w1 := w.emit (Event.log_err LogMsg.out_of_sync)
      let target ← connection_find_actual_index w1.net p.fd
      if target < 0 then do
        let w2 := w1.emit (Event.close p.fd)
        let net ← selpoll_fd_clr w2.net cndx
        some (0, { w2 with net := net })
      else
        some (0, w1)
    else if p.revents &&& (POLLIN ||| POLLHUP ||| POLLERR ||| POLLNVAL) ≠ 0 then
      some (1, w)
    else
      some (0, w)

/-- The authentication gate of the dispatch loop (the nested `if`s before the
call of `cn_func`), for slot `i` whose content is `c1`: the result of
`engage_authentication` when the gate calls it, and `0` otherwise. -/
def wait_request_auth (env : Env) (w1 : World) (i : Int) (c1 : connection) :
    Option (Int × World) :=
  if c1.cn_active ≠ conn_type.Primary ∧ c1.cn_active ≠ conn_type.RppComm ∧
      c1.cn_active ≠ conn_type.Secondary then
    if ¬ (c1.cn_authen &&& PBS_NET_CONN_AUTHENTICATED ≠ 0) then
      engage_authentication env w1 i
    else some (0, w1)
  else some (0, w1)

/-- The branch of the dispatch loop for a ready slot `i` that is not `Idle`:
the authentication gate, then either `close_conn` and `continue`, or the call
of the handler. -/
def wait_request_active (env : Env) (w1 : World) (i : Int) (c1 : connection) :
    Option World := do
  let a ← wait_request_auth env w1 i c1
  let c2 ← aget a.2.net.svr_conn i
  if a.1 = -1 then
    close_conn env a.2 c2.cn_sock
  else
    call_func env c2.cn_func c2.cn_sock
      (a.2.emit (Event.func i c2.cn_func c2.cn_sock c2.cn_active c2.cn_authen))

/-- The branch of the dispatch loop for a ready slot `i` of type `Idle`: the
descriptor is closed and the slot reset. -/
def wait_request_idle (w1 : World) (i : Int) (c1 : connection) : Option World := do
  let w2 := w1.emit (Event.close c1.cn_sock)
  let net ← cleanup_conn w2.net i
  some { w2 with net := net }

/-- The dispatch loop's handling of a ready slot `i`: `cn_lasttime` is set,
then the slot is dispatched according to its type. -/
def wait_request_ready (env : Env) (w0 : World) (i : Int) : Option World := do
  let c ← aget w0.net.svr_conn i
  let svr_conn ← aset w0.net.svr_conn i { c with cn_lasttime := w0.now }
  let w1 : World := { w0 with net := { w0.net with svr_conn := svr_conn } }
  let c1 ← aget w1.net.svr_conn i
  if c1.cn_active ≠ conn_type.Idle then
    wait_request_active env w1 i c1
  else
    wait_request_idle w1 i c1

/-- One pass through the body of the dispatch loop of `wait_request` at index
`i`; returns the remaining number of events. -/
def wait_request_body (env : Env) (i n : Int) (w : World) : Option (Int × World) := do
  let r ← selpoll_fd_isset w i
  if r.1 ≠ 0 then
    (wait_request_ready env r.2 i).map (fun w3 => (n - 1, w3))
  else
    some (n, r.2)

/-- The dispatch loop of `wait_request`, from index `i` on with `n` events left. -/
def wait_request_loop (env : Env) : Nat → Int → Int → World → Option World
  | 0, i, n, w => if i ≤ w.net.maxfdx ∧ n > 0 then none else some w
  | fuel + 1, i, n, w =>
    if i ≤ w.net.maxfdx ∧ n > 0 then do
      let r ← wait_request_body env i n w
      wait_request_loop env fuel (i + 1) r.1 r.2
    else
      some w

/-- What `poll` writes into the first `nfds` entries of the array: no event for
a negative descriptor, the reported events otherwise.  `k` is the index of
the head of the list. -/
def poll_fill (rev : Nat → Nat) (nfds : Int) : Nat → List pollfd → List pollfd
  | _, [] => []
  | k, p :: ps =>
    (if (k : Int) < nfds then { p with revents := if p.fd < 0 then 0 else rev k } else p)
      :: poll_fill rev nfds (k + 1) ps

/-- The value `poll` returns: how many of the first `nfds` entries have events. -/
def poll_count (nfds : Int) : Nat → List pollfd → Int
  | _, [] => 0
  | k, p :: ps =>
    (if (k : Int) < nfds ∧ p.revents ≠ 0 then 1 else 0) + poll_count nfds (k + 1) ps

/-- The part of `wait_request` after the call of `poll`, entered with the
number `n` of events: the dispatch loop, then the idle sweep. -/
def wait_request_dispatch (env : Env) (n : Int) (w : World) : Option (Int × World) := do
  let w1 ← wait_request_loop env (w.net.max_connection.toNat + 1) 0 n w
  let w2 ← connection_idlecheck env w1
  some (0, w2)

/-- `wait_request`: wait for readable sockets, dispatch them, then sweep idle
connections.  The signal-mask calls around `poll` do not touch the module's
variables and are left out; the failed `assert` is an abort. -/
def wait_request (env : Env) (w : World) (waittime : Int) : Option (Int × World) :=
  let _timeout := waittime * 1000
  let nfds := w.net.maxfdx + 1
  match env.poll_errno w with
  | some errno =>
    if errno = EINTR then
      wait_request_dispatch env 0 w
    else if errno = EBADF then
      none
    else
      some (-1, w.emit (Event.log_err LogMsg.poll_failed))
  | none =>
    if nfds ≤ w.net.pollfds.length then
      let pollfds := poll_fill (env.poll_revents w) nfds 0 w.net.pollfds
      wait_request_dispatch env (poll_count nfds 0 pollfds)
        { w with net := { w.net with pollfds := pollfds } }
    else
      none

/-! ## Notions used in the statements -/

/-- The range of a C `int`. -/
def int_range (x : Int) : Prop := -2147483648 ≤ x ∧ x ≤ 2147483647

instance (x : Int) : Decidable (int_range x) := by
  unfold int_range; infer_instance

/-- The connection table is an array of `max_connection > 0` records whose
descriptors are C `int`s (as is `max_connection`). -/
def table_ok (s : NetState) : Prop :=
  (0 < s.max_connection ∧ int_range s.max_connection) ∧
    (s.svr_conn.length : Int) = s.max_connection ∧
    ∀ c ∈ s.svr_conn, int_range c.cn_sock

instance (s : NetState) : Decidable (table_ok s) := by
  unfold table_ok; infer_instance

/-- The `k`-th index of the cyclic probe order that starts at `j` in a table of
`m` slots: `j, j+1, ..., m-1, 0, 1, ...`. -/
def probe_index (m j : Int) (k : Nat) : Int := (j + k) % m

/-- A probe loop with an arbitrary stop test `p`; both lookup loops are
instances of it. -/
def probe_loop (svr_conn : List connection) (max_connection j : Int)
    (p : connection → Bool) : Nat → Int → Option Int
  | 0, _ => none
  | fuel + 1, i => do
    let c ← aget svr_conn i
    if p c = false then
      let i' ← c_mod (i + 1) max_connection
      if i' = j then some (-1) else probe_loop svr_conn max_connection j p fuel i'
    else
      some i

/-- The poll array has one entry per slot. -/
def polls_ok (s : NetState) : Prop := (s.pollfds.length : Int) = s.max_connection

instance (s : NetState) : Decidable (polls_ok s) := by
  unfold polls_ok; infer_instance

/-- The number of slots whose `cn_sock` is not `-1`. -/
def live_count (s : NetState) : Nat :=
  s.svr_conn.countP (fun c => decide (c.cn_sock ≠ -1))

/-- The number of slots whose `cn_sock` equals `sock`. -/
def holders (s : NetState) (sock : Int) : Nat :=
  s.svr_conn.countP (fun c => decide (c.cn_sock = sock))

/-- The record `add_conn` writes into the slot it has chosen, whose previous
content is `c`. -/
def added_conn (c : connection) (now sock : Int) (type : conn_type) (addr port func : Nat) :
    connection :=
  { c with cn_sock := sock, cn_active := type, cn_addr := addr, cn_port := port % 65536,
           cn_lasttime := now, cn_func := func, cn_oncl := 0,
           cn_authen := if port < IPPORT_RESERVED then PBS_NET_CONN_FROM_PRIVIL else 0 }

/-- The record `cleanup_conn` leaves in a slot whose previous content is `c`. -/
def cleaned_conn (c : connection) : connection :=
  { c with cn_sock := -1, cn_addr := 0, cn_handle := -1, cn_active := conn_type.Idle,
           cn_func := 0, cn_authen := 0, cn_username := [], cn_hostname := [],
           cn_data := 0 }

/-- The outside calls `close_conn(sd)` makes when it releases slot `idx`, whose
content is `c`, in world `w`. -/
def close_events (env : Env) (w : World) (sd idx : Int) (c : connection) : List Event :=
  (if c.cn_active ≠ conn_type.ChildPipe then
     [Event.cs_close_socket sd]
       ++ (if env.CS_close_socket w sd ≠ CS_ret.CS_SUCCESS then
             [Event.log_err LogMsg.problem_closing] else [])
       ++ [Event.close sd]
   else [Event.close sd])
  ++ (if c.cn_oncl ≠ 0 then [Event.oncl idx c.cn_oncl sd] else [])

/-- Is the event a call of an on-close hook. -/
def Event.is_oncl : Event → Bool
  | Event.oncl _ _ _ => true
  | _ => false

/-- The function `f`, used as an on-close hook, leaves the module's variables
as they are (the null pointer is never called as a hook). -/
def hook_neutral (env : Env) (f : Nat) : Prop :=
  f ≠ 0 → ∀ (sd : Int) (w : World), call_func env f sd w = some w

/-- A call made on the connection table by the rest of the program: the two
entry points, and the assignment `svr_conn[idx].cn_oncl = f` by which the
application installs an on-close hook. -/
inductive TableOp where
  | add_conn (sock : Int) (type : conn_type) (addr port func : Nat)
  | close_conn (sd : Int)
  | set_oncl (idx : Int) (f : Nat)

/-- Perform one call. -/
def apply_op (env : Env) (w : World) : TableOp → Option World
  | TableOp.add_conn sock type addr port func =>
    (add_conn w sock type addr port func).map (fun r => r.2)
  | TableOp.close_conn sd => close_conn env w sd
  | TableOp.set_oncl idx f => do
    let c ← aget w.net.svr_conn idx
    let svr_conn ← aset w.net.svr_conn idx { c with cn_oncl := f }
    some { w with net := { w.net with svr_conn := svr_conn } }

/-- Perform a sequence of calls. -/
def run_ops (env : Env) : List TableOp → World → Option World
  | [], w => some w
  | op :: ops, w => (apply_op env w op).bind (run_ops env ops)

/-- The calls considered: any descriptor `>= 0` that is a C `int` for
`add_conn`, any descriptor for `close_conn`, and hooks that leave the module's
variables alone, installed in a slot of the table. -/
def op_ok (env : Env) (nfiles : Int) : TableOp → Prop
  | TableOp.add_conn sock _ _ _ _ => 0 ≤ sock ∧ int_range sock
  | TableOp.close_conn _ => True
  | TableOp.set_oncl idx f => (0 ≤ idx ∧ idx < nfiles) ∧ hook_neutral env f

/-- The invariant of the connection table: the arrays have `max_connection`
entries, `num_connections` is the number of non-empty slots, and the hook of
every non-empty slot leaves the module's variables alone. -/
def table_inv (env : Env) (w : World) : Prop :=
  table_ok w.net ∧ polls_ok w.net ∧
    w.net.num_connections = (live_count w.net : Int) ∧
    ∀ c ∈ w.net.svr_conn, c.cn_sock ≠ -1 → hook_neutral env c.cn_oncl

/-! ## Sample data

Small concrete tables on which the theorems are instantiated. -/

/-- An empty slot. -/
def sample_empty : connection :=
  { cn_sock := -1, cn_handle := -1, cn_addr := 0, cn_port := 0, cn_authen := 0,
    cn_active := conn_type.Idle, cn_lasttime := 0, cn_func := 0, cn_oncl := 0,
    cn_username := [], cn_hostname := [], cn_data := 0 }

/-- A client connection on descriptor `sock` from port `port`, handled by the
application function `7`, with on-close hook `oncl` and flags `authen`. -/
def sample_client (sock : Int) (port authen oncl : Nat) (lasttime : Int) : connection :=
  { cn_sock := sock, cn_handle := -1, cn_addr := 2130706433, cn_port := port,
    cn_authen := authen, cn_active := conn_type.FromClientDIS, cn_lasttime := lasttime,
    cn_func := 7, cn_oncl := oncl, cn_username := [], cn_hostname := [], cn_data := 0 }

/-- A vacant poll entry. -/
def sample_vacant : pollfd := { fd := -1, events := POLLIN, revents := 0 }

/-- An environment in which application functions leave the module's variables
alone, the security library answers `CheckPort`, and every armed descriptor is
readable. -/
def sample_env : Env :=
  { CS_server_auth := fun _ _ => CS_ret.CS_AUTH_CHECK_PORT,
    CS_close_socket := fun _ _ => CS_ret.CS_SUCCESS,
    user_func := fun _ _ w => w.net,
    accept := fun _ _ => (-1, 0, 0),
    poll_errno := fun _ => none,
    poll_revents := fun _ _ => POLLIN,
    PBS_NET_MAXCONNECTIDLE := 900 }

/-- The same environment with a security library that always fails. -/
def sample_env_fail : Env :=
  { sample_env with CS_server_auth := fun _ _ => CS_ret.CS_FATAL }

/-- The world at program start, at time `100`. -/
def sample_start : World := { net := NetState.startup, now := 100, trace := [] }

/-- A table of four slots, all empty. -/
def sample_fresh : World :=
  { net := { svr_conn := [sample_empty, sample_empty, sample_empty, sample_empty],
             max_connection := 4, num_connections := 0, net_is_initialized := 0,
             maxfdx := 0,
             pollfds := [sample_vacant, sample_vacant, sample_vacant, sample_vacant],
             read_func0 := 0, read_func1 := 0, initialized := 0 },
    now := 100, trace := [] }

/-- A table of four slots: descriptor `1` in slot 1 (unprivileged port, hook
`9`), descriptor `2` in slot 2 (privileged port), slots 0 and 3 empty. -/
def sample_two : World :=
  { net := { svr_conn := [sample_empty, sample_client 1 2000 0 9 100,
                          sample_client 2 1023 2 0 100, sample_empty],
             max_connection := 4, num_connections := 2, net_is_initialized := 1,
             maxfdx := 2,
             pollfds := [sample_vacant, { fd := 1, events := POLLIN, revents := 0 },
                         { fd := 2, events := POLLIN, revents := 0 }, sample_vacant],
             read_func0 := 0, read_func1 := 0, initialized := 0 },
    now := 100, trace := [] }

/-- A full table of two slots. -/
def sample_full : World :=
  { net := { svr_conn := [sample_client 0 2000 0 0 100, sample_client 1 2000 0 0 100],
             max_connection := 2, num_connections := 2, net_is_initialized := 1,
             maxfdx := 1,
             pollfds := [{ fd := 0, events := POLLIN, revents := 0 },
                         { fd := 1, events := POLLIN, revents := 0 }],
             read_func0 := 0, read_func1 := 0, initialized := 0 },
    now := 100, trace := [] }

/-- `sample_two` after `add_conn(5, FromClientDIS, 1, 80, 7)`: descriptor `5`
hashes to slot 1, probes 1 and 2, and lands in slot 3. -/
def sample_three : World :=
  { net := { svr_conn := [sample_empty, sample_client 1 2000 0 9 100,
                          sample_client 2 1023 2 0 100,
                          { cn_sock := 5, cn_handle := -1, cn_addr := 1, cn_port := 80,
                            cn_authen := 2, cn_active := conn_type.FromClientDIS,
                            cn_lasttime := 100, cn_func := 7, cn_oncl := 0,
                            cn_username := [], cn_hostname := [], cn_data := 0 }],
             max_connection := 4, num_connections := 3, net_is_initialized := 1,
             maxfdx := 3,
             pollfds := [sample_vacant, { fd := 1, events := POLLIN, revents := 0 },
                         { fd := 2, events := POLLIN, revents := 0 },
                         { fd := 5, events := POLLIN, revents := 0 }],
             read_func0 := 0, read_func1 := 0, initialized := 0 },
    now := 100, trace := [] }

/-- The record `add_conn(1, FromClientDIS, 1, 2000, 7)` writes at time `100`
into an empty sample slot. -/
def sample_reg : connection :=
  { cn_sock := 1, cn_handle := -1, cn_addr := 1, cn_port := 2000, cn_authen := 0,
    cn_active := conn_type.FromClientDIS, cn_lasttime := 100, cn_func := 7, cn_oncl := 0,
    cn_username := [], cn_hostname := [], cn_data := 0 }

/-- `sample_fresh` after descriptor `1` was registered twice: slots 1 and 2 both
hold it. -/
def sample_dup : World :=
  { net := { svr_conn := [sample_empty, sample_reg, sample_reg, sample_empty],
             max_connection := 4, num_connections := 2, net_is_initialized := 0,
             maxfdx := 2,
             pollfds := [sample_vacant, { fd := 1, events := POLLIN, revents := 0 },
                         { fd := 1, events := POLLIN, revents := 0 }, sample_vacant],
             read_func0 := 0, read_func1 := 0, initialized := 0 },
    now := 100, trace := [] }

/-- Arbitrary content of freshly allocated memory. -/
def sample_garbage : connection :=
  { cn_sock := 77, cn_handle := 3, cn_addr := 5, cn_port := 6, cn_authen := 7,
    cn_active := conn_type.RppComm, cn_lasttime := 8, cn_func := 9, cn_oncl := 10,
    cn_username := [65], cn_hostname := [66], cn_data := 11 }

/-- What `connection_init` makes of a garbage slot. -/
def sample_wiped : connection :=
  { sample_garbage with cn_sock := -1, cn_active := conn_type.Idle, cn_username := [],
                        cn_hostname := [], cn_data := 0 }

/-- The world after `connection_init` with a limit of four descriptors. -/
def sample_init1 : World :=
  { net := { NetState.startup with
             max_connection := 4,
             svr_conn := [sample_wiped, sample_wiped, sample_wiped, sample_wiped] },
    now := 100, trace := [] }

/-- The world after `selpoll_init` has followed. -/
def sample_init2 : World :=
  { sample_init1 with net := { sample_init1.net with
      pollfds := [sample_vacant, sample_vacant, sample_vacant, sample_vacant] } }

/-- A sequence of table calls: a duplicate registration, a hook, closes of
registered, unregistered and out-of-range descriptors. -/
def sample_ops : List TableOp :=
  [TableOp.add_conn 1 conn_type.FromClientDIS 1 2000 7,
   TableOp.add_conn 1 conn_type.Idle 1 80 7,
   TableOp.set_oncl 1 9,
   TableOp.close_conn 1,
   TableOp.close_conn 9,
   TableOp.add_conn 6 conn_type.ChildPipe 0 0 8,
   TableOp.close_conn 3,
   TableOp.close_conn 1]

/-! ## Properties of traces -/

/-- Is the event a call of a connection's handler. -/
def Event.is_func : Event → Bool
  | Event.func _ _ _ _ _ => true
  | _ => false

/-- Is the event a call of the security handshake. -/
def Event.is_auth : Event → Bool
  | Event.server_auth _ _ _ => true
  | _ => false

/-- A list of events with neither handler calls nor handshakes. -/
def quiet (q : List Event) : Prop :=
  ∀ e ∈ q, e.is_func = false ∧ e.is_auth = false

/-- The gate on a handler call, given the event just before it: the
connection is a listener or the datagram socket, or its authenticated flag is
set, or the handshake has just answered `CheckPort` for this slot and the peer
is not from a privileged port.  Other events pass. -/
def func_ok (prev : Option Event) : Event → Bool
  | Event.func idx _ sd active authen =>
    decide (active = conn_type.Primary) || decide (active = conn_type.RppComm) ||
      decide (active = conn_type.Secondary) ||
      decide (authen &&& PBS_NET_CONN_AUTHENTICATED ≠ 0) ||
      (decide (prev = some (Event.server_auth idx sd CS_ret.CS_AUTH_CHECK_PORT)) &&
        decide (authen &&& PBS_NET_CONN_FROM_PRIVIL = 0))
  | _ => true

/-- Every handler call of the list passes the gate; `prev` is the event before
the list. -/
def gated_from (prev : Option Event) : List Event → Bool
  | [] => true
  | e :: es => func_ok prev e && gated_from (some e) es

/-- `sample_two` after one `wait_request` under `sample_env`: both connections
were readable; the handshake answered `CheckPort`; the peer of slot 2 is from
a privileged port and became authenticated, the peer of slot 1 is not and did
not; both handlers were called. -/
def sample_two_tick : World :=
  { net := { svr_conn := [sample_empty, sample_client 1 2000 0 9 100,
                          sample_client 2 1023 3 0 100, sample_empty],
             max_connection := 4, num_connections := 2, net_is_initialized := 1,
             maxfdx := 2,
             pollfds := [sample_vacant, { fd := 1, events := POLLIN, revents := POLLIN },
                         { fd := 2, events := POLLIN, revents := POLLIN }, sample_vacant],
             read_func0 := 0, read_func1 := 0, initialized := 0 },
    now := 100,
    trace := [Event.server_auth 1 1 CS_ret.CS_AUTH_CHECK_PORT,
              Event.func 1 7 1 conn_type.FromClientDIS 0,
              Event.server_auth 2 2 CS_ret.CS_AUTH_CHECK_PORT,
              Event.func 2 7 2 conn_type.FromClientDIS 3] }

/-- The world after `wait_request` has set `cn_lasttime` of the ready slot `i`,
whose content is `c`. -/
def touched (w : World) (i : Int) (c : connection) : World :=
  { w with net := { w.net with
      svr_conn := w.net.svr_conn.set i.toNat { c with cn_lasttime := w.now } } }

/-- Every poll entry holds the descriptor of its slot. -/
def polls_sync (s : NetState) : Prop :=
  ∀ j c p, aget s.svr_conn j = some c → aget s.pollfds j = some p → p.fd = c.cn_sock

/-- The world right after `poll` has returned without error. -/
def polled (env : Env) (w : World) : World :=
  { w with net := { w.net with
      pollfds := poll_fill (env.poll_revents w) (w.net.maxfdx + 1) 0 w.net.pollfds } }

/-- The descriptors whose handshake has been called and that have not been
closed since, after the events of the list; `seen` are those before it. -/
def track (seen : List Int) : List Event → List Int
  | [] => seen
  | Event.server_auth _ sd _ :: es => track (sd :: seen) es
  | Event.close fd :: es => track (seen.filter (fun x => decide (x ≠ fd))) es
  | _ :: es => track seen es

/-- No handshake of the list is called for a descriptor whose handshake has
been called before and that has not been closed in between. -/
def once_from (seen : List Int) : List Event → Bool
  | [] => true
  | Event.server_auth _ sd _ :: es => !(seen.contains sd) && once_from (sd :: seen) es
  | Event.close fd :: es => once_from (seen.filter (fun x => decide (x ≠ fd))) es
  | _ :: es => once_from seen es

/-- A sequence of ticks: before each `wait_request(waittime)` the clock advances
by `dt`. -/
def run_ticks (env : Env) : List (Int × Int) → World → Option World
  | [], w => some w
  | t :: ts, w => do
    let r ← wait_request env { w with now := w.now + t.1 } t.2
    run_ticks env ts r.2

/-- No two slots hold the same descriptor. -/
def sock_uniq (l : List connection) : Prop :=
  ∀ i j ci cj, aget l i = some ci → aget l j = some cj →
    ci.cn_sock = cj.cn_sock → ci.cn_sock ≠ -1 → i = j

/-- The state of the slots that the ticks maintain: `max` slots, every
descriptor is `-1` or lies in `[0, max)`, no descriptor is held twice, and no
on-close hook is `accept_conn`. -/
def conn_inv (l : List connection) (max : Int) : Prop :=
  (l.length : Int) = max ∧
    (∀ c ∈ l, c.cn_sock = -1 ∨ (0 ≤ c.cn_sock ∧ c.cn_sock < max)) ∧
    sock_uniq l ∧ (∀ c ∈ l, c.cn_oncl ≠ accept_conn_ptr)

/-- The descriptor `sd` is held by a slot whose authenticated flag is set. -/
def authed (l : List connection) (sd : Int) : Prop :=
  sd ≠ -1 ∧ ∃ c ∈ l, c.cn_sock = sd ∧ c.cn_authen &&& PBS_NET_CONN_AUTHENTICATED ≠ 0

/-- The relation between the slots and the trace that the ticks maintain:
every tracked descriptor is held by an authenticated slot, and no handshake of
the trace was a second one. -/
def trace_rel (l : List connection) (tr : List Event) : Prop :=
  (∀ sd ∈ track [] tr, authed l sd) ∧ once_from [] tr = true

/-- The invariant of the event loop behind "one handshake per connection":
the table is well formed, every descriptor whose handshake has been called and
that has not been closed since is held by an authenticated slot, and no
handshake so far was a second one. -/
def tick_inv (w : World) : Prop :=
  (0 < w.net.max_connection ∧ int_range w.net.max_connection) ∧ polls_ok w.net ∧
    conn_inv w.net.svr_conn w.net.max_connection ∧
    trace_rel w.net.svr_conn w.trace

/-- The assumptions on the environment: application functions leave the
module's variables alone; the security library does not answer `CheckPort` for
a connection that is not from a privileged port; `accept` returns `-1` or a
descriptor in `[0, max_connection)` that no slot holds. -/
def env_ok (env : Env) : Prop :=
  (∀ f sd w, env.user_func f sd w = w.net) ∧
  (∀ w, ∀ c ∈ w.net.svr_conn, c.cn_authen &&& PBS_NET_CONN_FROM_PRIVIL = 0 →
    env.CS_server_auth w c.cn_sock ≠ CS_ret.CS_AUTH_CHECK_PORT) ∧
  (∀ w sd, (env.accept w sd).1 = -1 ∨
    ((0 ≤ (env.accept w sd).1 ∧ (env.accept w sd).1 < w.net.max_connection) ∧
      ∀ c ∈ w.net.svr_conn, c.cn_sock ≠ (env.accept w sd).1))

/-- `sample_two` after two `wait_request` ticks under `sample_env`: the
handshake of slot 1 was called in both ticks, the one of slot 2 only in the
first. -/
def sample_two_twice : World :=
  { sample_two_tick with
    trace := [Event.server_auth 1 1 CS_ret.CS_AUTH_CHECK_PORT,
              Event.func 1 7 1 conn_type.FromClientDIS 0,
              Event.server_auth 2 2 CS_ret.CS_AUTH_CHECK_PORT,
              Event.func 2 7 2 conn_type.FromClientDIS 3,
              Event.server_auth 1 1 CS_ret.CS_AUTH_CHECK_PORT,
              Event.func 1 7 1 conn_type.FromClientDIS 0,
              Event.func 2 7 2 conn_type.FromClientDIS 3] }

/-- An environment with a security library that always fails and an `accept`
that hands out descriptor `1` from port `2000` whenever no slot holds it. -/
def sample_env_accept : Env :=
  { sample_env_fail with
    accept := fun w _ =>
      if decide (1 < w.net.max_connection) &&
          w.net.svr_conn.all (fun c => decide (c.cn_sock ≠ 1))
      then (1, 7, 2000) else (-1, 0, 0) }

/-- A listening socket on descriptor `0`, handled by `accept_conn`. -/
def sample_listener (lasttime : Int) : connection :=
  { cn_sock := 0, cn_handle := -1, cn_addr := 0, cn_port := 0, cn_authen := 0,
    cn_active := conn_type.Primary, cn_lasttime := lasttime, cn_func := accept_conn_ptr,
    cn_oncl := 0, cn_username := [], cn_hostname := [], cn_data := 0 }

/-- A table of four slots with the listening socket in slot 0; accepted
connections are read by the application function `7`. -/
def sample_listen : World :=
  { net := { svr_conn := [sample_listener 100, sample_empty, sample_empty, sample_empty],
             max_connection := 4, num_connections := 1, net_is_initialized := 1,
             maxfdx := 0,
             pollfds := [{ fd := 0, events := POLLIN, revents := 0 }, sample_vacant,
                         sample_vacant, sample_vacant],
             read_func0 := 7, read_func1 := 0, initialized := 1 },
    now := 100, trace := [] }

/-- The events between the two handshakes for descriptor `1` in the run of
`sample_listen` below. -/
def sample_listen_between : List Event :=
  [Event.log_err LogMsg.unable_to_authenticate,
   Event.cs_close_socket 1,
   Event.close 1,
   Event.func 0 1 0 conn_type.Primary 0,
   Event.accept 0 1,
   Event.func 0 1 0 conn_type.Primary 0,
   Event.accept 0 (-1),
   Event.log_err LogMsg.accept_failed]

/-- `sample_listen` after four ticks, one second apart, under
`sample_env_accept`: descriptor `1` is accepted, fails its handshake and is
closed, is accepted again, fails its handshake again and is closed. -/
def sample_listen_run : World :=
  { net := { svr_conn := [sample_listener 104,
                          { sample_empty with cn_port := 2000, cn_lasttime := 104 },
                          sample_empty, sample_empty],
             max_connection := 4, num_connections := 1, net_is_initialized := 1,
             maxfdx := 0,
             pollfds := [{ fd := 0, events := POLLIN, revents := POLLIN }, sample_vacant,
                         sample_vacant, sample_vacant],
             read_func0 := 7, read_func1 := 0, initialized := 1 },
    now := 104,
    trace := [Event.func 0 1 0 conn_type.Primary 0,
              Event.accept 0 1,
              Event.func 0 1 0 conn_type.Primary 0,
              Event.accept 0 (-1),
              Event.log_err LogMsg.accept_failed]
      ++ Event.server_auth 1 1 CS_ret.CS_FATAL
      :: (sample_listen_between
        ++ Event.server_auth 1 1 CS_ret.CS_FATAL
        :: [Event.log_err LogMsg.unable_to_authenticate,
            Event.cs_close_socket 1,
            Event.close 1]) }

/-- The handler of a slot can be called when the slot is in use: it is not
null, and it is `accept_conn` only for a listening socket whose entry of the
array `read_func` (`rf0` for `Primary`, `rf1` for `Secondary`) is an application
function. -/
def slot_callable (rf0 rf1 : Nat) (c : connection) : Prop :=
  c.cn_sock ≠ -1 → c.cn_active ≠ conn_type.Idle →
    c.cn_func ≠ 0 ∧ (c.cn_func = accept_conn_ptr →
      (c.cn_active = conn_type.Primary ∧ rf0 ≠ 0 ∧ rf0 ≠ accept_conn_ptr) ∨
      (c.cn_active = conn_type.Secondary ∧ rf1 ≠ 0 ∧ rf1 ≠ accept_conn_ptr))

/-- The handlers of the table can be called: every slot in use has a callable
handler. -/
def funcs_ok (s : NetState) : Prop :=
  ∀ c ∈ s.svr_conn, slot_callable s.read_func0 s.read_func1 c

/-- The part of the state of the module on which the completion of a tick
depends: a well-formed table, `maxfdx` inside the poll array, callable
handlers. -/
def net_ok (s : NetState) : Prop :=
  (0 < s.max_connection ∧ int_range s.max_connection) ∧ polls_ok s ∧
    conn_inv s.svr_conn s.max_connection ∧ s.maxfdx < s.max_connection ∧ funcs_ok s

/-- The assumptions on the environment under which the ticks run to
completion: application functions leave the module's variables alone, and
`accept` returns `-1` or a descriptor in `[0, max_connection)` that no slot
holds. -/
def env_calls_ok (env : Env) : Prop :=
  (∀ f sd w, env.user_func f sd w = w.net) ∧
  (∀ w sd, (env.accept w sd).1 = -1 ∨
    ((0 ≤ (env.accept w sd).1 ∧ (env.accept w sd).1 < w.net.max_connection) ∧
      ∀ c ∈ w.net.svr_conn, c.cn_sock ≠ (env.accept w sd).1))

/-! ## The idle sweep -/

/-- The test of `connection_idlecheck` on a slot: a client connection whose
last activity lies more than `PBS_NET_MAXCONNECTIDLE` seconds before `now` and
whose no-timeout flag is clear. -/
def timed_out (env : Env) (now : Int) (c : connection) : Prop :=
  c.cn_active = conn_type.FromClientDIS ∧
    env.PBS_NET_MAXCONNECTIDLE < now - c.cn_lasttime ∧
    c.cn_authen &&& PBS_NET_CONN_NOTIMEOUT = 0

instance timed_out_decidable (env : Env) (now : Int) (c : connection) :
    Decidable (timed_out env now c) := by
  unfold timed_out
  exact inferInstance

/-- What the idle sweep at time `now` makes of a slot: a slot in use that has
timed out is reset, any other slot is left as it is. -/
def swept (env : Env) (now : Int) (c : connection) : connection :=
  if timed_out env now c ∧ c.cn_sock ≠ -1 then cleaned_conn c else c

/-- The state of the idle sweep of the world `w` when it reaches slot `i`, in
the world `v`: the slots before `i` are swept, the others are as in `w`; the
table is still well formed, `num_connections` has gone down with the number of
slots in use, and `maxfdx` has not grown. -/
def sweep_inv (env : Env) (w : World) (i : Int) (v : World) : Prop :=
  (v.net.max_connection = w.net.max_connection ∧ v.now = w.now) ∧ polls_ok v.net ∧
    conn_inv v.net.svr_conn w.net.max_connection ∧
    (∀ j c, aget w.net.svr_conn j = some c →
      aget v.net.svr_conn j = some (if j < i then swept env w.now c else c)) ∧
    v.net.num_connections - (live_count v.net : Int)
      = w.net.num_connections - (live_count w.net : Int) ∧
    v.net.maxfdx ≤ w.net.maxfdx

/-- A check of `conn_inv` that can be evaluated. -/
def conn_inv_check (l : List connection) (max : Int) : Bool :=
  decide ((l.length : Int) = max) &&
    l.all (fun c => decide (c.cn_sock = -1 ∨ (0 ≤ c.cn_sock ∧ c.cn_sock < max))) &&
    decide (l.Pairwise (fun a b => a.cn_sock = b.cn_sock → a.cn_sock = -1)) &&
    l.all (fun c => decide (c.cn_oncl ≠ accept_conn_ptr))

/-- A table with three client connections at time `1100`: descriptor `1` was
last active at `100`, descriptor `2` at `500`, and descriptor `3`, whose
no-timeout flag is set, at `100`. -/
def sample_idle : World :=
  { net := { svr_conn := [sample_empty, sample_client 1 2000 0 9 100,
                          sample_client 2 1023 2 0 500,
                          sample_client 3 2000 PBS_NET_CONN_NOTIMEOUT 0 100],
             max_connection := 4, num_connections := 3, net_is_initialized := 1,
             maxfdx := 3,
             pollfds := [sample_vacant, { fd := 1, events := POLLIN, revents := 0 },
                         { fd := 2, events := POLLIN, revents := 0 },
                         { fd := 3, events := POLLIN, revents := 0 }],
             read_func0 := 0, read_func1 := 0, initialized := 0 },
    now := 1100, trace := [] }

/-- The state from which the bound on the idle sweep is shown, and which every
tick without traffic keeps: a well-formed table with `maxfdx` inside the poll
array and `num_connections` equal to the number of slots in use, in which every
slot in use is a client connection with the no-timeout flag clear that was
last active at `t0` or before. -/
def idle_inv (t0 : Int) (v : World) : Prop :=
  (0 < v.net.max_connection ∧ int_range v.net.max_connection) ∧ polls_ok v.net ∧
    conn_inv v.net.svr_conn v.net.max_connection ∧
    v.net.maxfdx < v.net.max_connection ∧
    v.net.num_connections = (live_count v.net : Int) ∧
    ∀ c ∈ v.net.svr_conn, c.cn_sock ≠ -1 →
      c.cn_active = conn_type.FromClientDIS ∧
        c.cn_authen &&& PBS_NET_CONN_NOTIMEOUT = 0 ∧ c.cn_lasttime ≤ t0

/-- A check of `idle_inv` that can be evaluated. -/
def idle_inv_check (t0 : Int) (v : World) : Bool :=
  decide (0 < v.net.max_connection ∧ int_range v.net.max_connection) &&
    decide (polls_ok v.net) &&
    conn_inv_check v.net.svr_conn v.net.max_connection &&
    decide (v.net.maxfdx < v.net.max_connection) &&
    decide (v.net.num_connections = (live_count v.net : Int)) &&
    v.net.svr_conn.all (fun c => decide (c.cn_sock ≠ -1 →
      c.cn_active = conn_type.FromClientDIS ∧
        c.cn_authen &&& PBS_NET_CONN_NOTIMEOUT = 0 ∧ c.cn_lasttime ≤ t0))

/-- The number of ticks of the bound: `ceil(max_idle / waittime) + 1`. -/
def sweep_ticks (max_idle waittime : Int) : Nat :=
  ((max_idle + waittime - 1) / waittime).toNat + 1

/-- `sample_env` with a `poll` that never reports a readable descriptor. -/
def sample_env_silent : Env :=
  { sample_env with poll_revents := fun _ _ => 0 }

/-- `sample_env` with an `accept` that always returns descriptor `7`, from
address `127.0.0.1`, port `40000`. -/
def sample_env_peer : Env :=
  { sample_env with accept := fun _ _ => (7, 2130706433, 40000) }

/-- A full table of two slots: the listening socket `0` and a client on
descriptor `1`. -/
def sample_busy : World :=
  { net := { svr_conn := [sample_listener 100, sample_client 1 2000 0 0 100],
             max_connection := 2, num_connections := 2, net_is_initialized := 1,
             maxfdx := 1,
             pollfds := [{ fd := 0, events := POLLIN, revents := 0 },
                         { fd := 1, events := POLLIN, revents := 0 }],
             read_func0 := 7, read_func1 := 0, initialized := 1 },
    now := 200, trace := [] }

/-! ## Network initialisation -/

/-- The system calls of `init_network` and of the two initialisation routines:
the descriptor limit (`getrlimit` or `getdtablesize`), the two `malloc`s
(`none` for a null pointer, otherwise the content of the fresh array), and the
results of `socket`, `bind` and `listen`.  Every answer may depend on the
current world. -/
structure InitEnv where
  /-- the descriptor limit `connection_init` reads -/
  nfiles : World → Int
  /-- `malloc` of the connection table -/
  malloc_conn : World → Option (Nat → connection)
  /-- `malloc` of the poll array -/
  malloc_poll : World → Option (Nat → pollfd)
  /-- result of `socket(AF_INET, SOCK_STREAM, 0)` -/
  socket : World → Int
  /-- result of `bind(sock, ...)` -/
  bind : World → Int → Int
  /-- result of `listen(sock, 256)` -/
  listen : World → Int → Int

/-- The assignment `read_func[initialized++] = readfunc`; the array has two
entries. -/
def read_func_store (s : NetState) (readfunc : Nat) : Option NetState :=
  if s.initialized = 0 then
    some { s with read_func0 := readfunc, initialized := s.initialized + 1 }
  else if s.initialized = 1 then
    some { s with read_func1 := readfunc, initialized := s.initialized + 1 }
  else none

/-- The part of `init_network` after the listener type is chosen: mark the
network initialised; for `port == 0` that is all; otherwise save the read
function in `read_func[initialized++]`, create and bind the socket, register it
with `accept_conn` as its handler (address `0`, port `0`), and listen. -/
def init_network_listen (ienv : InitEnv) (w : World) (type : conn_type)
    (port readfunc : Nat) : Option (Int × World) :=
  let w1 : World := { w with net := { w.net with net_is_initialized := 1 } }
  if port = 0 then
    some (0, w1)
  else do
    let net2 ← read_func_store w1.net readfunc
    let w2 : World := { w1 with net := net2 }
    let sock := ienv.socket w2
    if sock < 0 then
      some (-1, w2.emit (Event.log_err LogMsg.socket_failed))
    else if ienv.bind w2 sock < 0 then
      some (-1, (w2.emit (Event.close sock)).emit (Event.log_err LogMsg.bind_failed))
    else do
      let r ← add_conn w2 sock type 0 0 accept_conn_ptr
      let w3 := r.2
      if ienv.listen w3 sock < 0 then
        some (-1, (w3.emit (Event.close sock)).emit (Event.log_err LogMsg.listen_failed))
      else
        some (0, w3)

/-- `init_network(port, readfunc)`. -/
def init_network (ienv : InitEnv) (w : World) (port readfunc : Nat) :
    Option (Int × World) :=
  if w.net.initialized = 0 then do
    let r1 ← connection_init (ienv.nfiles w) (ienv.malloc_conn w) w
    if r1.1 < 0 then
      some (-1, r1.2)
    else
      let r2 := selpoll_init (ienv.malloc_poll r1.2) r1.2
      if r2.1 < 0 then
        some (-1, r2.2)
      else
        init_network_listen ienv r2.2 conn_type.Primary port readfunc
  else if w.net.initialized = 1 then
    init_network_listen ienv w conn_type.Secondary port readfunc
  else
    some (-1, w)

/-- A sequence of `init_network` calls, each with its port and read function;
the result is the list of return values and the final world. -/
def init_calls (ienv : InitEnv) : List (Nat × Nat) → World → Option (List Int × World)
  | [], w => some ([], w)
  | c :: cs, w => do
    let r ← init_network ienv w c.1 c.2
    let rs ← init_calls ienv cs r.2
    some (r.1 :: rs.1, rs.2)

/-- A system with a descriptor limit of `4`, in which `malloc` succeeds and
returns zeroed memory, `socket` returns descriptor `3` if no slot holds it and
descriptor `0` otherwise, and `bind` and `listen` succeed. -/
def sample_ienv : InitEnv :=
  { nfiles := fun _ => 4,
    malloc_conn := fun _ => some (fun _ => sample_empty),
    malloc_poll := fun _ => some (fun _ => sample_vacant),
    socket := fun w => if w.net.svr_conn.all (fun c => decide (c.cn_sock ≠ 3)) then 3 else 0,
    bind := fun _ _ => 0,
    listen := fun _ _ => 0 }

/-- The connection table is either not allocated yet (`max_connection < 0`) or
an array of `max_connection > 0` slots. -/
def alloc_ok (s : NetState) : Prop :=
  s.max_connection < 0 ∨
    ((0 < s.max_connection ∧ int_range s.max_connection) ∧
      (s.svr_conn.length : Int) = s.max_connection)

/-- The state between `init_network` calls: the table is allocated
consistently, `initialized` is not negative, and once a listener call has been
made the table and the poll array are well formed. -/
def init_inv_state (s : NetState) : Prop :=
  alloc_ok s ∧ 0 ≤ s.initialized ∧ (1 ≤ s.initialized → table_ok s ∧ polls_ok s)

/-- The world of `init_network` right after `read_func[initialized++] = readfunc`. -/
def read_func_saved (w : World) (readfunc : Nat) : World :=
  { w with net :=
      if w.net.initialized = 0 then
        { w.net with net_is_initialized := 1, read_func0 := readfunc,
                     initialized := w.net.initialized + 1 }
      else
        { w.net with net_is_initialized := 1, read_func1 := readfunc,
                     initialized := w.net.initialized + 1 } }

/-- The number of calls of a sequence with `port != 0` that returned `0`, given
the calls and their return values. -/
def listeners_created : List (Nat × Nat) → List Int → Nat
  | c :: cs, r :: rs =>
    (if c.1 ≠ 0 ∧ r = 0 then 1 else 0) + listeners_created cs rs
  | _, _ => 0

/-- The world after `init_network(15001, 7)` and `init_network(15002, 8)` at
program start under `sample_ienv`: the primary listener on descriptor `3`, the
secondary one on descriptor `0`. -/
def sample_listening : World :=
  { net := { svr_conn := [{ sample_listener 100 with
                              cn_authen := PBS_NET_CONN_FROM_PRIVIL,
                              cn_active := conn_type.Secondary },
                          sample_empty, sample_empty,
                          { sample_listener 100 with
                              cn_sock := 3, cn_authen := PBS_NET_CONN_FROM_PRIVIL }],
             max_connection := 4, num_connections := 2, net_is_initialized := 1,
             maxfdx := 3,
             pollfds := [{ fd := 0, events := POLLIN, revents := 0 }, sample_vacant,
                         sample_vacant, { fd := 3, events := POLLIN, revents := 0 }],
             read_func0 := 7, read_func1 := 8, initialized := 2 },
    now := 100, trace := [] }

/-- The world after `add_conn(sock, type, addr, port, func)` has taken slot `r`,
whose content was `c` and whose poll entry was `p`. -/
def registered (w : World) (r : Int) (c : connection) (p : pollfd) (sock : Int)
    (type : conn_type) (addr port func : Nat) : World :=
  { w with net := { w.net with
      num_connections := w.net.num_connections + 1,
      svr_conn := w.net.svr_conn.set r.toNat (added_conn c w.now sock type addr port func),
      pollfds := w.net.pollfds.set r.toNat { p with fd := sock, revents := 0 },
      maxfdx := if r > w.net.maxfdx then r else w.net.maxfdx } }

/-- Slot `i` is the only slot that holds the descriptor `sock >= 0`; it has the
listener type `t`, and `f` is the function saved in the entry of `read_func`
that belongs to `t`; the table and the poll array are well formed. -/
def listener_at (t : conn_type) (f : Nat) (sock i : Int) (s : NetState) : Prop :=
  (table_ok s ∧ polls_ok s) ∧
    ((t = conn_type.Primary ∧ 1 ≤ s.initialized ∧ s.read_func0 = f) ∨
      (t = conn_type.Secondary ∧ 2 ≤ s.initialized ∧ s.read_func1 = f)) ∧
    (∃ c, aget s.svr_conn i = some c ∧ c.cn_sock = sock ∧ c.cn_active = t) ∧
    0 ≤ sock ∧ ∀ j c', aget s.svr_conn j = some c' → c'.cn_sock = sock → j = i

/-- The assumptions on the system calls of `init_network`: the descriptor limit
is an `int`, and on a well-formed table `socket` returns an `int` that no slot
holds. -/
def ienv_ok (ienv : InitEnv) : Prop :=
  (∀ v, int_range (ienv.nfiles v)) ∧ (∀ v, table_ok v.net → int_range (ienv.socket v)) ∧
    ∀ v, table_ok v.net → ∀ c ∈ v.net.svr_conn, c.cn_sock ≠ ienv.socket v

/-- The lowest descriptor `0, 1, 2, ...` that no slot of the table holds (as
`socket` and `accept` choose it). -/
def lowest_free (l : List connection) : Int :=
  Int.ofNat (((List.range (l.length + 1)).find?
    (fun (d : Nat) => l.all (fun c => decide (c.cn_sock ≠ Int.ofNat d)))).getD 0)

/-- The system of `sample_ienv`, but `socket` returns the lowest descriptor that
no slot holds. -/
def sample_ienv_lowest : InitEnv :=
  { sample_ienv with socket := fun w => lowest_free w.net.svr_conn }

/-- The world after `init_network(15001, 7)` at program start under
`sample_ienv_lowest`: the primary listener on descriptor `0`. -/
def sample_lowest1 : World :=
  { net := { svr_conn := [{ sample_listener 100 with cn_authen := PBS_NET_CONN_FROM_PRIVIL },
                          sample_empty, sample_empty, sample_empty],
             max_connection := 4, num_connections := 1, net_is_initialized := 1,
             maxfdx := 0,
             pollfds := [{ fd := 0, events := POLLIN, revents := 0 }, sample_vacant,
                         sample_vacant, sample_vacant],
             read_func0 := 7, read_func1 := 0, initialized := 1 },
    now := 100, trace := [] }

/-- The world after `init_network(0, 9)` and `init_network(15002, 8)` on
`sample_lowest1`: the secondary listener on descriptor `1`. -/
def sample_lowest2 : World :=
  { net := { svr_conn := [{ sample_listener 100 with cn_authen := PBS_NET_CONN_FROM_PRIVIL },
                          { sample_listener 100 with
                              cn_sock := 1, cn_authen := PBS_NET_CONN_FROM_PRIVIL,
                              cn_active := conn_type.Secondary },
                          sample_empty, sample_empty],
             max_connection := 4, num_connections := 2, net_is_initialized := 1,
             maxfdx := 1,
             pollfds := [{ fd := 0, events := POLLIN, revents := 0 },
                         { fd := 1, events := POLLIN, revents := 0 },
                         sample_vacant, sample_vacant],
             read_func0 := 7, read_func1 := 8, initialized := 2 },
    now := 100, trace := [] }

/-! ## The order of dispatch -/

/-- The slot index of a handler call or of a handshake; `none` for any other
event. -/
def Event.slot : Event → Option Int
  | Event.server_auth idx _ _ => some idx
  | Event.func idx _ _ _ _ => some idx
  | _ => none

/-- The handler calls and handshakes of a list of events, in their order. -/
def dispatches (evs : List Event) : List Event :=
  evs.filter (fun e => e.is_func || e.is_auth)

/-- The order of two dispatch events: the first one belongs to a slot of lower
index, or both belong to the same slot, the first is its handshake and the
second the call of its handler. -/
def dispatch_order (e1 e2 : Event) : Prop :=
  ∀ i j, e1.slot = some i → e2.slot = some j →
    i < j ∨ (i = j ∧ e1.is_auth = true ∧ e2.is_func = true)

/-- The dispatch events of the list all belong to slot `i`, and they are in
dispatch order (at most one handshake, then at most one handler call). -/
def at_slot (i : Int) (l : List Event) : Prop :=
  (∀ e ∈ l, e.slot = some i) ∧ List.Pairwise dispatch_order l

/-- The dispatch events of the list belong to slots with index `i` or more, and
they are in dispatch order. -/
def from_slot (i : Int) (l : List Event) : Prop :=
  (∀ e ∈ l, ∃ j, e.slot = some j ∧ i ≤ j) ∧ List.Pairwise dispatch_order l

/-! ## Shutdown -/

/-- The `for` loop of `net_close`, from slot `i` on: every slot whose descriptor
is not `but` gets its on-close hook cleared and is passed to `close_conn` by
its descriptor. -/
def net_close_loop (env : Env) (but : Int) : Nat → Int → World → Option World
  | 0, i, w => if i < w.net.max_connection then none else some w
  | fuel + 1, i, w =>
    if i < w.net.max_connection then do
      let c ← aget w.net.svr_conn i
      if c.cn_sock ≠ but then do
        let svr_conn ← aset w.net.svr_conn i { c with cn_oncl := 0 }
        let w1 : World := { w with net := { w.net with svr_conn := svr_conn } }
        let c1 ← aget w1.net.svr_conn i
        let w2 ← close_conn env w1 c1.cn_sock
        net_close_loop env but fuel (i + 1) w2
      else
        net_close_loop env but fuel (i + 1) w
    else
      some w

/-- `net_close(but)`: close every connection except the one on descriptor
`but`; with `but == -1` the poll array is freed (the null pointer is the empty
array) and the network is marked as not initialised. -/
def net_close (env : Env) (w : World) (but : Int) : Option World :=
  if w.net.net_is_initialized = 0 then
    some w
  else do
    let w1 ← net_close_loop env but w.net.max_connection.toNat 0 w
    let w2 : World :=
      if but = -1 then { w1 with net := { w1.net with pollfds := [] } } else w1
    let w3 : World :=
      if but = -1 then { w2 with net := { w2.net with net_is_initialized := 0 } } else w2
    some w3

/-- What `net_close(but)` makes of a slot: the slot that holds `but` is left as
it is; an empty slot only loses its hook; any other slot is reset. -/
def net_closed (but : Int) (c : connection) : connection :=
  if c.cn_sock = but then c
  else if c.cn_sock = -1 then { c with cn_oncl := 0 }
  else cleaned_conn { c with cn_oncl := 0 }

/-- An initialised table of four slots, all empty. -/
def sample_ready : World :=
  { sample_fresh with net := { sample_fresh.net with net_is_initialized := 1 } }

/-- The tables on which `net_close` closes everything: `max_connection` slots
and poll entries, every descriptor in use lies in `[0, max_connection)` and is
held by one slot only, and no slot in use has the type `Idle`. -/
def table_wf (s : NetState) : Prop :=
  ((0 < s.max_connection ∧ int_range s.max_connection) ∧ polls_ok s) ∧
    (s.svr_conn.length : Int) = s.max_connection ∧
    (∀ c ∈ s.svr_conn, c.cn_sock = -1 ∨ (0 ≤ c.cn_sock ∧ c.cn_sock < s.max_connection)) ∧
    sock_uniq s.svr_conn ∧
    ∀ c ∈ s.svr_conn, c.cn_sock ≠ -1 → c.cn_active ≠ conn_type.Idle

/-- The state of the loop of `net_close(but)` on the world `w` when it reaches
slot `i`, in the world `v`: the slots before `i` are closed, the others are as
in `w`; `num_connections` has gone down with the number of slots in use; no
on-close hook has been called. -/
def net_close_inv (but : Int) (w : World) (i : Int) (v : World) : Prop :=
  (v.net.max_connection = w.net.max_connection ∧
    v.net.net_is_initialized = w.net.net_is_initialized) ∧
  (polls_ok v.net ∧ v.net.svr_conn.length = w.net.svr_conn.length) ∧
  (∀ j c, aget w.net.svr_conn j = some c →
    aget v.net.svr_conn j = some (if j < i then net_closed but c else c)) ∧
  v.net.num_connections - (live_count v.net : Int)
    = w.net.num_connections - (live_count w.net : Int) ∧
  ∃ evs, v.trace = w.trace ++ evs ∧ ∀ e ∈ evs, e.is_oncl = false

/-! ## Host name of a connection -/

/-- `tolower` on an ASCII character code. -/
def tolower (ch : Nat) : Nat := if 65 ≤ ch ∧ ch ≤ 90 then ch + 32 else ch

/-- The decimal digits of a byte, as character codes. -/
def dec_digits (n : Nat) : List Nat :=
  if n < 10 then [48 + n]
  else if n < 100 then [48 + n / 10, 48 + n % 10]
  else [48 + n / 100, 48 + n / 10 % 10, 48 + n % 10]

/-- The text `inet_ntop(AF_INET, ...)` produces for the address `htonl(a)`: the
four bytes of `a`, most significant first, in decimal with dots between them
(without the terminating null). -/
def dotted_quad (a : Nat) : List Nat :=
  dec_digits (a / 16777216 % 256) ++ [46] ++ dec_digits (a / 65536 % 256) ++ [46] ++
    dec_digits (a / 256 % 256) ++ [46] ++ dec_digits (a % 256)

/-- `strcpy(dst + i, src)` for a source text `src` (given without its
terminating null): every character and then the null are stored, wherever
that leads; a store outside the destination array is undefined. -/
def strcpy_from : List Nat → Int → List Nat → Option (List Nat)
  | [], i, dst => aset dst i 0
  | ch :: rest, i, dst => do
    let dst1 ← aset dst i ch
    strcpy_from rest (i + 1) dst1

/-- The `for` loop of `get_connecthost` from index `i` on: `h_name` is the
resolved name with its terminating null, `size` the decremented size. -/
def get_connecthost_loop (h_name : List Nat) (size : Int) :
    Nat → Int → List Nat → Option (List Nat)
  | 0, i, namebuf => if i < size then none else some namebuf
  | fuel + 1, i, namebuf =>
    if i < size then do
      let ch ← aget h_name i
      let namebuf1 ← aset namebuf i (tolower ch)
      if ch = 0 then some namebuf1
      else get_connecthost_loop h_name size fuel (i + 1) namebuf1
    else
      some namebuf

/-- `get_connecthost(sock, namebuf, size)`.  `namebuf` is the caller's array
(its length is the real capacity), `gethostbyaddr` the answer of the resolver
for an address: `none` for a null pointer, otherwise `h_name` without its
terminating null.  The result is the return value and the array. -/
def get_connecthost (gethostbyaddr : Nat → Option (List Nat)) (w : World) (sock : Int)
    (namebuf : List Nat) (size : Int) : Option (Int × List Nat) := do
  let conn_idx ← connection_find_actual_index w.net sock
  if conn_idx = -1 then
    some (-1, namebuf)
  else do
    let size1 := size - 1
    let c ← aget w.net.svr_conn conn_idx
    match gethostbyaddr c.cn_addr with
    | none => do
      let namebuf1 ← strcpy_from (dotted_quad c.cn_addr) 0 namebuf
      some (if (0 : Int) > size1 then -1 else 0, namebuf1)
    | some name => do
      let namesize : Int := name.length
      let namebuf1 ← get_connecthost_loop (name ++ [0]) size1 size1.toNat 0 namebuf
      let namebuf2 ← aset namebuf1 size1 0
      some (if namesize > size1 then -1 else 0, namebuf2)

/-- The length of the C string at the start of an array (`strlen`). -/
def c_strlen (buf : List Nat) : Nat := (buf.takeWhile (fun b => decide (b ≠ 0))).length

/-! ## Reading a floating point number (`disrd.c`) -/

/-- Conversion to `int`: the value modulo `2^32` in `[-2^31, 2^31)`. -/
def toI32 (x : Int) : Int := (x + 2147483648) % 4294967296 - 2147483648

/-- An `int` addition; signed overflow is undefined. -/
def add_int (a b : Int) : Option Int :=
  if int_range (a + b) then some (a + b) else none

/-- Modelled from the spec: the status codes of `dis.h` (not among the sources)
that `disrd` names, and `other` for any further code a reader returns.  The
codes are distinct. -/
inductive dis_ret where
  | DIS_SUCCESS
  | DIS_OVERFLOW
  | DIS_NOCOMMIT
  | other (code : Nat)
  deriving DecidableEq, Repr

/-- A value of the type `dis_long_double_t`, or of the type `double`: the
finite number `m * 10^e`, or `HUGE_VAL` (`huge false`) or `-HUGE_VAL`
(`huge true`).  Every binary floating point number is such a finite decimal; a
NaN does not occur. -/
inductive LDouble where
  | fin (m e : Int)
  | huge (neg : Bool)
  deriving DecidableEq, Repr

/-- The comparison `x < 0.0L`. -/
def LDouble.lt_zero : LDouble → Bool
  | LDouble.fin m _ => decide (m < 0)
  | LDouble.huge neg => neg

/-- The comparison `x > y`; `HUGE_VAL` is above and `-HUGE_VAL` below every
finite number. -/
def LDouble.gt : LDouble → LDouble → Bool
  | LDouble.fin m1 e1, LDouble.fin m2 e2 =>
    decide (m2 * ((10 ^ (e2 - min e1 e2).toNat : Nat) : Int)
      < m1 * ((10 ^ (e1 - min e1 e2).toNat : Nat) : Int))
  | LDouble.fin _ _, LDouble.huge neg => neg
  | LDouble.huge neg, LDouble.fin _ _ => !neg
  | LDouble.huge neg1, LDouble.huge neg2 => !neg1 && neg2

/-- The floating point arithmetic of the platform: multiplication and division
of `dis_long_double_t` (with whatever rounding they do), the conversion to
`double`, and the constants of `float.h` that `disrd` uses. -/
structure LDArith where
  /-- the product `x * y` -/
  mul : LDouble → LDouble → LDouble
  /-- the quotient `x / y` -/
  div : LDouble → LDouble → LDouble
  /-- the conversion `(double)x` -/
  to_double : LDouble → LDouble
  /-- the largest finite `double` -/
  DBL_MAX : LDouble
  /-- the largest decimal exponent of a `double` -/
  DBL_MAX_10_EXP : Int
  /-- the smallest decimal exponent of a `long double` -/
  LDBL_MIN_10_EXP : Int

/-- Modelled from the spec: what `disrd` calls and `disrd.c` does not define.
`disrl_` reads the coefficient and answers with a status, the value left in
`ldval`, and the counts `ndigs` and `nskips` (`unsigned`); `disrsi_` reads the
exponent and answers with a status, the flag `negate` and the magnitude
`uexpon` (`unsigned`); `disp10l_(n)` is the power of ten `10^n`; `disr_commit`
is the commit callback of the stream, called with the flag
`locret == DIS_SUCCESS`. -/
structure DisEnv where
  /-- result of `disrl_(stream, &ldval, &ndigs, &nskips, DBL_DIG, 1, 0)` -/
  disrl_ : dis_ret × LDouble × Nat × Nat
  /-- result of `disrsi_(stream, &negate, &uexpon, 1, 0)` -/
  disrsi_ : dis_ret × Int × Nat
  /-- the function `disp10l_` -/
  disp10l_ : Int → LDouble
  /-- result of `(*disr_commit)(stream, flag)` -/
  disr_commit : Bool → Int

/-- The assignment `expon = negate ? nskips - uexpon : nskips + uexpon`: the
arithmetic is `unsigned`, the result is converted to `int`. -/
def disrd_expon (negate : Int) (nskips uexpon : Nat) : Int :=
  toI32 (if negate ≠ 0 then toU32 ((nskips : Int) - (uexpon : Int))
         else toU32 ((nskips : Int) + (uexpon : Int)))

/-- The value `ldval < 0.0L ? -HUGE_VAL : HUGE_VAL`. -/
def huge_of (ldval : LDouble) : LDouble :=
  if ldval.lt_zero then LDouble.huge true else LDouble.huge false

/-- The branch of `disrd` for the boundary case
`expon + (int)ndigs == DBL_MAX_10_EXP + 1`. -/
def disrd_boundary (ar : LDArith) (env : DisEnv) (ldval : LDouble) (expon : Int) :
    Option (LDouble × dis_ret) :=
  (add_int expon (-1)).map (fun e1 =>
    let ldval1 := ar.mul ldval (env.disp10l_ e1)
    if ldval1.gt (ar.div ar.DBL_MAX (LDouble.fin 10 0)) then
      (huge_of ldval1, dis_ret.DIS_OVERFLOW)
    else
      (ar.mul ldval1 (LDouble.fin 10 0), dis_ret.DIS_SUCCESS))

/-- The scaling of the coefficient `ldval` once both readers have succeeded:
the new `ldval` and `locret`. -/
def disrd_scale (ar : LDArith) (env : DisEnv) (ldval : LDouble) (ndigs nskips : Nat)
    (negate : Int) (uexpon : Nat) : Option (LDouble × dis_ret) :=
  let expon := disrd_expon negate nskips uexpon
  (add_int expon (toI32 ndigs)).bind (fun s =>
    if s > ar.DBL_MAX_10_EXP then
      if s > ar.DBL_MAX_10_EXP + 1 then
        some (huge_of ldval, dis_ret.DIS_OVERFLOW)
      else
        disrd_boundary ar env ldval expon
    else if expon < ar.LDBL_MIN_10_EXP then
      some (ar.div (ar.mul ldval (env.disp10l_ s)) (env.disp10l_ (toI32 ndigs)),
        dis_ret.DIS_SUCCESS)
    else
      some (ar.mul ldval (env.disp10l_ expon), dis_ret.DIS_SUCCESS))

/-- The two reads of `disrd` and the scaling: `ldval` and `locret` before the
commit. -/
def disrd_read (ar : LDArith) (env : DisEnv) : Option (LDouble × dis_ret) :=
  if env.disrl_.1 = dis_ret.DIS_SUCCESS then
    if env.disrsi_.1 = dis_ret.DIS_SUCCESS then
      disrd_scale ar env env.disrl_.2.1 env.disrl_.2.2.1 env.disrl_.2.2.2
        env.disrsi_.2.1 env.disrsi_.2.2
    else
      some (env.disrl_.2.1, env.disrsi_.1)
  else
    some (env.disrl_.2.1, env.disrl_.1)

/-- `disrd(stream, retval)`: the value returned, `(double)ldval`, and the
status stored in `*retval`. -/
def disrd (ar : LDArith) (env : DisEnv) : Option (LDouble × dis_ret) :=
  (disrd_read ar env).map (fun r =>
    (ar.to_double r.1,
     if env.disr_commit (decide (r.2 = dis_ret.DIS_SUCCESS)) < 0
     then dis_ret.DIS_NOCOMMIT else r.2))

/-- Multiplication without rounding. -/
def LDouble.mul_exact : LDouble → LDouble → LDouble
  | LDouble.fin m1 e1, LDouble.fin m2 e2 => LDouble.fin (m1 * m2) (e1 + e2)
  | x, y => LDouble.huge (x.lt_zero != y.lt_zero)

/-- Division carried to forty more decimal digits than the operands have. -/
def LDouble.div_digits : LDouble → LDouble → LDouble
  | LDouble.fin m1 e1, LDouble.fin m2 e2 =>
    if m2 = 0 then LDouble.huge (decide (m1 < 0))
    else LDouble.fin (m1 * ((10 ^ 40 : Nat) : Int) / m2) (e1 - e2 - 40)
  | LDouble.fin _ _, LDouble.huge _ => LDouble.fin 0 0
  | LDouble.huge neg, y => LDouble.huge (neg != y.lt_zero)

/-- The conversion to an IEEE 754 `double` as far as its range goes: a value
whose magnitude reaches `(2^54 - 1) * 2^970`, half a unit in the last place
above `DBL_MAX`, becomes `HUGE_VAL` or `-HUGE_VAL` (the infinities); a value
inside the range is left as it is, without rounding. -/
def LDouble.to_double_range (x : LDouble) : LDouble :=
  if (LDouble.fin (((2 ^ 54 - 1) * 2 ^ 970 : Nat) : Int) 0).gt x = false then
    LDouble.huge false
  else if x.gt (LDouble.fin (-(((2 ^ 54 - 1) * 2 ^ 970 : Nat) : Int)) 0) = false then
    LDouble.huge true
  else x

/-- A sample platform: arithmetic without rounding, the limits of an IEEE 754
`double` (`DBL_MAX = (2^53 - 1) * 2^971`, `DBL_MAX_10_EXP = 308`) and of the
x87 extended format (`LDBL_MIN_10_EXP = -4931`). -/
def sample_arith : LDArith :=
  { mul := LDouble.mul_exact,
    div := LDouble.div_digits,
    to_double := LDouble.to_double_range,
    DBL_MAX := LDouble.fin (((2 ^ 53 - 1) * 2 ^ 971 : Nat) : Int) 0,
    DBL_MAX_10_EXP := 308,
    LDBL_MIN_10_EXP := -4931 }

/-- A stream that holds the number with coefficient `coef` (one digit, nothing
skipped) and exponent `expo >= 0`, and whose commit succeeds; `disp10l_` is the
exact power of ten. -/
def sample_stream (coef : Int) (expo : Nat) : DisEnv :=
  { disrl_ := (dis_ret.DIS_SUCCESS, LDouble.fin coef 0, 1, 0),
    disrsi_ := (dis_ret.DIS_SUCCESS, 0, expo),
    disp10l_ := fun n => LDouble.fin 1 n,
    disr_commit := fun _ => 0 }

/-- A call `disrd` makes on the stream: one of the two readers, or the commit
callback with its flag. -/
inductive DisCall where
  | disrl_
  | disrsi_
  | disr_commit (flag : Bool)
  deriving DecidableEq, Repr

/-- The two reads of `disrd` and the scaling, as `disrd_read`, together with
the calls made on the stream in their order: `disrsi_` is called only after
`disrl_` has returned `DIS_SUCCESS`. -/
def disrd_read_calls (ar : LDArith) (env : DisEnv) :
    Option ((LDouble × dis_ret) × List DisCall) :=
  if env.disrl_.1 = dis_ret.DIS_SUCCESS then
    if env.disrsi_.1 = dis_ret.DIS_SUCCESS then
      (disrd_scale ar env env.disrl_.2.1 env.disrl_.2.2.1 env.disrl_.2.2.2
        env.disrsi_.2.1 env.disrsi_.2.2).map
        (fun r => (r, [DisCall.disrl_, DisCall.disrsi_]))
    else
      some ((env.disrl_.2.1, env.disrsi_.1), [DisCall.disrl_, DisCall.disrsi_])
  else
    some ((env.disrl_.2.1, env.disrl_.1), [DisCall.disrl_])

/-- `disrd(stream, retval)` with the calls it makes on the stream: the value
returned, `(double)ldval`, the status stored in `*retval`, and the calls in
their order.  The two assertions at the head of the function (`retval` and
`disr_commit` are not null) are preconditions of the call. -/
def disrd_traced (ar : LDArith) (env : DisEnv) :
    Option (LDouble × dis_ret × List DisCall) :=
  (disrd_read_calls ar env).map (fun r =>
    (ar.to_double r.1.1,
     if env.disr_commit (decide (r.1.2 = dis_ret.DIS_SUCCESS)) < 0
     then dis_ret.DIS_NOCOMMIT else r.1.2,
     r.2 ++ [DisCall.disr_commit (decide (r.1.2 = dis_ret.DIS_SUCCESS))]))

/-- A stream whose coefficient read fails with the code `7`, and whose commit
callback fails. -/
def sample_stream_bad : DisEnv :=
  { disrl_ := (dis_ret.other 7, LDouble.fin 0 0, 0, 0),
    disrsi_ := (dis_ret.DIS_SUCCESS, 0, 0),
    disp10l_ := fun n => LDouble.fin 1 n,
    disr_commit := fun _ => -1 }

/-! ## Decoding a Register Dependency request (`dec_Reg.c`) -/

/-- Modelled from the spec: the part `rq_ind.rq_register` of `struct
batch_request` (`batch_request.h` is not among the sources).  The three strings
are the contents of the character arrays; the numbers are kept as the readers
return them. -/
structure rq_register where
  rq_owner : List Nat
  rq_parent : List Nat
  rq_child : List Nat
  rq_dependtype : Nat
  rq_op : Nat
  rq_cost : Int
  deriving DecidableEq, Repr

/-- The fields of `rq_register`. -/
inductive RegField where
  | rq_owner
  | rq_parent
  | rq_child
  | rq_dependtype
  | rq_op
  | rq_cost
  deriving DecidableEq, Repr

/-- A read `decode_DIS_Register` makes on the stream: the reader, for `disrfst`
the bound on the length, and the field that receives the result. -/
inductive RegRead where
  | disrfst (achars : Nat) (into : RegField)
  | disrui (into : RegField)
  | disrsl (into : RegField)
  deriving DecidableEq, Repr

/-- Modelled from the spec: the readers of `dis.h` and the length bounds of
`pbs_ifl.h` and `server_limits.h`, none of which is among the sources.  A
stream is the list of its unread bytes.  `disrfst(sock, achars, value)` answers
with its status, what it has left in `value`, and the stream after the read;
`disrui(sock, &rc)` and `disrsl(sock, &rc)` answer with the number read, the
status stored in `rc`, and the stream after the read.  The status `0` is
`DIS_SUCCESS`. -/
structure DisReaders where
  disrfst : List Nat → Nat → Int × List Nat × List Nat
  disrui : List Nat → Nat × Int × List Nat
  disrsl : List Nat → Int × Int × List Nat
  PBS_MAXUSER : Nat
  PBS_MAXSVRJOBID : Nat
  PBS_MAXCLTJOBID : Nat

/-- The result of `decode_DIS_Register`: the value returned, the request
structure and the stream as the call leaves them, and the reads made, each with
the status it answered. -/
structure RegResult where
  rc : Int
  preq : rq_register
  stream : List Nat
  reads : List (RegRead × Int)
  deriving DecidableEq, Repr

/-- `decode_DIS_Register(sock, preq)`. -/
def decode_DIS_Register (rd : DisReaders) (stream : List Nat) (preq : rq_register) :
    RegResult :=
  let r1 := rd.disrfst stream rd.PBS_MAXUSER
  let preq1 := { preq with rq_owner := r1.2.1 }
  let t1 := [(RegRead.disrfst rd.PBS_MAXUSER RegField.rq_owner, r1.1)]
  if r1.1 ≠ 0 then
    { rc := r1.1, preq := preq1, stream := r1.2.2, reads := t1 }
  else
    let r2 := rd.disrfst r1.2.2 rd.PBS_MAXSVRJOBID
    let preq2 := { preq1 with rq_parent := r2.2.1 }
    let t2 := t1 ++ [(RegRead.disrfst rd.PBS_MAXSVRJOBID RegField.rq_parent, r2.1)]
    if r2.1 ≠ 0 then
      { rc := r2.1, preq := preq2, stream := r2.2.2, reads := t2 }
    else
      let r3 := rd.disrfst r2.2.2 rd.PBS_MAXCLTJOBID
      let preq3 := { preq2 with rq_child := r3.2.1 }
      let t3 := t2 ++ [(RegRead.disrfst rd.PBS_MAXCLTJOBID RegField.rq_child, r3.1)]
      if r3.1 ≠ 0 then
        { rc := r3.1, preq := preq3, stream := r3.2.2, reads := t3 }
      else
        let r4 := rd.disrui r3.2.2
        let preq4 := { preq3 with rq_dependtype := r4.1 }
        let t4 := t3 ++ [(RegRead.disrui RegField.rq_dependtype, r4.2.1)]
        if r4.2.1 ≠ 0 then
          { rc := r4.2.1, preq := preq4, stream := r4.2.2, reads := t4 }
        else
          let r5 := rd.disrui r4.2.2
          let preq5 := { preq4 with rq_op := r5.1 }
          let t5 := t4 ++ [(RegRead.disrui RegField.rq_op, r5.2.1)]
          if r5.2.1 ≠ 0 then
            { rc := r5.2.1, preq := preq5, stream := r5.2.2, reads := t5 }
          else
            let r6 := rd.disrsl r5.2.2
            { rc := r6.2.1, preq := { preq5 with rq_cost := r6.1 }, stream := r6.2.2,
              reads := t5 ++ [(RegRead.disrsl RegField.rq_cost, r6.2.1)] }

/-- The six data items of the request in the order of the file's header
comment: owner, parent job id, child job id, dependency type, operation,
cost. -/
def register_items (rd : DisReaders) : List RegRead :=
  [RegRead.disrfst rd.PBS_MAXUSER RegField.rq_owner,
   RegRead.disrfst rd.PBS_MAXSVRJOBID RegField.rq_parent,
   RegRead.disrfst rd.PBS_MAXCLTJOBID RegField.rq_child,
   RegRead.disrui RegField.rq_dependtype,
   RegRead.disrui RegField.rq_op,
   RegRead.disrsl RegField.rq_cost]

/-- The request after a string has been stored in the field `into`. -/
def rq_register.set_text (preq : rq_register) : RegField → List Nat → rq_register
  | RegField.rq_owner, v => { preq with rq_owner := v }
  | RegField.rq_parent, v => { preq with rq_parent := v }
  | RegField.rq_child, v => { preq with rq_child := v }
  | _, _ => preq

/-- The request after an unsigned number has been stored in the field `into`. -/
def rq_register.set_unsigned (preq : rq_register) : RegField → Nat → rq_register
  | RegField.rq_dependtype, v => { preq with rq_dependtype := v }
  | RegField.rq_op, v => { preq with rq_op := v }
  | _, _ => preq

/-- The request after a signed number has been stored in the field `into`. -/
def rq_register.set_signed (preq : rq_register) : RegField → Int → rq_register
  | RegField.rq_cost, v => { preq with rq_cost := v }
  | _, _ => preq

/-- One read of a data item: the reader the item names is applied to the
stream as it stands; the result is the status the reader answers, the request
with what the reader has left stored in the item's field, and the stream after
the read. -/
def read_item (rd : DisReaders) (stream : List Nat) (preq : rq_register) :
    RegRead → Int × rq_register × List Nat
  | RegRead.disrfst achars into =>
    ((rd.disrfst stream achars).1, preq.set_text into (rd.disrfst stream achars).2.1,
      (rd.disrfst stream achars).2.2)
  | RegRead.disrui into =>
    ((rd.disrui stream).2.1, preq.set_unsigned into (rd.disrui stream).1,
      (rd.disrui stream).2.2)
  | RegRead.disrsl into =>
    ((rd.disrsl stream).2.1, preq.set_signed into (rd.disrsl stream).1,
      (rd.disrsl stream).2.2)

/-- The decoding as the specification words it: the data items are read in the
order of the list, each from the stream the read before it has left; the first
read that fails ends the decoding, its status is the result and no read is made
after it; when every read succeeds the result is `DIS_SUCCESS` (`0`).  `log`
holds the reads made so far. -/
def read_in_order (rd : DisReaders) :
    List RegRead → List Nat → rq_register → List (RegRead × Int) → RegResult
  | [], stream, preq, log => { rc := 0, preq := preq, stream := stream, reads := log }
  | item :: rest, stream, preq, log =>
    if (read_item rd stream preq item).1 ≠ 0 then
      { rc := (read_item rd stream preq item).1, preq := (read_item rd stream preq item).2.1,
        stream := (read_item rd stream preq item).2.2,
        reads := log ++ [(item, (read_item rd stream preq item).1)] }
    else
      read_in_order rd rest (read_item rd stream preq item).2.2
        (read_item rd stream preq item).2.1
        (log ++ [(item, (read_item rd stream preq item).1)])

/-- Readers of a toy encoding: a string is a length byte followed by that many
bytes, an unsigned number is one byte, a signed number is one byte with an
offset of 128.  A read on an exhausted stream answers the status `11`, a string
longer than allowed, or than the stream, the status `2`. -/
def sample_readers : DisReaders :=
  { disrfst := fun stream achars =>
      match stream with
      | [] => (11, [], [])
      | n :: rest =>
        if n ≤ achars ∧ n ≤ rest.length then (0, rest.take n, rest.drop n)
        else (2, [], rest),
    disrui := fun stream =>
      match stream with
      | [] => (0, 11, [])
      | n :: rest => (n, 0, rest),
    disrsl := fun stream =>
      match stream with
      | [] => (0, 11, [])
      | n :: rest => ((n : Int) - 128, 0, rest),
    PBS_MAXUSER := 16,
    PBS_MAXSVRJOBID := 8,
    PBS_MAXCLTJOBID := 8 }

/-- A request structure with arbitrary previous content. -/
def sample_request : rq_register :=
  { rq_owner := [120], rq_parent := [121], rq_child := [122], rq_dependtype := 9,
    rq_op := 9, rq_cost := 9 }

/-! ## Encoding a Move Job request (`enc_MoveJob.c`) -/

/-- The result of `encode_DIS_MoveJob`: the value returned, the stream as the
call leaves it, and the strings passed to `diswst`, each with the status
`diswst` answered. -/
structure MoveJobResult where
  rc : Int
  stream : List Nat
  writes : List (List Nat × Int)
  deriving DecidableEq, Repr

/-- `encode_DIS_MoveJob(sock, jobid, destin)`.  `diswst`, which `dis.h`
declares and the sources do not contain, is a parameter: from the stream (the
bytes written so far) and a string it gives its status and the stream after the
write.  In `rc = diswst(sock, jobid) != 0` the comparison binds tighter than
the assignment: `rc` receives the truth value of the comparison. -/
def encode_DIS_MoveJob (diswst : List Nat → List Nat → Int × List Nat)
    (stream jobid destin : List Nat) : MoveJobResult :=
  let r1 := diswst stream jobid
  let rc1 : Int := if r1.1 ≠ 0 then 1 else 0
  if rc1 ≠ 0 then
    { rc := rc1, stream := r1.2, writes := [(jobid, r1.1)] }
  else
    let r2 := diswst r1.2 destin
    let rc2 : Int := if r2.1 ≠ 0 then 1 else 0
    if rc2 ≠ 0 then
      { rc := rc2, stream := r2.2, writes := [(jobid, r1.1), (destin, r2.1)] }
    else
      { rc := 0, stream := r2.2, writes := [(jobid, r1.1), (destin, r2.1)] }

/-- A `diswst` that fails with the status `code` on every call and writes
nothing. -/
def sample_diswst_fail (code : Int) : List Nat → List Nat → Int × List Nat :=
  fun stream _ => (code, stream)

/-- A `diswst` that appends the string to the stream and succeeds, except that
a stream already holding `room` bytes or more makes it fail with the status
`code`. -/
def sample_diswst_room (room : Nat) (code : Int) : List Nat → List Nat → Int × List Nat :=
  fun stream s => if room ≤ stream.length then (code, stream) else (0, stream ++ s)

/-- Every armed poll entry (one whose `fd` is not `-1`) has an index of at most
`maxfdx`. -/
def armed_below (s : NetState) : Prop :=
  ∀ j p, aget s.pollfds j = some p → p.fd ≠ -1 → j ≤ s.maxfdx

/-! ## The slots and their poll entries -/

/-- A call made on the module once `init_network` has returned: the two entry
points of the table, and `wait_request(waittime)` made after the clock has
advanced by `dt`. -/
inductive NetOp where
  | add_conn (sock : Int) (type : conn_type) (addr port func : Nat)
  | close_conn (sd : Int)
  | wait_request (dt waittime : Int)
  deriving DecidableEq, Repr

/-- Perform one call. -/
def apply_net_op (env : Env) (w : World) : NetOp → Option World
  | NetOp.add_conn sock type addr port func =>
    (add_conn w sock type addr port func).map (fun r => r.2)
  | NetOp.close_conn sd => close_conn env w sd
  | NetOp.wait_request dt waittime =>
    (wait_request env { w with now := w.now + dt } waittime).map (fun r => r.2)

/-- Perform a sequence of calls. -/
def run_net_ops (env : Env) : List NetOp → World → Option World
  | [], w => some w
  | op :: ops, w => (apply_net_op env w op).bind (run_net_ops env ops)

/-- The call is not an `add_conn` with type `Idle`. -/
def NetOp.not_idle : NetOp → Prop
  | NetOp.add_conn _ type _ _ _ => type ≠ conn_type.Idle
  | _ => True

/-- The relation between the slots and the poll array: both arrays have the
same number of entries and every poll entry holds the descriptor of its slot;
with `strict`, moreover no slot in use is of type `Idle`. -/
def slots_inv (strict : Bool) (s : NetState) : Prop :=
  s.svr_conn.length = s.pollfds.length ∧ polls_sync s ∧
    (strict = true → ∀ c ∈ s.svr_conn, c.cn_sock ≠ -1 → c.cn_active ≠ conn_type.Idle)

/-- The state `init_network(15001, 7)` leaves at program start under
`sample_ienv`: the listening socket on descriptor `3` in slot 3. -/
def sample_primary : World :=
  { net := { svr_conn := [sample_empty, sample_empty, sample_empty,
               { sample_empty with cn_sock := 3, cn_authen := PBS_NET_CONN_FROM_PRIVIL,
                                   cn_active := conn_type.Primary, cn_lasttime := 100,
                                   cn_func := accept_conn_ptr }],
             max_connection := 4, num_connections := 1, net_is_initialized := 1,
             maxfdx := 3,
             pollfds := [sample_vacant, sample_vacant, sample_vacant,
               { sample_vacant with fd := 3 }],
             read_func0 := 7, read_func1 := 0, initialized := 1 },
    now := 100, trace := [] }

/-- A client is registered on descriptor `1`, a tick serves it and the
listener, and the client is closed. -/
def sample_net_ops : List NetOp :=
  [NetOp.add_conn 1 conn_type.FromClientDIS 1 2000 7,
   NetOp.wait_request 1 1,
   NetOp.close_conn 1]

/-- The state `sample_net_ops` leaves when run on `sample_primary` under
`sample_env`. -/
def sample_served : World :=
  { net := { sample_primary.net with
      svr_conn := [sample_empty,
        { sample_empty with cn_port := 2000, cn_lasttime := 101 },
        sample_empty,
        { sample_empty with cn_sock := 3, cn_authen := PBS_NET_CONN_FROM_PRIVIL,
                            cn_active := conn_type.Primary, cn_lasttime := 101,
                            cn_func := accept_conn_ptr }],
      pollfds := [sample_vacant, sample_vacant, sample_vacant,
        { sample_vacant with fd := 3, revents := POLLIN }] },
    now := 101,
    trace := [Event.server_auth 1 1 CS_ret.CS_AUTH_CHECK_PORT,
              Event.func 1 7 1 conn_type.FromClientDIS 0,
              Event.func 3 accept_conn_ptr 3 conn_type.Primary PBS_NET_CONN_FROM_PRIVIL,
              Event.accept 3 (-1),
              Event.log_err LogMsg.accept_failed,
              Event.cs_close_socket 1,
              Event.close 1] }

/-! ## Node allocation of the Scyld MOM (`mom_start.c`) -/

/-- Modelled from the spec: the node record `struct bnode` of the machine
header (not among the sources), reduced to the two fields `set_mach_vars`
uses: the job that owns the node (`none` for `NULL`; a job is named by its
address) and the number of CPUs of the node. -/
structure bnode where
  n_job : Option Nat
  n_cpus : Int
  deriving DecidableEq, Repr

/-- Modelled from the spec: the return codes of `job.h` (not among the sources)
that `set_mach_vars` names; they are distinct. -/
inductive job_exec where
  | JOB_EXEC_OK
  | JOB_EXEC_FAIL1
  | JOB_EXEC_RETRY
  deriving DecidableEq, Repr

/-- Conversion to `unsigned long` (64 bits). -/
def toU64 (x : Int) : Int := x % 18446744073709551616

/-- The loop behind `%d` for a value `>= 0`: the decimal digits of `n`, most
significant first, put in front of `acc`. -/
def decimal_loop : Nat → Nat → List Nat → List Nat
  | 0, _, acc => acc
  | fuel + 1, n, acc =>
    if n < 10 then (48 + n) :: acc
    else decimal_loop fuel (n / 10) ((48 + n % 10) :: acc)

/-- The text of `%d` for a value `n >= 0`, as character codes. -/
def decimal (n : Nat) : List Nat := decimal_loop (n + 1) n []

/-- The inner `for` loop of `set_mach_vars` over the CPUs of a node, from `j`
on: every CPU counts one more found and appends `nodestr` to `buf` (an array of
1024 characters, given as its text without the terminating null; `strcat`
beyond the array is undefined), until `num` are found. -/
def set_mach_vars_cpus (nodestr : List Nat) (num n_cpus : Int) :
    Nat → Int → Int → List Nat → Option (Int × List Nat)
  | 0, j, found, buf => if j < n_cpus then none else some (found, buf)
  | fuel + 1, j, found, buf =>
    if j < n_cpus then
      let found1 := found + 1
      if buf.length + nodestr.length + 1 ≤ 1024 then
        let buf1 := buf ++ nodestr
        if toU64 found1 ≥ num then some (found1, buf1)
        else set_mach_vars_cpus nodestr num n_cpus fuel (j + 1) found1 buf1
      else none
    else some (found, buf)

/-- How the node loop of `set_mach_vars` ends: by the `return` inside the loop
when a node already belongs to the job, or by leaving the loop with the
number of CPUs found and the text collected. -/
inductive MachScan where
  | already (node_array : List bnode)
  | left (found : Int) (buf : List Nat) (node_array : List bnode)
  deriving DecidableEq, Repr

/-- The `for` loop of `set_mach_vars` over the nodes, from `i` on.  `node_up i`
tells whether `bproc_nodestatus(i)` is `bproc_node_up`. -/
def set_mach_vars_loop (node_up : Int → Bool) (pjob : Nat) (num num_pcpus : Int) :
    Nat → Int → Int → List Nat → List bnode → Option MachScan
  | 0, i, found, buf, node_array =>
    if i < num_pcpus then none else some (MachScan.left found buf node_array)
  | fuel + 1, i, found, buf, node_array =>
    if i < num_pcpus then do
      let np ← aget node_array i
      if np.n_job = some pjob then
        some (MachScan.already node_array)
      else if np.n_job ≠ none then
        set_mach_vars_loop node_up pjob num num_pcpus fuel (i + 1) found buf node_array
      else if node_up i = false then
        set_mach_vars_loop node_up pjob num num_pcpus fuel (i + 1) found buf node_array
      else do
        let node_array1 ← aset node_array i { np with n_job := some pjob }
        let nodestr := decimal i.toNat ++ [58]
        let r ← set_mach_vars_cpus nodestr num np.n_cpus np.n_cpus.toNat 0 found buf
        if toU64 r.1 ≥ num then
          some (MachScan.left r.1 r.2 node_array1)
        else
          set_mach_vars_loop node_up pjob num num_pcpus fuel (i + 1) r.1 r.2 node_array1
    else
      some (MachScan.left found buf node_array)

/-- What a call of `set_mach_vars` leaves: the value returned, the array
`node_array`, whether `log_err` was called ("nodes already allocated"), and the
value given to `bld_env_variables` for `BEOWULF_JOB_MAP`, if any. -/
structure MachResult where
  ret : job_exec
  node_array : List bnode
  logged : Bool
  job_map : Option (List Nat)
  deriving DecidableEq, Repr

/-- `set_mach_vars(pjob, vtab)`.  `ncpus` is the value `at_long` of the job's
`ncpus` resource, `none` when `find_resc_def` or `find_resc_entry` returns
`NULL`; `num_pcpus` (an `int`, as the loop uses it) and `node_array` are the
globals of the machine code. -/
def set_mach_vars (node_up : Int → Bool) (num_pcpus : Int) (node_array : List bnode)
    (pjob : Nat) (ncpus : Option Int) : Option MachResult :=
  match ncpus with
  | none =>
    some { ret := job_exec.JOB_EXEC_OK, node_array := node_array, logged := false,
           job_map := none }
  | some at_long =>
    let num := toU64 at_long
    if num = 0 then
      some { ret := job_exec.JOB_EXEC_OK, node_array := node_array, logged := false,
             job_map := none }
    else if num > toU64 num_pcpus then
      some { ret := job_exec.JOB_EXEC_FAIL1, node_array := node_array, logged := false,
             job_map := none }
    else do
      let r ← set_mach_vars_loop node_up pjob num num_pcpus num_pcpus.toNat 0 0 [] node_array
      match r with
      | MachScan.already node_array1 =>
        some { ret := job_exec.JOB_EXEC_RETRY, node_array := node_array1, logged := true,
               job_map := none }
      | MachScan.left found buf node_array1 =>
        if toU64 found < num then
          some { ret := job_exec.JOB_EXEC_RETRY, node_array := node_array1, logged := false,
                 job_map := none }
        else if buf.length = 0 then
          none
        else
          some { ret := job_exec.JOB_EXEC_OK, node_array := node_array1, logged := false,
                 job_map := some buf.dropLast }

/-- Two free nodes of one CPU each. -/
def sample_nodes : List bnode := [{ n_job := none, n_cpus := 1 }, { n_job := none, n_cpus := 1 }]

/-- Node 0 is up, every other node is down. -/
def sample_up_first (i : Int) : Bool := decide (i = 0)

/-! ## The client commands `qrls` and `qstart` -/

/-- Texts the two commands write to `stderr`, with the values printed. -/
inductive CmdMsg where
  /-- "qrls: illegal -h value" -/
  | illegal_h_value
  /-- the two usage lines of `qrls` -/
  | qrls_usage
  /-- "unable to initialize security library." -/
  | no_security_library
  /-- "qrls: illegally formed job identifier: %s" -/
  | illegal_job_identifier (job_id : List Nat)
  /-- "qrls: cannot connect to server %s (errno=%d)" -/
  | cannot_connect (pbs_errno : Int)
  /-- the two usage lines of `qstart` -/
  | qstart_usage
  /-- "qstart: illegally formed destination: %s" -/
  | illegal_destination (dest : List Nat)
  /-- the line `execute` prints when `pbs_manager` fails -/
  | manager_failed (errmsg : Option (List Nat)) (pbs_errno : Int)
      (queue server : Option (List Nat))
  /-- "qstart: could not connect to server %s (%d)" -/
  | could_not_connect (server : Option (List Nat)) (pbs_errno : Int)
  deriving DecidableEq, Repr

/-- Calls that leave the two commands, in the order they are made. -/
inductive CmdEvent where
  | stderr (msg : CmdMsg)
  | CS_client_init
  | CS_close_app
  | get_server (job_id : List Nat)
  | cnt2server (server : Option (List Nat))
  | pbs_rlsjob (connect : Int) (job_id hold_type : List Nat)
  | prt_job_err (connect : Int) (job_id : List Nat)
  | locate_job (job_id server : List Nat)
  | pbs_disconnect (connect : Int)
  | parse_destination_id (dest : List Nat)
  | pbs_manager (ct : Int) (queue : Option (List Nat))
  | pbs_geterrmsg (ct : Int)
  deriving DecidableEq, Repr

/-- Is the event a text written to `stderr`. -/
def CmdEvent.is_stderr : CmdEvent → Bool
  | CmdEvent.stderr _ => true
  | _ => false

/-- Modelled from the spec: what lies outside `qrls.c` and `qstart.c`: the version
test `execution_mode` and the limits of the headers (not among the sources),
`getopt`, the security library and the batch library.  Texts are lists of
character codes without the terminating null; a `char *` that may be `NULL` is
an `Option`.  Every library answer may depend on the calls made so far. -/
structure CmdEnv where
  /-- `execution_mode(argc, argv)`: `some status` when it ends the process -/
  execution_mode : List (List Nat) → Option Int
  /-- the results of the successive calls `getopt(argc, argv, "h:")` before
  `EOF`, each with its `optarg`, and the value of `optind` after the last call -/
  getopt : List (List Nat) → List (Int × List Nat) × Int
  /-- result of `CS_client_init()` -/
  CS_client_init : List CmdEvent → CS_ret
  /-- `get_server(job_id, job_id_out, server_out)`: result and the two outputs -/
  get_server : List CmdEvent → List Nat → Int × List Nat × List Nat
  /-- result of `cnt2server(server)` -/
  cnt2server : List CmdEvent → Option (List Nat) → Int
  /-- result of `pbs_rlsjob(connect, job_id, hold_type, NULL)` -/
  pbs_rlsjob : List CmdEvent → Int → List Nat → List Nat → Int
  /-- `locate_job(job_id, server, rmt_server)`: result and the output -/
  locate_job : List CmdEvent → List Nat → List Nat → Int × List Nat
  /-- `parse_destination_id(dest, &queue, &server)`: result and the two outputs -/
  parse_destination_id : List CmdEvent → List Nat →
    Int × Option (List Nat) × Option (List Nat)
  /-- result of `pbs_manager(ct, MGR_CMD_SET, MGR_OBJ_QUEUE, queue, &attr, NULL)` -/
  pbs_manager : List CmdEvent → Int → Option (List Nat) → Int
  /-- result of `pbs_geterrmsg(ct)` -/
  pbs_geterrmsg : List CmdEvent → Int → Option (List Nat)
  /-- the global `pbs_errno` as the calls made so far have left it -/
  pbs_errno : List CmdEvent → Int
  /-- the error number `PBSE_UNKJOBID` -/
  PBSE_UNKJOBID : Int
  /-- the size `PBS_MAXCLTJOBID` of a job identifier buffer -/
  PBS_MAXCLTJOBID : Nat
  /-- the size `MAXSERVERNAME` of a server name buffer -/
  MAXSERVERNAME : Nat

/-- `isspace` in the C locale. -/
def isspace (ch : Nat) : Bool := ch = 32 || (9 ≤ ch && ch ≤ 13)

/-- `MAX_HOLD_TYPE_LEN` of `qrls.c`. -/
def MAX_HOLD_TYPE_LEN : Nat := 32

/-- The counters of the `-h` scan. -/
structure hold_counts where
  u_cnt : Int
  o_cnt : Int
  s_cnt : Int
  n_cnt : Int
  p_cnt : Int
  deriving DecidableEq, Repr

/-- The `while (*pc)` loop of the `-h` case: count the hold letters; the result
tells whether the loop was left at a character that is none of them.  The
counters are C `int`s; a value would need `2^31` letters to overflow one. -/
def qrls_scan : List Nat → hold_counts → Bool × hold_counts
  | [], k => (false, k)
  | ch :: pc, k =>
    if ch = 117 then qrls_scan pc { k with u_cnt := k.u_cnt + 1 }
    else if ch = 111 then qrls_scan pc { k with o_cnt := k.o_cnt + 1 }
    else if ch = 115 then qrls_scan pc { k with s_cnt := k.s_cnt + 1 }
    else if ch = 112 then qrls_scan pc { k with p_cnt := k.p_cnt + 1 }
    else if ch = 110 then qrls_scan pc { k with n_cnt := k.n_cnt + 1 }
    else (true, k)

/-- The variables of `main` of `qrls` that the option loop works on, and the
outside calls made so far.  `hold_type` is the text in the array of
`MAX_HOLD_TYPE_LEN + 1` characters. -/
structure QrlsState where
  errflg : Int
  hold_type : List Nat
  trace : List CmdEvent
  deriving DecidableEq, Repr

/-- One more usage error: the message "illegal -h value" and `errflg++`. -/
def QrlsState.illegal (st : QrlsState) : QrlsState :=
  { st with errflg := st.errflg + 1,
            trace := st.trace ++ [CmdEvent.stderr CmdMsg.illegal_h_value] }

/-- The case `'h'` of the option switch of `qrls`.  A `strcpy` of more than
`MAX_HOLD_TYPE_LEN` characters runs over the end of `hold_type` and is
undefined. -/
def qrls_opt_h (optarg : List Nat) (st : QrlsState) : Option QrlsState :=
  let optarg1 := optarg.dropWhile isspace
  if optarg1.length = 0 then
    some st.illegal
  else
    let r := qrls_scan optarg1
      { u_cnt := 0, o_cnt := 0, s_cnt := 0, n_cnt := 0, p_cnt := 0 }
    let st1 := if r.1 then st.illegal else st
    if r.2.n_cnt ≠ 0 ∧ r.2.u_cnt + r.2.o_cnt + r.2.s_cnt + r.2.p_cnt ≠ 0 then
      some st1.illegal
    else if optarg1.length + 1 ≤ MAX_HOLD_TYPE_LEN + 1 then
      some { st1 with hold_type := optarg1 }
    else
      none

/-- The option loop of `qrls` over the results of `getopt`. -/
def qrls_opts : List (Int × List Nat) → QrlsState → Option QrlsState
  | [], st => some st
  | o :: os, st =>
    if o.1 = 104 then
      (qrls_opt_h o.2 st).bind (qrls_opts os)
    else
      qrls_opts os { st with errflg := st.errflg + 1 }

/-- The body of the operand loop of `qrls` from the label `cnt` on: connect,
release, and on an unknown job look for it once on another server (the
`goto cnt`).  Returns `any_failed` and the trace. -/
def qrls_release (env : CmdEnv) (hold_type job_id_out : List Nat) :
    Nat → Bool → List Nat → Int → List CmdEvent → Option (Int × List CmdEvent)
  | 0, _, _, _, _ => none
  | fuel + 1, located, server_out, any_failed, tr =>
    let connect := env.cnt2server tr (some server_out)
    let tr1 := tr ++ [CmdEvent.cnt2server (some server_out)]
    if connect ≤ 0 then
      let tr2 := tr1 ++ [CmdEvent.stderr (CmdMsg.cannot_connect (env.pbs_errno tr1))]
      some (env.pbs_errno tr2, tr2)
    else
      let stat := env.pbs_rlsjob tr1 connect job_id_out hold_type
      let tr2 := tr1 ++ [CmdEvent.pbs_rlsjob connect job_id_out hold_type]
      if stat ≠ 0 ∧ env.pbs_errno tr2 ≠ env.PBSE_UNKJOBID then
        let tr3 := tr2 ++ [CmdEvent.prt_job_err connect job_id_out]
        some (env.pbs_errno tr3, tr3 ++ [CmdEvent.pbs_disconnect connect])
      else if stat ≠ 0 ∧ env.pbs_errno tr2 = env.PBSE_UNKJOBID ∧ located = false then
        let l := env.locate_job tr2 job_id_out server_out
        let tr3 := tr2 ++ [CmdEvent.locate_job job_id_out server_out]
        if l.1 ≠ 0 then
          let tr4 := tr3 ++ [CmdEvent.pbs_disconnect connect]
          if l.2.length + 1 ≤ env.MAXSERVERNAME then
            qrls_release env hold_type job_id_out fuel true l.2 any_failed tr4
          else
            none
        else
          let tr4 := tr3 ++ [CmdEvent.prt_job_err connect job_id_out]
          some (env.pbs_errno tr4, tr4 ++ [CmdEvent.pbs_disconnect connect])
      else
        some (any_failed, tr2 ++ [CmdEvent.pbs_disconnect connect])

/-- The operand loop of `qrls`, from `optind` on.  The `strcpy` of an operand
that does not fit `job_id` is undefined. -/
def qrls_jobs (env : CmdEnv) (argv : List (List Nat)) (hold_type : List Nat) :
    Nat → Int → Int → List CmdEvent → Option (Int × List CmdEvent)
  | 0, optind, any_failed, tr =>
    if optind < argv.length then none else some (any_failed, tr)
  | fuel + 1, optind, any_failed, tr =>
    if optind < argv.length then do
      let job_id ← aget argv optind
      if job_id.length + 1 ≤ env.PBS_MAXCLTJOBID then
        let g := env.get_server tr job_id
        let tr1 := tr ++ [CmdEvent.get_server job_id]
        if g.1 ≠ 0 then
          qrls_jobs env argv hold_type fuel (optind + 1) 1
            (tr1 ++ [CmdEvent.stderr (CmdMsg.illegal_job_identifier job_id)])
        else do
          let r ← qrls_release env hold_type g.2.1 2 false g.2.2 any_failed tr1
          qrls_jobs env argv hold_type fuel (optind + 1) r.1 r.2
      else
        none
    else
      some (any_failed, tr)

/-- `main` of `qrls`: the exit status and the outside calls made. -/
def qrls_main (env : CmdEnv) (argv : List (List Nat)) : Option (Int × List CmdEvent) :=
  match env.execution_mode argv with
  | some status => some (status, [])
  | none => do
    let st ← qrls_opts (env.getopt argv).1 { errflg := 0, hold_type := [], trace := [] }
    let optind := (env.getopt argv).2
    if st.errflg ≠ 0 ∨ optind ≥ argv.length then
      some (2, st.trace ++ [CmdEvent.stderr CmdMsg.qrls_usage])
    else
      let tr1 := st.trace ++ [CmdEvent.CS_client_init]
      if env.CS_client_init st.trace ≠ CS_ret.CS_SUCCESS then
        some (1, tr1 ++ [CmdEvent.stderr CmdMsg.no_security_library])
      else do
        let r ← qrls_jobs env argv st.hold_type (argv.length - optind.toNat) optind 0 tr1
        some (r.1, r.2 ++ [CmdEvent.CS_close_app])

/-- `notNULL(x)` of `cmds.h`: the pointer is not null and the text not empty. -/
def notNULL (x : Option (List Nat)) : Bool :=
  match x with
  | none => false
  | some s => decide (s.length > 0)

/-- `execute(queue, server)` of `qstart`, on the file variable `exitstatus` and
the trace. -/
def qstart_execute (env : CmdEnv) (queue server : Option (List Nat))
    (exitstatus : Int) (tr : List CmdEvent) : Int × List CmdEvent :=
  let ct := env.cnt2server tr server
  let tr1 := tr ++ [CmdEvent.cnt2server server]
  if ct > 0 then
    let merr := env.pbs_manager tr1 ct queue
    let tr2 := tr1 ++ [CmdEvent.pbs_manager ct queue]
    if merr ≠ 0 then
      let errmsg := env.pbs_geterrmsg tr2 ct
      let tr3 := tr2 ++ [CmdEvent.pbs_geterrmsg ct]
      let tr4 := tr3 ++ [CmdEvent.stderr (CmdMsg.manager_failed errmsg (env.pbs_errno tr3)
        (if notNULL queue then queue else none) (if notNULL server then server else none))]
      (2, tr4 ++ [CmdEvent.pbs_disconnect ct])
    else
      (exitstatus, tr2 ++ [CmdEvent.pbs_disconnect ct])
  else
    (2, tr1 ++ [CmdEvent.stderr (CmdMsg.could_not_connect server (env.pbs_errno tr1))])

/-- The destination loop of `qstart`, from `dest` on. -/
def qstart_dests (env : CmdEnv) (argv : List (List Nat)) :
    Nat → Int → Int → List CmdEvent → Option (Int × List CmdEvent)
  | 0, dest, exitstatus, tr =>
    if dest < argv.length then none else some (exitstatus, tr)
  | fuel + 1, dest, exitstatus, tr =>
    if dest < argv.length then do
      let arg ← aget argv dest
      let p := env.parse_destination_id tr arg
      let tr1 := tr ++ [CmdEvent.parse_destination_id arg]
      if p.1 = 0 then
        let r := qstart_execute env p.2.1 p.2.2 exitstatus tr1
        qstart_dests env argv fuel (dest + 1) r.1 r.2
      else
        qstart_dests env argv fuel (dest + 1) 1
          (tr1 ++ [CmdEvent.stderr (CmdMsg.illegal_destination arg)])
    else
      some (exitstatus, tr)

/-- `main` of `qstart`: the exit status and the outside calls made. -/
def qstart_main (env : CmdEnv) (argv : List (List Nat)) : Option (Int × List CmdEvent) :=
  match env.execution_mode argv with
  | some status => some (status, [])
  | none =>
    if argv.length = 1 then
      some (1, [CmdEvent.stderr CmdMsg.qstart_usage])
    else
      let tr1 := [CmdEvent.CS_client_init]
      if env.CS_client_init [] ≠ CS_ret.CS_SUCCESS then
        some (1, tr1 ++ [CmdEvent.stderr CmdMsg.no_security_library])
      else do
        let r ← qstart_dests env argv (argv.length - 1) 1 0 tr1
        some (r.1, r.2 ++ [CmdEvent.CS_close_app])

/-- A `getopt` for the option string "h:" that stops at the first argument
which is not an option: `-h value` and `-hvalue` give `'h'`, any other option
gives `'?'`.  The result is the list of options and the final `optind`. -/
def sample_getopt_from : List (List Nat) → Int → List (Int × List Nat) × Int
  | [], optind => ([], optind)
  | [a], optind =>
    if a = [45, 104] then ([(63, [])], optind + 1)
    else if a.take 2 = [45, 104] then ([(104, a.drop 2)], optind + 1)
    else if a.take 1 = [45] ∧ a.length > 1 then ([(63, [])], optind + 1)
    else ([], optind)
  | a :: b :: rest, optind =>
    if a = [45, 104] then
      let r := sample_getopt_from rest (optind + 2)
      ((104, b) :: r.1, r.2)
    else if a.take 2 = [45, 104] then
      let r := sample_getopt_from (b :: rest) (optind + 1)
      ((104, a.drop 2) :: r.1, r.2)
    else if a.take 1 = [45] ∧ a.length > 1 then
      let r := sample_getopt_from (b :: rest) (optind + 1)
      ((63, []) :: r.1, r.2)
    else ([], optind)

/-- A system in which the version test returns, the security library
initialises, every job identifier and destination is well formed and names
the server "s", the server accepts connections (handle `1`) and every
request succeeds. -/
def sample_cmd_env : CmdEnv :=
  { execution_mode := fun _ => none,
    getopt := fun argv => sample_getopt_from (argv.drop 1) 1,
    CS_client_init := fun _ => CS_ret.CS_SUCCESS,
    get_server := fun _ job_id => (0, job_id, [115]),
    cnt2server := fun _ _ => 1,
    pbs_rlsjob := fun _ _ _ _ => 0,
    locate_job := fun _ _ _ => (0, []),
    parse_destination_id := fun _ dest => (0, some dest, some [115]),
    pbs_manager := fun _ _ _ => 0,
    pbs_geterrmsg := fun _ _ => none,
    pbs_errno := fun _ => 0,
    PBSE_UNKJOBID := 15001,
    PBS_MAXCLTJOBID := 1046,
    MAXSERVERNAME := 1025 }

/-- The command name "qrls". -/
def sample_qrls : List Nat := [113, 114, 108, 115]

/-- The command name "qstart". -/
def sample_qstart : List Nat := [113, 115, 116, 97, 114, 116]

/-- A well-formed hold list, as specified: after leading whitespace the value
is not empty, consists of the letters `u`, `o`, `s`, `p`, `n` only, and does
not hold `n` together with another letter. -/
def hold_list_ok (optarg : List Nat) : Prop :=
  optarg.dropWhile isspace ≠ [] ∧
    (∀ ch ∈ optarg.dropWhile isspace,
      ch = 117 ∨ ch = 111 ∨ ch = 115 ∨ ch = 112 ∨ ch = 110) ∧
    ¬ (110 ∈ optarg.dropWhile isspace ∧ ∃ ch ∈ optarg.dropWhile isspace, ch ≠ 110)

instance (optarg : List Nat) : Decidable (hold_list_ok optarg) := by
  unfold hold_list_ok; infer_instance

/-- The node array `after` differs from `before` at most in nodes that were
free and now belong to the job `pjob`. -/
def nodes_taken (pjob : Nat) (before after : List bnode) : Prop :=
  after.length = before.length ∧
    ∀ i a b, aget before i = some a → aget after i = some b →
      b = a ∨ (a.n_job = none ∧ b = { a with n_job := some pjob })

/-- The node array a scan of `set_mach_vars` ends with. -/
def MachScan.nodes : MachScan → List bnode
  | MachScan.already node_array => node_array
  | MachScan.left _ _ node_array => node_array

/-- The count is right and the types tell which slots are in use:
`num_connections` is the number of non-empty slots, and a slot is empty exactly
when its type is `Idle`. -/
def counted (s : NetState) : Prop :=
  s.num_connections = (live_count s : Int) ∧
    ∀ c ∈ s.svr_conn, c.cn_sock = -1 ↔ c.cn_active = conn_type.Idle

/-- Every slot of `s` whose type is not `Idle` is a slot of `s2` whose type is
not `Idle`. -/
def keeps_active (s s2 : NetState) : Prop :=
  ∀ i c, aget s.svr_conn i = some c → c.cn_active ≠ conn_type.Idle →
    ∃ c2, aget s2.svr_conn i = some c2 ∧ c2.cn_active ≠ conn_type.Idle

/-! # Theorems -/

/-! ## Arrays -/

theorem aget_of_bounds {α : Type} (a : List α) (i : Int) (h0 : 0 ≤ i)
    (h1 : i < a.length) : ∃ x, aget a i = some x := by
  have hlt : i.toNat < a.length := by omega
  exact ⟨a[i.toNat], by simp [aget, Int.not_lt.mpr h0, List.getElem?_eq_getElem hlt]⟩

theorem aget_some_bounds {α : Type} {a : List α} {i : Int} {x : α}
    (h : aget a i = some x) : 0 ≤ i ∧ i < a.length := by
  unfold aget at h
  split at h
  · simp at h
  · have := (List.getElem?_eq_some.mp h).1
    omega

theorem aget_mem {α : Type} {a : List α} {i : Int} {x : α}
    (h : aget a i = some x) : x ∈ a := by
  unfold aget at h
  split at h
  · simp at h
  · exact List.getElem?_mem h

theorem mem_aget {α : Type} {a : List α} {x : α} (h : x ∈ a) :
    ∃ i : Int, aget a i = some x := by
  obtain ⟨n, hn, hx⟩ := List.getElem_of_mem h
  refine ⟨(n : Int), ?_⟩
  have : ¬ ((n : Int) < 0) := by omega
  simp [aget, this, List.getElem?_eq_getElem hn, hx]

theorem aset_of_bounds {α : Type} (a : List α) (i : Int) (v : α) (h0 : 0 ≤ i)
    (h1 : i < a.length) : aset a i v = some (a.set i.toNat v) := by
  simp [aset, h0, h1]

theorem aset_some {α : Type} {a b : List α} {i : Int} {v : α}
    (h : aset a i v = some b) : 0 ≤ i ∧ i < a.length ∧ b = a.set i.toNat v := by
  unfold aset at h
  split at h
  · rename_i hb
    simp at h
    exact ⟨hb.1, hb.2, h.symm⟩
  · simp at h

theorem aget_set_self {α : Type} (a : List α) (i : Int) (v : α) (h0 : 0 ≤ i)
    (h1 : i < a.length) : aget (a.set i.toNat v) i = some v := by
  have hlt : i.toNat < a.length := by omega
  simp [aget, Int.not_lt.mpr h0, hlt]

theorem aget_set_ne {α : Type} (a : List α) (i j : Int) (v : α) (h0 : 0 ≤ i)
    (hne : i ≠ j) : aget (a.set i.toNat v) j = aget a j := by
  unfold aget
  split
  · rfl
  · have : i.toNat ≠ j.toNat := by omega
    simp [this]

/-! ## Slot lookup -/

theorem c_mod_succ (m i : Int) (hm : 0 < m) (h0 : 0 ≤ i) (h1 : i < m) :
    c_mod (i + 1) m = some (if i + 1 < m then i + 1 else 0) := by
  have hne : m ≠ 0 := by omega
  simp only [c_mod, hne, if_false]
  rw [Int.tmod_eq_emod (by omega) (by omega)]
  split
  · rw [Int.emod_eq_of_lt (by omega) (by assumption)]
  · have : i + 1 = m := by omega
    rw [this, Int.emod_self]

theorem c_mod_nonneg (m a : Int) (hm : 0 < m) (h0 : 0 ≤ a) :
    c_mod a m = some (a % m) := by
  have hne : m ≠ 0 := by omega
  simp only [c_mod, hne, if_false]
  rw [Int.tmod_eq_emod h0 (by omega)]

theorem probe_index_lt (m j : Int) (k : Nat) (hm : 0 < m) :
    0 ≤ probe_index m j k ∧ probe_index m j k < m :=
  ⟨Int.emod_nonneg _ (by omega), Int.emod_lt_of_pos _ hm⟩

theorem probe_index_eq (m j : Int) (k : Nat) (_hm : 0 < m) (hj0 : 0 ≤ j) (hjm : j < m)
    (hk : (k : Int) ≤ m) :
    probe_index m j k = if j + k < m then j + k else j + k - m := by
  unfold probe_index
  split
  · exact Int.emod_eq_of_lt (by omega) (by assumption)
  · have h1 : 0 ≤ j + (k : Int) - m := by omega
    have h2 : j + (k : Int) - m < m := by omega
    have e2 : (j + (k : Int) - m + m) % m = (j + (k : Int) - m) % m := Int.add_emod_self
    have e3 : j + (k : Int) - m + m = j + k := by omega
    rw [e3] at e2
    rw [e2, Int.emod_eq_of_lt h1 h2]

/-- Every index of the table occurs in the probe order. -/
theorem probe_index_surj (m j i : Int) (hm : 0 < m) (hj0 : 0 ≤ j) (hjm : j < m)
    (hi0 : 0 ≤ i) (him : i < m) : ∃ k : Nat, (k : Int) < m ∧ probe_index m j k = i := by
  by_cases h : j ≤ i
  · refine ⟨(i - j).toNat, by omega, ?_⟩
    rw [probe_index_eq m j _ hm hj0 hjm (by omega)]
    split <;> omega
  · refine ⟨(i - j + m).toNat, by omega, ?_⟩
    rw [probe_index_eq m j _ hm hj0 hjm (by omega)]
    split <;> omega

theorem probe_index_succ (m j : Int) (k : Nat) (hm : 0 < m) (hj0 : 0 ≤ j) (hjm : j < m)
    (hk : (k : Int) < m) :
    c_mod (probe_index m j k + 1) m = some (probe_index m j (k + 1)) := by
  obtain ⟨hi0, him⟩ := probe_index_lt m j k hm
  rw [c_mod_succ m _ hm hi0 him]
  have e1 := probe_index_eq m j k hm hj0 hjm (by omega)
  have e2 := probe_index_eq m j (k + 1) hm hj0 hjm (by push_cast; omega)
  rw [e2, e1]
  push_cast
  congr 1
  split <;> split <;> split <;> omega

theorem probe_index_wrap (m j : Int) (k : Nat) (hm : 0 < m) (hj0 : 0 ≤ j) (hjm : j < m)
    (hk : (k : Int) < m) : probe_index m j (k + 1) = j ↔ (k : Int) + 1 = m := by
  rw [probe_index_eq m j (k + 1) hm hj0 hjm (by push_cast; omega)]
  push_cast
  split <;> constructor <;> intro h <;> omega

/-- The probe loop started at the `k`-th probe, with the fuel that is left of
`max_connection`, returns: either `-1` after all slots failed the test, or the
first index in probe order that passes it. -/
theorem probe_loop_spec (t : List connection) (m j : Int) (p : connection → Bool)
    (hm : 0 < m) (hlen : (t.length : Int) = m) (hj0 : 0 ≤ j) (hjm : j < m) :
    ∀ (fuel k : Nat), (fuel : Int) + k = m → 0 < fuel →
      (∀ k' : Nat, k' < k → ∀ c, aget t (probe_index m j k') = some c → p c = false) →
      ∃ r, probe_loop t m j p fuel (probe_index m j k) = some r ∧
        ((r = -1 ∧ ∀ k' : Nat, (k' : Int) < m →
            ∀ c, aget t (probe_index m j k') = some c → p c = false) ∨
         (∃ k0 : Nat, (k0 : Int) < m ∧ r = probe_index m j k0 ∧
            (∃ c, aget t r = some c ∧ p c = true) ∧
            ∀ k' : Nat, k' < k0 →
              ∀ c, aget t (probe_index m j k') = some c → p c = false)) := by
  intro fuel
  induction fuel with
  | zero => intro k _ h; omega
  | succ fuel ih =>
    intro k hk _ hprev
    have hkm : (k : Int) < m := by omega
    obtain ⟨hi0, him⟩ := probe_index_lt m j k hm
    obtain ⟨c, hc⟩ := aget_of_bounds t (probe_index m j k) hi0 (by omega)
    cases hp : p c with
    | true =>
      refine ⟨probe_index m j k, ?_, Or.inr ⟨k, hkm, rfl, ⟨c, hc, hp⟩, hprev⟩⟩
      simp [probe_loop, hc, hp]
    | false =>
      have hnext := probe_index_succ m j k hm hj0 hjm hkm
      have hall : ∀ k' : Nat, k' < k + 1 →
          ∀ c', aget t (probe_index m j k') = some c' → p c' = false := by
        intro k' hk' c' hc'
        rcases Nat.lt_succ_iff_lt_or_eq.mp hk' with h | h
        · exact hprev k' h c' hc'
        · subst h
          rw [hc] at hc'
          cases hc'
          exact hp
      by_cases hend : (k : Int) + 1 = m
      · have hw : probe_index m j (k + 1) = j :=
          (probe_index_wrap m j k hm hj0 hjm hkm).mpr hend
        refine ⟨-1, ?_, Or.inl ⟨rfl, ?_⟩⟩
        · simp [probe_loop, hc, hp, hnext, hw]
        · intro k' hk'
          exact hall k' (by omega)
      · have hne : probe_index m j (k + 1) ≠ j := fun h =>
          hend ((probe_index_wrap m j k hm hj0 hjm hkm).mp h)
        obtain ⟨r, hr, hspec⟩ := ih (k + 1) (by push_cast; omega) (by omega) hall
        exact ⟨r, by simp [probe_loop, hc, hp, hnext, hne, hr], hspec⟩

/-- The probe loop from the start: some result, `-1` exactly when no slot passes
the test, otherwise the first passing index of the probe order. -/
theorem probe_loop_first (t : List connection) (m j : Int) (p : connection → Bool)
    (hm : 0 < m) (hlen : (t.length : Int) = m) (hj0 : 0 ≤ j) (hjm : j < m) :
    ∃ r, probe_loop t m j p m.toNat j = some r ∧
      (r = -1 ↔ ∀ c ∈ t, p c = false) ∧
      (r ≠ -1 → ∃ k : Nat, (k : Int) < m ∧ r = probe_index m j k ∧
          (∃ c, aget t r = some c ∧ p c = true) ∧
          ∀ k' : Nat, k' < k →
            ∀ c, aget t (probe_index m j k') = some c → p c = false) := by
  have h0 : probe_index m j 0 = j := by
    rw [probe_index_eq m j 0 hm hj0 hjm (by omega)]
    simp [hjm]
  obtain ⟨r, hr, hspec⟩ := probe_loop_spec t m j p hm hlen hj0 hjm m.toNat 0
    (by simp; omega) (by omega) (by intro k' hk'; omega)
  rw [h0] at hr
  refine ⟨r, hr, ?_, ?_⟩
  · constructor
    · intro hr1
      rcases hspec with ⟨_, hall⟩ | ⟨k0, hk0, hrk, _, _⟩
      · intro c hcmem
        obtain ⟨i, hi⟩ := mem_aget hcmem
        obtain ⟨hi0, hilt⟩ := aget_some_bounds hi
        obtain ⟨k, hk, hki⟩ := probe_index_surj m j i hm hj0 hjm hi0 (by omega)
        exact hall k hk c (by rw [hki]; exact hi)
      · have := (probe_index_lt m j k0 hm).1
        omega
    · intro hall
      rcases hspec with ⟨h, _⟩ | ⟨k0, _, _, ⟨c, hc, hp⟩, _⟩
      · exact h
      · have := hall c (aget_mem hc)
        rw [hp] at this
        cases this
  · intro hne
    rcases hspec with ⟨h, _⟩ | h
    · exact absurd h hne
    · exact h

theorem find_usable_loop_eq (t : List connection) (m j : Int) (fuel : Nat) (i : Int) :
    find_usable_loop t m j fuel i
      = probe_loop t m j (fun c => decide (c.cn_sock = -1)) fuel i := by
  induction fuel generalizing i with
  | zero => rfl
  | succ fuel ih =>
    simp only [find_usable_loop, probe_loop, ih]
    cases aget t i with
    | none => rfl
    | some c => by_cases h : c.cn_sock = -1 <;> simp [h]

theorem find_actual_loop_eq (t : List connection) (m j sock : Int) (fuel : Nat) (i : Int) :
    find_actual_loop t m j sock fuel i
      = probe_loop t m j (fun c => decide (toU32 c.cn_sock = toU32 sock)) fuel i := by
  induction fuel generalizing i with
  | zero => rfl
  | succ fuel ih =>
    simp only [find_actual_loop, probe_loop, ih]
    cases aget t i with
    | none => rfl
    | some c => by_cases h : toU32 c.cn_sock = toU32 sock <;> simp [h]

theorem toU32_eq_iff (a b : Int) (ha : int_range a) (hb : int_range b) :
    toU32 a = toU32 b ↔ a = b := by
  unfold int_range at ha hb
  unfold toU32
  constructor
  · intro h; omega
  · intro h; rw [h]

/-- The lookup of a descriptor returns; it answers `-1` exactly when no slot
holds the descriptor, and otherwise the first holder in the probe order. -/
theorem find_actual_index_probe (s : NetState) (sock : Int)
    (hok : table_ok s) (hs : 0 ≤ sock) (hsr : int_range sock) :
    ∃ r, connection_find_actual_index s sock = some r ∧
      (r = -1 ↔ ∀ c ∈ s.svr_conn, c.cn_sock ≠ sock) ∧
      (r ≠ -1 → ∃ k : Nat, (k : Int) < s.max_connection ∧
          r = (sock % s.max_connection + (k : Int)) % s.max_connection ∧
          (∃ c, aget s.svr_conn r = some c ∧ c.cn_sock = sock) ∧
          ∀ k' : Nat, k' < k → ∀ c,
            aget s.svr_conn ((sock % s.max_connection + (k' : Int)) % s.max_connection)
              = some c → c.cn_sock ≠ sock) := by
  obtain ⟨⟨hm, _⟩, hlen, hrange⟩ := hok
  have hj0 : 0 ≤ sock % s.max_connection := Int.emod_nonneg _ (by omega)
  have hjm : sock % s.max_connection < s.max_connection := Int.emod_lt_of_pos _ hm
  obtain ⟨r, hr, h1, h2⟩ := probe_loop_first s.svr_conn s.max_connection
    (sock % s.max_connection) (fun c => decide (toU32 c.cn_sock = toU32 sock))
    hm hlen hj0 hjm
  refine ⟨r, ?_, ?_, ?_⟩
  · simp only [connection_find_actual_index, c_mod_nonneg _ _ hm hs, Option.bind_eq_bind,
      Option.some_bind, find_actual_loop_eq]
    exact hr
  · rw [h1]
    constructor
    · intro h c hc heq
      have := h c hc
      simp [heq] at this
    · intro h c hc
      have := h c hc
      simp only [decide_eq_false_iff_not]
      intro he
      exact this ((toU32_eq_iff _ _ (hrange c hc) hsr).mp he)
  · intro hne
    obtain ⟨k, hk, hrk, ⟨c, hc, hp⟩, hprev⟩ := h2 hne
    refine ⟨k, hk, hrk, ⟨c, hc, ?_⟩, ?_⟩
    · simp only [decide_eq_true_eq] at hp
      exact (toU32_eq_iff _ _ (hrange c (aget_mem hc)) hsr).mp hp
    · intro k' hk' c' hc' heq
      have := hprev k' hk' c' hc'
      simp [heq] at this

/-- C2. In a table of `max_connection > 0` slots and for a descriptor
`sock >= 0`, `connection_find_actual_index` returns a value; the value is `-1`
exactly when no slot holds `sock`; otherwise it is the first index of the
cyclic probe order `sock mod max_connection, +1, +2, ...` whose `cn_sock`
equals `sock` (so it is a slot that holds `sock`). -/
theorem connection_find_actual_index_first (s : NetState) (sock : Int)
    (hok : table_ok s) (hs : 0 ≤ sock) (hsr : int_range sock) :
    ∃ r, connection_find_actual_index s sock = some r ∧
      (r = -1 ↔ ∀ c ∈ s.svr_conn, c.cn_sock ≠ sock) ∧
      (r ≠ -1 → ∃ k : Nat, (k : Int) < s.max_connection ∧
          r = (sock % s.max_connection + (k : Int)) % s.max_connection ∧
          (∃ c, aget s.svr_conn r = some c ∧ c.cn_sock = sock) ∧
          ∀ k' : Nat, k' < k → ∀ c,
            aget s.svr_conn ((sock % s.max_connection + (k' : Int)) % s.max_connection)
              = some c → c.cn_sock ≠ sock) := by
  exact find_actual_index_probe s sock hok hs hsr

/-- The lookup of an empty slot returns; it answers `-1` exactly when no slot is
empty, and otherwise the first empty slot in the probe order. -/
theorem find_usable_index_probe (s : NetState) (sock : Int)
    (hm : 0 < s.max_connection) (hlen : (s.svr_conn.length : Int) = s.max_connection)
    (hs : 0 ≤ sock) :
    ∃ r, connection_find_usable_index s sock = some r ∧
      (r = -1 ↔ ∀ c ∈ s.svr_conn, c.cn_sock ≠ -1) ∧
      (r ≠ -1 → ∃ k : Nat, (k : Int) < s.max_connection ∧
          r = (sock % s.max_connection + (k : Int)) % s.max_connection ∧
          (∃ c, aget s.svr_conn r = some c ∧ c.cn_sock = -1) ∧
          ∀ k' : Nat, k' < k → ∀ c,
            aget s.svr_conn ((sock % s.max_connection + (k' : Int)) % s.max_connection)
              = some c → c.cn_sock ≠ -1) := by
  have hj0 : 0 ≤ sock % s.max_connection := Int.emod_nonneg _ (by omega)
  have hjm : sock % s.max_connection < s.max_connection := Int.emod_lt_of_pos _ hm
  obtain ⟨r, hr, h1, h2⟩ := probe_loop_first s.svr_conn s.max_connection
    (sock % s.max_connection) (fun c => decide (c.cn_sock = -1)) hm hlen hj0 hjm
  refine ⟨r, ?_, ?_, ?_⟩
  · simp only [connection_find_usable_index, c_mod_nonneg _ _ hm hs, Option.bind_eq_bind,
      Option.some_bind, find_usable_loop_eq]
    exact hr
  · rw [h1]
    simp
  · intro hne
    obtain ⟨k, hk, hrk, ⟨c, hc, hp⟩, hprev⟩ := h2 hne
    refine ⟨k, hk, hrk, ⟨c, hc, by simpa using hp⟩, ?_⟩
    intro k' hk' c' hc'
    simpa using hprev k' hk' c' hc'

/-- C3. In a table of `max_connection > 0` slots and for a descriptor
`sock >= 0`, `connection_find_usable_index` returns a value; the value is `-1`
exactly when no slot is empty; otherwise it is the first index of the cyclic
probe order starting at `sock mod max_connection` whose slot is empty. -/
theorem connection_find_usable_index_first (s : NetState) (sock : Int)
    (hm : 0 < s.max_connection) (hlen : (s.svr_conn.length : Int) = s.max_connection)
    (hs : 0 ≤ sock) :
    ∃ r, connection_find_usable_index s sock = some r ∧
      (r = -1 ↔ ∀ c ∈ s.svr_conn, c.cn_sock ≠ -1) ∧
      (r ≠ -1 → ∃ k : Nat, (k : Int) < s.max_connection ∧
          r = (sock % s.max_connection + (k : Int)) % s.max_connection ∧
          (∃ c, aget s.svr_conn r = some c ∧ c.cn_sock = -1) ∧
          ∀ k' : Nat, k' < k → ∀ c,
            aget s.svr_conn ((sock % s.max_connection + (k' : Int)) % s.max_connection)
              = some c → c.cn_sock ≠ -1) := by
  exact find_usable_index_probe s sock hm hlen hs

/-! ## The poll set -/

theorem selpoll_fd_set_eq (s : NetState) (cndx : Int) (c : connection) (p : pollfd)
    (hc : aget s.svr_conn cndx = some c) (hp : aget s.pollfds cndx = some p) :
    selpoll_fd_set s cndx = some { s with
      pollfds := s.pollfds.set cndx.toNat { p with fd := c.cn_sock, revents := 0 },
      maxfdx := if cndx > s.maxfdx then cndx else s.maxfdx } := by
  obtain ⟨h0, h1⟩ := aget_some_bounds hp
  simp [selpoll_fd_set, hc, hp, aset_of_bounds _ _ _ h0 h1]

theorem selpoll_fd_clr_loop_some (pollfds : List pollfd) :
    ∀ (fuel : Nat) (m : Int), m < fuel → 0 < fuel → m < pollfds.length →
      ∃ m', selpoll_fd_clr_loop pollfds fuel m = some m' ∧ m' ≤ m := by
  intro fuel
  induction fuel with
  | zero => intro m _ h; omega
  | succ fuel ih =>
    intro m h _ hlen
    by_cases hm : m > 0
    · obtain ⟨p, hp⟩ := aget_of_bounds pollfds m (by omega) hlen
      by_cases hfd : p.fd = -1
      · obtain ⟨m', hm', hle⟩ := ih (m - 1) (by push_cast at h; omega) (by push_cast at h; omega)
          (by omega)
        exact ⟨m', by simp [selpoll_fd_clr_loop, hm, hp, hfd, hm'], by omega⟩
      · exact ⟨m, by simp [selpoll_fd_clr_loop, hm, hp, hfd], le_refl _⟩
    · exact ⟨m, by simp [selpoll_fd_clr_loop, hm], le_refl _⟩

theorem selpoll_fd_clr_eq (s : NetState) (cndx : Int) (p : pollfd)
    (hp : aget s.pollfds cndx = some p) :
    ∃ m', selpoll_fd_clr s cndx = some { s with
        pollfds := s.pollfds.set cndx.toNat { p with fd := -1, revents := 0 },
        maxfdx := m' } ∧
      m' ≤ s.maxfdx ∧ (cndx ≠ s.maxfdx → m' = s.maxfdx) := by
  obtain ⟨h0, h1⟩ := aget_some_bounds hp
  by_cases hx : cndx = s.maxfdx
  · subst hx
    obtain ⟨m', hm', hle⟩ := selpoll_fd_clr_loop_some
      (s.pollfds.set s.maxfdx.toNat { p with fd := -1, revents := 0 }) (s.maxfdx.toNat + 1)
      (s.maxfdx - 1) (by push_cast; omega) (by omega) (by simp; omega)
    refine ⟨m', ?_, by omega, fun h => absurd rfl h⟩
    simp [selpoll_fd_clr, hp, aset_of_bounds _ _ _ h0 h1, hm']
  · refine ⟨s.maxfdx, ?_, le_refl _, fun _ => rfl⟩
    simp [selpoll_fd_clr, hp, aset_of_bounds _ _ _ h0 h1, hx]

/-! ## `add_conn` -/

/-- What `add_conn` does once the slot lookup has answered `r`. -/
theorem add_conn_eq (w : World) (sock : Int) (type : conn_type) (addr port func : Nat)
    (r : Int) (hfind : connection_find_usable_index w.net sock = some r)
    (hlen : (w.net.svr_conn.length : Int) = w.net.max_connection) (hpl : polls_ok w.net)
    (hr : r = -1 ∨ (0 ≤ r ∧ r < w.net.max_connection)) :
    (r = -1 → add_conn w sock type addr port func = some (-1, w)) ∧
    (r ≠ -1 → ∃ c p, aget w.net.svr_conn r = some c ∧ aget w.net.pollfds r = some p ∧
      add_conn w sock type addr port func = some (r, { w with net := { w.net with
        num_connections := w.net.num_connections + 1,
        svr_conn := w.net.svr_conn.set r.toNat (added_conn c w.now sock type addr port func),
        pollfds := w.net.pollfds.set r.toNat { p with fd := sock, revents := 0 },
        maxfdx := if r > w.net.maxfdx then r else w.net.maxfdx } })) := by
  constructor
  · intro h
    simp [add_conn, hfind, h]
  · intro hne
    have hb : 0 ≤ r ∧ r < w.net.max_connection := by
      rcases hr with h | h
      · exact absurd h hne
      · exact h
    have hb2 : r < w.net.svr_conn.length := by omega
    obtain ⟨c, hc⟩ := aget_of_bounds w.net.svr_conn r hb.1 hb2
    obtain ⟨p, hp⟩ := aget_of_bounds w.net.pollfds r hb.1 (by unfold polls_ok at hpl; omega)
    obtain ⟨hp0, hp1⟩ := aget_some_bounds hp
    refine ⟨c, p, hc, hp, ?_⟩
    by_cases hport : port < IPPORT_RESERVED
    · simp [add_conn, hfind, hc, hne, hport, aset_of_bounds _ _ _ hb.1 hb2, selpoll_fd_set,
        aget_set_self _ _ _ hb.1 hb2, hp, aset_of_bounds _ _ _ hp0 hp1, added_conn]
    · simp [add_conn, hfind, hc, hne, hport, aset_of_bounds _ _ _ hb.1 hb2, selpoll_fd_set,
        aget_set_self _ _ _ hb.1 hb2, hp, aset_of_bounds _ _ _ hp0 hp1, added_conn]

/-! ## `cleanup_conn` and `close_conn` -/

theorem cleanup_conn_eq (s : NetState) (cndx : Int) (c : connection) (p : pollfd)
    (hc : aget s.svr_conn cndx = some c) (hp : aget s.pollfds cndx = some p) :
    ∃ m', cleanup_conn s cndx = some { s with
        pollfds := s.pollfds.set cndx.toNat { p with fd := -1, revents := 0 },
        maxfdx := m',
        svr_conn := s.svr_conn.set cndx.toNat (cleaned_conn c) } ∧
      m' ≤ s.maxfdx ∧ (cndx ≠ s.maxfdx → m' = s.maxfdx) := by
  obtain ⟨m', hclr, hle, hne⟩ := selpoll_fd_clr_eq s cndx p hp
  obtain ⟨h0, h1⟩ := aget_some_bounds hc
  refine ⟨m', ?_, hle, hne⟩
  simp [cleanup_conn, hclr, hc, aset_of_bounds _ _ _ h0 h1, cleaned_conn]

/-- `close_conn` on a descriptor outside `[0, max_connection)` does nothing. -/
theorem close_conn_out_of_range (env : Env) (w : World) (sd : Int)
    (h : sd < 0 ∨ w.net.max_connection ≤ sd) : close_conn env w sd = some w := by
  simp [close_conn, h]

/-- `close_conn` on a descriptor that no slot holds does nothing. -/
theorem close_conn_not_found (env : Env) (w : World) (sd : Int)
    (hfind : connection_find_actual_index w.net sd = some (-1)) :
    close_conn env w sd = some w := by
  unfold close_conn
  split
  · rfl
  · simp [hfind]

/-- `close_conn` on a descriptor found in a slot of type `Idle` does nothing. -/
theorem close_conn_idle (env : Env) (w : World) (sd r : Int) (c : connection)
    (hfind : connection_find_actual_index w.net sd = some r)
    (hc : aget w.net.svr_conn r = some c) (hidle : c.cn_active = conn_type.Idle) :
    close_conn env w sd = some w := by
  unfold close_conn
  split
  · rfl
  · simp only [hfind, Option.bind_eq_bind, Option.some_bind]
    split
    · rfl
    · simp [hc, hidle]

/-- `close_conn` on a descriptor in range, found in slot `r` whose type is not
`Idle` and whose hook (if any) leaves the variables alone: the slot is
cleaned, its poll entry vacated, `num_connections` decremented, and the outside
calls are those of `close_events`. -/
theorem close_conn_found (env : Env) (w : World) (sd r : Int) (c : connection) (p : pollfd)
    (hsd : 0 ≤ sd ∧ sd < w.net.max_connection)
    (hfind : connection_find_actual_index w.net sd = some r) (hr : r ≠ -1)
    (hc : aget w.net.svr_conn r = some c) (hp : aget w.net.pollfds r = some p)
    (hact : c.cn_active ≠ conn_type.Idle) (hhook : hook_neutral env c.cn_oncl) :
    ∃ m', close_conn env w sd = some
        { net := { w.net with
            pollfds := w.net.pollfds.set r.toNat { p with fd := -1, revents := 0 },
            maxfdx := m',
            svr_conn := w.net.svr_conn.set r.toNat (cleaned_conn c),
            num_connections := w.net.num_connections - 1 },
          now := w.now,
          trace := w.trace ++ close_events env w sd r c } ∧
      m' ≤ w.net.maxfdx ∧ (r ≠ w.net.maxfdx → m' = w.net.maxfdx) := by
  obtain ⟨m', hcl, hle, hne⟩ := cleanup_conn_eq w.net r c p hc hp
  refine ⟨m', ?_, hle, hne⟩
  have hrange : ¬ (sd < 0 ∨ w.net.max_connection ≤ sd) := by omega
  unfold hook_neutral at hhook
  by_cases hpipe : c.cn_active = conn_type.ChildPipe <;>
  by_cases hcs : env.CS_close_socket w sd = CS_ret.CS_SUCCESS <;>
  by_cases hon : c.cn_oncl = 0 <;>
  simp [close_conn, hrange, hfind, hr, hc, hact, hpipe, hcs, hon, hhook, hcl, World.emit,
    close_events]

theorem aget_getElem {α : Type} {a : List α} {i : Int} {x : α} (h : aget a i = some x) :
    ∃ hlt : i.toNat < a.length, a[i.toNat] = x := by
  unfold aget at h
  split at h
  · simp at h
  · exact List.getElem?_eq_some.mp h

theorem countP_set_aget {α : Type} (q : α → Bool) (l : List α) (i : Int) (x c : α)
    (h : aget l i = some c) :
    (l.set i.toNat x).countP q
      = l.countP q - (if q c then 1 else 0) + (if q x then 1 else 0) := by
  obtain ⟨hlt, hx⟩ := aget_getElem h
  rw [List.countP_set q l i.toNat x hlt, hx]

theorem countP_pos_aget {α : Type} (q : α → Bool) (l : List α) (i : Int) (c : α)
    (h : aget l i = some c) (hq : q c = true) : 0 < l.countP q :=
  List.countP_pos_iff.mpr ⟨c, aget_mem h, hq⟩

/-- C4. When no slot of the table is empty, `add_conn` on a descriptor
`sock >= 0` returns `-1` and changes nothing: the connection records,
`num_connections`, the `pollfds` array and `maxfdx` (indeed the whole world)
are as before. -/
theorem add_conn_table_full (w : World) (sock : Int) (type : conn_type)
    (addr port func : Nat)
    (hm : 0 < w.net.max_connection)
    (hlen : (w.net.svr_conn.length : Int) = w.net.max_connection)
    (hfull : ∀ c ∈ w.net.svr_conn, c.cn_sock ≠ -1) (hs : 0 ≤ sock) :
    add_conn w sock type addr port func = some (-1, w) := by
  obtain ⟨r, hr, hiff, _⟩ := find_usable_index_probe w.net sock hm hlen hs
  have hr1 : r = -1 := hiff.mpr hfull
  subst hr1
  simp [add_conn, hr]

/-- C6. Whenever `add_conn(sock, type, addr, port, func)` succeeds and returns
the index `i`, slot `i` holds the given `sock`, `type`, `addr` and handler, its
on-close hook is null, and its flags are exactly `PBS_NET_CONN_FROM_PRIVIL`
when `port < 1024` and `0` otherwise; the authenticated and the no-timeout flag
are clear in both cases. -/
theorem add_conn_fields (w w' : World) (sock i : Int) (type : conn_type)
    (addr port func : Nat)
    (h : add_conn w sock type addr port func = some (i, w')) (hi : i ≠ -1) :
    ∃ c, aget w'.net.svr_conn i = some c ∧
      c.cn_sock = sock ∧ c.cn_active = type ∧ c.cn_addr = addr ∧ c.cn_func = func ∧
      c.cn_oncl = 0 ∧
      c.cn_authen = (if port < 1024 then PBS_NET_CONN_FROM_PRIVIL else 0) ∧
      c.cn_authen &&& PBS_NET_CONN_AUTHENTICATED = 0 ∧
      c.cn_authen &&& PBS_NET_CONN_NOTIMEOUT = 0 := by
  unfold add_conn at h
  simp only [Option.bind_eq_bind, Option.bind_eq_some] at h
  obtain ⟨r, hfind, h⟩ := h
  by_cases hr : r = -1
  · simp [hr] at h
    omega
  · simp only [hr, if_false, Option.bind_eq_some] at h
    obtain ⟨c, hc, sc, hsc, net2, hsel, hres⟩ := h
    simp only [Option.some.injEq, Prod.mk.injEq] at hres
    obtain ⟨hri, hw⟩ := hres
    subst hri
    subst hw
    obtain ⟨h0, h1, hsc'⟩ := aset_some hsc
    unfold selpoll_fd_set at hsel
    simp only [Option.bind_eq_bind, Option.bind_eq_some] at hsel
    obtain ⟨_, _, _, _, _, _, hnet⟩ := hsel
    simp only [Option.some.injEq] at hnet
    subst hnet
    subst hsc'
    refine ⟨_, aget_set_self _ _ _ h0 h1, ?_⟩
    by_cases hport : port < 1024
    · simp [hport, IPPORT_RESERVED, PBS_NET_CONN_FROM_PRIVIL, PBS_NET_CONN_AUTHENTICATED,
        PBS_NET_CONN_NOTIMEOUT]
      decide
    · simp [hport, IPPORT_RESERVED, PBS_NET_CONN_FROM_PRIVIL, PBS_NET_CONN_AUTHENTICATED,
        PBS_NET_CONN_NOTIMEOUT]

/-- In a well-formed table, the slot that holds a descriptor `sd >= 0` and is
the only one to hold it is the slot the lookup returns. -/
theorem find_actual_unique (s : NetState) (sd i : Int) (c : connection)
    (hok : table_ok s) (hs : 0 ≤ sd)
    (hc : aget s.svr_conn i = some c) (hsock : c.cn_sock = sd)
    (huniq : ∀ j c', aget s.svr_conn j = some c' → c'.cn_sock = sd → j = i) :
    connection_find_actual_index s sd = some i := by
  have hsr : int_range sd := hsock ▸ hok.2.2 c (aget_mem hc)
  obtain ⟨r, hr, hiff, hfirst⟩ := find_actual_index_probe s sd hok hs hsr
  have hne : r ≠ -1 := fun h => (hiff.mp h) c (aget_mem hc) hsock
  obtain ⟨_, _, _, ⟨c', hc', hs'⟩, _⟩ := hfirst hne
  rw [hr, huniq r c' hc' hs']

/-- C7. When the descriptor `sd`, `0 <= sd < max_connection`, is held by exactly
one slot `i`, whose type is not `Idle` (and whose on-close hook, if set, does
not itself change the module's variables), `close_conn(sd)` returns, and
* calls the on-close hook exactly once if it is set, and not at all otherwise;
* leaves slot `i` with `cn_sock = -1`, type `Idle`, no handler, flags `0`,
  handle `-1`;
* leaves `pollfds[i].fd = -1`;
* decrements `num_connections` by exactly one;
* leaves every other slot and every other poll entry unchanged. -/
theorem close_conn_releases (env : Env) (w : World) (sd i : Int) (c : connection)
    (hok : table_ok w.net) (hpl : polls_ok w.net)
    (hsd : 0 ≤ sd ∧ sd < w.net.max_connection)
    (hc : aget w.net.svr_conn i = some c) (hsock : c.cn_sock = sd)
    (huniq : ∀ j c', aget w.net.svr_conn j = some c' → c'.cn_sock = sd → j = i)
    (hact : c.cn_active ≠ conn_type.Idle) (hhook : hook_neutral env c.cn_oncl) :
    ∃ w', close_conn env w sd = some w' ∧
      (∃ evs, w'.trace = w.trace ++ evs ∧
        evs.filter Event.is_oncl
          = if c.cn_oncl ≠ 0 then [Event.oncl i c.cn_oncl sd] else []) ∧
      (∃ c', aget w'.net.svr_conn i = some c' ∧ c'.cn_sock = -1 ∧
        c'.cn_active = conn_type.Idle ∧ c'.cn_func = 0 ∧ c'.cn_authen = 0 ∧
        c'.cn_handle = -1) ∧
      (∃ p', aget w'.net.pollfds i = some p' ∧ p'.fd = -1) ∧
      w'.net.num_connections = w.net.num_connections - 1 ∧
      (∀ j, j ≠ i → aget w'.net.svr_conn j = aget w.net.svr_conn j) ∧
      (∀ j, j ≠ i → aget w'.net.pollfds j = aget w.net.pollfds j) := by
  have hfind := find_actual_unique w.net sd i c hok hsd.1 hc hsock huniq
  obtain ⟨h0, h1⟩ := aget_some_bounds hc
  have hne : i ≠ -1 := by omega
  have hp1 : i < w.net.pollfds.length := by
    unfold polls_ok at hpl
    have := hok.2.1
    omega
  obtain ⟨p, hp⟩ := aget_of_bounds w.net.pollfds i h0 hp1
  obtain ⟨m', hclose, _, _⟩ := close_conn_found env w sd i c p hsd hfind hne hc hp hact hhook
  refine ⟨_, hclose, ⟨close_events env w sd i c, rfl, ?_⟩,
    ⟨cleaned_conn c, aget_set_self _ _ _ h0 h1, rfl, rfl, rfl, rfl, rfl⟩,
    ⟨_, aget_set_self _ _ _ h0 hp1, rfl⟩, rfl,
    fun j hj => aget_set_ne _ _ _ _ h0 (Ne.symm hj),
    fun j hj => aget_set_ne _ _ _ _ h0 (Ne.symm hj)⟩
  unfold close_events
  by_cases hpipe : c.cn_active = conn_type.ChildPipe <;>
  by_cases hcs : env.CS_close_socket w sd = CS_ret.CS_SUCCESS <;>
  by_cases hon : c.cn_oncl = 0 <;>
  simp [hpipe, hcs, hon, Event.is_oncl]

theorem countP_set_same {α : Type} (q : α → Bool) (l : List α) (i : Int) (x c : α)
    (h : aget l i = some c) (hq : q x = q c) : (l.set i.toNat x).countP q = l.countP q := by
  rw [countP_set_aget q l i x c h, hq]
  cases hc : q c with
  | false => simp
  | true =>
    have := countP_pos_aget q l i c h hc
    simp
    omega

theorem live_count_release (l : List connection) (i : Int) (c x : connection)
    (h : aget l i = some c) (hc : c.cn_sock ≠ -1) (hx : x.cn_sock = -1) :
    (((l.set i.toNat x).countP (fun c => decide (c.cn_sock ≠ -1)) : Nat) : Int)
      = ((l.countP (fun c => decide (c.cn_sock ≠ -1)) : Nat) : Int) - 1 := by
  have hq1 : decide (c.cn_sock ≠ -1) = true := by simpa using hc
  have hq2 : decide (x.cn_sock ≠ -1) = false := by simpa using hx
  have hpos := countP_pos_aget (fun c : connection => decide (c.cn_sock ≠ -1)) l i c h hq1
  rw [countP_set_aget (fun c : connection => decide (c.cn_sock ≠ -1)) l i x c h, hq1, hq2]
  simp only [if_true, Bool.false_eq_true, if_false]
  omega

/-! ## Initialisation -/

theorem connection_init_loop_spec (m : Int) :
    ∀ (fuel : Nat) (i : Int) (l : List connection), 0 ≤ i → (l.length : Int) = m →
      (fuel : Int) + i = m →
      ∃ l', connection_init_loop m fuel i l = some l' ∧ (l'.length : Int) = m ∧
        ∀ j c, aget l' j = some c →
          (i ≤ j → c.cn_sock = -1) ∧ (j < i → aget l j = some c) := by
  intro fuel
  induction fuel with
  | zero =>
    intro i l _ hlen hf
    have hi : ¬ i < m := by omega
    refine ⟨l, by simp [connection_init_loop, hi], hlen, ?_⟩
    intro j c hj
    have := (aget_some_bounds hj).2
    exact ⟨fun h => by omega, fun _ => hj⟩
  | succ fuel ih =>
    intro i l hi0 hlen hf
    have hi : i < m := by push_cast at hf; omega
    have hil : i < l.length := by omega
    obtain ⟨c, hc⟩ := aget_of_bounds l i hi0 hil
    obtain ⟨l', hl', hlen', hspec⟩ := ih (i + 1)
      (l.set i.toNat { c with cn_sock := -1, cn_active := conn_type.Idle, cn_username := [],
                              cn_hostname := [], cn_data := 0 })
      (by omega) (by simpa using hlen) (by push_cast at hf; omega)
    refine ⟨l', ?_, hlen', ?_⟩
    · simp [connection_init_loop, hi, hc, aset_of_bounds _ _ _ hi0 hil, hl']
    · intro j c' hj
      obtain ⟨h1, h2⟩ := hspec j c' hj
      constructor
      · intro hij
        by_cases hji : j = i
        · subst hji
          have h3 := h2 (by omega)
          rw [aget_set_self _ _ _ hi0 hil] at h3
          cases h3
          rfl
        · exact h1 (by omega)
      · intro hji
        have h3 := h2 (by omega)
        rwa [aget_set_ne _ _ _ _ hi0 (by omega)] at h3

/-- After a successful `connection_init` at program start, the table is an
array of `nfiles` empty slots, and nothing else has changed. -/
theorem connection_init_startup (nfiles : Int) (mem : Option (Nat → connection))
    (w0 w1 : World) (hstart : w0.net = NetState.startup)
    (h : connection_init nfiles mem w0 = some (0, w1)) :
    0 < nfiles ∧ w1.net.max_connection = nfiles ∧
      (w1.net.svr_conn.length : Int) = nfiles ∧
      (∀ c ∈ w1.net.svr_conn, c.cn_sock = -1) ∧
      w1.net.num_connections = 0 := by
  unfold connection_init at h
  simp only [hstart, NetState.startup] at h
  by_cases hn : nfiles > 0
  · cases mem with
    | none => simp [hn, World.emit] at h
    | some g =>
      simp only [hn, if_true] at h
      obtain ⟨l', hl', hlen', hspec⟩ := connection_init_loop_spec nfiles nfiles.toNat 0
        ((List.range nfiles.toNat).map g) (le_refl _) (by simp; omega) (by simp; omega)
      simp [hl'] at h
      subst h
      refine ⟨hn, rfl, hlen', ?_, rfl⟩
      intro c hc
      obtain ⟨j, hj⟩ := mem_aget hc
      exact (hspec j c hj).1 (aget_some_bounds hj).1
  · simp [hn] at h

/-! ## The table invariant -/

/-- `add_conn` on a descriptor `>= 0` returns and keeps the invariant; it adds
one holder of `sock` unless it returns `-1`, which it does exactly when no slot
is empty. -/
theorem add_conn_inv (env : Env) (w : World) (sock : Int) (type : conn_type)
    (addr port func : Nat) (hinv : table_inv env w) (hs : 0 ≤ sock)
    (hsr : int_range sock) :
    ∃ r w', add_conn w sock type addr port func = some (r, w') ∧ table_inv env w' ∧
      w'.net.max_connection = w.net.max_connection ∧
      holders w'.net sock = holders w.net sock + (if r = -1 then 0 else 1) ∧
      (r = -1 ↔ ∀ c ∈ w.net.svr_conn, c.cn_sock ≠ -1) := by
  obtain ⟨⟨⟨hm, hmr⟩, hlen, hrange⟩, hpl, hcount, hhooks⟩ := hinv
  obtain ⟨r, hfind, hiff, hfirst⟩ :=
    find_usable_index_probe w.net sock hm hlen hs
  have hrb : r = -1 ∨ (0 ≤ r ∧ r < w.net.max_connection) := by
    by_cases h : r = -1
    · exact Or.inl h
    · obtain ⟨k, _, hk, _⟩ := hfirst h
      right
      rw [hk]
      exact ⟨Int.emod_nonneg _ (by omega), Int.emod_lt_of_pos _ hm⟩
  obtain ⟨hfull, hadd⟩ := add_conn_eq w sock type addr port func r hfind hlen hpl hrb
  by_cases h : r = -1
  · refine ⟨r, w, by rw [hfull h, h], ⟨⟨⟨hm, hmr⟩, hlen, hrange⟩, hpl, hcount, hhooks⟩,
      rfl, by simp [h], hiff⟩
  · obtain ⟨c, p, hc, hp, heq⟩ := hadd h
    obtain ⟨_, _, _, ⟨c0, hc0, hempty⟩, _⟩ := hfirst h
    rw [hc] at hc0
    cases hc0
    refine ⟨r, _, heq, ⟨⟨⟨hm, hmr⟩, ?_, ?_⟩, ?_, ?_, ?_⟩, rfl, ?_, hiff⟩
    · simpa using hlen
    · intro c' hc'
      rcases List.mem_or_eq_of_mem_set hc' with h1 | h1
      · exact hrange c' h1
      · rw [h1]
        exact hsr
    · unfold polls_ok at hpl ⊢
      simpa using hpl
    · show w.net.num_connections + 1 = _
      unfold live_count
      simp only []
      rw [countP_set_aget _ _ _ _ _ hc, hcount]
      unfold live_count
      have hx : (added_conn c w.now sock type addr port func).cn_sock ≠ -1 := by
        show sock ≠ -1
        omega
      simp [hempty, hx]
    · intro c' hc' hne
      rcases List.mem_or_eq_of_mem_set hc' with h1 | h1
      · exact hhooks c' h1 hne
      · rw [h1]
        intro h0
        exact absurd rfl h0
    · unfold holders
      simp only []
      rw [countP_set_aget _ _ _ _ _ hc]
      have hx : (added_conn c w.now sock type addr port func).cn_sock = sock := rfl
      have hy : c.cn_sock ≠ sock := by omega
      simp [hx, hy, h]

/-- `close_conn` returns and keeps the invariant, for every descriptor. -/
theorem close_conn_inv (env : Env) (w : World) (sd : Int) (hinv : table_inv env w) :
    ∃ w', close_conn env w sd = some w' ∧ table_inv env w' ∧
      w'.net.max_connection = w.net.max_connection := by
  by_cases hrange : sd < 0 ∨ w.net.max_connection ≤ sd
  · exact ⟨w, close_conn_out_of_range env w sd hrange, hinv, rfl⟩
  · have hsd : 0 ≤ sd ∧ sd < w.net.max_connection := by omega
    obtain ⟨hok, hpl, hcount, hhooks⟩ := hinv
    have hsr : int_range sd := by
      have := hok.1.2
      unfold int_range at this ⊢
      omega
    obtain ⟨r, hfind, hiff, hfirst⟩ :=
      find_actual_index_probe w.net sd hok hsd.1 hsr
    by_cases h : r = -1
    · rw [h] at hfind
      exact ⟨w, close_conn_not_found env w sd hfind, ⟨hok, hpl, hcount, hhooks⟩, rfl⟩
    · obtain ⟨_, _, _, ⟨c, hc, hsock⟩, _⟩ := hfirst h
      by_cases hidle : c.cn_active = conn_type.Idle
      · exact ⟨w, close_conn_idle env w sd r c hfind hc hidle,
          ⟨hok, hpl, hcount, hhooks⟩, rfl⟩
      · obtain ⟨h0, h1⟩ := aget_some_bounds hc
        obtain ⟨p, hp⟩ := aget_of_bounds w.net.pollfds r h0
          (by unfold polls_ok at hpl; have := hok.2.1; omega)
        have hlive : c.cn_sock ≠ -1 := by omega
        obtain ⟨m', hclose, _, _⟩ := close_conn_found env w sd r c p hsd hfind h hc hp hidle
          (hhooks c (aget_mem hc) hlive)
        refine ⟨_, hclose, ⟨⟨hok.1, ?_, ?_⟩, ?_, ?_, ?_⟩, rfl⟩
        · simpa using hok.2.1
        · intro c' hc'
          rcases List.mem_or_eq_of_mem_set hc' with h2 | h2
          · exact hok.2.2 c' h2
          · rw [h2]
            unfold int_range cleaned_conn
            simp
        · unfold polls_ok at hpl ⊢
          simpa using hpl
        · show w.net.num_connections - 1 = _
          rw [hcount]
          exact (live_count_release w.net.svr_conn r c (cleaned_conn c) hc hlive rfl).symm
        · intro c' hc' hne
          rcases List.mem_or_eq_of_mem_set hc' with h2 | h2
          · exact hhooks c' h2 hne
          · rw [h2] at hne
            exact absurd rfl hne

theorem set_oncl_inv (env : Env) (w : World) (idx : Int) (f : Nat)
    (hinv : table_inv env w) (hidx : 0 ≤ idx ∧ idx < w.net.max_connection)
    (hf : hook_neutral env f) :
    ∃ w', apply_op env w (TableOp.set_oncl idx f) = some w' ∧ table_inv env w' ∧
      w'.net.max_connection = w.net.max_connection := by
  obtain ⟨hok, hpl, hcount, hhooks⟩ := hinv
  have hil : idx < w.net.svr_conn.length := by
    have := hok.2.1
    omega
  obtain ⟨c, hc⟩ := aget_of_bounds w.net.svr_conn idx hidx.1 hil
  refine ⟨{ w with net := { w.net with
      svr_conn := w.net.svr_conn.set idx.toNat { c with cn_oncl := f } } },
    by simp [apply_op, hc, aset_of_bounds _ _ _ hidx.1 hil],
    ⟨⟨hok.1, ?_, ?_⟩, ?_, ?_, ?_⟩, rfl⟩
  · simpa using hok.2.1
  · intro c' hc'
    rcases List.mem_or_eq_of_mem_set hc' with h2 | h2
    · exact hok.2.2 c' h2
    · rw [h2]
      exact hok.2.2 c (aget_mem hc)
  · exact hpl
  · show w.net.num_connections
      = ((List.countP (fun c : connection => decide (c.cn_sock ≠ -1))
          (w.net.svr_conn.set idx.toNat { c with cn_oncl := f }) : Nat) : Int)
    rw [countP_set_same (fun c : connection => decide (c.cn_sock ≠ -1)) w.net.svr_conn idx
      { c with cn_oncl := f } c hc rfl, hcount]
    rfl
  · intro c' hc' hne
    rcases List.mem_or_eq_of_mem_set hc' with h2 | h2
    · exact hhooks c' h2 hne
    · rw [h2]
      exact hf

theorem apply_op_inv (env : Env) (w : World) (op : TableOp) (hinv : table_inv env w)
    (hop : op_ok env w.net.max_connection op) :
    ∃ w', apply_op env w op = some w' ∧ table_inv env w' ∧
      w'.net.max_connection = w.net.max_connection := by
  cases op with
  | add_conn sock type addr port func =>
    obtain ⟨r, w', hadd, hinv', hmax, _, _⟩ :=
      add_conn_inv env w sock type addr port func hinv hop.1 hop.2
    exact ⟨w', by simp [apply_op, hadd], hinv', hmax⟩
  | close_conn sd => exact close_conn_inv env w sd hinv
  | set_oncl idx f => exact set_oncl_inv env w idx f hinv hop.1 hop.2

theorem run_ops_inv (env : Env) (ops : List TableOp) :
    ∀ w : World, table_inv env w → (∀ op ∈ ops, op_ok env w.net.max_connection op) →
      ∃ w', run_ops env ops w = some w' ∧ table_inv env w' := by
  induction ops with
  | nil => intro w hinv _; exact ⟨w, rfl, hinv⟩
  | cons op ops ih =>
    intro w hinv hops
    obtain ⟨w1, h1, hinv1, hmax⟩ :=
      apply_op_inv env w op hinv (hops op (List.mem_cons_self _ _))
    obtain ⟨w', h', hinv'⟩ := ih w1 hinv1
      (fun o ho => hmax ▸ hops o (List.mem_cons_of_mem _ ho))
    exact ⟨w', by simp [run_ops, h1, h'], hinv'⟩

/-- The table set up by `connection_init` and `selpoll_init` at program start
satisfies the invariant. -/
theorem init_inv (env : Env) (nfiles : Int) (mem : Option (Nat → connection))
    (mem2 : Option (Nat → pollfd)) (w0 w1 w2 : World) (hstart : w0.net = NetState.startup)
    (hn : int_range nfiles)
    (hinit : connection_init nfiles mem w0 = some (0, w1))
    (hpoll : selpoll_init mem2 w1 = (0, w2)) :
    table_inv env w2 ∧ w2.net.max_connection = nfiles := by
  obtain ⟨hpos, hmax, hlen, hempty, hnum⟩ :=
    connection_init_startup nfiles mem w0 w1 hstart hinit
  cases mem2 with
  | none => simp [selpoll_init] at hpoll
  | some gp =>
    simp only [selpoll_init, Prod.mk.injEq, true_and] at hpoll
    subst hpoll
    refine ⟨⟨⟨⟨by rw [hmax]; exact hpos, by rw [hmax]; exact hn⟩, by rw [hmax]; exact hlen,
      ?_⟩, ?_, ?_, ?_⟩, hmax⟩
    · intro c hc
      show int_range c.cn_sock
      rw [hempty c hc]
      decide
    · unfold polls_ok
      simp
      omega
    · have hz : List.countP (fun c : connection => decide (c.cn_sock ≠ -1))
          w1.net.svr_conn = 0 := by
        rw [List.countP_eq_zero]
        intro c hc
        simp [hempty c hc]
      show w1.net.num_connections
        = ((List.countP (fun c : connection => decide (c.cn_sock ≠ -1))
            w1.net.svr_conn : Nat) : Int)
      rw [hnum, hz]
      rfl
    · intro c hc hne
      exact absurd (hempty c hc) hne

/-- C1. Start from the table that `connection_init` (with `selpoll_init`) sets
up at program start: all slots empty, `num_connections = 0`.  After every
finite sequence of `add_conn` calls on descriptors `>= 0` (any types),
`close_conn` calls (any descriptors) and installations of on-close hooks that
do not touch the module's variables, the sequence has run to its end and
`num_connections` equals the number of slots whose `cn_sock` is not `-1`. -/
theorem num_connections_counts_live (env : Env) (nfiles : Int)
    (mem : Option (Nat → connection)) (mem2 : Option (Nat → pollfd)) (w0 w1 w2 : World)
    (ops : List TableOp) (hstart : w0.net = NetState.startup) (hn : int_range nfiles)
    (hinit : connection_init nfiles mem w0 = some (0, w1))
    (hpoll : selpoll_init mem2 w1 = (0, w2))
    (hops : ∀ op ∈ ops, op_ok env nfiles op) :
    ∃ w, run_ops env ops w2 = some w ∧
      w.net.num_connections = (live_count w.net : Int) := by
  obtain ⟨hinv, hmax⟩ := init_inv env nfiles mem mem2 w0 w1 w2 hstart hn hinit hpoll
  obtain ⟨w, hrun, hinv'⟩ := run_ops_inv env ops w2 hinv (by rw [hmax]; exact hops)
  exact ⟨w, hrun, hinv'.2.2.1⟩

/-- Witness of C2 on `sample_two`, descriptor `2`. -/
theorem connection_find_actual_index_first_witness :
    table_ok sample_two.net ∧ (0 : Int) ≤ 2 ∧ int_range 2 ∧
    ∃ r, connection_find_actual_index sample_two.net 2 = some r ∧
      (r = -1 ↔ ∀ c ∈ sample_two.net.svr_conn, c.cn_sock ≠ 2) ∧
      (r ≠ -1 → ∃ k : Nat, (k : Int) < sample_two.net.max_connection ∧
          r = (2 % sample_two.net.max_connection + (k : Int)) % sample_two.net.max_connection ∧
          (∃ c, aget sample_two.net.svr_conn r = some c ∧ c.cn_sock = 2) ∧
          ∀ k' : Nat, k' < k → ∀ c,
            aget sample_two.net.svr_conn
              ((2 % sample_two.net.max_connection + (k' : Int)) % sample_two.net.max_connection)
              = some c → c.cn_sock ≠ 2) :=
  ⟨by decide, by decide, by decide,
    connection_find_actual_index_first sample_two.net 2 (by decide) (by decide) (by decide)⟩

/-- Witness of C3 on `sample_two`, descriptor `5` (probe order 1, 2, 3, 0). -/
theorem connection_find_usable_index_first_witness :
    (0 : Int) < sample_two.net.max_connection ∧
    (sample_two.net.svr_conn.length : Int) = sample_two.net.max_connection ∧ (0 : Int) ≤ 5 ∧
    ∃ r, connection_find_usable_index sample_two.net 5 = some r ∧
      (r = -1 ↔ ∀ c ∈ sample_two.net.svr_conn, c.cn_sock ≠ -1) ∧
      (r ≠ -1 → ∃ k : Nat, (k : Int) < sample_two.net.max_connection ∧
          r = (5 % sample_two.net.max_connection + (k : Int)) % sample_two.net.max_connection ∧
          (∃ c, aget sample_two.net.svr_conn r = some c ∧ c.cn_sock = -1) ∧
          ∀ k' : Nat, k' < k → ∀ c,
            aget sample_two.net.svr_conn
              ((5 % sample_two.net.max_connection + (k' : Int)) % sample_two.net.max_connection)
              = some c → c.cn_sock ≠ -1) :=
  ⟨by decide, by decide, by decide,
    connection_find_usable_index_first sample_two.net 5 (by decide) (by decide) (by decide)⟩

/-- Witness of C4 on the full table `sample_full`. -/
theorem add_conn_table_full_witness :
    (∀ c ∈ sample_full.net.svr_conn, c.cn_sock ≠ -1) ∧
    add_conn sample_full 7 conn_type.FromClientDIS 1 2000 7 = some (-1, sample_full) :=
  ⟨by decide,
    add_conn_table_full sample_full 7 conn_type.FromClientDIS 1 2000 7 (by decide) (by decide)
      (by decide) (by decide)⟩

/-- Witness of C6: registering descriptor `5` from port `80` in `sample_two`. -/
theorem add_conn_fields_witness :
    add_conn sample_two 5 conn_type.FromClientDIS 1 80 7 = some (3, sample_three) ∧
    (3 : Int) ≠ -1 ∧
    ∃ c, aget sample_three.net.svr_conn 3 = some c ∧
      c.cn_sock = 5 ∧ c.cn_active = conn_type.FromClientDIS ∧ c.cn_addr = 1 ∧ c.cn_func = 7 ∧
      c.cn_oncl = 0 ∧
      c.cn_authen = (if 80 < 1024 then PBS_NET_CONN_FROM_PRIVIL else 0) ∧
      c.cn_authen &&& PBS_NET_CONN_AUTHENTICATED = 0 ∧
      c.cn_authen &&& PBS_NET_CONN_NOTIMEOUT = 0 :=
  ⟨by decide, by decide,
    add_conn_fields sample_two sample_three 5 3 conn_type.FromClientDIS 1 80 7 (by decide)
      (by decide)⟩

theorem sample_env_neutral (f : Nat) (hf : f ≠ accept_conn_ptr) :
    hook_neutral sample_env f := by
  intro h0 sd w
  simp [call_func, h0, hf, sample_env]

theorem sample_two_slots (j : Int) (c : connection)
    (h : aget sample_two.net.svr_conn j = some c) :
    (j = 0 ∧ c = sample_empty) ∨ (j = 1 ∧ c = sample_client 1 2000 0 9 100) ∨
      (j = 2 ∧ c = sample_client 2 1023 2 0 100) ∨ (j = 3 ∧ c = sample_empty) := by
  obtain ⟨h0, h1⟩ := aget_some_bounds h
  have hj : j = 0 ∨ j = 1 ∨ j = 2 ∨ j = 3 := by
    simp [sample_two] at h1
    omega
  rcases hj with rfl | rfl | rfl | rfl <;> simp [aget, sample_two] at h <;> simp [h]

/-- Witness of C7: closing descriptor `1` of `sample_two`, whose hook is `9`. -/
theorem close_conn_releases_witness :
    ∃ w', close_conn sample_env sample_two 1 = some w' ∧
      (∃ evs, w'.trace = sample_two.trace ++ evs ∧
        evs.filter Event.is_oncl
          = if (sample_client 1 2000 0 9 100).cn_oncl ≠ 0
            then [Event.oncl 1 (sample_client 1 2000 0 9 100).cn_oncl 1] else []) ∧
      (∃ c', aget w'.net.svr_conn 1 = some c' ∧ c'.cn_sock = -1 ∧
        c'.cn_active = conn_type.Idle ∧ c'.cn_func = 0 ∧ c'.cn_authen = 0 ∧
        c'.cn_handle = -1) ∧
      (∃ p', aget w'.net.pollfds 1 = some p' ∧ p'.fd = -1) ∧
      w'.net.num_connections = sample_two.net.num_connections - 1 ∧
      (∀ j, j ≠ 1 → aget w'.net.svr_conn j = aget sample_two.net.svr_conn j) ∧
      (∀ j, j ≠ 1 → aget w'.net.pollfds j = aget sample_two.net.pollfds j) :=
  close_conn_releases sample_env sample_two 1 1 (sample_client 1 2000 0 9 100)
    (by decide) (by decide) (by decide) (by decide) (by decide)
    (by
      intro j c' h hs
      rcases sample_two_slots j c' h with ⟨hj, hc⟩ | ⟨hj, _⟩ | ⟨hj, hc⟩ | ⟨hj, hc⟩
      · rw [hc] at hs; exact absurd hs (by decide)
      · exact hj
      · rw [hc] at hs; exact absurd hs (by decide)
      · rw [hc] at hs; exact absurd hs (by decide))
    (by decide) (sample_env_neutral 9 (by decide))

/-- Witness of C1: `sample_ops` run on the table initialised with four slots. -/
theorem num_connections_counts_live_witness :
    connection_init 4 (some (fun _ => sample_garbage)) sample_start = some (0, sample_init1) ∧
    selpoll_init (some (fun _ => sample_vacant)) sample_init1 = (0, sample_init2) ∧
    ∃ w, run_ops sample_env sample_ops sample_init2 = some w ∧
      w.net.num_connections = (live_count w.net : Int) :=
  ⟨by decide, by decide,
    num_connections_counts_live sample_env 4 (some (fun _ => sample_garbage))
      (some (fun _ => sample_vacant)) sample_start sample_init1 sample_init2 sample_ops
      rfl (by decide) (by decide) (by decide)
      (by
        intro op hop
        simp only [sample_ops, List.mem_cons, List.mem_singleton, List.not_mem_nil,
          or_false] at hop
        rcases hop with rfl | rfl | rfl | rfl | rfl | rfl | rfl | rfl
        · exact ⟨by decide, by decide⟩
        · exact ⟨by decide, by decide⟩
        · exact ⟨by decide, sample_env_neutral 9 (by decide)⟩
        · trivial
        · trivial
        · exact ⟨by decide, by decide⟩
        · trivial
        · trivial)⟩

/-- C5, counterexample.  Registering descriptor `1` twice in a table of four
empty slots: the second `add_conn` is not refused (it returns slot 2), and two
slots hold the descriptor afterwards. -/
theorem add_conn_twice_duplicates :
    ((add_conn sample_fresh 1 conn_type.FromClientDIS 1 2000 7).bind
        (fun r => add_conn r.2 1 conn_type.FromClientDIS 1 2000 7)) = some (2, sample_dup) ∧
    holders sample_dup.net 1 = 2 := by
  decide

/-- C5, amended.  `add_conn` does not look for an existing registration.  In a
well-formed table, two calls `add_conn(s, ...)` for a descriptor `s >= 0` with
nothing in between both return; each call that does not return `-1` makes one
more slot hold `s`, whether or not `s` was registered before; and the second
call returns `-1` exactly when the table it finds has no empty slot. -/
theorem add_conn_twice (env : Env) (w : World) (s : Int) (t1 t2 : conn_type)
    (a1 p1 f1 a2 p2 f2 : Nat) (hinv : table_inv env w) (hs : 0 ≤ s) (hsr : int_range s) :
    ∃ r1 w1 r2 w2, add_conn w s t1 a1 p1 f1 = some (r1, w1) ∧
      add_conn w1 s t2 a2 p2 f2 = some (r2, w2) ∧
      holders w2.net s
        = holders w.net s + (if r1 = -1 then 0 else 1) + (if r2 = -1 then 0 else 1) ∧
      (r2 = -1 ↔ ∀ c ∈ w1.net.svr_conn, c.cn_sock ≠ -1) := by
  obtain ⟨r1, w1, h1, hinv1, _, hh1, _⟩ := add_conn_inv env w s t1 a1 p1 f1 hinv hs hsr
  obtain ⟨r2, w2, h2, _, _, hh2, hiff2⟩ := add_conn_inv env w1 s t2 a2 p2 f2 hinv1 hs hsr
  exact ⟨r1, w1, r2, w2, h1, h2, by rw [hh2, hh1], hiff2⟩

theorem sample_two_inv : table_inv sample_env sample_two := by
  refine ⟨by decide, by decide, by decide, ?_⟩
  intro c hc _
  simp only [sample_two, List.mem_cons, List.mem_singleton, List.not_mem_nil, or_false] at hc
  rcases hc with rfl | rfl | rfl | rfl <;> exact sample_env_neutral _ (by decide)

/-- Witness of the amended C5: registering descriptor `1`, which `sample_two`
already holds, twice more. -/
theorem add_conn_twice_witness :
    (0 : Int) ≤ 1 ∧ int_range 1 ∧
    ∃ r1 w1 r2 w2,
      add_conn sample_two 1 conn_type.FromClientDIS 1 2000 7 = some (r1, w1) ∧
      add_conn w1 1 conn_type.FromClientDIS 1 2000 7 = some (r2, w2) ∧
      holders w2.net 1
        = holders sample_two.net 1 + (if r1 = -1 then 0 else 1) + (if r2 = -1 then 0 else 1) ∧
      (r2 = -1 ↔ ∀ c ∈ w1.net.svr_conn, c.cn_sock ≠ -1) :=
  ⟨by decide, by decide,
    add_conn_twice sample_env sample_two 1 conn_type.FromClientDIS conn_type.FromClientDIS
      1 2000 7 1 2000 7 sample_two_inv (by decide) (by decide)⟩

/-! ## Traces of the operations -/

theorem quiet_nil : quiet [] := by
  intro e he
  cases he

theorem quiet_append {a b : List Event} (ha : quiet a) (hb : quiet b) : quiet (a ++ b) := by
  intro e he
  rcases List.mem_append.mp he with h | h
  · exact ha e h
  · exact hb e h

theorem quiet_cons {e : Event} {q : List Event} (he : e.is_func = false ∧ e.is_auth = false)
    (hq : quiet q) : quiet (e :: q) := by
  intro x hx
  rcases List.mem_cons.mp hx with h | h
  · rw [h]; exact he
  · exact hq x h

/-- The trace `t'` continues the trace `t` with quiet events. -/
theorem emit_trace (w : World) (e : Event) : (w.emit e).trace = w.trace ++ [e] := rfl

theorem tq_refl (t : List Event) : ∃ q, t = t ++ q ∧ quiet q :=
  ⟨[], by simp, quiet_nil⟩

theorem tq_emit {t t' : List Event} (e : Event) (h : ∃ q, t' = t ++ q ∧ quiet q)
    (he : e.is_func = false ∧ e.is_auth = false) :
    ∃ q, t' ++ [e] = t ++ q ∧ quiet q := by
  obtain ⟨q, hq, hquiet⟩ := h
  exact ⟨q ++ [e], by rw [hq, List.append_assoc], quiet_append hquiet (quiet_cons he quiet_nil)⟩

theorem tq_trans {t1 t2 t3 : List Event} (h12 : ∃ q, t2 = t1 ++ q ∧ quiet q)
    (h23 : ∃ q, t3 = t2 ++ q ∧ quiet q) : ∃ q, t3 = t1 ++ q ∧ quiet q := by
  obtain ⟨q1, hq1, hquiet1⟩ := h12
  obtain ⟨q2, hq2, hquiet2⟩ := h23
  exact ⟨q1 ++ q2, by rw [hq2, hq1, List.append_assoc], quiet_append hquiet1 hquiet2⟩

theorem add_conn_trace (w w' : World) (sock r : Int) (type : conn_type)
    (addr port func : Nat) (h : add_conn w sock type addr port func = some (r, w')) :
    w'.trace = w.trace ∧ w'.now = w.now := by
  unfold add_conn at h
  simp only [Option.bind_eq_bind, Option.bind_eq_some] at h
  obtain ⟨r0, _, h⟩ := h
  by_cases hr : r0 = -1
  · simp [hr] at h
    rw [← h.2]
    exact ⟨rfl, rfl⟩
  · simp only [hr, if_false, Option.bind_eq_some] at h
    obtain ⟨_, _, _, _, _, _, hres⟩ := h
    simp only [Option.some.injEq, Prod.mk.injEq] at hres
    rw [← hres.2]
    exact ⟨rfl, rfl⟩

theorem add_conn_bind_trace (w0 w' : World) (sock : Int) (type : conn_type)
    (addr port f : Nat)
    (h : ((some f).bind fun y => (add_conn w0 sock type addr port y).bind
      fun r2 => some r2.2) = some w') : w'.trace = w0.trace := by
  simp only [Option.some_bind, Option.bind_eq_some] at h
  obtain ⟨r2, hadd, hres⟩ := h
  simp only [Option.some.injEq] at hres
  rw [← hres]
  exact (add_conn_trace _ _ _ _ _ _ _ _ hadd).1

theorem accept_conn_quiet (env : Env) (w w' : World) (sd : Int)
    (h : accept_conn env w sd = some w') :
    ∃ q, w'.trace = w.trace ++ q ∧ quiet q := by
  unfold accept_conn at h
  simp only [Option.bind_eq_bind, Option.bind_eq_some] at h
  obtain ⟨r0, _, h⟩ := h
  by_cases hr : r0 = -1
  · simp [hr] at h
    rw [← h]
    exact tq_refl _
  · simp only [hr, if_false, Option.bind_eq_some] at h
    obtain ⟨c, _, sc, _, h⟩ := h
    split at h
    · simp only [Option.some.injEq] at h
      rw [← h]
      exact tq_emit _ (tq_emit _ (tq_refl _) ⟨rfl, rfl⟩) ⟨rfl, rfl⟩
    · split at h
      · simp only [Option.some.injEq] at h
        rw [← h]
        exact tq_emit _ (tq_emit _ (tq_emit _ (tq_refl _) ⟨rfl, rfl⟩) ⟨rfl, rfl⟩) ⟨rfl, rfl⟩
      · simp only [Option.bind_eq_some] at h
        obtain ⟨c2, _, h⟩ := h
        split at h
        · rw [add_conn_bind_trace _ _ _ _ _ _ _ h]
          exact tq_emit _ (tq_refl _) ⟨rfl, rfl⟩
        · split at h
          · rw [add_conn_bind_trace _ _ _ _ _ _ _ h]
            exact tq_emit _ (tq_refl _) ⟨rfl, rfl⟩
          · simp at h

theorem call_func_quiet (env : Env) (w w' : World) (f : Nat) (sd : Int)
    (h : call_func env f sd w = some w') :
    ∃ q, w'.trace = w.trace ++ q ∧ quiet q := by
  unfold call_func at h
  split at h
  · cases h
  · split at h
    · exact accept_conn_quiet env w w' sd h
    · simp only [Option.some.injEq] at h
      rw [← h]
      exact tq_refl _

theorem close_conn_quiet (env : Env) (w w' : World) (sd : Int)
    (h : close_conn env w sd = some w') :
    ∃ q, w'.trace = w.trace ++ q ∧ quiet q := by
  unfold close_conn at h
  split at h
  · simp only [Option.some.injEq] at h
    rw [← h]
    exact tq_refl _
  · simp only [Option.bind_eq_bind, Option.bind_eq_some] at h
    obtain ⟨r, _, h⟩ := h
    split at h
    · simp only [Option.some.injEq] at h
      rw [← h]
      exact tq_refl _
    · simp only [Option.bind_eq_some] at h
      obtain ⟨c, _, h⟩ := h
      split at h
      · simp only [Option.some.injEq] at h
        rw [← h]
        exact tq_refl _
      · have h1 : ∃ q, (if c.cn_active ≠ conn_type.ChildPipe then
            ((if env.CS_close_socket w sd ≠ CS_ret.CS_SUCCESS then
                (w.emit (Event.cs_close_socket sd)).emit (Event.log_err LogMsg.problem_closing)
              else w.emit (Event.cs_close_socket sd)).emit (Event.close sd))
            else w.emit (Event.close sd)).trace = w.trace ++ q ∧ quiet q := by
          split
          · split
            · exact tq_emit _ (tq_emit _ (tq_emit _ (tq_refl _) ⟨rfl, rfl⟩) ⟨rfl, rfl⟩)
                ⟨rfl, rfl⟩
            · exact tq_emit _ (tq_emit _ (tq_refl _) ⟨rfl, rfl⟩) ⟨rfl, rfl⟩
          · exact tq_emit _ (tq_refl _) ⟨rfl, rfl⟩
        split at h
        · simp only [Option.bind_eq_some] at h
          obtain ⟨w2, hw2, net, _, hres⟩ := h
          simp only [Option.some.injEq] at hres
          rw [← hres]
          exact tq_trans (tq_emit (Event.oncl r c.cn_oncl sd) h1 ⟨rfl, rfl⟩)
            (call_func_quiet env _ _ _ _ hw2)
        · simp only [Option.some_bind, Option.bind_eq_some] at h
          obtain ⟨net, _, hres⟩ := h
          simp only [Option.some.injEq] at hres
          rw [← hres]
          exact h1

theorem selpoll_fd_clr_svr_conn (s s' : NetState) (cndx : Int)
    (h : selpoll_fd_clr s cndx = some s') :
    s'.svr_conn = s.svr_conn ∧ s'.max_connection = s.max_connection ∧
      s'.pollfds.length = s.pollfds.length ∧ s'.num_connections = s.num_connections := by
  unfold selpoll_fd_clr at h
  simp only [Option.bind_eq_bind, Option.bind_eq_some] at h
  obtain ⟨p, _, pf, hpf, h⟩ := h
  obtain ⟨_, _, hpf'⟩ := aset_some hpf
  split at h
  · simp only [Option.bind_eq_some] at h
    obtain ⟨m, _, h⟩ := h
    simp only [Option.some.injEq] at h
    rw [← h, hpf']
    simp
  · simp only [Option.some.injEq] at h
    rw [← h, hpf']
    simp

theorem selpoll_fd_isset_quiet (w w' : World) (cndx r : Int)
    (h : selpoll_fd_isset w cndx = some (r, w')) :
    (∃ q, w'.trace = w.trace ++ q ∧ quiet q) ∧ w'.net.svr_conn = w.net.svr_conn ∧
      w'.now = w.now ∧
      (r ≠ 0 → w' = w ∧ ∃ c, aget w.net.svr_conn cndx = some c ∧ 0 ≤ c.cn_sock) := by
  unfold selpoll_fd_isset at h
  simp only [Option.bind_eq_bind, Option.bind_eq_some] at h
  obtain ⟨c, hc, h⟩ := h
  split at h
  · simp only [Option.some.injEq, Prod.mk.injEq] at h
    rw [← h.2, ← h.1]
    exact ⟨tq_refl _, rfl, rfl, fun hr => absurd rfl hr⟩
  · rename_i hsock
    simp only [Option.bind_eq_some] at h
    obtain ⟨p, _, h⟩ := h
    split at h
    · simp only [Option.some.injEq, Prod.mk.injEq] at h
      rw [← h.2, ← h.1]
      exact ⟨tq_refl _, rfl, rfl, fun hr => absurd rfl hr⟩
    · split at h
      · simp only [Option.bind_eq_some] at h
        obtain ⟨target, _, h⟩ := h
        split at h
        · simp only [Option.bind_eq_some] at h
          obtain ⟨net, hnet, h⟩ := h
          simp only [Option.some.injEq, Prod.mk.injEq] at h
          rw [← h.2, ← h.1]
          exact ⟨tq_emit _ (tq_emit _ (tq_refl _) ⟨rfl, rfl⟩) ⟨rfl, rfl⟩,
            (selpoll_fd_clr_svr_conn _ _ _ hnet).1, rfl, fun hr => absurd rfl hr⟩
        · simp only [Option.some.injEq, Prod.mk.injEq] at h
          rw [← h.2, ← h.1]
          exact ⟨tq_emit _ (tq_refl _) ⟨rfl, rfl⟩, rfl, rfl, fun hr => absurd rfl hr⟩
      · split at h
        · simp only [Option.some.injEq, Prod.mk.injEq] at h
          rw [← h.2, ← h.1]
          exact ⟨tq_refl _, rfl, rfl, fun _ => ⟨rfl, c, hc, by omega⟩⟩
        · simp only [Option.some.injEq, Prod.mk.injEq] at h
          rw [← h.2, ← h.1]
          exact ⟨tq_refl _, rfl, rfl, fun hr => absurd rfl hr⟩

theorem connection_idlecheck_loop_quiet (env : Env) (now : Int) :
    ∀ (fuel : Nat) (i : Int) (w w' : World),
      connection_idlecheck_loop env now fuel i w = some w' →
      ∃ q, w'.trace = w.trace ++ q ∧ quiet q := by
  intro fuel
  induction fuel with
  | zero =>
    intro i w w' h
    unfold connection_idlecheck_loop at h
    split at h
    · cases h
    · simp only [Option.some.injEq] at h
      rw [← h]
      exact tq_refl _
  | succ fuel ih =>
    intro i w w' h
    unfold connection_idlecheck_loop at h
    split at h
    · simp only [Option.bind_eq_bind, Option.bind_eq_some] at h
      obtain ⟨cp, _, h⟩ := h
      split at h
      · exact ih _ _ _ h
      · split at h
        · exact ih _ _ _ h
        · split at h
          · exact ih _ _ _ h
          · simp only [Option.bind_eq_some] at h
            obtain ⟨w2, hw2, h⟩ := h
            exact tq_trans (tq_trans
              (tq_emit (Event.log_err LogMsg.timeout_connection) (tq_refl _) ⟨rfl, rfl⟩)
              (close_conn_quiet env _ _ _ hw2)) (ih _ _ _ h)
    · simp only [Option.some.injEq] at h
      rw [← h]
      exact tq_refl _

/-! ## The gate on handler calls -/

theorem or_authenticated_ne_zero (x : Nat) :
    (x ||| PBS_NET_CONN_AUTHENTICATED) &&& PBS_NET_CONN_AUTHENTICATED ≠ 0 := by
  intro h
  have h0 := congrArg (fun n => n.testBit 0) h
  simp [PBS_NET_CONN_AUTHENTICATED] at h0

theorem func_ok_of_not_func (p : Option Event) (e : Event) (h : e.is_func = false) :
    func_ok p e = true := by
  cases e <;> first | rfl | (simp [Event.is_func] at h)

theorem func_ok_mono (p : Option Event) (e : Event) (h : func_ok none e = true) :
    func_ok p e = true := by
  cases e with
  | func idx f sd active authen =>
    simp only [func_ok, Bool.or_eq_true, Bool.and_eq_true, decide_eq_true_eq] at h ⊢
    rcases h with h | h
    · exact Or.inl h
    · exact absurd h.1 (by simp)
  | _ => rfl

theorem gated_from_mono (l : List Event) (p : Option Event)
    (h : gated_from none l = true) : gated_from p l = true := by
  cases l with
  | nil => rfl
  | cons e es =>
    simp only [gated_from, Bool.and_eq_true] at h ⊢
    exact ⟨func_ok_mono p e h.1, h.2⟩

theorem gated_from_append (a b : List Event) (p : Option Event)
    (ha : gated_from p a = true) (hb : gated_from none b = true) :
    gated_from p (a ++ b) = true := by
  induction a generalizing p with
  | nil => exact gated_from_mono b p hb
  | cons e es ih =>
    simp only [gated_from, Bool.and_eq_true, List.cons_append] at ha ⊢
    exact ⟨ha.1, ih (some e) ha.2⟩

theorem gated_from_no_func (q : List Event) (p : Option Event)
    (h : ∀ e ∈ q, e.is_func = false) : gated_from p q = true := by
  induction q generalizing p with
  | nil => rfl
  | cons e es ih =>
    simp only [gated_from, Bool.and_eq_true]
    exact ⟨func_ok_of_not_func p e (h e (List.mem_cons_self _ _)),
      ih (some e) (fun x hx => h x (List.mem_cons_of_mem _ hx))⟩

theorem gated_from_snoc_func (pre : List Event) (e : Event)
    (hpre : ∀ x ∈ pre, x.is_func = false) (he : func_ok pre.getLast? e = true) :
    gated_from none (pre ++ [e]) = true := by
  have key : ∀ (l : List Event) (p : Option Event), (∀ x ∈ l, x.is_func = false) →
      func_ok (l.getLast?.or p) e = true → gated_from p (l ++ [e]) = true := by
    intro l
    induction l with
    | nil =>
      intro p _ h
      simpa [gated_from] using h
    | cons x xs ih =>
      intro p hl h
      simp only [List.cons_append, gated_from, Bool.and_eq_true]
      constructor
      · exact func_ok_of_not_func p x (hl x (List.mem_cons_self _ _))
      · apply ih (some x) (fun y hy => hl y (List.mem_cons_of_mem _ hy))
        cases xs with
        | nil => simpa using h
        | cons y ys => simpa [List.getLast?_cons_cons] using h
  apply key pre none hpre
  cases h : pre.getLast? <;> simpa [h] using he

theorem gated_from_quiet (q : List Event) (p : Option Event) (h : quiet q) :
    gated_from p q = true :=
  gated_from_no_func q p (fun e he => (h e he).1)

/-- What `engage_authentication` has done when it returns: either it failed
(`-1`) and made no handler call, or it returned `0` after one call of the
handshake, and then the slot keeps its descriptor and either has the
authenticated flag set or the answer was `CheckPort` for an unprivileged
peer. -/
theorem engage_authentication_inv (env : Env) (w wa : World) (i r : Int)
    (h : engage_authentication env w i = some (r, wa)) :
    ∃ c, aget w.net.svr_conn i = some c ∧
      ((r = -1 ∧ ∃ q, wa.trace = w.trace ++ q ∧ ∀ e ∈ q, e.is_func = false) ∨
       (r = 0 ∧ ∃ ret, wa.trace = w.trace ++ [Event.server_auth i c.cn_sock ret] ∧
          ∀ c2, aget wa.net.svr_conn i = some c2 →
            c2.cn_sock = c.cn_sock ∧
            (c2.cn_authen &&& PBS_NET_CONN_AUTHENTICATED ≠ 0 ∨
              (ret = CS_ret.CS_AUTH_CHECK_PORT ∧
                c2.cn_authen &&& PBS_NET_CONN_FROM_PRIVIL = 0)))) := by
  unfold engage_authentication at h
  simp only [Option.bind_eq_bind, Option.bind_eq_some] at h
  obtain ⟨c, hc, h⟩ := h
  refine ⟨c, hc, ?_⟩
  obtain ⟨h0, h1⟩ := aget_some_bounds hc
  split at h
  · simp only [Option.some.injEq, Prod.mk.injEq] at h
    left
    refine ⟨h.1.symm, [Event.log_err LogMsg.bad_arguments], by rw [← h.2]; rfl, ?_⟩
    intro e he
    simp at he
    rw [he]
    rfl
  · split at h
    · simp only [Option.bind_eq_some] at h
      obtain ⟨sc, hsc, h⟩ := h
      simp only [Option.some.injEq, Prod.mk.injEq] at h
      obtain ⟨_, _, hsc'⟩ := aset_some hsc
      right
      refine ⟨h.1.symm, _, by rw [← h.2]; rfl, ?_⟩
      intro c2 hc2
      rw [← h.2, hsc'] at hc2
      have := aget_set_self w.net.svr_conn i
        { c with cn_authen := c.cn_authen ||| PBS_NET_CONN_AUTHENTICATED } h0 h1
      rw [show (w.emit (Event.server_auth i c.cn_sock (env.CS_server_auth w c.cn_sock))).net
        = w.net from rfl] at hc2
      rw [this] at hc2
      cases hc2
      exact ⟨rfl, Or.inl (or_authenticated_ne_zero _)⟩
    · split at h
      · rename_i hcp
        split at h
        · simp only [Option.bind_eq_some] at h
          obtain ⟨sc, hsc, h⟩ := h
          simp only [Option.some.injEq, Prod.mk.injEq] at h
          obtain ⟨_, _, hsc'⟩ := aset_some hsc
          right
          refine ⟨h.1.symm, _, by rw [← h.2]; rfl, ?_⟩
          intro c2 hc2
          rw [← h.2, hsc'] at hc2
          have := aget_set_self w.net.svr_conn i
            { c with cn_authen := c.cn_authen ||| PBS_NET_CONN_AUTHENTICATED } h0 h1
          rw [show (w.emit (Event.server_auth i c.cn_sock
            (env.CS_server_auth w c.cn_sock))).net = w.net from rfl] at hc2
          rw [this] at hc2
          cases hc2
          exact ⟨rfl, Or.inl (or_authenticated_ne_zero _)⟩
        · rename_i hpriv
          simp only [Option.some.injEq, Prod.mk.injEq] at h
          right
          refine ⟨h.1.symm, _, by rw [← h.2]; rfl, ?_⟩
          intro c2 hc2
          rw [← h.2] at hc2
          rw [show (w.emit (Event.server_auth i c.cn_sock
            (env.CS_server_auth w c.cn_sock))).net = w.net from rfl, hc] at hc2
          cases hc2
          exact ⟨rfl, Or.inr ⟨hcp, by simpa using hpriv⟩⟩
      · simp only [Option.some.injEq, Prod.mk.injEq] at h
        left
        refine ⟨h.1.symm, [Event.server_auth i c.cn_sock (env.CS_server_auth w c.cn_sock),
          Event.log_err LogMsg.unable_to_authenticate], by rw [← h.2]; simp [World.emit], ?_⟩
        intro e he
        simp at he
        rcases he with rfl | rfl <;> rfl

theorem wait_request_auth_inv (env : Env) (w1 wa : World) (i r : Int) (c1 : connection)
    (hc1 : aget w1.net.svr_conn i = some c1)
    (h : wait_request_auth env w1 i c1 = some (r, wa)) :
    (r = -1 ∧ ∃ q, wa.trace = w1.trace ++ q ∧ ∀ e ∈ q, e.is_func = false) ∨
    (r = 0 ∧ ∃ pre, wa.trace = w1.trace ++ pre ∧ (∀ e ∈ pre, e.is_func = false) ∧
      ∀ c2, aget wa.net.svr_conn i = some c2 →
        c2.cn_sock = c1.cn_sock ∧
        func_ok pre.getLast?
          (Event.func i c2.cn_func c2.cn_sock c2.cn_active c2.cn_authen) = true) := by
  unfold wait_request_auth at h
  split at h
  · split at h
    · obtain ⟨c, hc, hcases⟩ := engage_authentication_inv env w1 wa i r h
      rw [hc1] at hc
      cases hc
      rcases hcases with ⟨hr, hq⟩ | ⟨hr, ret, htr, hslot⟩
      · exact Or.inl ⟨hr, hq⟩
      · right
        refine ⟨hr, [Event.server_auth i c1.cn_sock ret], htr, ?_, ?_⟩
        · intro e he
          simp at he
          rw [he]
          rfl
        · intro c2 hc2
          obtain ⟨hs, hflag⟩ := hslot c2 hc2
          refine ⟨hs, ?_⟩
          rcases hflag with hf | ⟨hret, hp⟩
          · simp [func_ok, hf]
          · simp [func_ok, hret, hp, hs]
    · rename_i hauth
      simp only [Option.some.injEq, Prod.mk.injEq] at h
      right
      refine ⟨h.1.symm, [], by rw [← h.2]; simp, by simp, ?_⟩
      intro c2 hc2
      rw [← h.2, hc1] at hc2
      cases hc2
      refine ⟨rfl, ?_⟩
      have : c1.cn_authen &&& PBS_NET_CONN_AUTHENTICATED ≠ 0 := by simpa using hauth
      simp [func_ok, this]
  · rename_i htype
    simp only [Option.some.injEq, Prod.mk.injEq] at h
    right
    refine ⟨h.1.symm, [], by rw [← h.2]; simp, by simp, ?_⟩
    intro c2 hc2
    rw [← h.2, hc1] at hc2
    cases hc2
    refine ⟨rfl, ?_⟩
    have : c1.cn_active = conn_type.Primary ∨ c1.cn_active = conn_type.RppComm ∨
        c1.cn_active = conn_type.Secondary := by
      by_contra hcon
      simp only [not_or] at hcon
      exact htype ⟨hcon.1, hcon.2.1, hcon.2.2⟩
    rcases this with h1 | h1 | h1 <;> simp [func_ok, h1]

theorem wait_request_active_gated (env : Env) (w1 w' : World) (i : Int) (c1 : connection)
    (hc1 : aget w1.net.svr_conn i = some c1)
    (h : wait_request_active env w1 i c1 = some w') :
    ∃ evs, w'.trace = w1.trace ++ evs ∧ gated_from none evs = true := by
  unfold wait_request_active at h
  simp only [Option.bind_eq_bind, Option.bind_eq_some] at h
  obtain ⟨a, ha, c2, hc2, h⟩ := h
  have ha' : wait_request_auth env w1 i c1 = some (a.1, a.2) := ha
  rcases wait_request_auth_inv env w1 a.2 i a.1 c1 hc1 ha' with
    ⟨hr, q, hq, hnf⟩ | ⟨hr, pre, hpre, hnf, hslot⟩
  · simp only [hr, if_true] at h
    obtain ⟨q2, hq2, hquiet⟩ := close_conn_quiet env _ _ _ h
    refine ⟨q ++ q2, by rw [hq2, hq, List.append_assoc], ?_⟩
    exact gated_from_append _ _ _ (gated_from_no_func _ _ hnf) (gated_from_quiet _ _ hquiet)
  · have hne : ¬ a.1 = -1 := by omega
    simp only [hne, if_false] at h
    obtain ⟨q2, hq2, hquiet⟩ := call_func_quiet env _ _ _ _ h
    refine ⟨(pre ++ [Event.func i c2.cn_func c2.cn_sock c2.cn_active c2.cn_authen]) ++ q2,
      ?_, ?_⟩
    · rw [hq2, emit_trace, hpre]
      simp
    · exact gated_from_append _ _ _ (gated_from_snoc_func _ _ hnf (hslot c2 hc2).2)
        (gated_from_quiet _ _ hquiet)

theorem wait_request_ready_gated (env : Env) (w0 w' : World) (i : Int)
    (h : wait_request_ready env w0 i = some w') :
    ∃ evs, w'.trace = w0.trace ++ evs ∧ gated_from none evs = true := by
  unfold wait_request_ready at h
  simp only [Option.bind_eq_bind, Option.bind_eq_some] at h
  obtain ⟨c, _, sc, _, c1, hc1, h⟩ := h
  split at h
  · exact wait_request_active_gated env
      { w0 with net := { w0.net with svr_conn := sc } } w' i c1 hc1 h
  · unfold wait_request_idle at h
    simp only [Option.bind_eq_bind, Option.bind_eq_some] at h
    obtain ⟨net, _, h⟩ := h
    simp only [Option.some.injEq] at h
    refine ⟨[Event.close c1.cn_sock], by rw [← h]; rfl, ?_⟩
    rfl

theorem wait_request_body_gated (env : Env) (i n n' : Int) (w w' : World)
    (h : wait_request_body env i n w = some (n', w')) :
    ∃ evs, w'.trace = w.trace ++ evs ∧ gated_from none evs = true := by
  unfold wait_request_body at h
  simp only [Option.bind_eq_bind, Option.bind_eq_some] at h
  obtain ⟨r, hr, h⟩ := h
  have hr' : selpoll_fd_isset w i = some (r.1, r.2) := hr
  obtain ⟨⟨q0, hq0, hquiet0⟩, _, _, _⟩ := selpoll_fd_isset_quiet w r.2 i r.1 hr'
  split at h
  · simp only [Option.map_eq_some'] at h
    obtain ⟨w3, hw3, h⟩ := h
    simp only [Prod.mk.injEq] at h
    obtain ⟨evs, hevs, hg⟩ := wait_request_ready_gated env r.2 w3 i hw3
    refine ⟨q0 ++ evs, by rw [← h.2, hevs, hq0, List.append_assoc], ?_⟩
    exact gated_from_append _ _ _ (gated_from_quiet _ _ hquiet0) hg
  · simp only [Option.some.injEq, Prod.mk.injEq] at h
    exact ⟨q0, by rw [← h.2, hq0], gated_from_quiet _ _ hquiet0⟩

theorem wait_request_loop_gated (env : Env) :
    ∀ (fuel : Nat) (i n : Int) (w w' : World),
      wait_request_loop env fuel i n w = some w' →
      ∃ evs, w'.trace = w.trace ++ evs ∧ gated_from none evs = true := by
  intro fuel
  induction fuel with
  | zero =>
    intro i n w w' h
    unfold wait_request_loop at h
    split at h
    · cases h
    · simp only [Option.some.injEq] at h
      exact ⟨[], by simp [h], rfl⟩
  | succ fuel ih =>
    intro i n w w' h
    unfold wait_request_loop at h
    split at h
    · simp only [Option.bind_eq_bind, Option.bind_eq_some] at h
      obtain ⟨r, hr, h⟩ := h
      have hr' : wait_request_body env i n w = some (r.1, r.2) := hr
      obtain ⟨e1, he1, hg1⟩ := wait_request_body_gated env i n r.1 w r.2 hr'
      obtain ⟨e2, he2, hg2⟩ := ih _ _ _ _ h
      exact ⟨e1 ++ e2, by rw [he2, he1, List.append_assoc],
        gated_from_append _ _ _ hg1 hg2⟩
    · simp only [Option.some.injEq] at h
      exact ⟨[], by simp [h], rfl⟩

theorem wait_request_dispatch_gated (env : Env) (n r : Int) (w w' : World)
    (h : wait_request_dispatch env n w = some (r, w')) :
    ∃ evs, w'.trace = w.trace ++ evs ∧ gated_from none evs = true := by
  unfold wait_request_dispatch at h
  simp only [Option.bind_eq_bind, Option.bind_eq_some] at h
  obtain ⟨w1, hw1, w2, hw2, h⟩ := h
  simp only [Option.some.injEq, Prod.mk.injEq] at h
  obtain ⟨e1, he1, hg1⟩ := wait_request_loop_gated env _ _ _ _ _ hw1
  obtain ⟨q, hq, hquiet⟩ := connection_idlecheck_loop_quiet env _ _ _ _ _ hw2
  exact ⟨e1 ++ q, by rw [← h.2, hq, he1, List.append_assoc],
    gated_from_append _ _ _ hg1 (gated_from_quiet _ _ hquiet)⟩

theorem wait_request_gated (env : Env) (waittime r : Int) (w w' : World)
    (h : wait_request env w waittime = some (r, w')) :
    ∃ evs, w'.trace = w.trace ++ evs ∧ gated_from none evs = true := by
  unfold wait_request at h
  dsimp only at h
  split at h
  · split at h
    · exact wait_request_dispatch_gated env _ _ _ _ h
    · split at h
      · cases h
      · simp only [Option.some.injEq, Prod.mk.injEq] at h
        exact ⟨[Event.log_err LogMsg.poll_failed], by rw [← h.2]; rfl, rfl⟩
  · split at h
    · exact wait_request_dispatch_gated env _ _
        { w with net := { w.net with
            pollfds := poll_fill (env.poll_revents w) (w.net.maxfdx + 1) 0 w.net.pollfds } }
        _ h
    · cases h

theorem gated_from_at (l : List Event) :
    ∀ (p : Option Event), gated_from p l = true →
      ∀ (pre post : List Event) (e : Event), l = pre ++ e :: post →
        func_ok (pre.getLast?.or p) e = true := by
  induction l with
  | nil =>
    intro p _ pre post e hl
    simp at hl
  | cons x xs ih =>
    intro p h pre post e hl
    simp only [gated_from, Bool.and_eq_true] at h
    cases pre with
    | nil =>
      simp only [List.nil_append, List.cons.injEq] at hl
      rw [← hl.1]
      simpa using h.1
    | cons y ys =>
      simp only [List.cons_append, List.cons.injEq] at hl
      have := ih (some x) h.2 ys post e hl.2
      rw [← hl.1]
      cases ys with
      | nil => simpa using this
      | cons z zs => simpa [List.getLast?_cons_cons] using this

/-! ## Slots that are not ready, and sweeps that find nothing -/

/-- `wait_request` on a ready slot: `cn_lasttime` is set, then the slot is
dispatched according to its type. -/
theorem wait_request_ready_eq (env : Env) (w : World) (i : Int) (c : connection)
    (hc : aget w.net.svr_conn i = some c) :
    wait_request_ready env w i =
      if c.cn_active ≠ conn_type.Idle then
        wait_request_active env (touched w i c) i { c with cn_lasttime := w.now }
      else
        wait_request_idle (touched w i c) i { c with cn_lasttime := w.now } := by
  obtain ⟨h0, h1⟩ := aget_some_bounds hc
  simp only [wait_request_ready, hc, aset_of_bounds _ _ _ h0 h1, Option.bind_eq_bind,
    Option.some_bind, aget_set_self _ _ _ h0 h1]
  rfl

theorem aget_touched (w : World) (i : Int) (c : connection)
    (hc : aget w.net.svr_conn i = some c) :
    aget (touched w i c).net.svr_conn i = some { c with cn_lasttime := w.now } := by
  obtain ⟨h0, h1⟩ := aget_some_bounds hc
  exact aget_set_self _ _ _ h0 h1

theorem engage_authentication_fatal (env : Env) (w : World) (i : Int) (c : connection)
    (hc : aget w.net.svr_conn i = some c) (hs : 0 ≤ c.cn_sock)
    (hret : env.CS_server_auth w c.cn_sock = CS_ret.CS_FATAL) :
    engage_authentication env w i = some (-1, { w with
      trace := w.trace ++ [Event.server_auth i c.cn_sock CS_ret.CS_FATAL,
        Event.log_err LogMsg.unable_to_authenticate] }) := by
  have hsn : ¬ c.cn_sock < 0 := by omega
  simp [engage_authentication, hc, hsn, hret, World.emit]

theorem poll_fill_length (rev : Nat → Nat) (nfds : Int) (l : List pollfd) :
    ∀ k, (poll_fill rev nfds k l).length = l.length := by
  induction l with
  | nil => intro k; rfl
  | cons p ps ih => intro k; simp [poll_fill, ih]

theorem poll_fill_getElem? (rev : Nat → Nat) (nfds : Int) (l : List pollfd) :
    ∀ (k m : Nat), (poll_fill rev nfds k l)[m]? =
      (l[m]?).map (fun p =>
        if ((k + m : Nat) : Int) < nfds then
          { p with revents := if p.fd < 0 then 0 else rev (k + m) }
        else p) := by
  induction l with
  | nil => intro k m; simp [poll_fill]
  | cons p ps ih =>
    intro k m
    cases m with
    | zero => simp [poll_fill]
    | succ m =>
      simp only [poll_fill, List.getElem?_cons_succ, ih (k + 1) m]
      have : k + 1 + m = k + (m + 1) := by omega
      rw [this]

theorem aget_poll_fill (rev : Nat → Nat) (nfds : Int) (l : List pollfd) (j : Int)
    (p : pollfd) (h : aget l j = some p) :
    aget (poll_fill rev nfds 0 l) j = some
      (if j < nfds then { p with revents := if p.fd < 0 then 0 else rev j.toNat } else p) := by
  obtain ⟨h0, _⟩ := aget_some_bounds h
  unfold aget at h ⊢
  have hj : ¬ j < 0 := by omega
  simp only [hj, if_false] at h ⊢
  rw [poll_fill_getElem?, h]
  have e : ((j.toNat : Nat) : Int) = j := by omega
  have e2 : 0 + j.toNat = j.toNat := by omega
  simp only [Option.map_some', e2, e]

theorem track_append (a b : List Event) : ∀ seen, track seen (a ++ b) = track (track seen a) b := by
  induction a with
  | nil => intro seen; rfl
  | cons e es ih =>
    intro seen
    cases e <;> simp [track, ih]

theorem once_from_append (a b : List Event) :
    ∀ seen, once_from seen (a ++ b) = (once_from seen a && once_from (track seen a) b) := by
  induction a with
  | nil => intro seen; simp [once_from, track]
  | cons e es ih =>
    intro seen
    cases e <;> simp [once_from, track, ih, Bool.and_assoc]

/-- Events without handshakes do not add descriptors to the tracked ones. -/
theorem track_no_auth (q : List Event) (hq : ∀ e ∈ q, e.is_auth = false) :
    ∀ seen, ∀ x ∈ track seen q, x ∈ seen := by
  induction q with
  | nil => intro seen x hx; exact hx
  | cons e es ih =>
    intro seen x hx
    have hes : ∀ e ∈ es, e.is_auth = false := fun y hy => hq y (List.mem_cons_of_mem _ hy)
    have he := hq e (List.mem_cons_self _ _)
    cases e with
    | server_auth idx sd ret => simp [Event.is_auth] at he
    | close fd =>
      simp only [track] at hx
      exact (List.mem_filter.mp (ih hes _ x hx)).1
    | func _ _ _ _ _ => exact ih hes seen x hx
    | oncl _ _ _ => exact ih hes seen x hx
    | cs_close_socket _ => exact ih hes seen x hx
    | accept _ _ => exact ih hes seen x hx
    | log_err _ => exact ih hes seen x hx

/-- Events without handshakes that contain `close(sd)` leave `sd` untracked. -/
theorem track_closed (q : List Event) (sd : Int) (hq : ∀ e ∈ q, e.is_auth = false)
    (hc : Event.close sd ∈ q) : ∀ seen, sd ∉ track seen q := by
  induction q with
  | nil => cases hc
  | cons e es ih =>
    intro seen
    have hes : ∀ e ∈ es, e.is_auth = false := fun y hy => hq y (List.mem_cons_of_mem _ hy)
    rcases List.mem_cons.mp hc with h | h
    · rw [← h]
      simp only [track]
      intro hmem
      have := track_no_auth es hes _ sd hmem
      simp at this
    · have he := hq e (List.mem_cons_self _ _)
      cases e with
      | server_auth idx sd' ret => simp [Event.is_auth] at he
      | close fd => exact ih hes h _
      | func _ _ _ _ _ => exact ih hes h seen
      | oncl _ _ _ => exact ih hes h seen
      | cs_close_socket _ => exact ih hes h seen
      | accept _ _ => exact ih hes h seen
      | log_err _ => exact ih hes h seen

theorem once_from_no_auth (q : List Event) (hq : ∀ e ∈ q, e.is_auth = false) :
    ∀ seen, once_from seen q = true := by
  induction q with
  | nil => intro seen; rfl
  | cons e es ih =>
    intro seen
    have hes : ∀ e ∈ es, e.is_auth = false := fun y hy => hq y (List.mem_cons_of_mem _ hy)
    have he := hq e (List.mem_cons_self _ _)
    cases e with
    | server_auth idx sd ret => simp [Event.is_auth] at he
    | close fd => exact ih hes _
    | func _ _ _ _ _ => exact ih hes seen
    | oncl _ _ _ => exact ih hes seen
    | cs_close_socket _ => exact ih hes seen
    | accept _ _ => exact ih hes seen
    | log_err _ => exact ih hes seen

theorem quiet_no_auth {q : List Event} (h : quiet q) : ∀ e ∈ q, e.is_auth = false :=
  fun e he => (h e he).2

/-! ## One handshake per connection: slots -/

theorem conn_inv_set (l : List connection) (max i : Int) (c x : connection)
    (h : conn_inv l max) (hc : aget l i = some c)
    (hr : x.cn_sock = -1 ∨ (0 ≤ x.cn_sock ∧ x.cn_sock < max))
    (hu : x.cn_sock ≠ -1 → ∀ j cj, j ≠ i → aget l j = some cj → cj.cn_sock ≠ x.cn_sock)
    (hh : x.cn_oncl ≠ accept_conn_ptr) : conn_inv (l.set i.toNat x) max := by
  obtain ⟨hlen, hrange, huniq, hhooks⟩ := h
  obtain ⟨h0, h1⟩ := aget_some_bounds hc
  refine ⟨by simpa using hlen, ?_, ?_, ?_⟩
  · intro c' hc'
    rcases List.mem_or_eq_of_mem_set hc' with h | h
    · exact hrange c' h
    · rw [h]; exact hr
  · intro a b ca cb ha hb hab hne
    by_cases hai : a = i
    · by_cases hbi : b = i
      · rw [hai, hbi]
      · subst hai
        rw [aget_set_self _ _ _ h0 h1] at ha
        cases ha
        rw [aget_set_ne _ _ _ _ h0 (Ne.symm hbi)] at hb
        exact absurd hab.symm (hu hne b cb hbi hb)
    · rw [aget_set_ne _ _ _ _ h0 (Ne.symm hai)] at ha
      by_cases hbi : b = i
      · subst hbi
        rw [aget_set_self _ _ _ h0 h1] at hb
        cases hb
        exact absurd hab (hu (by rw [← hab]; exact hne) a ca hai ha)
      · rw [aget_set_ne _ _ _ _ h0 (Ne.symm hbi)] at hb
        exact huniq a b ca cb ha hb hab hne
  · intro c' hc'
    rcases List.mem_or_eq_of_mem_set hc' with h | h
    · exact hhooks c' h
    · rw [h]; exact hh

/-- Replacing a slot by a record with the same descriptor and hook. -/
theorem conn_inv_set_same (l : List connection) (max i : Int) (c x : connection)
    (h : conn_inv l max) (hc : aget l i = some c) (hs : x.cn_sock = c.cn_sock)
    (ho : x.cn_oncl = c.cn_oncl) : conn_inv (l.set i.toNat x) max := by
  apply conn_inv_set l max i c x h hc
  · rw [hs]; exact h.2.1 c (aget_mem hc)
  · intro hne j cj hji hj heq
    exact hji (h.2.2.1 j i cj c hj hc (by rw [heq, hs]) (by rw [heq]; exact hne))
  · rw [ho]; exact h.2.2.2 c (aget_mem hc)

/-- Emptying a slot. -/
theorem conn_inv_set_empty (l : List connection) (max i : Int) (c x : connection)
    (h : conn_inv l max) (hc : aget l i = some c) (hs : x.cn_sock = -1)
    (ho : x.cn_oncl = c.cn_oncl) : conn_inv (l.set i.toNat x) max := by
  apply conn_inv_set l max i c x h hc (Or.inl hs)
  · intro hne
    exact absurd hs hne
  · rw [ho]; exact h.2.2.2 c (aget_mem hc)

theorem authed_set (l : List connection) (i sd : Int) (c x : connection)
    (h : authed l sd) (hc : aget l i = some c)
    (hkeep : c.cn_sock = sd → c.cn_authen &&& PBS_NET_CONN_AUTHENTICATED ≠ 0 →
      x.cn_sock = sd ∧ x.cn_authen &&& PBS_NET_CONN_AUTHENTICATED ≠ 0) :
    authed (l.set i.toNat x) sd := by
  obtain ⟨hne, c0, hc0, hs0, ha0⟩ := h
  obtain ⟨h0, h1⟩ := aget_some_bounds hc
  obtain ⟨j, hj⟩ := mem_aget hc0
  refine ⟨hne, ?_⟩
  by_cases hji : j = i
  · subst hji
    rw [hc] at hj
    cases hj
    obtain ⟨hx1, hx2⟩ := hkeep hs0 ha0
    exact ⟨x, aget_mem (aget_set_self _ _ _ h0 h1), hx1, hx2⟩
  · exact ⟨c0, aget_mem (by rw [aget_set_ne _ _ _ _ h0 (Ne.symm hji)]; exact hj), hs0, ha0⟩

/-- Events without handshakes keep the relation. -/
theorem trace_rel_quiet (l : List connection) (tr q : List Event) (h : trace_rel l tr)
    (hq : ∀ e ∈ q, e.is_auth = false) : trace_rel l (tr ++ q) := by
  refine ⟨?_, ?_⟩
  · intro sd hsd
    rw [track_append] at hsd
    exact h.1 sd (track_no_auth q hq _ sd hsd)
  · rw [once_from_append, h.2, once_from_no_auth q hq]
    rfl

/-- Replacing a slot by a record that keeps its descriptor and does not clear
the authenticated flag keeps the relation. -/
theorem trace_rel_set (l : List connection) (tr : List Event) (i : Int) (c x : connection)
    (h : trace_rel l tr) (hc : aget l i = some c)
    (hkeep : c.cn_sock ≠ -1 → c.cn_authen &&& PBS_NET_CONN_AUTHENTICATED ≠ 0 →
      x.cn_sock = c.cn_sock ∧ x.cn_authen &&& PBS_NET_CONN_AUTHENTICATED ≠ 0) :
    trace_rel (l.set i.toNat x) tr := by
  refine ⟨?_, h.2⟩
  intro sd hsd
  have ha := h.1 sd hsd
  apply authed_set l i sd c x ha hc
  intro hs hauth
  have := hkeep (by rw [hs]; exact ha.1) hauth
  exact ⟨by rw [this.1, hs], this.2⟩

/-- Releasing a slot, with `close` of its descriptor among the events, keeps
the relation. -/
theorem trace_rel_release (l : List connection) (tr q : List Event) (i : Int)
    (c x : connection) (h : trace_rel l tr) (hc : aget l i = some c)
    (hq : ∀ e ∈ q, e.is_auth = false) (hclose : Event.close c.cn_sock ∈ q) :
    trace_rel (l.set i.toNat x) (tr ++ q) := by
  refine ⟨?_, ?_⟩
  · intro sd hsd
    rw [track_append] at hsd
    have hne : c.cn_sock ≠ sd := by
      intro heq
      rw [← heq] at hsd
      exact track_closed q c.cn_sock hq hclose _ hsd
    apply authed_set l i sd c x (h.1 sd (track_no_auth q hq _ sd hsd)) hc
    intro hs
    exact absurd hs hne
  · rw [once_from_append, h.2, once_from_no_auth q hq]
    rfl

theorem not_tracked_of_unauth (l : List connection) (max : Int) (tr : List Event) (i : Int)
    (c : connection) (h : trace_rel l tr) (hinv : conn_inv l max) (hc : aget l i = some c)
    (hauth : c.cn_authen &&& PBS_NET_CONN_AUTHENTICATED = 0) :
    c.cn_sock ∉ track [] tr := by
  intro hmem
  obtain ⟨hne, c0, hc0, hs0, ha0⟩ := h.1 c.cn_sock hmem
  obtain ⟨j, hj⟩ := mem_aget hc0
  have := hinv.2.2.1 j i c0 c hj hc hs0 (by rw [hs0]; exact hne)
  subst this
  rw [hc] at hj
  cases hj
  exact ha0 hauth

/-- A handshake that sets the authenticated flag of an unauthenticated slot
keeps the relation. -/
theorem trace_rel_auth (l : List connection) (max : Int) (tr : List Event) (i idx : Int)
    (ret : CS_ret) (c x : connection) (h : trace_rel l tr) (hinv : conn_inv l max)
    (hc : aget l i = some c) (hlive : c.cn_sock ≠ -1)
    (hauth : c.cn_authen &&& PBS_NET_CONN_AUTHENTICATED = 0)
    (hx : x.cn_sock = c.cn_sock)
    (hxa : x.cn_authen &&& PBS_NET_CONN_AUTHENTICATED ≠ 0) :
    trace_rel (l.set i.toNat x) (tr ++ [Event.server_auth idx c.cn_sock ret]) := by
  obtain ⟨h0, h1⟩ := aget_some_bounds hc
  have hnt := not_tracked_of_unauth l max tr i c h hinv hc hauth
  refine ⟨?_, ?_⟩
  · intro sd hsd
    rw [track_append] at hsd
    simp only [track, List.mem_cons] at hsd
    rcases hsd with hsd | hsd
    · rw [hsd]
      exact ⟨hlive, x, aget_mem (aget_set_self _ _ _ h0 h1), hx, hxa⟩
    · apply authed_set l i sd c x (h.1 sd hsd) hc
      intro _ ha
      exact absurd hauth ha
  · rw [once_from_append, h.2]
    simp [once_from, hnt]

/-- A failed handshake on an unauthenticated slot, followed by its release,
keeps the relation. -/
theorem trace_rel_auth_fail (l : List connection) (max : Int) (tr q : List Event)
    (i idx : Int) (ret : CS_ret) (c x : connection) (h : trace_rel l tr)
    (hinv : conn_inv l max) (hc : aget l i = some c)
    (hauth : c.cn_authen &&& PBS_NET_CONN_AUTHENTICATED = 0)
    (hq : ∀ e ∈ q, e.is_auth = false) (hclose : Event.close c.cn_sock ∈ q) :
    trace_rel (l.set i.toNat x) (tr ++ Event.server_auth idx c.cn_sock ret :: q) := by
  have hnt := not_tracked_of_unauth l max tr i c h hinv hc hauth
  refine ⟨?_, ?_⟩
  · intro sd hsd
    rw [track_append] at hsd
    simp only [track] at hsd
    have hne : c.cn_sock ≠ sd := by
      intro heq
      rw [← heq] at hsd
      exact track_closed q c.cn_sock hq hclose _ hsd
    have hmem := track_no_auth q hq _ sd hsd
    simp only [List.mem_cons] at hmem
    rcases hmem with hmem | hmem
    · exact absurd hmem.symm hne
    · apply authed_set l i sd c x (h.1 sd hmem) hc
      intro hs
      exact absurd hs hne
  · rw [once_from_append, h.2]
    simp [once_from, hnt, once_from_no_auth q hq]

/-! ## One handshake per connection: the operations -/

theorem tick_inv_mk (w w' : World) (hinv : tick_inv w)
    (hmax : w'.net.max_connection = w.net.max_connection)
    (hpl : w'.net.pollfds.length = w.net.pollfds.length)
    (hconn : conn_inv w'.net.svr_conn w.net.max_connection)
    (hrel : trace_rel w'.net.svr_conn w'.trace) : tick_inv w' := by
  obtain ⟨hm, hp, _, _⟩ := hinv
  refine ⟨by rw [hmax]; exact hm, ?_, by rw [hmax]; exact hconn, hrel⟩
  unfold polls_ok at hp ⊢
  rw [hmax, hpl]
  exact hp

theorem tick_inv_table_ok (w : World) (hinv : tick_inv w) : table_ok w.net := by
  obtain ⟨hm, _, ⟨hlen, hrange, _, _⟩, _⟩ := hinv
  refine ⟨hm, hlen, ?_⟩
  intro c hc
  have hmr := hm.2
  unfold int_range at hmr ⊢
  rcases hrange c hc with h | h <;> omega

/-- Under `env_ok`, a hook that is not `accept_conn` leaves the variables alone. -/
theorem hook_neutral_of_env_ok (env : Env) (henv : env_ok env) (f : Nat)
    (hf : f ≠ accept_conn_ptr) : hook_neutral env f := by
  intro h0 sd w
  simp [call_func, h0, hf, henv.1]

theorem close_events_no_auth (env : Env) (w : World) (sd idx : Int) (c : connection) :
    ∀ e ∈ close_events env w sd idx c, e.is_auth = false := by
  intro e he
  unfold close_events at he
  simp only [List.mem_append] at he
  rcases he with he | he
  · split at he
    · simp only [List.mem_append, List.mem_singleton] at he
      rcases he with (he | he) | he
      · rw [he]; rfl
      · split at he
        · simp only [List.mem_singleton] at he
          rw [he]; rfl
        · cases he
      · rw [he]; rfl
    · simp only [List.mem_singleton] at he
      rw [he]; rfl
  · split at he
    · simp only [List.mem_singleton] at he
      rw [he]; rfl
    · cases he

theorem close_mem_close_events (env : Env) (w : World) (sd idx : Int) (c : connection) :
    Event.close sd ∈ close_events env w sd idx c := by
  unfold close_events
  apply List.mem_append_left
  split
  · simp
  · simp

/-- `close_conn` keeps the invariant. -/
theorem close_conn_tick_inv (env : Env) (henv : env_ok env) (w w' : World) (sd : Int)
    (hinv : tick_inv w) (h : close_conn env w sd = some w') : tick_inv w' := by
  by_cases hrange : sd < 0 ∨ w.net.max_connection ≤ sd
  · rw [close_conn_out_of_range env w sd hrange] at h
    cases h
    exact hinv
  · have hsd : 0 ≤ sd ∧ sd < w.net.max_connection := by omega
    have hok := tick_inv_table_ok w hinv
    have hsr : int_range sd := by
      have := hok.1.2
      unfold int_range at this ⊢
      omega
    obtain ⟨r, hfind, _, hfirst⟩ := find_actual_index_probe w.net sd hok hsd.1 hsr
    by_cases hr : r = -1
    · rw [hr] at hfind
      rw [close_conn_not_found env w sd hfind] at h
      cases h
      exact hinv
    · obtain ⟨_, _, _, ⟨c, hc, hsock⟩, _⟩ := hfirst hr
      by_cases hidle : c.cn_active = conn_type.Idle
      · rw [close_conn_idle env w sd r c hfind hc hidle] at h
        cases h
        exact hinv
      · obtain ⟨h0, h1⟩ := aget_some_bounds hc
        have hpl : (w.net.pollfds.length : Int) = w.net.max_connection := hinv.2.1
        obtain ⟨p, hp⟩ := aget_of_bounds w.net.pollfds r h0 (by have := hok.2.1; omega)
        obtain ⟨m', hclose, _, _⟩ := close_conn_found env w sd r c p hsd hfind hr hc hp hidle
          (hook_neutral_of_env_ok env henv _ (hinv.2.2.1.2.2.2 c (aget_mem hc)))
        rw [hclose] at h
        cases h
        refine tick_inv_mk w _ hinv rfl (by simp) ?_ ?_
        · exact conn_inv_set_empty _ _ r c _ hinv.2.2.1 hc rfl rfl
        · exact trace_rel_release _ _ _ r c _ hinv.2.2.2 hc (close_events_no_auth _ _ _ _ _)
            (by rw [hsock]; exact close_mem_close_events _ _ _ _ _)

/-- What `add_conn` does in a well-formed table: nothing when the table is
full, and otherwise it fills an empty slot and arms its poll entry. -/
theorem add_conn_cases (w : World) (sock : Int) (type : conn_type) (addr port func : Nat)
    (hm : 0 < w.net.max_connection)
    (hlen : (w.net.svr_conn.length : Int) = w.net.max_connection) (hpl : polls_ok w.net)
    (hs : 0 ≤ sock) :
    add_conn w sock type addr port func = some (-1, w) ∨
    ∃ r c p, aget w.net.svr_conn r = some c ∧ c.cn_sock = -1 ∧
      aget w.net.pollfds r = some p ∧
      add_conn w sock type addr port func = some (r, { w with net := { w.net with
        num_connections := w.net.num_connections + 1,
        svr_conn := w.net.svr_conn.set r.toNat (added_conn c w.now sock type addr port func),
        pollfds := w.net.pollfds.set r.toNat { p with fd := sock, revents := 0 },
        maxfdx := if r > w.net.maxfdx then r else w.net.maxfdx } }) := by
  obtain ⟨r, hfind, _, hfirst⟩ := find_usable_index_probe w.net sock hm hlen hs
  have hrb : r = -1 ∨ (0 ≤ r ∧ r < w.net.max_connection) := by
    by_cases h : r = -1
    · exact Or.inl h
    · obtain ⟨k, _, hk, _⟩ := hfirst h
      right
      rw [hk]
      exact ⟨Int.emod_nonneg _ (by omega), Int.emod_lt_of_pos _ hm⟩
  obtain ⟨hfull, hadd⟩ := add_conn_eq w sock type addr port func r hfind hlen hpl hrb
  by_cases h : r = -1
  · exact Or.inl (hfull h)
  · obtain ⟨c, p, hc, hp, heq⟩ := hadd h
    obtain ⟨_, _, _, ⟨c0, hc0, hempty⟩, _⟩ := hfirst h
    rw [hc] at hc0
    cases hc0
    exact Or.inr ⟨r, c, p, hc, hempty, hp, heq⟩

theorem tick_inv_emit (w : World) (e : Event) (hinv : tick_inv w) (he : e.is_auth = false) :
    tick_inv (w.emit e) := by
  refine tick_inv_mk w _ hinv rfl rfl hinv.2.2.1 ?_
  exact trace_rel_quiet _ _ [e] hinv.2.2.2 (by
    intro x hx
    simp only [List.mem_singleton] at hx
    rw [hx]
    exact he)

/-- `add_conn` of a descriptor in range that no slot holds keeps the invariant. -/
theorem add_conn_tick_inv (w w' : World) (sock r : Int) (type : conn_type)
    (addr port func : Nat) (hinv : tick_inv w)
    (hs : 0 ≤ sock ∧ sock < w.net.max_connection)
    (hfresh : ∀ c ∈ w.net.svr_conn, c.cn_sock ≠ sock)
    (h : add_conn w sock type addr port func = some (r, w')) : tick_inv w' := by
  rcases add_conn_cases w sock type addr port func hinv.1.1 hinv.2.2.1.1 hinv.2.1 hs.1 with
    hfull | ⟨r0, c, p, hc, hempty, hp, hadd⟩
  · rw [hfull] at h
    cases h
    exact hinv
  · rw [hadd] at h
    cases h
    refine tick_inv_mk w _ hinv rfl (by simp) ?_ ?_
    · have hh : (added_conn c w.now sock type addr port func).cn_oncl ≠ accept_conn_ptr := by
        show (0 : Nat) ≠ accept_conn_ptr
        decide
      refine conn_inv_set _ _ r c _ hinv.2.2.1 hc (Or.inr hs) ?_ hh
      intro _ j cj _ hj
      exact hfresh cj (aget_mem hj)
    · refine trace_rel_set _ _ r c _ hinv.2.2.2 hc ?_
      intro hne
      exact absurd hempty hne

theorem add_conn_bind_tick_inv (w0 w' : World) (sock : Int) (type : conn_type)
    (addr port f : Nat) (hinv : tick_inv w0)
    (hs : 0 ≤ sock ∧ sock < w0.net.max_connection)
    (hfresh : ∀ c ∈ w0.net.svr_conn, c.cn_sock ≠ sock)
    (h : ((some f).bind fun y => (add_conn w0 sock type addr port y).bind
      fun r2 => some r2.2) = some w') : tick_inv w' := by
  simp only [Option.some_bind, Option.bind_eq_some] at h
  obtain ⟨r2, hadd, hres⟩ := h
  simp only [Option.some.injEq] at hres
  rw [← hres]
  have hadd' : add_conn w0 sock type addr port f = some (r2.1, r2.2) := hadd
  exact add_conn_tick_inv w0 r2.2 sock r2.1 type addr port f hinv hs hfresh hadd'

/-- `accept_conn` keeps the invariant, when `accept` returns fresh descriptors
in range. -/
theorem accept_conn_tick_inv (env : Env) (henv : env_ok env) (w w' : World) (sd : Int)
    (hinv : tick_inv w) (h : accept_conn env w sd = some w') : tick_inv w' := by
  unfold accept_conn at h
  simp only [Option.bind_eq_bind, Option.bind_eq_some] at h
  obtain ⟨r0, _, h⟩ := h
  by_cases hr : r0 = -1
  · simp [hr] at h
    rw [← h]
    exact hinv
  · simp only [hr, if_false, Option.bind_eq_some] at h
    obtain ⟨c, hc, sc, hsc, h⟩ := h
    obtain ⟨_, _, hsc'⟩ := aset_some hsc
    subst hsc'
    have hinv1 : tick_inv { w with net := { w.net with
        svr_conn := w.net.svr_conn.set r0.toNat { c with cn_lasttime := w.now } } } := by
      refine tick_inv_mk w _ hinv rfl rfl ?_ ?_
      · exact conn_inv_set_same _ _ r0 c _ hinv.2.2.1 hc rfl rfl
      · exact trace_rel_set _ _ r0 c _ hinv.2.2.2 hc (fun _ ha => ⟨rfl, ha⟩)
    have hacc := henv.2.2 { w with net := { w.net with
        svr_conn := w.net.svr_conn.set r0.toNat { c with cn_lasttime := w.now } } } sd
    split at h
    · simp only [Option.some.injEq] at h
      rw [← h]
      exact tick_inv_emit _ _ (tick_inv_emit _ _ hinv1 rfl) rfl
    · rename_i hnew
      split at h
      · simp only [Option.some.injEq] at h
        rw [← h]
        exact tick_inv_emit _ _ (tick_inv_emit _ _ (tick_inv_emit _ _ hinv1 rfl) rfl) rfl
      · simp only [Option.bind_eq_some] at h
        obtain ⟨c2, _, h⟩ := h
        rcases hacc with hbad | ⟨hrange, hfresh⟩
        · exact absurd hbad hnew
        · have hinv2 := tick_inv_emit _ (Event.accept sd (env.accept { w with net := { w.net with
            svr_conn := w.net.svr_conn.set r0.toNat { c with cn_lasttime := w.now } } } sd).1)
            hinv1 rfl
          split at h
          · exact add_conn_bind_tick_inv _ _ _ _ _ _ _ hinv2 hrange hfresh h
          · split at h
            · exact add_conn_bind_tick_inv _ _ _ _ _ _ _ hinv2 hrange hfresh h
            · simp at h

/-- A call through a function pointer keeps the invariant. -/
theorem call_func_tick_inv (env : Env) (henv : env_ok env) (w w' : World) (f : Nat)
    (sd : Int) (hinv : tick_inv w) (h : call_func env f sd w = some w') : tick_inv w' := by
  unfold call_func at h
  split at h
  · cases h
  · split at h
    · exact accept_conn_tick_inv env henv w w' sd hinv h
    · simp only [Option.some.injEq, henv.1] at h
      rw [← h]
      exact hinv

theorem selpoll_fd_isset_frame (w w' : World) (cndx r : Int)
    (h : selpoll_fd_isset w cndx = some (r, w')) :
    w'.net.max_connection = w.net.max_connection ∧
      w'.net.pollfds.length = w.net.pollfds.length := by
  unfold selpoll_fd_isset at h
  simp only [Option.bind_eq_bind, Option.bind_eq_some] at h
  obtain ⟨c, hc, h⟩ := h
  split at h
  · simp only [Option.some.injEq, Prod.mk.injEq] at h
    rw [← h.2]
    exact ⟨rfl, rfl⟩
  · simp only [Option.bind_eq_some] at h
    obtain ⟨p, _, h⟩ := h
    split at h
    · simp only [Option.some.injEq, Prod.mk.injEq] at h
      rw [← h.2]
      exact ⟨rfl, rfl⟩
    · split at h
      · simp only [Option.bind_eq_some] at h
        obtain ⟨target, _, h⟩ := h
        split at h
        · simp only [Option.bind_eq_some] at h
          obtain ⟨net, hnet, h⟩ := h
          simp only [Option.some.injEq, Prod.mk.injEq] at h
          rw [← h.2]
          have := selpoll_fd_clr_svr_conn _ _ _ hnet
          exact ⟨this.2.1, this.2.2.1⟩
        · simp only [Option.some.injEq, Prod.mk.injEq] at h
          rw [← h.2]
          exact ⟨rfl, rfl⟩
      · split at h
        · simp only [Option.some.injEq, Prod.mk.injEq] at h
          rw [← h.2]
          exact ⟨rfl, rfl⟩
        · simp only [Option.some.injEq, Prod.mk.injEq] at h
          rw [← h.2]
          exact ⟨rfl, rfl⟩

theorem selpoll_fd_isset_tick_inv (w w' : World) (cndx r : Int) (hinv : tick_inv w)
    (h : selpoll_fd_isset w cndx = some (r, w')) : tick_inv w' := by
  obtain ⟨⟨q, hq, hquiet⟩, hsv, _, _⟩ := selpoll_fd_isset_quiet w w' cndx r h
  obtain ⟨hmax, hpl⟩ := selpoll_fd_isset_frame w w' cndx r h
  refine tick_inv_mk w w' hinv hmax hpl (by rw [hsv]; exact hinv.2.2.1) ?_
  rw [hsv, hq]
  exact trace_rel_quiet _ _ q hinv.2.2.2 (quiet_no_auth hquiet)

theorem tick_inv_touched (w : World) (i : Int) (c : connection) (hinv : tick_inv w)
    (hc : aget w.net.svr_conn i = some c) : tick_inv (touched w i c) := by
  refine tick_inv_mk w _ hinv rfl rfl ?_ ?_
  · exact conn_inv_set_same _ _ i c _ hinv.2.2.1 hc rfl rfl
  · exact trace_rel_set _ _ i c _ hinv.2.2.2 hc (fun _ ha => ⟨rfl, ha⟩)

theorem engage_authentication_ok (env : Env) (w : World) (i : Int) (c : connection)
    (hc : aget w.net.svr_conn i = some c) (hs : 0 ≤ c.cn_sock)
    (hret : env.CS_server_auth w c.cn_sock = CS_ret.CS_SUCCESS ∨
      (env.CS_server_auth w c.cn_sock = CS_ret.CS_AUTH_CHECK_PORT ∧
        c.cn_authen &&& PBS_NET_CONN_FROM_PRIVIL ≠ 0)) :
    engage_authentication env w i = some (0,
      { net :=
          { w.net with
            svr_conn := w.net.svr_conn.set i.toNat
              ({ c with cn_authen := c.cn_authen ||| PBS_NET_CONN_AUTHENTICATED }) },
        now := w.now,
        trace := w.trace ++ [Event.server_auth i c.cn_sock (env.CS_server_auth w c.cn_sock)] }) := by
  have hsn : ¬ c.cn_sock < 0 := by omega
  obtain ⟨h0, h1⟩ := aget_some_bounds hc
  rcases hret with hret | ⟨hret, hpriv⟩
  · simp [engage_authentication, hc, hsn, hret, World.emit, aset_of_bounds _ _ _ h0 h1]
  · simp [engage_authentication, hc, hsn, hret, hpriv, World.emit, aset_of_bounds _ _ _ h0 h1]

/-- After a successful handshake on an unauthenticated slot the invariant
holds again. -/
theorem tick_inv_authenticated (w : World) (i : Int) (c : connection) (ret : CS_ret)
    (hinv : tick_inv w) (hc : aget w.net.svr_conn i = some c) (hs : 0 ≤ c.cn_sock)
    (hauth : c.cn_authen &&& PBS_NET_CONN_AUTHENTICATED = 0) :
    tick_inv
      { net :=
          { w.net with
            svr_conn := w.net.svr_conn.set i.toNat
              ({ c with cn_authen := c.cn_authen ||| PBS_NET_CONN_AUTHENTICATED }) },
        now := w.now,
        trace := w.trace ++ [Event.server_auth i c.cn_sock ret] } := by
  refine tick_inv_mk w _ hinv rfl rfl ?_ ?_
  · exact conn_inv_set_same _ _ i c _ hinv.2.2.1 hc rfl rfl
  · exact trace_rel_auth _ _ _ i i ret c _ hinv.2.2.2 hinv.2.2.1 hc (by omega) hauth rfl
      (or_authenticated_ne_zero _)

/-- After a failed handshake on an unauthenticated slot that is not `Idle`,
`close_conn` on its descriptor restores the invariant. -/
theorem close_after_fail_tick_inv (env : Env) (henv : env_ok env) (w w' : World) (i : Int)
    (c : connection) (ret : CS_ret) (hinv : tick_inv w)
    (hc : aget w.net.svr_conn i = some c) (hs : 0 ≤ c.cn_sock)
    (hauth : c.cn_authen &&& PBS_NET_CONN_AUTHENTICATED = 0)
    (hact : c.cn_active ≠ conn_type.Idle)
    (h : close_conn env { w with trace := w.trace ++ [Event.server_auth i c.cn_sock ret,
      Event.log_err LogMsg.unable_to_authenticate] } c.cn_sock = some w') :
    tick_inv w' := by
  have hok := tick_inv_table_ok w hinv
  obtain ⟨h0, h1⟩ := aget_some_bounds hc
  have hsd : 0 ≤ c.cn_sock ∧ c.cn_sock < w.net.max_connection := by
    rcases hinv.2.2.1.2.1 c (aget_mem hc) with h | h
    · omega
    · exact h
  have hfind := find_actual_unique w.net c.cn_sock i c hok hs hc rfl
    (fun j c' hj hs' => hinv.2.2.1.2.2.1 j i c' c hj hc hs' (by rw [hs']; omega))
  have hpl : (w.net.pollfds.length : Int) = w.net.max_connection := hinv.2.1
  obtain ⟨p, hp⟩ := aget_of_bounds w.net.pollfds i h0 (by have := hok.2.1; omega)
  obtain ⟨m', hclose, _, _⟩ := close_conn_found env
    { w with trace := w.trace ++ [Event.server_auth i c.cn_sock ret,
      Event.log_err LogMsg.unable_to_authenticate] }
    c.cn_sock i c p hsd hfind (by omega) hc hp hact
    (hook_neutral_of_env_ok env henv _ (hinv.2.2.1.2.2.2 c (aget_mem hc)))
  rw [hclose] at h
  cases h
  refine tick_inv_mk w _ hinv rfl (by simp) ?_ ?_
  · exact conn_inv_set_empty _ _ i c _ hinv.2.2.1 hc rfl rfl
  · have := trace_rel_auth_fail _ _ w.trace
      (Event.log_err LogMsg.unable_to_authenticate :: close_events env
        { w with trace := w.trace ++ [Event.server_auth i c.cn_sock ret,
          Event.log_err LogMsg.unable_to_authenticate] } c.cn_sock i c)
      i i ret c (cleaned_conn c) hinv.2.2.2 hinv.2.2.1 hc hauth
      (by
        intro e he
        rcases List.mem_cons.mp he with h | h
        · rw [h]; rfl
        · exact close_events_no_auth _ _ _ _ _ e h)
      (List.mem_cons_of_mem _ (close_mem_close_events _ _ _ _ _))
    simpa [List.append_assoc] using this

/-- The authentication gate on a slot that is not `Idle`: either it lets the
handler run in a world that satisfies the invariant, or it answers `-1` and the
`close_conn` that follows restores the invariant. -/
theorem wait_request_auth_tick_inv (env : Env) (henv : env_ok env) (w : World) (i : Int)
    (c : connection) (a : Int × World) (hinv : tick_inv w)
    (hc : aget w.net.svr_conn i = some c) (hact : c.cn_active ≠ conn_type.Idle)
    (h : wait_request_auth env w i c = some a) :
    (a.1 ≠ -1 ∧ tick_inv a.2) ∨
      (a.1 = -1 ∧ aget a.2.net.svr_conn i = some c ∧
        ∀ w', close_conn env a.2 c.cn_sock = some w' → tick_inv w') := by
  unfold wait_request_auth at h
  split at h
  · split at h
    · rename_i hauth
      have hauth : c.cn_authen &&& PBS_NET_CONN_AUTHENTICATED = 0 := by
        by_contra hne
        exact hauth hne
      by_cases hs : c.cn_sock < 0
      · have he : engage_authentication env w i
            = some (-1, w.emit (Event.log_err LogMsg.bad_arguments)) := by
          simp [engage_authentication, hc, hs]
        rw [he] at h
        cases h
        refine Or.inr ⟨rfl, hc, ?_⟩
        intro w' hw'
        exact close_conn_tick_inv env henv _ w' _
          (tick_inv_emit w (Event.log_err LogMsg.bad_arguments) hinv rfl) hw'
      · have hs0 : 0 ≤ c.cn_sock := by omega
        cases hret : env.CS_server_auth w c.cn_sock
        · rw [engage_authentication_ok env w i c hc hs0 (Or.inl hret)] at h
          cases h
          exact Or.inl ⟨(by show (0 : Int) ≠ -1; decide), tick_inv_authenticated w i c _ hinv hc hs0 hauth⟩
        · by_cases hpriv : c.cn_authen &&& PBS_NET_CONN_FROM_PRIVIL = 0
          · exact absurd hret (henv.2.1 w c (aget_mem hc) hpriv)
          · rw [engage_authentication_ok env w i c hc hs0 (Or.inr ⟨hret, hpriv⟩)] at h
            cases h
            exact Or.inl ⟨(by show (0 : Int) ≠ -1; decide), tick_inv_authenticated w i c _ hinv hc hs0 hauth⟩
        · rw [engage_authentication_fatal env w i c hc hs0 hret] at h
          cases h
          refine Or.inr ⟨rfl, hc, ?_⟩
          intro w' hw'
          exact close_after_fail_tick_inv env henv w w' i c _ hinv hc hs0 hauth hact hw'
    · cases h
      exact Or.inl ⟨(by show (0 : Int) ≠ -1; decide), hinv⟩
  · cases h
    exact Or.inl ⟨(by show (0 : Int) ≠ -1; decide), hinv⟩

theorem wait_request_active_tick_inv (env : Env) (henv : env_ok env) (w w' : World) (i : Int)
    (c : connection) (hinv : tick_inv w)
    (hc : aget w.net.svr_conn i = some c) (hact : c.cn_active ≠ conn_type.Idle)
    (h : wait_request_active env w i c = some w') : tick_inv w' := by
  unfold wait_request_active at h
  simp only [Option.bind_eq_bind, Option.bind_eq_some] at h
  obtain ⟨a, ha, c2, hc2, h⟩ := h
  rcases wait_request_auth_tick_inv env henv w i c a hinv hc hact ha with ⟨h1, hA⟩ | ⟨h1, hc', hA⟩
  · rw [if_neg h1] at h
    exact call_func_tick_inv env henv _ w' _ _
      (tick_inv_emit a.2 (Event.func i c2.cn_func c2.cn_sock c2.cn_active c2.cn_authen) hA rfl) h
  · rw [if_pos h1] at h
    rw [hc'] at hc2
    cases hc2
    exact hA w' h

theorem wait_request_idle_tick_inv (w w' : World) (i : Int)
    (c : connection) (hinv : tick_inv w)
    (hc : aget w.net.svr_conn i = some c)
    (h : wait_request_idle w i c = some w') : tick_inv w' := by
  obtain ⟨h0, h1⟩ := aget_some_bounds hc
  have hok := tick_inv_table_ok w hinv
  have hpl : (w.net.pollfds.length : Int) = w.net.max_connection := hinv.2.1
  obtain ⟨p, hp⟩ := aget_of_bounds w.net.pollfds i h0 (by have := hok.2.1; omega)
  obtain ⟨m', hclean, _, _⟩ := cleanup_conn_eq (w.emit (Event.close c.cn_sock)).net i c p hc hp
  unfold wait_request_idle at h
  simp only [Option.bind_eq_bind, hclean, Option.some_bind, Option.some.injEq] at h
  rw [← h]
  refine tick_inv_mk w _ hinv rfl (by simp [World.emit]) ?_ ?_
  · exact conn_inv_set_empty _ _ i c _ hinv.2.2.1 hc rfl rfl
  · exact trace_rel_release _ _ [Event.close c.cn_sock] i c _ hinv.2.2.2 hc
      (by intro e he; rw [List.mem_singleton.mp he]; rfl) (List.mem_singleton.mpr rfl)

theorem wait_request_ready_tick_inv (env : Env) (henv : env_ok env) (w w' : World) (i : Int)
    (hinv : tick_inv w) (h : wait_request_ready env w i = some w') : tick_inv w' := by
  cases hc : aget w.net.svr_conn i with
  | none => simp [wait_request_ready, hc] at h
  | some c =>
    rw [wait_request_ready_eq env w i c hc] at h
    have hT := tick_inv_touched w i c hinv hc
    have hc1 := aget_touched w i c hc
    split at h
    · rename_i hact
      exact wait_request_active_tick_inv env henv _ w' i _ hT hc1 hact h
    · exact wait_request_idle_tick_inv _ w' i _ hT hc1 h

theorem wait_request_body_tick_inv (env : Env) (henv : env_ok env) (i n : Int)
    (w : World) (r : Int × World) (hinv : tick_inv w)
    (h : wait_request_body env i n w = some r) : tick_inv r.2 := by
  unfold wait_request_body at h
  simp only [Option.bind_eq_bind, Option.bind_eq_some] at h
  obtain ⟨a, ha, h⟩ := h
  have hA := selpoll_fd_isset_tick_inv w a.2 i a.1 hinv ha
  split at h
  · simp only [Option.map_eq_some'] at h
    obtain ⟨w3, hw3, h⟩ := h
    rw [← h]
    exact wait_request_ready_tick_inv env henv _ w3 i hA hw3
  · cases h
    exact hA

theorem wait_request_loop_tick_inv (env : Env) (henv : env_ok env) (fuel : Nat) :
    ∀ (i n : Int) (w w' : World), tick_inv w →
      wait_request_loop env fuel i n w = some w' → tick_inv w' := by
  induction fuel with
  | zero =>
    intro i n w w' hinv h
    unfold wait_request_loop at h
    split at h
    · cases h
    · cases h
      exact hinv
  | succ fuel ih =>
    intro i n w w' hinv h
    unfold wait_request_loop at h
    split at h
    · simp only [Option.bind_eq_bind, Option.bind_eq_some] at h
      obtain ⟨r, hr, h⟩ := h
      exact ih _ _ _ _ (wait_request_body_tick_inv env henv i n w r hinv hr) h
    · cases h
      exact hinv

theorem connection_idlecheck_loop_tick_inv (env : Env) (henv : env_ok env) (now : Int)
    (fuel : Nat) :
    ∀ (i : Int) (w w' : World), tick_inv w →
      connection_idlecheck_loop env now fuel i w = some w' → tick_inv w' := by
  induction fuel with
  | zero =>
    intro i w w' hinv h
    unfold connection_idlecheck_loop at h
    split at h
    · cases h
    · cases h
      exact hinv
  | succ fuel ih =>
    intro i w w' hinv h
    unfold connection_idlecheck_loop at h
    split at h
    · simp only [Option.bind_eq_bind, Option.bind_eq_some] at h
      obtain ⟨cp, _, h⟩ := h
      split at h
      · exact ih _ _ _ hinv h
      · split at h
        · exact ih _ _ _ hinv h
        · split at h
          · exact ih _ _ _ hinv h
          · simp only [Option.bind_eq_some] at h
            obtain ⟨w2, hw2, h⟩ := h
            exact ih _ _ _
              (close_conn_tick_inv env henv _ w2 _
                (tick_inv_emit w (Event.log_err LogMsg.timeout_connection) hinv rfl) hw2) h
    · cases h
      exact hinv

theorem wait_request_dispatch_tick_inv (env : Env) (henv : env_ok env) (n : Int)
    (w : World) (r : Int × World) (hinv : tick_inv w)
    (h : wait_request_dispatch env n w = some r) : tick_inv r.2 := by
  unfold wait_request_dispatch at h
  simp only [Option.bind_eq_bind, Option.bind_eq_some] at h
  obtain ⟨w1, hw1, w2, hw2, h⟩ := h
  cases h
  exact connection_idlecheck_loop_tick_inv env henv _ _ _ _ _
    (wait_request_loop_tick_inv env henv _ _ _ _ _ hinv hw1) hw2

theorem wait_request_tick_inv (env : Env) (henv : env_ok env) (waittime : Int)
    (w : World) (r : Int × World) (hinv : tick_inv w)
    (h : wait_request env w waittime = some r) : tick_inv r.2 := by
  unfold wait_request at h
  simp only at h
  split at h
  · split at h
    · exact wait_request_dispatch_tick_inv env henv _ _ r hinv h
    · split at h
      · cases h
      · cases h
        exact tick_inv_emit w (Event.log_err LogMsg.poll_failed) hinv rfl
  · split at h
    · refine wait_request_dispatch_tick_inv env henv _ _ r ?_ h
      exact tick_inv_mk w _ hinv rfl (poll_fill_length _ _ _ _) hinv.2.2.1 hinv.2.2.2
    · cases h

theorem run_ticks_tick_inv (env : Env) (henv : env_ok env) (ticks : List (Int × Int)) :
    ∀ (w w' : World), tick_inv w → run_ticks env ticks w = some w' → tick_inv w' := by
  induction ticks with
  | nil =>
    intro w w' hinv h
    cases h
    exact hinv
  | cons t ts ih =>
    intro w w' hinv h
    unfold run_ticks at h
    simp only [Option.bind_eq_bind, Option.bind_eq_some] at h
    obtain ⟨r, hr, h⟩ := h
    have h0 : tick_inv { w with now := w.now + t.1 } := hinv
    exact ih _ _ (wait_request_tick_inv env henv _ _ r h0 hr) h

/-! ## One handshake per connection: the result -/

/-- A tracked descriptor stays tracked over events that do not close it. -/
theorem track_keeps (q : List Event) (sd : Int) (hq : Event.close sd ∉ q) :
    ∀ seen, sd ∈ seen → sd ∈ track seen q := by
  induction q with
  | nil => intro seen h; exact h
  | cons e es ih =>
    intro seen h
    have hes : Event.close sd ∉ es := fun hm => hq (List.mem_cons_of_mem _ hm)
    cases e with
    | server_auth idx sd' ret => exact ih hes _ (List.mem_cons_of_mem _ h)
    | close fd =>
      have hne : sd ≠ fd := by
        intro heq
        exact hq (by rw [heq]; exact List.mem_cons_self _ _)
      exact ih hes _ (List.mem_filter.mpr ⟨h, by simpa using hne⟩)
    | func _ _ _ _ _ => exact ih hes seen h
    | oncl _ _ _ => exact ih hes seen h
    | cs_close_socket _ => exact ih hes seen h
    | accept _ _ => exact ih hes seen h
    | log_err _ => exact ih hes seen h

/-- In a trace that `once_from` accepts, the descriptor is closed between any
two handshakes for it. -/
theorem once_from_closed (tr : List Event) (seen : List Int) (h : once_from seen tr = true)
    (pre mid post : List Event) (i j sd : Int) (r r' : CS_ret)
    (htr : tr = pre ++ Event.server_auth i sd r :: (mid ++ Event.server_auth j sd r' :: post)) :
    Event.close sd ∈ mid := by
  by_contra hno
  rw [htr, once_from_append] at h
  simp only [once_from, Bool.and_eq_true, once_from_append] at h
  have hmem : sd ∈ track (sd :: track seen pre) mid :=
    track_keeps mid sd hno _ (List.mem_cons_self _ _)
  have := h.2.2.2.1
  simp [hmem] at this

theorem run_ticks_trace (env : Env) (ticks : List (Int × Int)) :
    ∀ (w w' : World), run_ticks env ticks w = some w' → ∃ evs, w'.trace = w.trace ++ evs := by
  induction ticks with
  | nil =>
    intro w w' h
    cases h
    exact ⟨[], by simp⟩
  | cons t ts ih =>
    intro w w' h
    unfold run_ticks at h
    simp only [Option.bind_eq_bind, Option.bind_eq_some] at h
    obtain ⟨r, hr, h⟩ := h
    obtain ⟨e1, he1, _⟩ := wait_request_gated env t.2 r.1 _ r.2 hr
    obtain ⟨e2, he2⟩ := ih _ _ h
    exact ⟨e1 ++ e2, by rw [he2, he1, List.append_assoc]⟩

/-- C9, counterexample.  Two `wait_request` ticks on `sample_two` with a
security library that answers `CheckPort`: the `FromClientDIS` connection of
slot 1, whose peer port is 2000, stays registered and unauthenticated, and its
handshake is called in both ticks with no `close` of descriptor `1` in
between. -/
theorem handshake_called_twice :
    run_ticks sample_env [(0, 1), (0, 1)] sample_two = some sample_two_twice ∧
    sample_two_twice.trace
      = [] ++ Event.server_auth 1 1 CS_ret.CS_AUTH_CHECK_PORT ::
          ([Event.func 1 7 1 conn_type.FromClientDIS 0,
            Event.server_auth 2 2 CS_ret.CS_AUTH_CHECK_PORT,
            Event.func 2 7 2 conn_type.FromClientDIS 3]
          ++ Event.server_auth 1 1 CS_ret.CS_AUTH_CHECK_PORT ::
            [Event.func 1 7 1 conn_type.FromClientDIS 0,
             Event.func 2 7 2 conn_type.FromClientDIS 3]) ∧
    Event.close 1 ∉ [Event.func 1 7 1 conn_type.FromClientDIS 0,
                     Event.server_auth 2 2 CS_ret.CS_AUTH_CHECK_PORT,
                     Event.func 2 7 2 conn_type.FromClientDIS 3] := by
  decide

theorem sample_env_accept_ok : env_ok sample_env_accept := by
  refine ⟨fun _ _ _ => rfl, ?_, ?_⟩
  · intro w c _ _ h
    cases h
  · intro w sd
    by_cases hc : (decide (1 < w.net.max_connection) &&
        w.net.svr_conn.all (fun c => decide (c.cn_sock ≠ 1))) = true
    · right
      have e : sample_env_accept.accept w sd = (1, 7, 2000) := by
        simp only [sample_env_accept, hc, if_true]
      rw [e]
      simp only [Bool.and_eq_true, decide_eq_true_eq, List.all_eq_true] at hc
      exact ⟨⟨by decide, hc.1⟩, hc.2⟩
    · left
      have e : sample_env_accept.accept w sd = (-1, 0, 0) := by
        simp only [sample_env_accept, hc, if_false]
        rfl
      rw [e]

theorem sample_listen_slots (j : Int) (c : connection)
    (h : aget sample_listen.net.svr_conn j = some c) :
    (j = 0 ∧ c = sample_listener 100) ∨ (j ≠ 0 ∧ c = sample_empty) := by
  obtain ⟨h0, h1⟩ := aget_some_bounds h
  have hj : j = 0 ∨ j = 1 ∨ j = 2 ∨ j = 3 := by
    simp [sample_listen] at h1
    omega
  rcases hj with rfl | rfl | rfl | rfl <;> simp [aget, sample_listen] at h <;> simp [h]

theorem sample_listen_inv : tick_inv sample_listen := by
  refine ⟨by decide, by decide, ⟨by decide, ?_, ?_, ?_⟩, ?_, rfl⟩
  · intro c hc
    simp only [sample_listen, List.mem_cons, List.mem_singleton, List.not_mem_nil,
      or_false] at hc
    rcases hc with rfl | rfl | rfl | rfl <;> decide
  · intro i j ci cj hi hj hs hne
    rcases sample_listen_slots i ci hi with ⟨hi0, hci⟩ | ⟨hi0, hci⟩
    · rcases sample_listen_slots j cj hj with ⟨hj0, hcj⟩ | ⟨hj0, hcj⟩
      · rw [hi0, hj0]
      · rw [hci, hcj] at hs
        exact absurd hs (by decide)
    · rw [hci] at hne
      exact absurd rfl hne
  · intro c hc
    simp only [sample_listen, List.mem_cons, List.mem_singleton, List.not_mem_nil,
      or_false] at hc
    rcases hc with rfl | rfl | rfl | rfl <;> decide
  · intro sd hsd
    cases hsd

/-! ## The ticks run to completion -/

theorem env_calls_ok_of_env_ok (env : Env) (henv : env_ok env) : env_calls_ok env :=
  ⟨henv.1, henv.2.2⟩

theorem hook_neutral_of_calls_ok (env : Env) (henv : env_calls_ok env) (f : Nat)
    (hf : f ≠ accept_conn_ptr) : hook_neutral env f := by
  intro h0 sd w
  simp [call_func, h0, hf, henv.1]

theorem net_ok_table_ok (s : NetState) (h : net_ok s) : table_ok s := by
  obtain ⟨hm, _, ⟨hlen, hrange, _, _⟩, _⟩ := h
  refine ⟨hm, hlen, ?_⟩
  intro c hc
  have hmr := hm.2
  unfold int_range at hmr ⊢
  rcases hrange c hc with h | h <;> omega

theorem funcs_ok_mk (s s' : NetState) (h : funcs_ok s)
    (h0 : s'.read_func0 = s.read_func0) (h1 : s'.read_func1 = s.read_func1)
    (hs : ∀ c ∈ s'.svr_conn, c ∈ s.svr_conn ∨ slot_callable s.read_func0 s.read_func1 c) :
    funcs_ok s' := by
  intro c hc
  rw [h0, h1]
  rcases hs c hc with hm | hm
  · exact h c hm
  · exact hm

theorem funcs_ok_set (s s' : NetState) (i : Nat) (x : connection) (h : funcs_ok s)
    (h0 : s'.read_func0 = s.read_func0) (h1 : s'.read_func1 = s.read_func1)
    (hs : s'.svr_conn = s.svr_conn.set i x)
    (hx : slot_callable s.read_func0 s.read_func1 x) : funcs_ok s' := by
  refine funcs_ok_mk s s' h h0 h1 ?_
  intro c hc
  rw [hs] at hc
  rcases List.mem_or_eq_of_mem_set hc with hm | hm
  · exact Or.inl hm
  · rw [hm]
    exact Or.inr hx

theorem slot_callable_of_empty (rf0 rf1 : Nat) (x : connection) (h : x.cn_sock = -1) :
    slot_callable rf0 rf1 x :=
  fun hne => absurd h hne

theorem slot_callable_same (rf0 rf1 : Nat) (c x : connection) (h : slot_callable rf0 rf1 c)
    (hs : x.cn_sock = c.cn_sock) (ha : x.cn_active = c.cn_active)
    (hf : x.cn_func = c.cn_func) : slot_callable rf0 rf1 x := by
  unfold slot_callable at h ⊢
  rw [hs, ha, hf]
  exact h

/-- A state that differs from a well-formed one in one slot, in the poll
entries (not their number) and in `maxfdx` is well formed when the new slot
content is. -/
theorem net_ok_set (s s' : NetState) (i : Int) (x : connection) (h : net_ok s)
    (hmax : s'.max_connection = s.max_connection)
    (hpl : s'.pollfds.length = s.pollfds.length)
    (hsv : s'.svr_conn = s.svr_conn.set i.toNat x)
    (h0 : s'.read_func0 = s.read_func0) (h1 : s'.read_func1 = s.read_func1)
    (hfd : s'.maxfdx < s.max_connection)
    (hconn : conn_inv (s.svr_conn.set i.toNat x) s.max_connection)
    (hx : slot_callable s.read_func0 s.read_func1 x) : net_ok s' := by
  refine ⟨by rw [hmax]; exact h.1, ?_, by rw [hmax, hsv]; exact hconn,
    by rw [hmax]; exact hfd, funcs_ok_set s s' i.toNat x h.2.2.2.2 h0 h1 hsv hx⟩
  have := h.2.1
  unfold polls_ok at this ⊢
  rw [hmax, hpl]
  exact this

theorem net_ok_set_same (s : NetState) (i : Int) (c x : connection) (h : net_ok s)
    (hc : aget s.svr_conn i = some c) (hs : x.cn_sock = c.cn_sock)
    (ho : x.cn_oncl = c.cn_oncl) (ha : x.cn_active = c.cn_active)
    (hf : x.cn_func = c.cn_func) :
    net_ok { s with svr_conn := s.svr_conn.set i.toNat x } :=
  net_ok_set s _ i x h rfl rfl rfl rfl rfl h.2.2.2.1
    (conn_inv_set_same _ _ i c x h.2.2.1 hc hs ho)
    (slot_callable_same _ _ c x (h.2.2.2.2 c (aget_mem hc)) hs ha hf)

/-- `close_conn` returns and leaves the state well formed. -/
theorem close_conn_total (env : Env) (henv : env_calls_ok env) (w : World) (sd : Int)
    (h : net_ok w.net) :
    ∃ w', close_conn env w sd = some w' ∧ w'.net.max_connection = w.net.max_connection ∧
      net_ok w'.net := by
  by_cases hrange : sd < 0 ∨ w.net.max_connection ≤ sd
  · exact ⟨w, close_conn_out_of_range env w sd hrange, rfl, h⟩
  · have hsd : 0 ≤ sd ∧ sd < w.net.max_connection := by omega
    have hok := net_ok_table_ok w.net h
    have hsr : int_range sd := by
      have := hok.1.2
      unfold int_range at this ⊢
      omega
    obtain ⟨r, hfind, _, hfirst⟩ := find_actual_index_probe w.net sd hok hsd.1 hsr
    by_cases hr : r = -1
    · rw [hr] at hfind
      exact ⟨w, close_conn_not_found env w sd hfind, rfl, h⟩
    · obtain ⟨_, _, _, ⟨c, hc, hsock⟩, _⟩ := hfirst hr
      by_cases hidle : c.cn_active = conn_type.Idle
      · exact ⟨w, close_conn_idle env w sd r c hfind hc hidle, rfl, h⟩
      · obtain ⟨h0, h1⟩ := aget_some_bounds hc
        have hpl : (w.net.pollfds.length : Int) = w.net.max_connection := h.2.1
        obtain ⟨p, hp⟩ := aget_of_bounds w.net.pollfds r h0 (by have := hok.2.1; omega)
        obtain ⟨m', hclose, hle, _⟩ := close_conn_found env w sd r c p hsd hfind hr hc hp hidle
          (hook_neutral_of_calls_ok env henv _ (h.2.2.1.2.2.2 c (aget_mem hc)))
        refine ⟨_, hclose, rfl, ?_⟩
        refine net_ok_set w.net _ r (cleaned_conn c) h rfl (by simp) rfl rfl rfl ?_
          (conn_inv_set_empty _ _ r c _ h.2.2.1 hc rfl rfl)
          (slot_callable_of_empty _ _ _ rfl)
        have := h.2.2.2.1
        show m' < w.net.max_connection
        omega

/-- `add_conn` of a descriptor in range that no slot holds, with a callable
handler, returns and leaves the state well formed. -/
theorem add_conn_total (w : World) (sock : Int) (type : conn_type) (addr port func : Nat)
    (h : net_ok w.net) (hs : 0 ≤ sock ∧ sock < w.net.max_connection)
    (hfresh : ∀ c ∈ w.net.svr_conn, c.cn_sock ≠ sock)
    (hf : func ≠ 0 ∧ (func = accept_conn_ptr →
        (type = conn_type.Primary ∧ w.net.read_func0 ≠ 0 ∧
          w.net.read_func0 ≠ accept_conn_ptr) ∨
        (type = conn_type.Secondary ∧ w.net.read_func1 ≠ 0 ∧
          w.net.read_func1 ≠ accept_conn_ptr))) :
    ∃ r w', add_conn w sock type addr port func = some (r, w') ∧
      w'.net.max_connection = w.net.max_connection ∧ net_ok w'.net := by
  rcases add_conn_cases w sock type addr port func h.1.1 h.2.2.1.1 h.2.1 hs.1 with
    hfull | ⟨r, c, p, hc, _, _, hadd⟩
  · exact ⟨-1, w, hfull, rfl, h⟩
  · obtain ⟨h0, h1⟩ := aget_some_bounds hc
    refine ⟨r, _, hadd, rfl, ?_⟩
    have hh : (added_conn c w.now sock type addr port func).cn_oncl ≠ accept_conn_ptr := by
      show (0 : Nat) ≠ accept_conn_ptr
      decide
    refine net_ok_set w.net _ r (added_conn c w.now sock type addr port func) h rfl
      (by simp) rfl rfl rfl ?_ ?_ (fun _ _ => hf)
    · have := h.2.2.2.1
      have hlen := h.2.2.1.1
      show (if r > w.net.maxfdx then r else w.net.maxfdx) < w.net.max_connection
      split <;> omega
    · refine conn_inv_set _ _ r c _ h.2.2.1 hc (Or.inr hs) ?_ hh
      intro _ j cj _ hj
      exact hfresh cj (aget_mem hj)

theorem add_conn_bind_total (w : World) (sock : Int) (type : conn_type)
    (addr port func : Nat) (m : Int) (h : net_ok w.net)
    (hs : 0 ≤ sock ∧ sock < w.net.max_connection)
    (hfresh : ∀ c ∈ w.net.svr_conn, c.cn_sock ≠ sock)
    (hf : func ≠ 0 ∧ (func = accept_conn_ptr →
        (type = conn_type.Primary ∧ w.net.read_func0 ≠ 0 ∧
          w.net.read_func0 ≠ accept_conn_ptr) ∨
        (type = conn_type.Secondary ∧ w.net.read_func1 ≠ 0 ∧
          w.net.read_func1 ≠ accept_conn_ptr)))
    (hm : w.net.max_connection = m) :
    ∃ w', ((add_conn w sock type addr port func).bind fun r2 => some r2.2) = some w' ∧
      w'.net.max_connection = m ∧ net_ok w'.net := by
  obtain ⟨r, w', hadd, hmax, hnet⟩ := add_conn_total w sock type addr port func h hs hfresh hf
  exact ⟨w', by rw [hadd]; rfl, by rw [hmax, hm], hnet⟩

/-- `accept_conn` on the descriptor of a listening socket returns and leaves the
state well formed. -/
theorem accept_conn_total (env : Env) (henv : env_calls_ok env) (w : World) (sd : Int)
    (h : net_ok w.net) (hsd : 0 ≤ sd ∧ sd < w.net.max_connection)
    (hl : ∀ c ∈ w.net.svr_conn, c.cn_sock = sd →
      (c.cn_active = conn_type.Primary ∧ w.net.read_func0 ≠ 0 ∧
        w.net.read_func0 ≠ accept_conn_ptr) ∨
      (c.cn_active = conn_type.Secondary ∧ w.net.read_func1 ≠ 0 ∧
        w.net.read_func1 ≠ accept_conn_ptr)) :
    ∃ w', accept_conn env w sd = some w' ∧ w'.net.max_connection = w.net.max_connection ∧
      net_ok w'.net := by
  have hok := net_ok_table_ok w.net h
  have hsr : int_range sd := by
    have := hok.1.2
    unfold int_range at this ⊢
    omega
  obtain ⟨r, hfind, _, hfirst⟩ := find_actual_index_probe w.net sd hok hsd.1 hsr
  by_cases hr : r = -1
  · refine ⟨w, ?_, rfl, h⟩
    simp [accept_conn, hfind, hr]
  · obtain ⟨_, _, _, ⟨c, hc, hsock⟩, _⟩ := hfirst hr
    obtain ⟨h0, h1⟩ := aget_some_bounds hc
    have hnet1 := net_ok_set_same w.net r c { c with cn_lasttime := w.now } h hc rfl rfl rfl rfl
    have hc1 : aget (w.net.svr_conn.set r.toNat { c with cn_lasttime := w.now }) r
        = some { c with cn_lasttime := w.now } := aget_set_self _ _ _ h0 h1
    have hacc := henv.2 { w with net := { w.net with
        svr_conn := w.net.svr_conn.set r.toNat { c with cn_lasttime := w.now } } } sd
    unfold accept_conn
    simp only [hfind, Option.bind_eq_bind, Option.some_bind, hr, if_false, hc,
      aset_of_bounds _ _ _ h0 h1]
    split
    · exact ⟨_, rfl, rfl, hnet1⟩
    · rename_i hnew
      split
      · exact ⟨_, rfl, rfl, hnet1⟩
      · rcases hacc with hbad | ⟨hrange, hfresh⟩
        · exact absurd hbad hnew
        · simp only [World.emit, hc1, Option.some_bind]
          rcases hl c (aget_mem hc) hsock with ⟨hty, hf0, hf0'⟩ | ⟨hty, hf1, hf1'⟩
          · have hk : c.cn_active.toInt = 0 := by rw [hty]; rfl
            simp only [hk, if_true, Option.some_bind]
            exact add_conn_bind_total _ _ _ _ _ _ _ hnet1 hrange hfresh
              ⟨hf0, fun hh => absurd hh hf0'⟩ rfl
          · have hk : c.cn_active.toInt = 1 := by rw [hty]; rfl
            have h10 : ¬ (1 : Int) = 0 := by decide
            simp only [hk, h10, if_false, if_true, Option.some_bind]
            exact add_conn_bind_total _ _ _ _ _ _ _ hnet1 hrange hfresh
              ⟨hf1, fun hh => absurd hh hf1'⟩ rfl

/-- What can be called on a slot in use that is not `Idle`: its handler is not
null, and if it is `accept_conn` the descriptor is that of a listening socket. -/
theorem callable_at (s : NetState) (i : Int) (c : connection) (h : net_ok s)
    (hc : aget s.svr_conn i = some c) (hs : 0 ≤ c.cn_sock)
    (hact : c.cn_active ≠ conn_type.Idle) :
    c.cn_func ≠ 0 ∧ (c.cn_func = accept_conn_ptr →
      (0 ≤ c.cn_sock ∧ c.cn_sock < s.max_connection) ∧
        ∀ c' ∈ s.svr_conn, c'.cn_sock = c.cn_sock →
          (c'.cn_active = conn_type.Primary ∧ s.read_func0 ≠ 0 ∧
            s.read_func0 ≠ accept_conn_ptr) ∨
          (c'.cn_active = conn_type.Secondary ∧ s.read_func1 ≠ 0 ∧
            s.read_func1 ≠ accept_conn_ptr)) := by
  have hne : c.cn_sock ≠ -1 := by omega
  obtain ⟨hf, hl⟩ := h.2.2.2.2 c (aget_mem hc) hne hact
  refine ⟨hf, fun hacc => ⟨?_, ?_⟩⟩
  · rcases h.2.2.1.2.1 c (aget_mem hc) with hr | hr
    · exact absurd hr hne
    · exact hr
  · intro c' hc' hs'
    obtain ⟨j, hj⟩ := mem_aget hc'
    have hji := h.2.2.1.2.2.1 j i c' c hj hc hs' (by rw [hs']; exact hne)
    rw [hji, hc] at hj
    cases hj
    exact hl hacc

/-- A call of a callable handler returns and leaves the state well formed. -/
theorem call_func_total (env : Env) (henv : env_calls_ok env) (w : World) (f : Nat)
    (sd : Int) (h : net_ok w.net) (hf : f ≠ 0)
    (hacc : f = accept_conn_ptr → (0 ≤ sd ∧ sd < w.net.max_connection) ∧
      ∀ c ∈ w.net.svr_conn, c.cn_sock = sd →
        (c.cn_active = conn_type.Primary ∧ w.net.read_func0 ≠ 0 ∧
          w.net.read_func0 ≠ accept_conn_ptr) ∨
        (c.cn_active = conn_type.Secondary ∧ w.net.read_func1 ≠ 0 ∧
          w.net.read_func1 ≠ accept_conn_ptr)) :
    ∃ w', call_func env f sd w = some w' ∧ w'.net.max_connection = w.net.max_connection ∧
      net_ok w'.net := by
  unfold call_func
  rw [if_neg hf]
  by_cases ha : f = accept_conn_ptr
  · rw [if_pos ha]
    exact accept_conn_total env henv w sd h (hacc ha).1 (hacc ha).2
  · rw [if_neg ha]
    refine ⟨_, rfl, ?_, ?_⟩
    · show (env.user_func f sd w).max_connection = w.net.max_connection
      rw [henv.1]
    · show net_ok (env.user_func f sd w)
      rw [henv.1]
      exact h

theorem find_actual_total (s : NetState) (sock : Int) (hm : 0 < s.max_connection)
    (hlen : (s.svr_conn.length : Int) = s.max_connection) (hs : 0 ≤ sock) :
    ∃ r, connection_find_actual_index s sock = some r := by
  have hj0 : 0 ≤ sock % s.max_connection := Int.emod_nonneg _ (by omega)
  have hjm : sock % s.max_connection < s.max_connection := Int.emod_lt_of_pos _ hm
  obtain ⟨r, hr, _, _⟩ := probe_loop_first s.svr_conn s.max_connection
    (sock % s.max_connection) (fun c => decide (toU32 c.cn_sock = toU32 sock))
    hm hlen hj0 hjm
  refine ⟨r, ?_⟩
  simp only [connection_find_actual_index, c_mod_nonneg _ _ hm hs, Option.bind_eq_bind,
    Option.some_bind, find_actual_loop_eq]
  exact hr

/-- The readiness test of a slot inside the table returns and leaves the state
well formed. -/
theorem selpoll_fd_isset_total (w : World) (i : Int) (h : net_ok w.net)
    (hi : 0 ≤ i ∧ i < w.net.max_connection) :
    ∃ r w', selpoll_fd_isset w i = some (r, w') ∧
      w'.net.max_connection = w.net.max_connection ∧ net_ok w'.net := by
  have hlen := h.2.2.1.1
  have hpl : (w.net.pollfds.length : Int) = w.net.max_connection := h.2.1
  obtain ⟨c, hc⟩ := aget_of_bounds w.net.svr_conn i hi.1 (by omega)
  obtain ⟨p, hp⟩ := aget_of_bounds w.net.pollfds i hi.1 (by omega)
  unfold selpoll_fd_isset
  simp only [hc, hp, Option.bind_eq_bind, Option.some_bind]
  split
  · exact ⟨_, _, rfl, rfl, h⟩
  · split
    · exact ⟨_, _, rfl, rfl, h⟩
    · rename_i hfd
      split
      · obtain ⟨t, ht⟩ := find_actual_total w.net p.fd h.1.1 hlen (by omega)
        have ht' : connection_find_actual_index
            (w.emit (Event.log_err LogMsg.out_of_sync)).net p.fd = some t := ht
        rw [ht']
        simp only [Option.some_bind]
        split
        · obtain ⟨m', hclr, hle, _⟩ := selpoll_fd_clr_eq w.net i p hp
          have hclr' : selpoll_fd_clr ((w.emit (Event.log_err LogMsg.out_of_sync)).emit
              (Event.close p.fd)).net i = some { w.net with
                pollfds := w.net.pollfds.set i.toNat { p with fd := -1, revents := 0 },
                maxfdx := m' } := hclr
          rw [hclr']
          refine ⟨_, _, rfl, rfl, h.1, ?_, h.2.2.1, ?_, ?_⟩
          · show (((w.net.pollfds.set i.toNat { p with fd := -1, revents := 0 }).length : Nat)
              : Int) = w.net.max_connection
            rw [List.length_set]
            exact hpl
          · have := h.2.2.2.1
            show m' < w.net.max_connection
            omega
          · exact funcs_ok_mk w.net _ h.2.2.2.2 rfl rfl (fun c hc => Or.inl hc)
        · exact ⟨_, _, rfl, rfl, h⟩
      · split
        · exact ⟨_, _, rfl, rfl, h⟩
        · exact ⟨_, _, rfl, rfl, h⟩

/-- The authentication gate returns; it leaves the state well formed and the
descriptor, type and handler of the slot as they are. -/
theorem wait_request_auth_total (env : Env) (w : World) (i : Int) (c : connection)
    (h : net_ok w.net) (hc : aget w.net.svr_conn i = some c) :
    ∃ a, wait_request_auth env w i c = some a ∧
      a.2.net.max_connection = w.net.max_connection ∧ net_ok a.2.net ∧
      ∃ c2, aget a.2.net.svr_conn i = some c2 ∧ c2.cn_sock = c.cn_sock ∧
        c2.cn_active = c.cn_active ∧ c2.cn_func = c.cn_func := by
  obtain ⟨h0, h1⟩ := aget_some_bounds hc
  have hset := net_ok_set_same w.net i c
    { c with cn_authen := c.cn_authen ||| PBS_NET_CONN_AUTHENTICATED } h hc rfl rfl rfl rfl
  have hcset : aget (w.net.svr_conn.set i.toNat
      { c with cn_authen := c.cn_authen ||| PBS_NET_CONN_AUTHENTICATED }) i
      = some { c with cn_authen := c.cn_authen ||| PBS_NET_CONN_AUTHENTICATED } :=
    aget_set_self _ _ _ h0 h1
  unfold wait_request_auth
  split
  · split
    · unfold engage_authentication
      simp only [hc, Option.bind_eq_bind, Option.some_bind, World.emit,
        aset_of_bounds _ _ _ h0 h1]
      split
      · exact ⟨_, rfl, rfl, h, c, hc, rfl, rfl, rfl⟩
      · split
        · exact ⟨_, rfl, rfl, hset, _, hcset, rfl, rfl, rfl⟩
        · split
          · split
            · exact ⟨_, rfl, rfl, hset, _, hcset, rfl, rfl, rfl⟩
            · exact ⟨_, rfl, rfl, h, c, hc, rfl, rfl, rfl⟩
          · exact ⟨_, rfl, rfl, h, c, hc, rfl, rfl, rfl⟩
    · exact ⟨_, rfl, rfl, h, c, hc, rfl, rfl, rfl⟩
  · exact ⟨_, rfl, rfl, h, c, hc, rfl, rfl, rfl⟩

theorem wait_request_active_total (env : Env) (henv : env_calls_ok env) (w : World)
    (i : Int) (c : connection) (h : net_ok w.net) (hc : aget w.net.svr_conn i = some c)
    (hs : 0 ≤ c.cn_sock) (hact : c.cn_active ≠ conn_type.Idle) :
    ∃ w', wait_request_active env w i c = some w' ∧
      w'.net.max_connection = w.net.max_connection ∧ net_ok w'.net := by
  obtain ⟨a, ha, hmax, hnet, c2, hc2, hs2, ha2, hf2⟩ := wait_request_auth_total env w i c h hc
  unfold wait_request_active
  simp only [ha, Option.bind_eq_bind, Option.some_bind, hc2]
  split
  · obtain ⟨w', hw', hm', hrest⟩ := close_conn_total env henv a.2 c2.cn_sock hnet
    exact ⟨w', hw', by rw [hm', hmax], hrest⟩
  · have hcall := callable_at a.2.net i c2 hnet hc2 (by rw [hs2]; exact hs)
      (by rw [ha2]; exact hact)
    obtain ⟨w', hw', hm', hrest⟩ := call_func_total env henv
      (a.2.emit (Event.func i c2.cn_func c2.cn_sock c2.cn_active c2.cn_authen))
      c2.cn_func c2.cn_sock hnet hcall.1 hcall.2
    exact ⟨w', hw', by rw [hm']; exact hmax, hrest⟩

theorem wait_request_idle_total (w : World) (i : Int) (c : connection)
    (h : net_ok w.net) (hc : aget w.net.svr_conn i = some c) :
    ∃ w', wait_request_idle w i c = some w' ∧
      w'.net.max_connection = w.net.max_connection ∧ net_ok w'.net := by
  obtain ⟨h0, h1⟩ := aget_some_bounds hc
  have hlen := h.2.2.1.1
  have hpl : (w.net.pollfds.length : Int) = w.net.max_connection := h.2.1
  obtain ⟨p, hp⟩ := aget_of_bounds w.net.pollfds i h0 (by omega)
  obtain ⟨m', hclean, hle, _⟩ := cleanup_conn_eq (w.emit (Event.close c.cn_sock)).net i c p hc hp
  unfold wait_request_idle
  simp only [Option.bind_eq_bind, hclean, Option.some_bind]
  refine ⟨_, rfl, rfl, ?_⟩
  refine net_ok_set w.net _ i (cleaned_conn c) h rfl (by simp [World.emit]) rfl rfl rfl ?_
    (conn_inv_set_empty _ _ i c _ h.2.2.1 hc rfl rfl) (slot_callable_of_empty _ _ _ rfl)
  have := h.2.2.2.1
  show m' < w.net.max_connection
  have hle' : m' ≤ w.net.maxfdx := hle
  omega

/-- The dispatch of a ready slot in use returns and leaves the state well
formed. -/
theorem wait_request_ready_total (env : Env) (henv : env_calls_ok env) (w : World)
    (i : Int) (c : connection) (h : net_ok w.net) (hc : aget w.net.svr_conn i = some c)
    (hs : 0 ≤ c.cn_sock) :
    ∃ w', wait_request_ready env w i = some w' ∧
      w'.net.max_connection = w.net.max_connection ∧ net_ok w'.net := by
  have hnetT : net_ok (touched w i c).net :=
    net_ok_set_same w.net i c { c with cn_lasttime := w.now } h hc rfl rfl rfl rfl
  have hc1 := aget_touched w i c hc
  rw [wait_request_ready_eq env w i c hc]
  split
  · rename_i hact
    exact wait_request_active_total env henv (touched w i c) i _ hnetT hc1 hs hact
  · exact wait_request_idle_total (touched w i c) i _ hnetT hc1

theorem wait_request_body_total (env : Env) (henv : env_calls_ok env) (i n : Int)
    (w : World) (h : net_ok w.net) (hi : 0 ≤ i ∧ i < w.net.max_connection) :
    ∃ r, wait_request_body env i n w = some r ∧
      r.2.net.max_connection = w.net.max_connection ∧ net_ok r.2.net := by
  obtain ⟨r, w1, hr, hmax, hnet1⟩ := selpoll_fd_isset_total w i h hi
  unfold wait_request_body
  simp only [hr, Option.bind_eq_bind, Option.some_bind]
  split
  · rename_i hne
    obtain ⟨hw, c, hc, hs⟩ := (selpoll_fd_isset_quiet w w1 i r hr).2.2.2 hne
    obtain ⟨w', hw', hmax', hnet'⟩ := wait_request_ready_total env henv w1 i c hnet1
      (by rw [hw]; exact hc) hs
    refine ⟨(n - 1, w'), ?_, by rw [← hmax]; exact hmax', hnet'⟩
    rw [hw']
    rfl
  · exact ⟨_, rfl, hmax, hnet1⟩

/-- The dispatch loop returns when its fuel covers the slots from `i` on. -/
theorem wait_request_loop_total (env : Env) (henv : env_calls_ok env) (fuel : Nat) :
    ∀ (i n : Int) (w : World), net_ok w.net → 0 ≤ i → w.net.max_connection ≤ i + fuel →
      ∃ w', wait_request_loop env fuel i n w = some w' ∧
        w'.net.max_connection = w.net.max_connection ∧ net_ok w'.net := by
  induction fuel with
  | zero =>
    intro i n w h hi hfuel
    have := h.2.2.2.1
    unfold wait_request_loop
    rw [if_neg (by omega)]
    exact ⟨w, rfl, rfl, h⟩
  | succ fuel ih =>
    intro i n w h hi hfuel
    unfold wait_request_loop
    split
    · rename_i hcond
      have hfd := h.2.2.2.1
      obtain ⟨r, hr, hmax, hnet⟩ := wait_request_body_total env henv i n w h
        ⟨hi, by omega⟩
      simp only [hr, Option.bind_eq_bind, Option.some_bind]
      obtain ⟨w', hw', hmax', hnet'⟩ := ih (i + 1) r.1 r.2 hnet (by omega)
        (by rw [hmax]; push_cast at hfuel; omega)
      exact ⟨w', hw', by rw [hmax', hmax], hnet'⟩
    · exact ⟨w, rfl, rfl, h⟩

/-- The idle sweep returns when its fuel covers the slots from `i` on. -/
theorem connection_idlecheck_loop_total (env : Env) (henv : env_calls_ok env) (now : Int)
    (fuel : Nat) :
    ∀ (i : Int) (w : World), net_ok w.net → 0 ≤ i → w.net.max_connection ≤ i + fuel →
      ∃ w', connection_idlecheck_loop env now fuel i w = some w' ∧
        w'.net.max_connection = w.net.max_connection ∧ net_ok w'.net := by
  induction fuel with
  | zero =>
    intro i w h hi hfuel
    unfold connection_idlecheck_loop
    rw [if_neg (by omega)]
    exact ⟨w, rfl, rfl, h⟩
  | succ fuel ih =>
    intro i w h hi hfuel
    have hstep : w.net.max_connection ≤ i + 1 + fuel := by
      push_cast at hfuel
      omega
    unfold connection_idlecheck_loop
    split
    · rename_i hcond
      have hlen := h.2.2.1.1
      obtain ⟨cp, hcp⟩ := aget_of_bounds w.net.svr_conn i hi (by omega)
      simp only [hcp, Option.bind_eq_bind, Option.some_bind]
      split
      · exact ih (i + 1) w h (by omega) hstep
      · split
        · exact ih (i + 1) w h (by omega) hstep
        · split
          · exact ih (i + 1) w h (by omega) hstep
          · obtain ⟨w2, hw2, hmax, hnet2⟩ := close_conn_total env henv
              (w.emit (Event.log_err LogMsg.timeout_connection)) cp.cn_sock h
            have hmax2 : w2.net.max_connection = w.net.max_connection := hmax
            rw [hw2]
            simp only [Option.some_bind]
            obtain ⟨w', hw', hmax', hnet'⟩ := ih (i + 1) w2 hnet2 (by omega)
              (by rw [hmax2]; exact hstep)
            exact ⟨w', hw', by rw [hmax', hmax2], hnet'⟩
    · exact ⟨w, rfl, rfl, h⟩

theorem wait_request_dispatch_total (env : Env) (henv : env_calls_ok env) (n : Int)
    (w : World) (h : net_ok w.net) :
    ∃ w', wait_request_dispatch env n w = some (0, w') ∧ net_ok w'.net := by
  have hm := h.1.1
  obtain ⟨w1, hw1, hmax1, hnet1⟩ := wait_request_loop_total env henv
    (w.net.max_connection.toNat + 1) 0 n w h (le_refl 0)
    (by push_cast; rw [Int.toNat_of_nonneg (by omega)]; omega)
  obtain ⟨w2, hw2, _, hnet2⟩ := connection_idlecheck_loop_total env henv w1.now
    w1.net.max_connection.toNat 0 w1 hnet1 (le_refl 0)
    (by rw [Int.toNat_of_nonneg (by omega)]; omega)
  refine ⟨w2, ?_, hnet2⟩
  unfold wait_request_dispatch connection_idlecheck
  simp only [hw1, Option.bind_eq_bind, Option.some_bind, hw2]

/-- `wait_request` returns: in a well-formed state, in an environment whose
application functions leave the module's variables alone and whose `accept`
returns fresh descriptors in range, and when `poll` does not fail with `EBADF`,
`wait_request` runs to completion and leaves the state well formed. -/
theorem wait_request_total (env : Env) (henv : env_calls_ok env) (w : World)
    (waittime : Int) (hpoll : env.poll_errno w ≠ some EBADF) (h : net_ok w.net) :
    ∃ r, wait_request env w waittime = some r ∧ net_ok r.2.net := by
  unfold wait_request
  simp only
  split
  · rename_i errno herr
    split
    · obtain ⟨w', hw', hnet'⟩ := wait_request_dispatch_total env henv 0 w h
      exact ⟨_, hw', hnet'⟩
    · split
      · rename_i hbad
        rw [herr, hbad] at hpoll
        exact absurd rfl hpoll
      · exact ⟨_, rfl, h⟩
  · have hfd := h.2.2.2.1
    have hpl : (w.net.pollfds.length : Int) = w.net.max_connection := h.2.1
    rw [if_pos (by omega)]
    have hnet0 : net_ok ({ w with net := { w.net with
        pollfds := poll_fill (env.poll_revents w) (w.net.maxfdx + 1) 0 w.net.pollfds } }
          : World).net := by
      refine ⟨h.1, ?_, h.2.2.1, h.2.2.2.1,
        funcs_ok_mk w.net _ h.2.2.2.2 rfl rfl (fun c hc => Or.inl hc)⟩
      show (((poll_fill (env.poll_revents w) (w.net.maxfdx + 1) 0 w.net.pollfds).length : Nat)
        : Int) = w.net.max_connection
      rw [poll_fill_length]
      exact hpl
    obtain ⟨w', hw', hnet'⟩ := wait_request_dispatch_total env henv
      (poll_count (w.net.maxfdx + 1) 0
        (poll_fill (env.poll_revents w) (w.net.maxfdx + 1) 0 w.net.pollfds)) _ hnet0
    exact ⟨_, hw', hnet'⟩

/-- The ticks run to completion: from a well-formed state, in an environment
whose application functions leave the module's variables alone, whose `accept`
returns fresh descriptors in range and whose `poll` never fails with `EBADF`,
every sequence of `wait_request` ticks returns, in a well-formed state. -/
theorem run_ticks_total (env : Env) (henv : env_calls_ok env)
    (hpoll : ∀ w, env.poll_errno w ≠ some EBADF) (ticks : List (Int × Int)) :
    ∀ w, net_ok w.net → ∃ w', run_ticks env ticks w = some w' ∧ net_ok w'.net := by
  induction ticks with
  | nil => intro w h; exact ⟨w, rfl, h⟩
  | cons t ts ih =>
    intro w h
    have h0 : net_ok ({ w with now := w.now + t.1 } : World).net := h
    obtain ⟨r, hr, hnet⟩ := wait_request_total env henv _ t.2 (hpoll _) h0
    obtain ⟨w', hw', hnet'⟩ := ih r.2 hnet
    refine ⟨w', ?_, hnet'⟩
    unfold run_ticks
    simp only [hr, Option.bind_eq_bind, Option.some_bind]
    exact hw'

/-! ## Authentication gating and one handshake per connection: the results -/

theorem sample_env_calls_ok : env_calls_ok sample_env :=
  ⟨fun _ _ _ => rfl, fun _ _ => Or.inl rfl⟩

theorem sample_two_net_ok : net_ok sample_two.net := by
  refine ⟨by decide, by decide, ⟨by decide, ?_, ?_, ?_⟩, by decide, ?_⟩
  · intro c hc
    simp only [sample_two, List.mem_cons, List.mem_singleton, List.not_mem_nil,
      or_false] at hc
    rcases hc with rfl | rfl | rfl | rfl <;> decide
  · intro i j ci cj hi hj hs hne
    rcases sample_two_slots i ci hi with ⟨rfl, rfl⟩ | ⟨rfl, rfl⟩ | ⟨rfl, rfl⟩ | ⟨rfl, rfl⟩ <;>
      rcases sample_two_slots j cj hj with ⟨rfl, rfl⟩ | ⟨rfl, rfl⟩ | ⟨rfl, rfl⟩ | ⟨rfl, rfl⟩ <;>
      first
        | rfl
        | exact absurd hs (by decide)
        | exact absurd rfl hne
  · intro c hc
    simp only [sample_two, List.mem_cons, List.mem_singleton, List.not_mem_nil,
      or_false] at hc
    rcases hc with rfl | rfl | rfl | rfl <;> decide
  · intro c hc
    simp only [sample_two, List.mem_cons, List.mem_singleton, List.not_mem_nil,
      or_false] at hc
    rcases hc with rfl | rfl | rfl | rfl
    · exact slot_callable_of_empty _ _ _ rfl
    · exact fun _ _ => ⟨by decide, fun h => absurd h (by decide)⟩
    · exact fun _ _ => ⟨by decide, fun h => absurd h (by decide)⟩
    · exact slot_callable_of_empty _ _ _ rfl

theorem sample_listen_funcs : funcs_ok sample_listen.net := by
  intro c hc
  simp only [sample_listen, List.mem_cons, List.mem_singleton, List.not_mem_nil,
    or_false] at hc
  rcases hc with rfl | rfl | rfl | rfl
  · exact fun _ _ => ⟨by decide, fun _ => Or.inl ⟨rfl, by decide, by decide⟩⟩
  · exact slot_callable_of_empty _ _ _ rfl
  · exact slot_callable_of_empty _ _ _ rfl
  · exact slot_callable_of_empty _ _ _ rfl

/-- C8, amended.  `wait_request` runs to completion in a well-formed state
(`net_ok`) when the application's functions leave the module's variables alone,
`accept` returns fresh descriptors in range and `poll` does not fail with
`EBADF`.  And in every run of `wait_request` that returns, from any state and
whatever the security library answers: when the handler of a connection that
is neither a listener nor the datagram socket (in particular of a
`FromClientDIS` connection) is called while its authenticated flag is clear,
the call comes right after a handshake on that very slot that answered
`CheckPort`, and the peer is not from a privileged port.  So after the answers
`OK` and `Fail`, and after `CheckPort` for a privileged peer, the handler never
runs unauthenticated. -/
theorem handler_gated_by_authentication (env : Env) (waittime : Int) (w : World) :
    (env_calls_ok env → env.poll_errno w ≠ some EBADF → net_ok w.net →
      ∃ r w', wait_request env w waittime = some (r, w')) ∧
    ∀ (r : Int) (w' : World), wait_request env w waittime = some (r, w') →
      ∃ evs, w'.trace = w.trace ++ evs ∧
        ∀ (pre post : List Event) (idx : Int) (f : Nat) (sd : Int) (active : conn_type)
          (authen : Nat),
          evs = pre ++ Event.func idx f sd active authen :: post →
          active ≠ conn_type.Primary → active ≠ conn_type.RppComm →
          active ≠ conn_type.Secondary →
          authen &&& PBS_NET_CONN_AUTHENTICATED = 0 →
          pre.getLast? = some (Event.server_auth idx sd CS_ret.CS_AUTH_CHECK_PORT) ∧
            authen &&& PBS_NET_CONN_FROM_PRIVIL = 0 := by
  constructor
  · intro hcalls hpoll hnet
    obtain ⟨r, hr, _⟩ := wait_request_total env hcalls w waittime hpoll hnet
    exact ⟨r.1, r.2, hr⟩
  · intro r w' h
    obtain ⟨evs, hevs, hg⟩ := wait_request_gated env waittime r w w' h
    refine ⟨evs, hevs, ?_⟩
    intro pre post idx f sd active authen hl h1 h2 h3 h4
    have := gated_from_at evs none hg pre post _ hl
    simpa [func_ok, h1, h2, h3, h4] using this

/-- C8, counterexample.  One `wait_request` on `sample_two` with a security
library that answers `CheckPort`: the handler `7` of the `FromClientDIS`
connection in slot 1, whose peer port is 2000, is called while the slot's flags
are `0`, that is, while its authenticated flag is clear. -/
theorem handler_called_unauthenticated :
    wait_request sample_env sample_two 1 = some (0, sample_two_tick) ∧
    Event.func 1 7 1 conn_type.FromClientDIS 0 ∈ sample_two_tick.trace ∧
    0 &&& PBS_NET_CONN_AUTHENTICATED = 0 := by
  decide

/-- Witness of the amended C8 on the same run. -/
theorem handler_gated_by_authentication_witness :
    (∃ r w', wait_request sample_env sample_two 1 = some (r, w')) ∧
    ∃ evs, sample_two_tick.trace = sample_two.trace ++ evs ∧
      ∀ (pre post : List Event) (idx : Int) (f : Nat) (sd : Int) (active : conn_type)
        (authen : Nat),
        evs = pre ++ Event.func idx f sd active authen :: post →
        active ≠ conn_type.Primary → active ≠ conn_type.RppComm →
        active ≠ conn_type.Secondary →
        authen &&& PBS_NET_CONN_AUTHENTICATED = 0 →
        pre.getLast? = some (Event.server_auth idx sd CS_ret.CS_AUTH_CHECK_PORT) ∧
          authen &&& PBS_NET_CONN_FROM_PRIVIL = 0 :=
  ⟨(handler_gated_by_authentication sample_env 1 sample_two).1 sample_env_calls_ok
      (by decide) sample_two_net_ok,
    (handler_gated_by_authentication sample_env 1 sample_two).2 0 sample_two_tick
      (by decide)⟩

/-- C9, amended.  Take an environment in which the application's functions
leave the module's variables alone, the security library does not answer
`CheckPort` for a connection that is not from a privileged port, and `accept`
answers `-1` or a descriptor in range that no slot holds (`env_ok`); and a
state with a well-formed table in which every descriptor handshaken and not
closed since is held by an authenticated slot (`tick_inv`).  Then every
sequence of `wait_request` ticks runs to completion when moreover `poll` never
fails with `EBADF`, `maxfdx` lies inside the poll array and the handlers of the
slots in use can be called; and over any sequence of ticks that runs to
completion the trace only grows, and between any two calls of the handshake
for the same descriptor the descriptor is closed: the handshake is called at
most once for each connection between its registration and its release. -/
theorem handshake_once_per_connection (env : Env) (ticks : List (Int × Int)) (w : World)
    (henv : env_ok env) (hinv : tick_inv w) :
    ((∀ v, env.poll_errno v ≠ some EBADF) → w.net.maxfdx < w.net.max_connection →
      funcs_ok w.net → ∃ w', run_ticks env ticks w = some w') ∧
    ∀ w', run_ticks env ticks w = some w' →
      (∃ evs, w'.trace = w.trace ++ evs) ∧
      ∀ (pre mid post : List Event) (i j sd : Int) (r r' : CS_ret),
        w'.trace = pre ++ Event.server_auth i sd r ::
          (mid ++ Event.server_auth j sd r' :: post) →
        Event.close sd ∈ mid := by
  constructor
  · intro hpoll hfd hfn
    obtain ⟨w', hw', _⟩ := run_ticks_total env (env_calls_ok_of_env_ok env henv) hpoll ticks w
      ⟨hinv.1, hinv.2.1, hinv.2.2.1, hfd, hfn⟩
    exact ⟨w', hw'⟩
  · intro w' h
    refine ⟨run_ticks_trace env ticks w w' h, ?_⟩
    intro pre mid post i j sd r r' htr
    have hinv' := run_ticks_tick_inv env henv ticks w w' hinv h
    exact once_from_closed w'.trace [] hinv'.2.2.2.2 pre mid post i j sd r r' htr

/-- Witness of the amended C9: the four ticks on `sample_listen` run to
completion; descriptor `1` is handshaken twice, and closed in between. -/
theorem handshake_once_per_connection_witness :
    env_ok sample_env_accept ∧ tick_inv sample_listen ∧
    (∃ w', run_ticks sample_env_accept [(1, 1), (1, 1), (1, 1), (1, 1)] sample_listen
      = some w') ∧
    Event.close 1 ∈ sample_listen_between :=
  ⟨sample_env_accept_ok, sample_listen_inv,
    (handshake_once_per_connection sample_env_accept [(1, 1), (1, 1), (1, 1), (1, 1)]
      sample_listen sample_env_accept_ok sample_listen_inv).1
      (fun _ h => Option.noConfusion h) (by decide) sample_listen_funcs,
    ((handshake_once_per_connection sample_env_accept [(1, 1), (1, 1), (1, 1), (1, 1)]
      sample_listen sample_env_accept_ok sample_listen_inv).2 sample_listen_run
      (by decide)).2
      _ sample_listen_between _ 1 1 1 CS_ret.CS_FATAL CS_ret.CS_FATAL rfl⟩

/-! ## The idle sweep -/

theorem table_ok_of_conn_inv (s : NetState)
    (hm : 0 < s.max_connection ∧ int_range s.max_connection)
    (hconn : conn_inv s.svr_conn s.max_connection) : table_ok s := by
  obtain ⟨hlen, hrange, _, _⟩ := hconn
  refine ⟨hm, hlen, ?_⟩
  intro c hc
  have hmr := hm.2
  unfold int_range at hmr ⊢
  rcases hrange c hc with h | h <;> omega

theorem hook_neutral_of_neutral (env : Env) (hfun : ∀ f sd w, env.user_func f sd w = w.net)
    (f : Nat) (hf : f ≠ accept_conn_ptr) : hook_neutral env f := by
  intro h0 sd w
  simp [call_func, h0, hf, hfun]

theorem swept_of_not_timed_out (env : Env) (now : Int) (c : connection)
    (h : ¬ timed_out env now c ∨ c.cn_sock = -1) : swept env now c = c := by
  unfold swept
  rw [if_neg]
  rintro ⟨h1, h2⟩
  rcases h with h | h
  · exact h h1
  · exact h2 h

/-- The sweep passes a slot that it leaves alone. -/
theorem sweep_inv_skip (env : Env) (w v : World) (i : Int) (c : connection)
    (h : sweep_inv env w i v) (hc : aget w.net.svr_conn i = some c)
    (hsame : swept env w.now c = c) : sweep_inv env w (i + 1) v := by
  obtain ⟨hmax, hpl, hconn, hslots, hnum⟩ := h
  refine ⟨hmax, hpl, hconn, ?_, hnum⟩
  intro j cj hj
  rw [hslots j cj hj]
  by_cases hji : j = i
  · subst hji
    rw [hj] at hc
    cases hc
    simp [hsame]
  · have : (j < i + 1) ↔ (j < i) := by omega
    simp only [this]

theorem sweep_inv_emit (env : Env) (w v : World) (i : Int) (e : Event)
    (h : sweep_inv env w i v) : sweep_inv env w i (v.emit e) := h

/-- The sweep closes a slot in use that has timed out. -/
theorem sweep_inv_close (env : Env) (hfun : ∀ f sd w, env.user_func f sd w = w.net)
    (w v : World) (i : Int) (c : connection)
    (hm : 0 < w.net.max_connection ∧ int_range w.net.max_connection)
    (h : sweep_inv env w i v) (hc : aget w.net.svr_conn i = some c)
    (hto : timed_out env w.now c) (hlive : c.cn_sock ≠ -1) :
    ∃ v', close_conn env v c.cn_sock = some v' ∧ sweep_inv env w (i + 1) v' := by
  obtain ⟨hmax, hpl, hconn, hslots, hnum⟩ := h
  have hcv : aget v.net.svr_conn i = some c := by
    rw [hslots i c hc]
    simp
  have hm' : 0 < v.net.max_connection ∧ int_range v.net.max_connection := by
    rw [hmax.1]; exact hm
  have hconn' : conn_inv v.net.svr_conn v.net.max_connection := by rw [hmax.1]; exact hconn
  have hok := table_ok_of_conn_inv v.net hm' hconn'
  have hsd : 0 ≤ c.cn_sock ∧ c.cn_sock < v.net.max_connection := by
    rcases hconn'.2.1 c (aget_mem hcv) with hr | hr
    · exact absurd hr hlive
    · exact hr
  have hfind := find_actual_unique v.net c.cn_sock i c hok hsd.1 hcv rfl
    (fun j c' hj hs' => hconn.2.2.1 j i c' c hj hcv hs' (by rw [hs']; exact hlive))
  obtain ⟨h0, h1⟩ := aget_some_bounds hcv
  have hpl' : (v.net.pollfds.length : Int) = v.net.max_connection := hpl
  obtain ⟨p, hp⟩ := aget_of_bounds v.net.pollfds i h0 (by have := hok.2.1; omega)
  have hact : c.cn_active ≠ conn_type.Idle := by rw [hto.1]; decide
  obtain ⟨m', hclose, hle, _⟩ := close_conn_found env v c.cn_sock i c p hsd hfind (by omega)
    hcv hp hact (hook_neutral_of_neutral env hfun _ (hconn.2.2.2 c (aget_mem hcv)))
  refine ⟨_, hclose, hmax, ?_, conn_inv_set_empty _ _ i c _ hconn hcv rfl rfl, ?_, ?_, ?_⟩
  · show (((v.net.pollfds.set i.toNat { p with fd := -1, revents := 0 }).length : Nat) : Int)
      = v.net.max_connection
    rw [List.length_set]
    exact hpl
  · intro j cj hj
    show aget (v.net.svr_conn.set i.toNat (cleaned_conn c)) j = _
    by_cases hji : j = i
    · subst hji
      rw [hj] at hc
      cases hc
      rw [aget_set_self _ _ _ h0 h1]
      simp [swept, hto, hlive]
    · rw [aget_set_ne _ _ _ _ h0 (Ne.symm hji), hslots j cj hj]
      have : (j < i + 1) ↔ (j < i) := by omega
      simp only [this]
  · show v.net.num_connections - 1
      - (((v.net.svr_conn.set i.toNat (cleaned_conn c)).countP
          (fun c => decide (c.cn_sock ≠ -1)) : Nat) : Int) = _
    rw [live_count_release v.net.svr_conn i c (cleaned_conn c) hcv hlive rfl, ← hnum.1]
    unfold live_count
    omega
  · have := hnum.2
    show m' ≤ w.net.maxfdx
    omega

/-- The loop of the idle sweep returns, with every slot swept. -/
theorem connection_idlecheck_loop_spec (env : Env)
    (hfun : ∀ f sd w, env.user_func f sd w = w.net) (w : World)
    (hm : 0 < w.net.max_connection ∧ int_range w.net.max_connection)
    (hlenw : (w.net.svr_conn.length : Int) = w.net.max_connection) :
    ∀ (fuel : Nat) (i : Int) (v : World), sweep_inv env w i v → 0 ≤ i →
      i ≤ w.net.max_connection → w.net.max_connection ≤ i + fuel →
      ∃ v', connection_idlecheck_loop env w.now fuel i v = some v' ∧
        sweep_inv env w w.net.max_connection v' := by
  intro fuel
  induction fuel with
  | zero =>
    intro i v h hi hle hfuel
    have hiv : ¬ i < v.net.max_connection := by rw [h.1.1]; omega
    have hi' : i = w.net.max_connection := by omega
    unfold connection_idlecheck_loop
    rw [if_neg hiv]
    exact ⟨v, rfl, hi' ▸ h⟩
  | succ fuel ih =>
    intro i v h hi hle hfuel
    have hstep : w.net.max_connection ≤ i + 1 + fuel := by
      push_cast at hfuel
      omega
    unfold connection_idlecheck_loop
    by_cases hiv : i < v.net.max_connection
    · rw [if_pos hiv]
      have hiw : i < w.net.max_connection := by rw [← h.1.1]; exact hiv
      obtain ⟨c, hc⟩ := aget_of_bounds w.net.svr_conn i hi (by omega)
      have hcv : aget v.net.svr_conn i = some c := by
        rw [h.2.2.2.1 i c hc]
        simp
      simp only [hcv, Option.bind_eq_bind, Option.some_bind]
      split
      · rename_i h1
        exact ih (i + 1) v (sweep_inv_skip env w v i c h hc
          (swept_of_not_timed_out env w.now c (Or.inl (fun ht => h1 ht.1))))
          (by omega) (by omega) hstep
      · split
        · rename_i h2
          exact ih (i + 1) v (sweep_inv_skip env w v i c h hc
            (swept_of_not_timed_out env w.now c (Or.inl (fun ht => by
              have := ht.2.1
              omega))))
            (by omega) (by omega) hstep
        · split
          · rename_i h3
            exact ih (i + 1) v (sweep_inv_skip env w v i c h hc
              (swept_of_not_timed_out env w.now c (Or.inl (fun ht => h3 ht.2.2))))
              (by omega) (by omega) hstep
          · rename_i h1 h2 h3
            have hto : timed_out env w.now c := by
              refine ⟨by_contra h1, by omega, by_contra h3⟩
            by_cases hlive : c.cn_sock = -1
            · have hcl : close_conn env (v.emit (Event.log_err LogMsg.timeout_connection))
                  c.cn_sock = some (v.emit (Event.log_err LogMsg.timeout_connection)) :=
                close_conn_out_of_range env _ _ (Or.inl (by omega))
              rw [hcl]
              simp only [Option.some_bind]
              exact ih (i + 1) _ (sweep_inv_skip env w _ i c
                (sweep_inv_emit env w v i _ h) hc
                (swept_of_not_timed_out env w.now c (Or.inr hlive)))
                (by omega) (by omega) hstep
            · obtain ⟨v', hcl, hinv'⟩ := sweep_inv_close env hfun w
                (v.emit (Event.log_err LogMsg.timeout_connection)) i c hm
                (sweep_inv_emit env w v i _ h) hc hto hlive
              rw [hcl]
              simp only [Option.some_bind]
              exact ih (i + 1) v' hinv' (by omega) (by omega) hstep
    · rw [if_neg hiv]
      have hi' : i = w.net.max_connection := by rw [h.1.1] at hiv; omega
      exact ⟨v, rfl, hi' ▸ h⟩

theorem sweep_inv_start (env : Env) (w : World) (hpl : polls_ok w.net)
    (hconn : conn_inv w.net.svr_conn w.net.max_connection) : sweep_inv env w 0 w := by
  refine ⟨⟨rfl, rfl⟩, hpl, hconn, ?_, rfl, le_refl _⟩
  intro j c hj
  have := (aget_some_bounds hj).1
  rw [if_neg (by omega)]
  exact hj

/-- `connection_idlecheck` returns; it resets the slots in use that have timed
out, leaves every other slot as it is, keeps the table well formed, and lowers
`num_connections` by the number of slots it has reset. -/
theorem connection_idlecheck_spec (env : Env)
    (hfun : ∀ f sd w, env.user_func f sd w = w.net) (w : World)
    (hm : 0 < w.net.max_connection ∧ int_range w.net.max_connection)
    (hpl : polls_ok w.net) (hconn : conn_inv w.net.svr_conn w.net.max_connection) :
    ∃ w', connection_idlecheck env w = some w' ∧
      sweep_inv env w w.net.max_connection w' := by
  unfold connection_idlecheck
  exact connection_idlecheck_loop_spec env hfun w hm hconn.1 _ 0 w
    (sweep_inv_start env w hpl hconn) (le_refl 0) (by omega)
    (by rw [Int.toNat_of_nonneg (by omega)]; omega)

theorem sock_uniq_of_pairwise (l : List connection)
    (h : l.Pairwise (fun a b => a.cn_sock = b.cn_sock → a.cn_sock = -1)) : sock_uniq l := by
  intro i j ci cj hi hj hs hne
  obtain ⟨hi0, _⟩ := aget_some_bounds hi
  obtain ⟨hj0, _⟩ := aget_some_bounds hj
  obtain ⟨hil, hie⟩ := aget_getElem hi
  obtain ⟨hjl, hje⟩ := aget_getElem hj
  rw [List.pairwise_iff_getElem] at h
  by_contra hij
  rcases Nat.lt_or_gt_of_ne (show i.toNat ≠ j.toNat by omega) with hlt | hgt
  · have := h i.toNat j.toNat hil hjl hlt
    rw [hie, hje] at this
    exact hne (this hs)
  · have := h j.toNat i.toNat hjl hil hgt
    rw [hie, hje] at this
    exact hne (by rw [hs]; exact this hs.symm)

theorem conn_inv_of_check (l : List connection) (max : Int)
    (h : conn_inv_check l max = true) : conn_inv l max := by
  unfold conn_inv_check at h
  simp only [Bool.and_eq_true, decide_eq_true_eq, List.all_eq_true] at h
  obtain ⟨⟨⟨h1, h2⟩, h3⟩, h4⟩ := h
  exact ⟨h1, h2, sock_uniq_of_pairwise l h3, h4⟩

/-- C11. In a well-formed table (the descriptors in use are pairwise distinct and
lie in `[0, max_connection)`; the on-close hooks leave the module's variables
alone), at every clock value `now`, `connection_idlecheck` returns, and for
every slot: if the slot is in use, of type `FromClientDIS`, with
`now - cn_lasttime > PBS_NET_MAXCONNECTIDLE` (strictly) and the no-timeout flag
clear, it is released (reset by `cleanup_conn`); every other slot is left as it
was. -/
theorem connection_idlecheck_releases (env : Env) (w : World)
    (hfun : ∀ f sd v, env.user_func f sd v = v.net)
    (hm : 0 < w.net.max_connection ∧ int_range w.net.max_connection)
    (hpl : polls_ok w.net) (hconn : conn_inv w.net.svr_conn w.net.max_connection) :
    ∃ w', connection_idlecheck env w = some w' ∧
      ∀ (j : Int) (c : connection), aget w.net.svr_conn j = some c →
        aget w'.net.svr_conn j = some
          (if (c.cn_active = conn_type.FromClientDIS ∧
                env.PBS_NET_MAXCONNECTIDLE < w.now - c.cn_lasttime ∧
                c.cn_authen &&& PBS_NET_CONN_NOTIMEOUT = 0) ∧ c.cn_sock ≠ -1
            then cleaned_conn c else c) := by
  obtain ⟨w', hw', hinv⟩ := connection_idlecheck_spec env hfun w hm hpl hconn
  refine ⟨w', hw', ?_⟩
  intro j c hj
  have hjlt : j < w.net.max_connection := by
    have := (aget_some_bounds hj).2
    have := hconn.1
    omega
  rw [hinv.2.2.2.1 j c hj, if_pos hjlt]
  rfl

/-- Witness of C11 on `sample_idle`: of the three client connections only the
one on descriptor `1` is released. -/
theorem connection_idlecheck_releases_witness :
    ∃ w', connection_idlecheck sample_env sample_idle = some w' ∧
      ∀ (j : Int) (c : connection), aget sample_idle.net.svr_conn j = some c →
        aget w'.net.svr_conn j = some
          (if (c.cn_active = conn_type.FromClientDIS ∧
                sample_env.PBS_NET_MAXCONNECTIDLE < sample_idle.now - c.cn_lasttime ∧
                c.cn_authen &&& PBS_NET_CONN_NOTIMEOUT = 0) ∧ c.cn_sock ≠ -1
            then cleaned_conn c else c) :=
  connection_idlecheck_releases sample_env sample_idle (fun _ _ _ => rfl) (by decide)
    (by decide) (conn_inv_of_check _ _ (by decide))

/-! ## The bound on the idle sweep -/

theorem poll_count_silent (rev : Nat → Nat) (hrev : ∀ k, rev k = 0) (nfds : Int)
    (l : List pollfd) : ∀ k, poll_count nfds k (poll_fill rev nfds k l) = 0 := by
  induction l with
  | nil => intro k; rfl
  | cons p ps ih =>
    intro k
    simp only [poll_fill, poll_count, ih, add_zero]
    by_cases hk : (k : Int) < nfds
    · simp [hk, hrev]
    · simp [hk]

theorem idle_inv_of_check (t0 : Int) (v : World) (h : idle_inv_check t0 v = true) :
    idle_inv t0 v := by
  unfold idle_inv_check at h
  simp only [Bool.and_eq_true, decide_eq_true_eq, List.all_eq_true] at h
  obtain ⟨⟨⟨⟨⟨h1, h2⟩, h3⟩, h4⟩, h5⟩, h6⟩ := h
  exact ⟨h1, h2, conn_inv_of_check _ _ h3, h4, h5, h6⟩

/-- The idle sweep of a state that satisfies `idle_inv` keeps it, and leaves no
slot in use once the clock is more than the idle limit past `t0`. -/
theorem idle_sweep_step (env : Env) (hfun : ∀ f sd w, env.user_func f sd w = w.net)
    (t0 : Int) (x : World) (h : idle_inv t0 x) :
    ∃ v', connection_idlecheck env x = some v' ∧ idle_inv t0 v' ∧ v'.now = x.now ∧
      (env.PBS_NET_MAXCONNECTIDLE < x.now - t0 → v'.net.num_connections = 0) := by
  obtain ⟨hm, hpl, hconn, hfd, hnum, hall⟩ := h
  obtain ⟨v', hv', ⟨hmax, hnow⟩, hpl', hconn', hslots, hnum', hfd'⟩ :=
    connection_idlecheck_spec env hfun x hm hpl hconn
  have hslot : ∀ c' ∈ v'.net.svr_conn, ∃ c ∈ x.net.svr_conn, c' = swept env x.now c := by
    intro c' hc'
    obtain ⟨j, hj⟩ := mem_aget hc'
    obtain ⟨hj0, hj1⟩ := aget_some_bounds hj
    have hl1 := hconn'.1
    have hl2 := hconn.1
    obtain ⟨c, hc⟩ := aget_of_bounds x.net.svr_conn j hj0 (by omega)
    have := hslots j c hc
    rw [if_pos (by omega), hj] at this
    exact ⟨c, aget_mem hc, Option.some.inj this⟩
  refine ⟨v', hv', ⟨by rw [hmax]; exact hm, hpl', by rw [hmax]; exact hconn', by omega,
    by omega, ?_⟩, hnow, ?_⟩
  · intro c' hc' hlive
    obtain ⟨c, hc, heq⟩ := hslot c' hc'
    have hsame : c' = c := by
      rw [heq]
      unfold swept
      split
      · rw [heq] at hlive
        unfold swept at hlive
        rename_i hcond
        rw [if_pos hcond] at hlive
        exact absurd rfl hlive
      · rfl
    rw [hsame] at hlive ⊢
    exact hall c hc hlive
  · intro hlate
    have hempty : ∀ c' ∈ v'.net.svr_conn, c'.cn_sock = -1 := by
      intro c' hc'
      obtain ⟨c, hc, heq⟩ := hslot c' hc'
      rw [heq]
      by_cases hlive : c.cn_sock = -1
      · rw [swept_of_not_timed_out env x.now c (Or.inr hlive)]
        exact hlive
      · obtain ⟨ha, hf, hl⟩ := hall c hc hlive
        have hto : timed_out env x.now c := ⟨ha, by omega, hf⟩
        unfold swept
        rw [if_pos ⟨hto, hlive⟩]
        rfl
    have hcount : live_count v'.net = 0 := by
      unfold live_count
      rw [List.countP_eq_zero]
      intro c' hc'
      simp [hempty c' hc']
    have : v'.net.num_connections - (live_count v'.net : Int) = 0 := by omega
    rw [hcount] at this
    simpa using this

/-- A tick without traffic: `wait_request` returns `0`, keeps `idle_inv`, and
leaves no connection once the clock is more than the idle limit past `t0`. -/
theorem idle_tick (env : Env) (hfun : ∀ f sd w, env.user_func f sd w = w.net)
    (hpoll : ∀ v, env.poll_errno v = none ∨ env.poll_errno v = some EINTR)
    (hrev : ∀ v k, env.poll_revents v k = 0) (t0 : Int) (x : World) (wt : Int)
    (h : idle_inv t0 x) :
    ∃ v', wait_request env x wt = some (0, v') ∧ idle_inv t0 v' ∧ v'.now = x.now ∧
      (env.PBS_NET_MAXCONNECTIDLE < x.now - t0 → v'.net.num_connections = 0) := by
  have hloop : ∀ (y : World), wait_request_loop env (y.net.max_connection.toNat + 1) 0 0 y
      = some y := by
    intro y
    unfold wait_request_loop
    rw [if_neg (by omega)]
  have hdisp : ∀ (y : World), idle_inv t0 y → y.now = x.now →
      ∃ v', wait_request_dispatch env 0 y = some (0, v') ∧ idle_inv t0 v' ∧ v'.now = x.now ∧
        (env.PBS_NET_MAXCONNECTIDLE < x.now - t0 → v'.net.num_connections = 0) := by
    intro y hy hnow
    obtain ⟨v', hv', hinv', hnow', hzero⟩ := idle_sweep_step env hfun t0 y hy
    refine ⟨v', ?_, hinv', by rw [hnow', hnow], by rw [← hnow]; exact hzero⟩
    unfold wait_request_dispatch
    simp only [hloop, Option.bind_eq_bind, Option.some_bind, hv']
  unfold wait_request
  simp only
  rcases hpoll x with hp | hp
  · rw [hp]
    simp only
    have hfd := h.2.2.2.1
    have hpl : (x.net.pollfds.length : Int) = x.net.max_connection := h.2.1
    rw [if_pos (by omega), poll_count_silent _ (hrev x)]
    refine hdisp (polled env x) ?_ rfl
    obtain ⟨hm, _, hconn, hfd, hnum, hall⟩ := h
    refine ⟨hm, ?_, hconn, hfd, hnum, hall⟩
    show (((poll_fill (env.poll_revents x) (x.net.maxfdx + 1) 0 x.net.pollfds).length : Nat)
      : Int) = x.net.max_connection
    rw [poll_fill_length]
    exact hpl
  · rw [hp]
    simp only [if_true]
    exact hdisp x h rfl

/-- The ticks without traffic, `dt` seconds apart. -/
theorem idle_ticks (env : Env) (hfun : ∀ f sd w, env.user_func f sd w = w.net)
    (hpoll : ∀ v, env.poll_errno v = none ∨ env.poll_errno v = some EINTR)
    (hrev : ∀ v k, env.poll_revents v k = 0) (t0 dt wt : Int) (n : Nat) :
    ∀ x, idle_inv t0 x →
      ∃ v', run_ticks env (List.replicate n (dt, wt)) x = some v' ∧ idle_inv t0 v' ∧
        v'.now = x.now + n * dt ∧
        (0 < n → 0 ≤ dt → env.PBS_NET_MAXCONNECTIDLE < v'.now - t0 →
          v'.net.num_connections = 0) := by
  induction n with
  | zero =>
    intro x h
    exact ⟨x, rfl, h, by simp, fun h0 => absurd h0 (by decide)⟩
  | succ n ih =>
    intro x h
    have h0 : idle_inv t0 { x with now := x.now + dt } := h
    obtain ⟨v1, hv1, hinv1, hnow1, hzero1⟩ := idle_tick env hfun hpoll hrev t0 _ wt h0
    obtain ⟨v', hv', hinv', hnow', hzero'⟩ := ih v1 hinv1
    have hnow1' : v1.now = x.now + dt := hnow1
    refine ⟨v', ?_, hinv', ?_, ?_⟩
    · rw [List.replicate_succ]
      unfold run_ticks
      simp only [hv1, Option.bind_eq_bind, Option.some_bind]
      exact hv'
    · rw [hnow', hnow1']
      push_cast
      ring
    · intro _ hdt hlate
      rcases Nat.eq_zero_or_pos n with hn | hn
      · subst hn
        simp only [List.replicate_zero] at hv'
        cases hv'
        exact hzero1 (by rw [← hnow1']; exact hlate)
      · exact hzero' hn hdt hlate

theorem sweep_ticks_enough (max_idle waittime : Int) (hw : 0 < waittime)
    (hmi : 0 ≤ max_idle) : max_idle < (sweep_ticks max_idle waittime : Nat) * waittime := by
  unfold sweep_ticks
  have hq : 0 ≤ (max_idle + waittime - 1) / waittime := Int.ediv_nonneg (by omega) (by omega)
  push_cast
  rw [Int.toNat_of_nonneg hq]
  have h1 := Int.emod_add_ediv (max_idle + waittime - 1) waittime
  have h2 := Int.emod_lt_of_pos (max_idle + waittime - 1) hw
  nlinarith

/-- C12, amended.  Start from a well-formed table with `maxfdx` inside the poll
array whose `num_connections` is the number `k` of slots in use, in which every
slot in use is a `FromClientDIS` connection with the no-timeout flag clear and
with `cn_lasttime` not later than the clock at the start, and assume that the
on-close hooks leave the module's variables alone, that `poll` never reports a
readable descriptor and fails at most with `EINTR`, that the clock advances by
`waittime > 0` on every tick and that the idle limit is not negative.  Then
`ceil(PBS_NET_MAXCONNECTIDLE / waittime) + 1` calls of `wait_request(waittime)`
run to completion and leave `num_connections = 0`. -/
theorem idle_sweep_bound (env : Env) (w : World) (waittime : Int)
    (hfun : ∀ f sd v, env.user_func f sd v = v.net)
    (hpoll : ∀ v, env.poll_errno v = none ∨ env.poll_errno v = some EINTR)
    (hrev : ∀ v k, env.poll_revents v k = 0)
    (hw : 0 < waittime) (hmi : 0 ≤ env.PBS_NET_MAXCONNECTIDLE)
    (h : idle_inv w.now w) :
    ∃ w', run_ticks env
        (List.replicate (sweep_ticks env.PBS_NET_MAXCONNECTIDLE waittime) (waittime, waittime))
        w = some w' ∧
      w'.net.num_connections = 0 := by
  obtain ⟨w', hw', _, hnow, hzero⟩ := idle_ticks env hfun hpoll hrev w.now waittime waittime
    (sweep_ticks env.PBS_NET_MAXCONNECTIDLE waittime) w h
  refine ⟨w', hw', hzero (by unfold sweep_ticks; omega) (by omega) ?_⟩
  have := sweep_ticks_enough env.PBS_NET_MAXCONNECTIDLE waittime hw hmi
  rw [hnow]
  omega

/-- C12, counterexample.  `sample_idle` holds three `FromClientDIS` connections
and nothing else; the one on descriptor `3` has the no-timeout flag set.  With
an idle limit of `900` and `waittime = 300` the bound is `4` ticks; after `4`
ticks without traffic the exempt connection is still there and
`num_connections` is `1`. -/
theorem idle_sweep_keeps_exempt :
    sweep_ticks sample_env_silent.PBS_NET_MAXCONNECTIDLE 300 = 4 ∧
    sample_idle.net.svr_conn.all (fun c =>
      decide (c.cn_sock ≠ -1 → c.cn_active = conn_type.FromClientDIS)) = true ∧
    sample_idle.net.num_connections = 3 ∧
    (run_ticks sample_env_silent (List.replicate 4 (300, 300)) sample_idle).map
      (fun v => v.net.num_connections) = some 1 := by
  decide

/-- Witness of the amended C12 on `sample_two`, whose two client connections
were last active at the starting time `100`. -/
theorem idle_sweep_bound_witness :
    idle_inv sample_two.now sample_two ∧
    ∃ w', run_ticks sample_env_silent
        (List.replicate (sweep_ticks sample_env_silent.PBS_NET_MAXCONNECTIDLE 300) (300, 300))
        sample_two = some w' ∧
      w'.net.num_connections = 0 :=
  ⟨idle_inv_of_check _ _ (by decide),
    idle_sweep_bound sample_env_silent sample_two 300 (fun _ _ _ => rfl)
      (fun _ => Or.inl rfl) (fun _ _ => rfl) (by decide) (by decide)
      (idle_inv_of_check _ _ (by decide))⟩

/-! ## A full table refuses a new peer -/

/-- C13. When `accept_conn` runs on the descriptor `sd` of a registered listener
(slot `i`, the only slot that holds `sd`) while
`num_connections >= max_connection`, and `accept` returns a new descriptor, then
`accept_conn` returns after `accept`, `close` of the new descriptor and the log
message: the new descriptor is closed and not registered; `num_connections`,
the poll set and every connection record are as before, except `cn_lasttime`
of the listener, which is the current time. -/
theorem accept_conn_table_full (env : Env) (w : World) (sd i : Int) (c : connection)
    (hok : table_ok w.net) (hsd : 0 ≤ sd)
    (hc : aget w.net.svr_conn i = some c) (hsock : c.cn_sock = sd)
    (huniq : ∀ j c', aget w.net.svr_conn j = some c' → c'.cn_sock = sd → j = i)
    (hfull : w.net.max_connection ≤ w.net.num_connections)
    (hacc : (env.accept (touched w i c) sd).1 ≠ -1) :
    ∃ w', accept_conn env w sd = some w' ∧
      w'.trace = w.trace ++ [Event.accept sd (env.accept (touched w i c) sd).1,
        Event.close (env.accept (touched w i c) sd).1,
        Event.log_err LogMsg.connection_refused] ∧
      w'.net.num_connections = w.net.num_connections ∧
      w'.net.pollfds = w.net.pollfds ∧ w'.net.maxfdx = w.net.maxfdx ∧
      aget w'.net.svr_conn i = some { c with cn_lasttime := w.now } ∧
      ∀ j, j ≠ i → aget w'.net.svr_conn j = aget w.net.svr_conn j := by
  have hfind := find_actual_unique w.net sd i c hok hsd hc hsock huniq
  obtain ⟨h0, h1⟩ := aget_some_bounds hc
  have hi : i ≠ -1 := by omega
  have hacc' : (env.accept { w with net := { w.net with
      svr_conn := w.net.svr_conn.set i.toNat { c with cn_lasttime := w.now } } } sd).1 ≠ -1 :=
    hacc
  have hfull' : w.net.num_connections ≥ w.net.max_connection := hfull
  refine ⟨{ touched w i c with
    trace := w.trace ++ [Event.accept sd (env.accept (touched w i c) sd).1,
      Event.close (env.accept (touched w i c) sd).1,
      Event.log_err LogMsg.connection_refused] }, ?_, rfl, rfl, rfl, rfl,
    aget_set_self _ _ _ h0 h1, fun j hj => aget_set_ne _ _ _ _ h0 (Ne.symm hj)⟩
  unfold accept_conn
  simp only [hfind, Option.bind_eq_bind, Option.some_bind, hi, if_false, hc,
    aset_of_bounds _ _ _ h0 h1, World.emit, hacc', hfull', if_true, touched,
    List.append_assoc]
  rfl

/-- Witness of C13 on the full table `sample_busy`, whose listener is on
descriptor `0`. -/
theorem accept_conn_table_full_witness :
    ∃ w', accept_conn sample_env_peer sample_busy 0 = some w' ∧
      w'.trace = sample_busy.trace ++
        [Event.accept 0 (sample_env_peer.accept
            (touched sample_busy 0 (sample_listener 100)) 0).1,
          Event.close (sample_env_peer.accept
            (touched sample_busy 0 (sample_listener 100)) 0).1,
          Event.log_err LogMsg.connection_refused] ∧
      w'.net.num_connections = sample_busy.net.num_connections ∧
      w'.net.pollfds = sample_busy.net.pollfds ∧
      w'.net.maxfdx = sample_busy.net.maxfdx ∧
      aget w'.net.svr_conn 0
        = some { sample_listener 100 with cn_lasttime := sample_busy.now } ∧
      ∀ j, j ≠ 0 → aget w'.net.svr_conn j = aget sample_busy.net.svr_conn j :=
  accept_conn_table_full sample_env_peer sample_busy 0 0 (sample_listener 100)
    (by decide) (by decide) rfl rfl
    (fun j c' hj hs =>
      (conn_inv_of_check sample_busy.net.svr_conn 2 (by decide)).2.2.1 j 0 c'
        (sample_listener 100) hj rfl hs (by rw [hs]; decide))
    (by decide) (by decide)

/-! ## Network initialisation -/

/-- With two listener slots taken, `init_network` returns `-1` and changes
nothing. -/
theorem init_network_full (ienv : InitEnv) (w : World) (port readfunc : Nat)
    (h : 2 ≤ w.net.initialized) : init_network ienv w port readfunc = some (-1, w) := by
  unfold init_network
  rw [if_neg (by omega), if_neg (by omega)]

theorem connection_init_frame (nfiles : Int) (mem : Option (Nat → connection))
    (w w' : World) (r : Int) (h : connection_init nfiles mem w = some (r, w')) :
    w'.net.initialized = w.net.initialized ∧ w'.net.read_func0 = w.net.read_func0 ∧
      w'.net.read_func1 = w.net.read_func1 ∧ w'.now = w.now ∧
      w'.net.num_connections = w.net.num_connections := by
  unfold connection_init at h
  by_cases hmax : w.net.max_connection < 0
  · by_cases hn : nfiles > 0
    · cases mem with
      | none =>
        simp only [hmax, hn, if_true, World.emit, Option.some.injEq, Prod.mk.injEq] at h
        rw [← h.2]
        exact ⟨rfl, rfl, rfl, rfl, rfl⟩
      | some g =>
        simp only [hmax, hn, if_true, Option.bind_eq_bind, Option.bind_eq_some] at h
        obtain ⟨l, _, h⟩ := h
        simp only [Option.some.injEq, Prod.mk.injEq] at h
        rw [← h.2]
        exact ⟨rfl, rfl, rfl, rfl, rfl⟩
    · simp only [hmax, hn, if_true, if_false, Option.some.injEq, Prod.mk.injEq] at h
      rw [← h.2]
      exact ⟨rfl, rfl, rfl, rfl, rfl⟩
  · simp only [hmax, if_false, Option.bind_eq_bind, Option.bind_eq_some] at h
    obtain ⟨l, _, h⟩ := h
    simp only [Option.some.injEq, Prod.mk.injEq] at h
    rw [← h.2]
    exact ⟨rfl, rfl, rfl, rfl, rfl⟩

theorem selpoll_init_frame (mem : Option (Nat → pollfd)) (w : World) :
    (selpoll_init mem w).2.net.initialized = w.net.initialized ∧
      (selpoll_init mem w).2.net.read_func0 = w.net.read_func0 ∧
      (selpoll_init mem w).2.net.read_func1 = w.net.read_func1 ∧
      (selpoll_init mem w).2.net.svr_conn = w.net.svr_conn ∧
      (selpoll_init mem w).2.net.max_connection = w.net.max_connection ∧
      (selpoll_init mem w).2.now = w.now := by
  cases mem <;> exact ⟨rfl, rfl, rfl, rfl, rfl, rfl⟩

theorem add_conn_frame (w w' : World) (sock r : Int) (type : conn_type)
    (addr port func : Nat) (h : add_conn w sock type addr port func = some (r, w')) :
    w'.net.initialized = w.net.initialized ∧ w'.net.read_func0 = w.net.read_func0 ∧
      w'.net.read_func1 = w.net.read_func1 ∧
      w'.net.max_connection = w.net.max_connection := by
  unfold add_conn at h
  simp only [Option.bind_eq_bind, Option.bind_eq_some] at h
  obtain ⟨r0, _, h⟩ := h
  by_cases hr : r0 = -1
  · simp [hr] at h
    rw [← h.2]
    exact ⟨rfl, rfl, rfl, rfl⟩
  · simp only [hr, if_false, Option.bind_eq_some] at h
    obtain ⟨c, _, sc, _, net2, hset, hres⟩ := h
    simp only [Option.some.injEq, Prod.mk.injEq] at hres
    rw [← hres.2]
    unfold selpoll_fd_set at hset
    simp only [Option.bind_eq_bind, Option.bind_eq_some] at hset
    obtain ⟨_, _, _, _, _, _, hnet⟩ := hset
    simp only [Option.some.injEq] at hnet
    rw [← hnet]
    exact ⟨rfl, rfl, rfl, rfl⟩

/-- `init_network_listen` never lowers `initialized`, and a successful call with
`port != 0` raises it by one. -/
theorem init_network_listen_initialized (ienv : InitEnv) (w w' : World) (type : conn_type)
    (port readfunc : Nat) (r : Int)
    (h : init_network_listen ienv w type port readfunc = some (r, w')) :
    w.net.initialized ≤ w'.net.initialized ∧
      (port ≠ 0 → r = 0 → w'.net.initialized = w.net.initialized + 1) := by
  unfold init_network_listen at h
  by_cases hp : port = 0
  · simp only [hp, if_true, Option.some.injEq, Prod.mk.injEq] at h
    rw [← h.2]
    exact ⟨le_refl _, fun hne => absurd hp hne⟩
  · simp only [hp, if_false, Option.bind_eq_bind, Option.bind_eq_some] at h
    obtain ⟨net2, hnet2, h⟩ := h
    have hinit : net2.initialized = w.net.initialized + 1 := by
      unfold read_func_store at hnet2
      split at hnet2
      · simp only [Option.some.injEq] at hnet2
        rw [← hnet2]
      · split at hnet2
        · simp only [Option.some.injEq] at hnet2
          rw [← hnet2]
        · cases hnet2
    split at h
    · simp only [Option.some.injEq, Prod.mk.injEq] at h
      rw [← h.2]
      refine ⟨?_, fun _ hr => ?_⟩
      · show w.net.initialized ≤ net2.initialized
        omega
      · rw [hr] at h
        exact absurd h.1 (by decide)
    · split at h
      · simp only [Option.some.injEq, Prod.mk.injEq] at h
        rw [← h.2]
        refine ⟨?_, fun _ hr => ?_⟩
        · show w.net.initialized ≤ net2.initialized
          omega
        · rw [hr] at h
          exact absurd h.1 (by decide)
      · simp only [Option.bind_eq_some] at h
        obtain ⟨ra, hadd, h⟩ := h
        have hfr := add_conn_frame _ ra.2 _ ra.1 _ _ _ _ hadd
        have hfr1 : ra.2.net.initialized = net2.initialized := hfr.1
        split at h
        · simp only [Option.some.injEq, Prod.mk.injEq] at h
          rw [← h.2]
          refine ⟨?_, fun _ hr => ?_⟩
          · show w.net.initialized ≤ ra.2.net.initialized
            omega
          · rw [hr] at h
            exact absurd h.1 (by decide)
        · simp only [Option.some.injEq, Prod.mk.injEq] at h
          rw [← h.2]
          exact ⟨by omega, fun _ _ => by omega⟩

theorem init_network_initialized (ienv : InitEnv) (w w' : World) (port readfunc : Nat)
    (r : Int) (h : init_network ienv w port readfunc = some (r, w')) :
    w.net.initialized ≤ w'.net.initialized ∧
      (port ≠ 0 → r = 0 → w'.net.initialized = w.net.initialized + 1) := by
  unfold init_network at h
  split at h
  · simp only [Option.bind_eq_bind, Option.bind_eq_some] at h
    obtain ⟨r1, hr1, h⟩ := h
    have hf1 := connection_init_frame _ _ w r1.2 r1.1 hr1
    split at h
    · simp only [Option.some.injEq, Prod.mk.injEq] at h
      rw [← h.2, hf1.1]
      refine ⟨le_refl _, fun _ hr => ?_⟩
      rw [hr] at h
      exact absurd h.1 (by decide)
    · have hf2 := selpoll_init_frame (ienv.malloc_poll r1.2) r1.2
      split at h
      · simp only [Option.some.injEq, Prod.mk.injEq] at h
        rw [← h.2, hf2.1, hf1.1]
        refine ⟨le_refl _, fun _ hr => ?_⟩
        rw [hr] at h
        exact absurd h.1 (by decide)
      · have := init_network_listen_initialized ienv _ w' _ port readfunc r h
        rw [hf2.1, hf1.1] at this
        exact this
  · split at h
    · exact init_network_listen_initialized ienv w w' _ port readfunc r h
    · simp only [Option.some.injEq, Prod.mk.injEq] at h
      rw [← h.2]
      refine ⟨le_refl _, fun _ hr => ?_⟩
      rw [hr] at h
      exact absurd h.1 (by decide)

/-- `initialized` counts at least the calls with `port != 0` that returned `0`. -/
theorem init_calls_initialized (ienv : InitEnv) (calls : List (Nat × Nat)) :
    ∀ (w w' : World) (rets : List Int), init_calls ienv calls w = some (rets, w') →
      w.net.initialized + (listeners_created calls rets : Nat) ≤ w'.net.initialized := by
  induction calls with
  | nil =>
    intro w w' rets h
    simp only [init_calls, Option.some.injEq, Prod.mk.injEq] at h
    rw [← h.1, ← h.2]
    simp [listeners_created]
  | cons c cs ih =>
    intro w w' rets h
    simp only [init_calls, Option.bind_eq_bind, Option.bind_eq_some] at h
    obtain ⟨r, hr, rs, hrs, h⟩ := h
    simp only [Option.some.injEq, Prod.mk.injEq] at h
    rw [← h.1, ← h.2]
    have h1 := init_network_initialized ienv w r.2 c.1 c.2 r.1 hr
    have h2 := ih r.2 rs.2 rs.1 hrs
    simp only [listeners_created]
    push_cast
    split
    · rename_i hc
      have := h1.2 hc.1 hc.2
      omega
    · have := h1.1
      omega

/-- C15, amended.  Calls of `init_network` with `port == 0` take no listener
slot.  After any sequence of `init_network` calls that has run to completion
and in which at least two calls with `port != 0` returned `0`, every further
call of `init_network`, with any port and any read function, returns `-1` and
changes nothing. -/
theorem init_network_rejects_third (ienv : InitEnv) (w w1 : World)
    (calls : List (Nat × Nat)) (rets : List Int) (port readfunc : Nat)
    (h0 : 0 ≤ w.net.initialized)
    (hrun : init_calls ienv calls w = some (rets, w1))
    (hcount : 2 ≤ listeners_created calls rets) :
    init_network ienv w1 port readfunc = some (-1, w1) := by
  apply init_network_full
  have := init_calls_initialized ienv calls w w1 rets hrun
  have hc : (2 : Int) ≤ (listeners_created calls rets : Nat) := by exact_mod_cast hcount
  omega

/-- C15, counterexample.  Three calls `init_network(0, 7)` at program start:
all three return `0`, the third one included. -/
theorem init_network_third_succeeds :
    (init_calls sample_ienv [(0, 7), (0, 7), (0, 7)] sample_start).map Prod.fst
      = some [0, 0, 0] := by
  decide

/-- Witness of the amended C15: after `init_network(15001, 7)` and
`init_network(15002, 8)` have returned `0`, `init_network(15003, 9)` and
`init_network(0, 9)` return `-1`. -/
theorem init_network_rejects_third_witness :
    (0 : Int) ≤ sample_start.net.initialized ∧
    init_calls sample_ienv [(15001, 7), (15002, 8)] sample_start
      = some ([0, 0], sample_listening) ∧
    2 ≤ listeners_created [(15001, 7), (15002, 8)] [0, 0] ∧
    init_network sample_ienv sample_listening 15003 9 = some (-1, sample_listening) :=
  ⟨by decide, by decide, by decide,
    init_network_rejects_third sample_ienv sample_start sample_listening
      [(15001, 7), (15002, 8)] [0, 0] 15003 9 (by decide) (by decide) (by decide)⟩

theorem add_conn_registered (w : World) (sock : Int) (type : conn_type)
    (addr port func : Nat) (hm : 0 < w.net.max_connection)
    (hlen : (w.net.svr_conn.length : Int) = w.net.max_connection) (hpl : polls_ok w.net)
    (hs : 0 ≤ sock) :
    add_conn w sock type addr port func = some (-1, w) ∨
    ∃ r c p, aget w.net.svr_conn r = some c ∧ c.cn_sock = -1 ∧
      aget w.net.pollfds r = some p ∧
      add_conn w sock type addr port func
        = some (r, registered w r c p sock type addr port func) :=
  add_conn_cases w sock type addr port func hm hlen hpl hs

theorem table_ok_set (s s' : NetState) (i : Nat) (x : connection) (h : table_ok s)
    (hmax : s'.max_connection = s.max_connection)
    (hsv : s'.svr_conn = s.svr_conn.set i x) (hx : int_range x.cn_sock) : table_ok s' := by
  obtain ⟨hm, hlen, hr⟩ := h
  refine ⟨by rw [hmax]; exact hm, by rw [hsv, hmax, List.length_set]; exact hlen, ?_⟩
  intro c hc
  rw [hsv] at hc
  rcases List.mem_or_eq_of_mem_set hc with h | h
  · exact hr c h
  · rw [h]; exact hx

/-- What `connection_init` leaves when it succeeds: an allocated table of empty
slots; the other variables are as before. -/
theorem connection_init_ok (nfiles : Int) (mem : Option (Nat → connection))
    (w w' : World) (r : Int) (ha : alloc_ok w.net) (hn : int_range nfiles)
    (h : connection_init nfiles mem w = some (r, w')) (hr : ¬ r < 0) :
    (0 < w'.net.max_connection ∧ int_range w'.net.max_connection) ∧
      (w'.net.svr_conn.length : Int) = w'.net.max_connection ∧
      (∀ c ∈ w'.net.svr_conn, c.cn_sock = -1) := by
  have hloop : ∀ (m : Int) (l l' : List connection), 0 < m → (l.length : Int) = m →
      connection_init_loop m m.toNat 0 l = some l' →
      (l'.length : Int) = m ∧ ∀ c ∈ l', c.cn_sock = -1 := by
    intro m l l' hm hl hl'
    obtain ⟨l2, hl2, hlen2, hspec⟩ := connection_init_loop_spec m m.toNat 0 l (le_refl _) hl
      (by rw [Int.toNat_of_nonneg (by omega)]; omega)
    rw [hl2] at hl'
    cases hl'
    refine ⟨hlen2, ?_⟩
    intro c hc
    obtain ⟨j, hj⟩ := mem_aget hc
    exact (hspec j c hj).1 (aget_some_bounds hj).1
  unfold connection_init at h
  by_cases hmax : w.net.max_connection < 0
  · by_cases hnf : nfiles > 0
    · cases mem with
      | none =>
        simp only [hmax, hnf, if_true, World.emit, Option.some.injEq, Prod.mk.injEq] at h
        rw [← h.1] at hr
        exact absurd (by decide) hr
      | some g =>
        simp only [hmax, hnf, if_true, Option.bind_eq_bind, Option.bind_eq_some] at h
        obtain ⟨l, hl, h⟩ := h
        simp only [Option.some.injEq, Prod.mk.injEq] at h
        rw [← h.2]
        obtain ⟨h1, h2⟩ := hloop nfiles _ l hnf (by simp; omega) hl
        exact ⟨⟨hnf, hn⟩, h1, h2⟩
    · simp only [hmax, hnf, if_true, if_false, Option.some.injEq, Prod.mk.injEq] at h
      rw [← h.1] at hr
      exact absurd (by decide) hr
  · simp only [hmax, if_false, Option.bind_eq_bind, Option.bind_eq_some] at h
    obtain ⟨l, hl, h⟩ := h
    simp only [Option.some.injEq, Prod.mk.injEq] at h
    rw [← h.2]
    rcases ha with ha | ⟨hm, hlen⟩
    · exact absurd ha hmax
    · obtain ⟨h1, h2⟩ := hloop _ _ l hm.1 hlen hl
      exact ⟨hm, h1, h2⟩

/-- What a successful `init_network_listen` has done: for `port == 0` it has set
`net_is_initialized`; otherwise it has saved the read function and, unless the
table was full, registered the new socket. -/
theorem init_network_listen_ok (ienv : InitEnv) (w w' : World) (type : conn_type)
    (port readfunc : Nat) (hok : table_ok w.net) (hpl : polls_ok w.net)
    (h : init_network_listen ienv w type port readfunc = some (0, w')) :
    (port = 0 ∧ w' = { w with net := { w.net with net_is_initialized := 1 } }) ∨
    (port ≠ 0 ∧ (w.net.initialized = 0 ∨ w.net.initialized = 1) ∧
      0 ≤ ienv.socket (read_func_saved w readfunc) ∧
      (w' = read_func_saved w readfunc ∨
        ∃ r c p, aget w.net.svr_conn r = some c ∧ c.cn_sock = -1 ∧
          aget w.net.pollfds r = some p ∧
          w' = registered (read_func_saved w readfunc) r c p
            (ienv.socket (read_func_saved w readfunc)) type 0 0 accept_conn_ptr)) := by
  unfold init_network_listen at h
  by_cases hp : port = 0
  · simp only [hp, if_true, Option.some.injEq, Prod.mk.injEq, true_and] at h
    exact Or.inl ⟨hp, h.symm⟩
  · right
    simp only [hp, if_false, Option.bind_eq_bind, Option.bind_eq_some] at h
    obtain ⟨net2, hnet2, h⟩ := h
    have hcase : (w.net.initialized = 0 ∨ w.net.initialized = 1) ∧
        ({ w with net := net2 } : World) = read_func_saved w readfunc := by
      unfold read_func_store at hnet2
      unfold read_func_saved
      split at hnet2
      · rename_i h0
        have h0' : w.net.initialized = 0 := h0
        simp only [Option.some.injEq] at hnet2
        rw [← hnet2, if_pos h0']
        exact ⟨Or.inl h0', rfl⟩
      · rename_i h0
        have h0' : ¬ w.net.initialized = 0 := h0
        split at hnet2
        · rename_i h1
          simp only [Option.some.injEq] at hnet2
          rw [← hnet2, if_neg h0']
          exact ⟨Or.inr h1, rfl⟩
        · cases hnet2
    have hw2 : ({ net := net2, now := w.now, trace := w.trace } : World)
        = read_func_saved w readfunc := hcase.2
    simp only [hw2] at h
    refine ⟨hp, hcase.1, ?_⟩
    split at h
    · simp at h
    · rename_i hsock
      split at h
      · simp at h
      · simp only [Option.bind_eq_some] at h
        obtain ⟨ra, hadd, h⟩ := h
        split at h
        · simp at h
        · simp only [Option.some.injEq, Prod.mk.injEq, true_and] at h
          refine ⟨by omega, ?_⟩
          have hm2 : 0 < (read_func_saved w readfunc).net.max_connection := by
            unfold read_func_saved
            split <;> exact hok.1.1
          have hlen2 : ((read_func_saved w readfunc).net.svr_conn.length : Int)
              = (read_func_saved w readfunc).net.max_connection := by
            unfold read_func_saved
            split <;> exact hok.2.1
          have hpl2 : polls_ok (read_func_saved w readfunc).net := by
            unfold read_func_saved
            split <;> exact hpl
          have hsv2 : (read_func_saved w readfunc).net.svr_conn = w.net.svr_conn := by
            unfold read_func_saved
            split <;> rfl
          have hpf2 : (read_func_saved w readfunc).net.pollfds = w.net.pollfds := by
            unfold read_func_saved
            split <;> rfl
          rcases add_conn_registered (read_func_saved w readfunc)
            (ienv.socket (read_func_saved w readfunc)) type 0 0 accept_conn_ptr hm2 hlen2 hpl2
            (by omega) with hfull | ⟨r, c, p, hc, hempty, hpp, hreg⟩
          · rw [hfull] at hadd
            cases hadd
            exact Or.inl h.symm
          · rw [hreg] at hadd
            cases hadd
            rw [hsv2] at hc
            rw [hpf2] at hpp
            exact Or.inr ⟨r, c, p, hc, hempty, hpp, h.symm⟩
theorem read_func_saved_fields (w : World) (g : Nat) :
    (read_func_saved w g).net.svr_conn = w.net.svr_conn ∧
      (read_func_saved w g).net.max_connection = w.net.max_connection ∧
      (read_func_saved w g).net.pollfds = w.net.pollfds ∧
      (read_func_saved w g).net.initialized = w.net.initialized + 1 ∧
      (w.net.initialized = 0 → (read_func_saved w g).net.read_func0 = g ∧
        (read_func_saved w g).net.read_func1 = w.net.read_func1) ∧
      (w.net.initialized ≠ 0 → (read_func_saved w g).net.read_func1 = g ∧
        (read_func_saved w g).net.read_func0 = w.net.read_func0) := by
  unfold read_func_saved
  by_cases h : w.net.initialized = 0
  · rw [if_pos h]
    exact ⟨rfl, rfl, rfl, rfl, fun _ => ⟨rfl, rfl⟩, fun hne => absurd h hne⟩
  · rw [if_neg h]
    exact ⟨rfl, rfl, rfl, rfl, fun h0 => absurd h0 h, fun _ => ⟨rfl, rfl⟩⟩

/-- A state that differs from one with a listener in slot `i` by the content
`x` of an empty slot `r`, by poll entries and counters, and by a later
`read_func` entry still has the listener in slot `i`. -/
theorem listener_at_set (t : conn_type) (f : Nat) (sock i : Int) (s s' : NetState)
    (r : Int) (c x : connection) (h : listener_at t f sock i s)
    (hmax : s'.max_connection = s.max_connection)
    (hpl : s'.pollfds.length = s.pollfds.length)
    (hsv : s'.svr_conn = s.svr_conn.set r.toNat x)
    (hc : aget s.svr_conn r = some c) (hempty : c.cn_sock = -1)
    (hx : x.cn_sock ≠ sock) (hxr : int_range x.cn_sock)
    (hinit : s.initialized ≤ s'.initialized)
    (hrf0 : t = conn_type.Primary → s'.read_func0 = s.read_func0)
    (hrf1 : t = conn_type.Secondary → s'.read_func1 = s.read_func1) :
    listener_at t f sock i s' := by
  obtain ⟨⟨hok, hpo⟩, hfn, ⟨ci, hci, hsi, hti⟩, hs0, huniq⟩ := h
  obtain ⟨hr0, hr1⟩ := aget_some_bounds hc
  have hri : r ≠ i := by
    intro hri
    rw [hri, hci] at hc
    cases hc
    omega
  refine ⟨⟨table_ok_set s s' r.toNat x hok hmax hsv hxr, ?_⟩, ?_, ⟨ci, ?_, hsi, hti⟩, hs0, ?_⟩
  · unfold polls_ok at hpo ⊢
    rw [hmax, hpl]
    exact hpo
  · rcases hfn with ⟨h1, h2, h3⟩ | ⟨h1, h2, h3⟩
    · exact Or.inl ⟨h1, by omega, by rw [hrf0 h1]; exact h3⟩
    · exact Or.inr ⟨h1, by omega, by rw [hrf1 h1]; exact h3⟩
  · rw [hsv, aget_set_ne _ _ _ _ hr0 hri]
    exact hci
  · intro j c' hj hs'
    rw [hsv] at hj
    by_cases hjr : j = r
    · rw [hjr, aget_set_self _ _ _ hr0 hr1] at hj
      cases hj
      exact absurd hs' hx
    · rw [aget_set_ne _ _ _ _ hr0 (Ne.symm hjr)] at hj
      exact huniq j c' hj hs'

theorem listener_at_same (t : conn_type) (f : Nat) (sock i : Int) (s s' : NetState)
    (h : listener_at t f sock i s)
    (hmax : s'.max_connection = s.max_connection)
    (hpl : s'.pollfds = s.pollfds) (hsv : s'.svr_conn = s.svr_conn)
    (hinit : s.initialized ≤ s'.initialized)
    (hrf0 : t = conn_type.Primary → s'.read_func0 = s.read_func0)
    (hrf1 : t = conn_type.Secondary → s'.read_func1 = s.read_func1) :
    listener_at t f sock i s' := by
  obtain ⟨⟨hok, hpo⟩, hfn, hslot, hs0, huniq⟩ := h
  refine ⟨⟨?_, ?_⟩, ?_, by rw [hsv]; exact hslot, hs0, by rw [hsv]; exact huniq⟩
  · unfold table_ok at hok ⊢
    rw [hmax, hsv]
    exact hok
  · unfold polls_ok at hpo ⊢
    rw [hmax, hpl]
    exact hpo
  · rcases hfn with ⟨h1, h2, h3⟩ | ⟨h1, h2, h3⟩
    · exact Or.inl ⟨h1, by omega, by rw [hrf0 h1]; exact h3⟩
    · exact Or.inr ⟨h1, by omega, by rw [hrf1 h1]; exact h3⟩

/-- A later successful `init_network` call keeps a listener and its read
function. -/
theorem listener_at_step (ienv : InitEnv) (hsys : ienv_ok ienv) (t : conn_type) (f : Nat)
    (sock i : Int) (w w' : World) (port g : Nat) (h : listener_at t f sock i w.net)
    (hcall : init_network ienv w port g = some (0, w')) :
    listener_at t f sock i w'.net := by
  have hinit1 : 1 ≤ w.net.initialized := by
    rcases h.2.1 with ⟨_, h2, _⟩ | ⟨_, h2, _⟩ <;> omega
  unfold init_network at hcall
  rw [if_neg (by omega)] at hcall
  split at hcall
  · rename_i h1
    have hprim : t = conn_type.Primary := by
      rcases h.2.1 with ⟨ht, _, _⟩ | ⟨_, h2, _⟩
      · exact ht
      · omega
    have hsec : ¬ t = conn_type.Secondary := by rw [hprim]; decide
    rcases init_network_listen_ok ienv w w' _ port g h.1.1 h.1.2 hcall with
      ⟨_, hw'⟩ | ⟨_, _, hs0, hw' | ⟨r, c, p, hc, hempty, hp, hw'⟩⟩
    · rw [hw']
      exact listener_at_same t f sock i w.net _ h rfl rfl rfl (le_refl _)
        (fun _ => rfl) (fun _ => rfl)
    · obtain ⟨f1, f2, f3, f4, _, f6⟩ := read_func_saved_fields w g
      rw [hw']
      exact listener_at_same t f sock i w.net _ h f2 f3 f1 (by omega)
        (fun _ => (f6 (by omega)).2) (fun hs => absurd hs hsec)
    · obtain ⟨f1, f2, f3, f4, _, f6⟩ := read_func_saved_fields w g
      obtain ⟨ci, hci, hsi, _⟩ := h.2.2.1
      have hokS : table_ok (read_func_saved w g).net := by
        unfold table_ok
        rw [f1, f2]
        exact h.1.1
      have hne : ienv.socket (read_func_saved w g) ≠ sock := by
        intro heq
        have := hsys.2.2 (read_func_saved w g) hokS ci (by rw [f1]; exact aget_mem hci)
        rw [heq] at this
        exact this hsi
      rw [hw']
      refine listener_at_set t f sock i w.net _ r c
        (added_conn c (read_func_saved w g).now (ienv.socket (read_func_saved w g))
          conn_type.Secondary 0 0 accept_conn_ptr) h ?_ ?_ ?_ hc hempty hne
        (hsys.2.1 _ hokS) ?_ (fun _ => ?_) (fun hs => absurd hs hsec)
      · exact f2
      · show ((read_func_saved w g).net.pollfds.set r.toNat _).length = _
        rw [List.length_set, f3]
      · show (read_func_saved w g).net.svr_conn.set r.toNat _ = _
        rw [f1]
      · show w.net.initialized ≤ (read_func_saved w g).net.initialized
        omega
      · exact (f6 (by omega)).2
  · simp at hcall

/-- A successful `init_network_listen` on a well-formed table leaves a
well-formed table; and for `port != 0` every slot in use whose descriptor no
slot held before is the new listener: its handler is `accept_conn`, its type is
the one chosen by the call, and the call's read function is the one saved for
that type. -/
theorem init_network_listen_listener (ienv : InitEnv) (hsys : ienv_ok ienv) (w w' : World)
    (t : conn_type) (port g : Nat) (hok : table_ok w.net) (hpl : polls_ok w.net)
    (ht : t = if w.net.initialized = 0 then conn_type.Primary else conn_type.Secondary)
    (hcall : init_network_listen ienv w t port g = some (0, w')) :
    (table_ok w'.net ∧ polls_ok w'.net) ∧ w.net.initialized ≤ w'.net.initialized ∧
      (port ≠ 0 → ∀ i c2, aget w'.net.svr_conn i = some c2 → c2.cn_sock ≠ -1 →
        (∀ c ∈ w.net.svr_conn, c.cn_sock ≠ c2.cn_sock) →
        c2.cn_func = accept_conn_ptr ∧ listener_at t g c2.cn_sock i w'.net) := by
  obtain ⟨f1, f2, f3, f4, f5, f6⟩ := read_func_saved_fields w g
  have hokS : table_ok (read_func_saved w g).net := by
    unfold table_ok
    rw [f1, f2]
    exact hok
  have hplS : polls_ok (read_func_saved w g).net := by
    unfold polls_ok
    rw [f2, f3]
    exact hpl
  rcases init_network_listen_ok ienv w w' t port g hok hpl hcall with
    ⟨hp, hw'⟩ | ⟨hp, hcase, hs0, hw' | ⟨r, c, p, hc, hempty, hpp, hw'⟩⟩
  · rw [hw']
    exact ⟨⟨hok, hpl⟩, le_refl _, fun hne => absurd hp hne⟩
  · rw [hw']
    refine ⟨⟨hokS, hplS⟩, by omega, ?_⟩
    intro _ i c2 hi hlive hnew
    rw [f1] at hi
    exact absurd rfl (hnew c2 (aget_mem hi))
  · obtain ⟨hr0, hr1⟩ := aget_some_bounds hc
    have hokR : table_ok (registered (read_func_saved w g) r c p
        (ienv.socket (read_func_saved w g)) t 0 0 accept_conn_ptr).net :=
      table_ok_set (read_func_saved w g).net _ r.toNat _ hokS rfl rfl (hsys.2.1 _ hokS)
    have hplR : polls_ok (registered (read_func_saved w g) r c p
        (ienv.socket (read_func_saved w g)) t 0 0 accept_conn_ptr).net := by
      show ((((read_func_saved w g).net.pollfds.set r.toNat _).length : Nat) : Int)
        = (read_func_saved w g).net.max_connection
      rw [List.length_set]
      exact hplS
    rw [hw']
    refine ⟨⟨hokR, hplR⟩, ?_, ?_⟩
    · show w.net.initialized ≤ (read_func_saved w g).net.initialized
      omega
    · intro _ i c2 hi hlive hnew
      have hi' : aget ((read_func_saved w g).net.svr_conn.set r.toNat
          (added_conn c (read_func_saved w g).now (ienv.socket (read_func_saved w g))
            t 0 0 accept_conn_ptr)) i = some c2 := hi
      rw [f1] at hi'
      by_cases hir : i = r
      · rw [hir, aget_set_self _ _ _ hr0 hr1] at hi'
        cases hi'
        refine ⟨rfl, ⟨hokR, hplR⟩, ?_, ⟨_, ?_, rfl, rfl⟩, hs0, ?_⟩
        · show (t = conn_type.Primary ∧ 1 ≤ (read_func_saved w g).net.initialized ∧
              (read_func_saved w g).net.read_func0 = g) ∨
            (t = conn_type.Secondary ∧ 2 ≤ (read_func_saved w g).net.initialized ∧
              (read_func_saved w g).net.read_func1 = g)
          by_cases h0 : w.net.initialized = 0
          · rw [if_pos h0] at ht
            exact Or.inl ⟨ht, by omega, (f5 h0).1⟩
          · rw [if_neg h0] at ht
            exact Or.inr ⟨ht, by omega, (f6 h0).1⟩
        · show aget ((read_func_saved w g).net.svr_conn.set r.toNat _) i = _
          rw [f1, hir, aget_set_self _ _ _ hr0 hr1]
        · intro j c' hj hs'
          have hj' : aget ((read_func_saved w g).net.svr_conn.set r.toNat
              (added_conn c (read_func_saved w g).now (ienv.socket (read_func_saved w g))
                t 0 0 accept_conn_ptr)) j = some c' := hj
          rw [f1] at hj'
          by_cases hjr : j = r
          · rw [hjr, hir]
          · rw [aget_set_ne _ _ _ _ hr0 (Ne.symm hjr)] at hj'
            exact absurd hs' (hnew c' (aget_mem hj'))
      · rw [aget_set_ne _ _ _ _ hr0 (Ne.symm hir)] at hi'
        exact absurd rfl (hnew c2 (aget_mem hi'))

/-- A successful `init_network` call keeps the state between calls well formed;
and for `port != 0` every slot in use whose descriptor no slot held before the
call is the listener the call has created. -/
theorem init_network_listener (ienv : InitEnv) (hsys : ienv_ok ienv) (w w' : World)
    (port g : Nat) (hI : init_inv_state w.net)
    (hcall : init_network ienv w port g = some (0, w')) :
    init_inv_state w'.net ∧
      (port ≠ 0 → ∀ i c2, aget w'.net.svr_conn i = some c2 → c2.cn_sock ≠ -1 →
        (∀ c ∈ w.net.svr_conn, c.cn_sock ≠ c2.cn_sock) →
        c2.cn_func = accept_conn_ptr ∧
          listener_at (if w.net.initialized = 0 then conn_type.Primary
            else conn_type.Secondary) g c2.cn_sock i w'.net) := by
  have halloc : ∀ (v : World), table_ok v.net → alloc_ok v.net :=
    fun v hv => Or.inr ⟨hv.1, hv.2.1⟩
  unfold init_network at hcall
  split at hcall
  · rename_i h0
    simp only [Option.bind_eq_bind, Option.bind_eq_some] at hcall
    obtain ⟨r1, hr1, hcall⟩ := hcall
    split at hcall
    · simp at hcall
    · rename_i hr1neg
      split at hcall
      · simp at hcall
      · rename_i hr2neg
        obtain ⟨hmA, hlenA, hemptyA⟩ := connection_init_ok _ _ w r1.2 r1.1 hI.1 (hsys.1 w)
          hr1 hr1neg
        have hfA := connection_init_frame _ _ w r1.2 r1.1 hr1
        have hmem : ∃ g2, ienv.malloc_poll r1.2 = some g2 := by
          cases hm : ienv.malloc_poll r1.2 with
          | none =>
            rw [hm] at hr2neg
            exact absurd (show ((-1 : Int) < 0) by decide) hr2neg
          | some g2 => exact ⟨g2, rfl⟩
        obtain ⟨g2, hg2⟩ := hmem
        rw [hg2] at hcall
        have hokB : table_ok (selpoll_init (some g2) r1.2).2.net := by
          refine ⟨hmA, hlenA, ?_⟩
          intro c hc
          have : c.cn_sock = -1 := hemptyA c hc
          rw [this]
          decide
        have hplB : polls_ok (selpoll_init (some g2) r1.2).2.net := by
          show (((List.replicate r1.2.net.max_connection.toNat
            ({ fd := -1, events := POLLIN, revents := 0 } : pollfd)).length : Nat) : Int)
            = r1.2.net.max_connection
          rw [List.length_replicate, Int.toNat_of_nonneg (by omega)]
        have hinitB : (selpoll_init (some g2) r1.2).2.net.initialized = 0 := by
          show r1.2.net.initialized = 0
          rw [hfA.1]
          exact h0
        obtain ⟨⟨hok', hpl'⟩, hle, hest⟩ := init_network_listen_listener ienv hsys _ w'
          conn_type.Primary port g hokB hplB (by rw [if_pos hinitB]) hcall
        refine ⟨⟨halloc w' hok', by omega, fun _ => ⟨hok', hpl'⟩⟩, ?_⟩
        intro hp i c2 hi hlive _
        rw [if_pos h0]
        exact hest hp i c2 hi hlive (fun c hc => by
          have : c.cn_sock = -1 := hemptyA c hc
          rw [this]
          exact fun h => hlive h.symm)
  · rename_i h0
    split at hcall
    · rename_i h1
      obtain ⟨hok, hpl⟩ := hI.2.2 (by omega)
      obtain ⟨⟨hok', hpl'⟩, hle, hest⟩ := init_network_listen_listener ienv hsys w w'
        conn_type.Secondary port g hok hpl (by rw [if_neg h0]) hcall
      refine ⟨⟨halloc w' hok', by omega, fun _ => ⟨hok', hpl'⟩⟩, ?_⟩
      intro hp i c2 hi hlive hnew
      rw [if_neg h0]
      exact hest hp i c2 hi hlive hnew
    · simp at hcall

theorem lowest_free_spec (l : List connection) :
    (0 ≤ lowest_free l ∧ lowest_free l ≤ l.length) ∧ ∀ c ∈ l, c.cn_sock ≠ lowest_free l := by
  have hex : ∃ d ∈ Finset.range (l.length + 1), (d : Int) ∉ (l.map (fun c => c.cn_sock)).toFinset := by
    by_contra hno
    push_neg at hno
    have hsub : (Finset.range (l.length + 1)).image (fun d : Nat => (d : Int))
        ⊆ (l.map (fun c => c.cn_sock)).toFinset := by
      intro x hx
      obtain ⟨d, hd, rfl⟩ := Finset.mem_image.mp hx
      exact hno d hd
    have h1 := Finset.card_le_card hsub
    rw [Finset.card_image_of_injective _ Nat.cast_injective, Finset.card_range] at h1
    have h2 : (l.map (fun c => c.cn_sock)).toFinset.card ≤ l.length := by
      have := List.toFinset_card_le (l.map (fun c => c.cn_sock))
      simpa using this
    omega
  obtain ⟨d, hd, hfree⟩ := hex
  have hp : (fun (d : Nat) => l.all (fun c => decide (c.cn_sock ≠ Int.ofNat d))) d = true := by
    simp only [List.all_eq_true, decide_eq_true_eq]
    intro c hc heq
    apply hfree
    rw [List.mem_toFinset, List.mem_map]
    exact ⟨c, hc, heq⟩
  have hsome : ((List.range (l.length + 1)).find?
      (fun (d : Nat) => l.all (fun c => decide (c.cn_sock ≠ Int.ofNat d)))).isSome = true := by
    rw [List.find?_isSome]
    exact ⟨d, List.mem_range.mpr (Finset.mem_range.mp hd), hp⟩
  obtain ⟨e, he⟩ := Option.isSome_iff_exists.mp hsome
  have hmem := List.mem_of_find?_eq_some he
  have hpe := List.find?_some he
  have hval : lowest_free l = (e : Int) := by
    unfold lowest_free
    rw [he]
    rfl
  rw [hval]
  refine ⟨⟨by omega, ?_⟩, ?_⟩
  · have := List.mem_range.mp hmem
    omega
  · simp only [List.all_eq_true, decide_eq_true_eq] at hpe
    exact hpe

theorem sample_ienv_lowest_ok : ienv_ok sample_ienv_lowest := by
  refine ⟨fun _ => (by decide : int_range 4), ?_, ?_⟩
  · intro v hv
    obtain ⟨⟨h0, h1⟩, _⟩ := lowest_free_spec v.net.svr_conn
    have hlen := hv.2.1
    have hm := hv.1.2
    show int_range (lowest_free v.net.svr_conn)
    unfold int_range at hm ⊢
    omega
  · intro v _ c hc
    exact (lowest_free_spec v.net.svr_conn).2 c hc
/-- The two outcomes of `add_conn` on a well-formed table, for a property of the
resulting world: the table was full and nothing changed, or a slot that was
empty was taken. -/
theorem add_conn_bind_slot (w : World) (sock : Int) (type : conn_type)
    (addr port func : Nat) (hm : 0 < w.net.max_connection)
    (hlen : (w.net.svr_conn.length : Int) = w.net.max_connection) (hpl : polls_ok w.net)
    (hs : 0 ≤ sock) (P : World → Prop) (hfull : P w)
    (hreg : ∀ r c p, aget w.net.svr_conn r = some c → c.cn_sock = -1 →
      aget w.net.pollfds r = some p → P (registered w r c p sock type addr port func)) :
    ∃ w', ((add_conn w sock type addr port func).bind fun r2 => some r2.2) = some w' ∧
      P w' := by
  rcases add_conn_registered w sock type addr port func hm hlen hpl hs with
    hf | ⟨r, c, p, hc, he, hp, hadd⟩
  · exact ⟨w, by rw [hf]; rfl, hfull⟩
  · exact ⟨_, by rw [hadd]; rfl, hreg r c p hc he hp⟩

/-- Along a sequence of `init_network` calls that all return `0`, the state
between calls stays well formed and every listener keeps its slot, its type and
its read function. -/
theorem init_calls_listener (ienv : InitEnv) (hsys : ienv_ok ienv) :
    ∀ (calls : List (Nat × Nat)) (w w' : World) (rets : List Int),
      init_calls ienv calls w = some (rets, w') → (∀ r ∈ rets, r = 0) →
      (init_inv_state w.net → init_inv_state w'.net) ∧
        ∀ t f sock i, listener_at t f sock i w.net → listener_at t f sock i w'.net := by
  intro calls
  induction calls with
  | nil =>
    intro w w' rets h _
    simp only [init_calls, Option.some.injEq, Prod.mk.injEq] at h
    rw [← h.2]
    exact ⟨id, fun _ _ _ _ => id⟩
  | cons c cs ih =>
    intro w w' rets h hall
    simp only [init_calls, Option.bind_eq_bind, Option.bind_eq_some, Option.some.injEq,
      Prod.mk.injEq] at h
    obtain ⟨r, hr, rs, hrs, hrets, hw'⟩ := h
    have hr0 : r.1 = 0 := hall r.1 (by rw [← hrets]; exact List.mem_cons_self _ _)
    have hcall : init_network ienv w c.1 c.2 = some (0, r.2) := by
      rw [hr, ← hr0]
    have hrest : init_calls ienv cs r.2 = some (rs.1, w') := by
      rw [hrs, ← hw']
    obtain ⟨ih1, ih2⟩ := ih r.2 w' rs.1 hrest
      (fun x hx => hall x (by rw [← hrets]; exact List.mem_cons_of_mem _ hx))
    refine ⟨fun hI => ih1 (init_network_listener ienv hsys w r.2 c.1 c.2 hI hcall).1, ?_⟩
    intro t f sock i hl
    exact ih2 t f sock i (listener_at_step ienv hsys t f sock i w r.2 c.1 c.2 hl hcall)

/-- Calling `accept_conn` on the descriptor of a listener returns, and a slot
that was empty before the call and is in use after it holds a client connection
whose handler is the listener's read function. -/
theorem accept_conn_listener (env : Env) (hacc : ∀ v sd, -1 ≤ (env.accept v sd).1)
    (t : conn_type) (f : Nat) (sock i : Int) (w : World)
    (h : listener_at t f sock i w.net) :
    ∃ w', accept_conn env w sock = some w' ∧
      ∀ j c3 c4, aget w.net.svr_conn j = some c3 → aget w'.net.svr_conn j = some c4 →
        c3.cn_sock = -1 → c4.cn_sock ≠ -1 →
        c4.cn_active = conn_type.FromClientDIS ∧ c4.cn_func = f := by
  obtain ⟨⟨hok, hpl⟩, hfn, ⟨ci, hci, hsi, hti⟩, hs0, huniq⟩ := h
  have hsr : int_range sock := by
    rw [← hsi]
    exact hok.2.2 ci (aget_mem hci)
  obtain ⟨r, hfind, hnone, hfirst⟩ := find_actual_index_probe w.net sock hok hs0 hsr
  have hr : r ≠ -1 := fun hr => (hnone.mp hr) ci (aget_mem hci) hsi
  obtain ⟨_, _, _, ⟨c, hc, hsock⟩, _⟩ := hfirst hr
  have hri : r = i := huniq r c hc hsock
  rw [hri] at hfind hc
  rw [hci] at hc
  cases hc
  obtain ⟨h0, h1⟩ := aget_some_bounds hci
  have hc1 : aget (w.net.svr_conn.set i.toNat { ci with cn_lasttime := w.now }) i
      = some { ci with cn_lasttime := w.now } := aget_set_self _ _ _ h0 h1
  have hi1 : i ≠ -1 := by omega
  -- a slot of the table after the time stamp is not a new slot in use
  have hold : ∀ j c3 c4, aget w.net.svr_conn j = some c3 →
      aget (w.net.svr_conn.set i.toNat { ci with cn_lasttime := w.now }) j = some c4 →
      c3.cn_sock = -1 → c4.cn_sock ≠ -1 → False := by
    intro j c3 c4 h3 h4 he hl
    by_cases hji : j = i
    · rw [hji, hci] at h3
      cases h3
      omega
    · rw [aget_set_ne _ _ _ _ h0 (Ne.symm hji), h3] at h4
      cases h4
      exact hl he
  unfold accept_conn
  simp only [hfind, Option.bind_eq_bind, Option.some_bind, hi1, if_false, hci,
    aset_of_bounds _ _ _ h0 h1]
  split
  · exact ⟨_, rfl, fun j c3 c4 h3 h4 he hl => (hold j c3 c4 h3 h4 he hl).elim⟩
  · rename_i hnew
    split
    · exact ⟨_, rfl, fun j c3 c4 h3 h4 he hl => (hold j c3 c4 h3 h4 he hl).elim⟩
    · simp only [World.emit, hc1, Option.some_bind]
      have hns : 0 ≤ (env.accept { w with net := { w.net with
          svr_conn := w.net.svr_conn.set i.toNat { ci with cn_lasttime := w.now } } } sock).1 := by
        have hge := hacc { w with net := { w.net with
          svr_conn := w.net.svr_conn.set i.toNat { ci with cn_lasttime := w.now } } } sock
        by_contra hneg
        have heq : (env.accept { w with net := { w.net with
            svr_conn := w.net.svr_conn.set i.toNat { ci with cn_lasttime := w.now } } }
              sock).1 = -1 := by omega
        exact hnew heq
      have hlen1 : (((w.net.svr_conn.set i.toNat
          { ci with cn_lasttime := w.now }).length : Nat) : Int) = w.net.max_connection := by
        rw [List.length_set]
        exact hok.2.1
      have hreg : ∀ q cq pq (W : World) (S : Int) (A P : Nat),
          W.net.svr_conn = w.net.svr_conn.set i.toNat { ci with cn_lasttime := w.now } →
          aget W.net.svr_conn q = some cq →
          ∀ j c3 c4, aget w.net.svr_conn j = some c3 →
            aget (registered W q cq pq S conn_type.FromClientDIS A P f).net.svr_conn j
              = some c4 →
            c3.cn_sock = -1 → c4.cn_sock ≠ -1 →
            c4.cn_active = conn_type.FromClientDIS ∧ c4.cn_func = f := by
        intro q cq pq W S A P hW hq j c3 c4 h3 h4 he hl
        obtain ⟨hq0, hq1⟩ := aget_some_bounds hq
        have h4' : aget (W.net.svr_conn.set q.toNat
            (added_conn cq W.now S conn_type.FromClientDIS A P f)) j = some c4 := h4
        by_cases hjq : j = q
        · rw [hjq, aget_set_self _ _ _ hq0 hq1] at h4'
          cases h4'
          exact ⟨rfl, rfl⟩
        · rw [aget_set_ne _ _ _ _ hq0 (Ne.symm hjq), hW] at h4'
          exact (hold j c3 c4 h3 h4' he hl).elim
      rcases hfn with ⟨ht, _, hf0⟩ | ⟨ht, _, hf1⟩
      · have hk : ci.cn_active.toInt = 0 := by rw [hti, ht]; rfl
        simp only [hk, if_true, Option.some_bind]
        subst hf0
        refine add_conn_bind_slot _ _ _ _ _ _ ?_ ?_ ?_ ?_
          (fun w' => ∀ j c3 c4, aget w.net.svr_conn j = some c3 →
            aget w'.net.svr_conn j = some c4 → c3.cn_sock = -1 → c4.cn_sock ≠ -1 →
            c4.cn_active = conn_type.FromClientDIS ∧ c4.cn_func = w.net.read_func0) ?_ ?_
        · exact hok.1.1
        · exact hlen1
        · exact hpl
        · exact hns
        · exact fun j c3 c4 h3 h4 he hl => (hold j c3 c4 h3 h4 he hl).elim
        · exact fun q cq pq hq _ _ => hreg q cq pq _ _ _ _ rfl hq
      · have hk : ci.cn_active.toInt = 1 := by rw [hti, ht]; rfl
        have h10 : ¬ (1 : Int) = 0 := by decide
        simp only [hk, h10, if_false, if_true, Option.some_bind]
        subst hf1
        refine add_conn_bind_slot _ _ _ _ _ _ ?_ ?_ ?_ ?_
          (fun w' => ∀ j c3 c4, aget w.net.svr_conn j = some c3 →
            aget w'.net.svr_conn j = some c4 → c3.cn_sock = -1 → c4.cn_sock ≠ -1 →
            c4.cn_active = conn_type.FromClientDIS ∧ c4.cn_func = w.net.read_func1) ?_ ?_
        · exact hok.1.1
        · exact hlen1
        · exact hpl
        · exact hns
        · exact fun j c3 c4 h3 h4 he hl => (hold j c3 c4 h3 h4 he hl).elim
        · exact fun q cq pq hq _ _ => hreg q cq pq _ _ _ _ rfl hq

/-- C14.  Take a sequence of `init_network` calls from program start that all
return `0`, one call `init_network(port, f)` of it with `port != 0`, and the
slot this call has put in use (a slot in use after the call whose descriptor no
slot held before it).  That slot is a listener: its handler is `accept_conn`,
its type is `Primary` if no listener call came before and `Secondary`
otherwise.  After the rest of the sequence, `accept_conn` on its descriptor
returns, and every slot the call takes into use (empty before, in use after)
has type `FromClientDIS` and handler `f`, the read function of that
`init_network` call. -/
theorem accepted_peer_gets_read_func (ienv : InitEnv) (env : Env) (w0 w1 w2 w3 : World)
    (pre post : List (Nat × Nat)) (rpre rpost : List Int) (port f : Nat) (i : Int)
    (c2 : connection)
    (hsys : ienv_ok ienv) (hacc : ∀ v sd, -1 ≤ (env.accept v sd).1)
    (hstart : w0.net = NetState.startup)
    (hpre : init_calls ienv pre w0 = some (rpre, w1)) (hpre0 : ∀ r ∈ rpre, r = 0)
    (hcall : init_network ienv w1 port f = some (0, w2)) (hport : port ≠ 0)
    (hpost : init_calls ienv post w2 = some (rpost, w3)) (hpost0 : ∀ r ∈ rpost, r = 0)
    (hslot : aget w2.net.svr_conn i = some c2) (hlive : c2.cn_sock ≠ -1)
    (hnew : ∀ c ∈ w1.net.svr_conn, c.cn_sock ≠ c2.cn_sock) :
    (c2.cn_func = accept_conn_ptr ∧
      c2.cn_active = if w1.net.initialized = 0 then conn_type.Primary
        else conn_type.Secondary) ∧
    ∃ w4, accept_conn env w3 c2.cn_sock = some w4 ∧
      ∀ j c3 c4, aget w3.net.svr_conn j = some c3 → aget w4.net.svr_conn j = some c4 →
        c3.cn_sock = -1 → c4.cn_sock ≠ -1 →
        c4.cn_active = conn_type.FromClientDIS ∧ c4.cn_func = f := by
  have hI0 : init_inv_state w0.net := by
    rw [hstart]
    exact ⟨Or.inl (by decide), by decide, fun h => absurd h (by decide)⟩
  have hI1 := (init_calls_listener ienv hsys pre w0 w1 rpre hpre hpre0).1 hI0
  obtain ⟨hfunc, hl2⟩ :=
    (init_network_listener ienv hsys w1 w2 port f hI1 hcall).2 hport i c2 hslot hlive hnew
  have hl3 := (init_calls_listener ienv hsys post w2 w3 rpost hpost hpost0).2 _ _ _ _ hl2
  refine ⟨⟨hfunc, ?_⟩, accept_conn_listener env hacc _ f c2.cn_sock i w3 hl3⟩
  obtain ⟨c, hc, _, ht⟩ := hl2.2.2.1
  rw [hslot] at hc
  cases hc
  exact ht

/-- Witness of C14: `init_network(15001, 7)`, `init_network(0, 9)` and
`init_network(15002, 8)` at program start.  The first call creates the listener
on descriptor `0`; a peer admitted through it after the other two calls gets
the read function `7`. -/
theorem accepted_peer_gets_read_func_witness :
    init_calls sample_ienv_lowest [] sample_start = some ([], sample_start) ∧
    init_network sample_ienv_lowest sample_start 15001 7 = some (0, sample_lowest1) ∧
    init_calls sample_ienv_lowest [(0, 9), (15002, 8)] sample_lowest1
      = some ([0, 0], sample_lowest2) ∧
    aget sample_lowest1.net.svr_conn 0
      = some { sample_listener 100 with cn_authen := PBS_NET_CONN_FROM_PRIVIL } ∧
    (accept_conn sample_env_peer sample_lowest2 0).map
        (fun w4 => (aget w4.net.svr_conn 3).map
          (fun c => (c.cn_sock, c.cn_active, c.cn_func)))
      = some (some (7, conn_type.FromClientDIS, 7)) ∧
    (({ sample_listener 100 with cn_authen := PBS_NET_CONN_FROM_PRIVIL } : connection).cn_func
        = accept_conn_ptr ∧
      ({ sample_listener 100 with cn_authen := PBS_NET_CONN_FROM_PRIVIL } : connection).cn_active
        = if sample_start.net.initialized = 0 then conn_type.Primary
          else conn_type.Secondary) ∧
    ∃ w4, accept_conn sample_env_peer sample_lowest2
        ({ sample_listener 100 with cn_authen := PBS_NET_CONN_FROM_PRIVIL } : connection).cn_sock
          = some w4 ∧
      ∀ j c3 c4, aget sample_lowest2.net.svr_conn j = some c3 →
        aget w4.net.svr_conn j = some c4 → c3.cn_sock = -1 → c4.cn_sock ≠ -1 →
        c4.cn_active = conn_type.FromClientDIS ∧ c4.cn_func = 7 :=
  ⟨by decide, by decide, by decide, by decide, by decide,
    accepted_peer_gets_read_func sample_ienv_lowest sample_env_peer sample_start sample_start
      sample_lowest1 sample_lowest2 [] [(0, 9), (15002, 8)] [] [0, 0] 15001 7 0
      { sample_listener 100 with cn_authen := PBS_NET_CONN_FROM_PRIVIL }
      sample_ienv_lowest_ok (fun _ _ => (by decide : (-1 : Int) ≤ 7)) rfl
      (by decide) (by decide) (by decide) (by decide) (by decide) (by decide) (by decide)
      (by decide) (by decide)⟩

theorem dispatches_quiet {q : List Event} (h : quiet q) : dispatches q = [] := by
  unfold dispatches
  rw [List.filter_eq_nil_iff]
  intro e he
  obtain ⟨h1, h2⟩ := h e he
  rw [h1, h2]
  decide

theorem dispatches_append (a b : List Event) :
    dispatches (a ++ b) = dispatches a ++ dispatches b :=
  List.filter_append a b

theorem at_slot_nil (i : Int) : at_slot i [] :=
  ⟨fun _ he => absurd he (List.not_mem_nil _), List.Pairwise.nil⟩

theorem at_slot_auth (i sd : Int) (ret : CS_ret) :
    at_slot i [Event.server_auth i sd ret] := by
  refine ⟨?_, List.pairwise_singleton _ _⟩
  intro e he
  rw [List.mem_singleton.mp he]
  rfl

theorem at_slot_func (i : Int) (l : List Event) (f : Nat) (sd : Int) (t : conn_type)
    (au : Nat) (h : l = [] ∨ ∃ sd' ret, l = [Event.server_auth i sd' ret]) :
    at_slot i (l ++ [Event.func i f sd t au]) := by
  rcases h with h | ⟨sd', ret, h⟩
  · rw [h]
    refine ⟨?_, List.pairwise_singleton _ _⟩
    intro e he
    rw [List.mem_singleton.mp he]
    rfl
  · rw [h]
    refine ⟨?_, ?_⟩
    · intro e he
      simp only [List.singleton_append, List.mem_cons, List.mem_singleton, List.mem_nil_iff,
        or_false] at he
      rcases he with he | he <;> rw [he] <;> rfl
    · simp only [List.singleton_append, List.pairwise_cons, List.mem_singleton,
        List.not_mem_nil, List.Pairwise.nil, and_true, forall_eq, false_implies, implies_true]
      intro a b ha hb
      simp only [Event.slot, Option.some.injEq] at ha hb
      exact Or.inr ⟨by rw [← ha, ← hb], rfl, rfl⟩

/-- The trace of `engage_authentication`: at most one handshake, for slot `i`. -/
theorem engage_authentication_dispatches (env : Env) (w wa : World) (i r : Int)
    (h : engage_authentication env w i = some (r, wa)) :
    ∃ q, wa.trace = w.trace ++ q ∧
      (dispatches q = [] ∨ ∃ sd ret, dispatches q = [Event.server_auth i sd ret]) := by
  unfold engage_authentication at h
  simp only [Option.bind_eq_bind, Option.bind_eq_some] at h
  obtain ⟨c, hc, h⟩ := h
  split at h
  · simp only [Option.some.injEq, Prod.mk.injEq] at h
    exact ⟨[Event.log_err LogMsg.bad_arguments], by rw [← h.2]; rfl, Or.inl rfl⟩
  · split at h
    · simp only [Option.bind_eq_some] at h
      obtain ⟨sc, hsc, h⟩ := h
      simp only [Option.some.injEq, Prod.mk.injEq] at h
      exact ⟨[Event.server_auth i c.cn_sock (env.CS_server_auth w c.cn_sock)],
        by rw [← h.2]; rfl, Or.inr ⟨_, _, rfl⟩⟩
    · split at h
      · split at h
        · simp only [Option.bind_eq_some] at h
          obtain ⟨sc, hsc, h⟩ := h
          simp only [Option.some.injEq, Prod.mk.injEq] at h
          exact ⟨[Event.server_auth i c.cn_sock (env.CS_server_auth w c.cn_sock)],
            by rw [← h.2]; rfl, Or.inr ⟨_, _, rfl⟩⟩
        · simp only [Option.some.injEq, Prod.mk.injEq] at h
          exact ⟨[Event.server_auth i c.cn_sock (env.CS_server_auth w c.cn_sock)],
            by rw [← h.2]; rfl, Or.inr ⟨_, _, rfl⟩⟩
      · simp only [Option.some.injEq, Prod.mk.injEq] at h
        exact ⟨[Event.server_auth i c.cn_sock (env.CS_server_auth w c.cn_sock),
          Event.log_err LogMsg.unable_to_authenticate],
          by rw [← h.2]; simp [World.emit], Or.inr ⟨_, _, rfl⟩⟩

theorem wait_request_auth_dispatches (env : Env) (w1 wa : World) (i r : Int)
    (c1 : connection) (h : wait_request_auth env w1 i c1 = some (r, wa)) :
    ∃ q, wa.trace = w1.trace ++ q ∧
      (dispatches q = [] ∨ ∃ sd ret, dispatches q = [Event.server_auth i sd ret]) := by
  unfold wait_request_auth at h
  split at h
  · split at h
    · exact engage_authentication_dispatches env w1 wa i r h
    · simp only [Option.some.injEq, Prod.mk.injEq] at h
      exact ⟨[], by rw [← h.2]; simp, Or.inl rfl⟩
  · simp only [Option.some.injEq, Prod.mk.injEq] at h
    exact ⟨[], by rw [← h.2]; simp, Or.inl rfl⟩

theorem wait_request_active_dispatches (env : Env) (w1 w' : World) (i : Int)
    (c1 : connection) (h : wait_request_active env w1 i c1 = some w') :
    ∃ evs, w'.trace = w1.trace ++ evs ∧ at_slot i (dispatches evs) := by
  unfold wait_request_active at h
  simp only [Option.bind_eq_bind, Option.bind_eq_some] at h
  obtain ⟨a, ha, c2, hc2, h⟩ := h
  have ha' : wait_request_auth env w1 i c1 = some (a.1, a.2) := ha
  obtain ⟨q, hq, hshape⟩ := wait_request_auth_dispatches env w1 a.2 i a.1 c1 ha'
  split at h
  · obtain ⟨q2, hq2, hquiet⟩ := close_conn_quiet env _ _ _ h
    refine ⟨q ++ q2, by rw [hq2, hq, List.append_assoc], ?_⟩
    rw [dispatches_append, dispatches_quiet hquiet, List.append_nil]
    rcases hshape with hs | ⟨sd, ret, hs⟩
    · rw [hs]
      exact at_slot_nil i
    · rw [hs]
      exact at_slot_auth i sd ret
  · obtain ⟨q2, hq2, hquiet⟩ := call_func_quiet env _ _ _ _ h
    refine ⟨(q ++ [Event.func i c2.cn_func c2.cn_sock c2.cn_active c2.cn_authen]) ++ q2,
      ?_, ?_⟩
    · rw [hq2, emit_trace, hq]
      simp only [List.append_assoc]
    · rw [dispatches_append, dispatches_quiet hquiet, List.append_nil, dispatches_append]
      exact at_slot_func i _ _ _ _ _ hshape

theorem wait_request_ready_dispatches (env : Env) (w0 w' : World) (i : Int)
    (h : wait_request_ready env w0 i = some w') :
    ∃ evs, w'.trace = w0.trace ++ evs ∧ at_slot i (dispatches evs) := by
  unfold wait_request_ready at h
  simp only [Option.bind_eq_bind, Option.bind_eq_some] at h
  obtain ⟨c, _, sc, _, c1, hc1, h⟩ := h
  split at h
  · exact wait_request_active_dispatches env
      { w0 with net := { w0.net with svr_conn := sc } } w' i c1 h
  · unfold wait_request_idle at h
    simp only [Option.bind_eq_bind, Option.bind_eq_some] at h
    obtain ⟨net, _, h⟩ := h
    simp only [Option.some.injEq] at h
    exact ⟨[Event.close c1.cn_sock], by rw [← h]; rfl, at_slot_nil i⟩

/-- One pass through the body of the dispatch loop at index `i` runs the
handshake and the handler of slot `i` only, each at most once and in this
order. -/
theorem wait_request_body_dispatches (env : Env) (i n n' : Int) (w w' : World)
    (h : wait_request_body env i n w = some (n', w')) :
    ∃ evs, w'.trace = w.trace ++ evs ∧ at_slot i (dispatches evs) := by
  unfold wait_request_body at h
  simp only [Option.bind_eq_bind, Option.bind_eq_some] at h
  obtain ⟨r, hr, h⟩ := h
  have hr' : selpoll_fd_isset w i = some (r.1, r.2) := hr
  obtain ⟨⟨q0, hq0, hquiet0⟩, _, _, _⟩ := selpoll_fd_isset_quiet w r.2 i r.1 hr'
  split at h
  · simp only [Option.map_eq_some'] at h
    obtain ⟨w3, hw3, h⟩ := h
    simp only [Prod.mk.injEq] at h
    obtain ⟨evs, hevs, hg⟩ := wait_request_ready_dispatches env r.2 w3 i hw3
    refine ⟨q0 ++ evs, by rw [← h.2, hevs, hq0, List.append_assoc], ?_⟩
    rw [dispatches_append, dispatches_quiet hquiet0, List.nil_append]
    exact hg
  · simp only [Option.some.injEq, Prod.mk.injEq] at h
    refine ⟨q0, by rw [← h.2, hq0], ?_⟩
    rw [dispatches_quiet hquiet0]
    exact at_slot_nil i

theorem from_slot_nil (i : Int) : from_slot i [] :=
  ⟨fun _ he => absurd he (List.not_mem_nil _), List.Pairwise.nil⟩

theorem from_slot_append (i : Int) (l1 l2 : List Event) (h1 : at_slot i l1)
    (h2 : from_slot (i + 1) l2) : from_slot i (l1 ++ l2) := by
  refine ⟨?_, ?_⟩
  · intro e he
    rcases List.mem_append.mp he with h | h
    · exact ⟨i, h1.1 e h, le_refl _⟩
    · obtain ⟨j, hj, hle⟩ := h2.1 e h
      exact ⟨j, hj, by omega⟩
  · rw [List.pairwise_append]
    refine ⟨h1.2, h2.2, ?_⟩
    intro a ha b hb x y hx hy
    have hax := h1.1 a ha
    obtain ⟨j, hj, hle⟩ := h2.1 b hb
    rw [hax] at hx
    rw [hj] at hy
    cases hx
    cases hy
    exact Or.inl (by omega)

/-- The dispatch loop from index `i` on runs handshakes and handlers in
ascending order of the slot index. -/
theorem wait_request_loop_dispatches (env : Env) :
    ∀ (fuel : Nat) (i n : Int) (w w' : World),
      wait_request_loop env fuel i n w = some w' →
      ∃ evs, w'.trace = w.trace ++ evs ∧ from_slot i (dispatches evs) := by
  intro fuel
  induction fuel with
  | zero =>
    intro i n w w' h
    unfold wait_request_loop at h
    split at h
    · cases h
    · simp only [Option.some.injEq] at h
      exact ⟨[], by simp [h], from_slot_nil i⟩
  | succ fuel ih =>
    intro i n w w' h
    unfold wait_request_loop at h
    split at h
    · simp only [Option.bind_eq_bind, Option.bind_eq_some] at h
      obtain ⟨r, hr, h⟩ := h
      have hr' : wait_request_body env i n w = some (r.1, r.2) := hr
      obtain ⟨e1, he1, hg1⟩ := wait_request_body_dispatches env i n r.1 w r.2 hr'
      obtain ⟨e2, he2, hg2⟩ := ih _ _ _ _ h
      refine ⟨e1 ++ e2, by rw [he2, he1, List.append_assoc], ?_⟩
      rw [dispatches_append]
      exact from_slot_append i _ _ hg1 hg2
    · simp only [Option.some.injEq] at h
      exact ⟨[], by simp [h], from_slot_nil i⟩

/-- The part of `wait_request` after `poll`: the dispatch loop leaves a world
`w1` whose new events have their dispatches in order, and the idle sweep runs
on `w1` and adds neither a handler call nor a handshake. -/
theorem wait_request_dispatch_order (env : Env) (n r : Int) (w w' : World)
    (h : wait_request_dispatch env n w = some (r, w')) :
    r = 0 ∧ ∃ w1 evs1 evs2, w1.trace = w.trace ++ evs1 ∧
      connection_idlecheck env w1 = some w' ∧ w'.trace = w1.trace ++ evs2 ∧
      List.Pairwise dispatch_order (dispatches evs1) ∧ dispatches evs2 = [] := by
  unfold wait_request_dispatch at h
  simp only [Option.bind_eq_bind, Option.bind_eq_some] at h
  obtain ⟨w1, hw1, w2, hw2, h⟩ := h
  simp only [Option.some.injEq, Prod.mk.injEq] at h
  obtain ⟨e1, he1, hg1⟩ := wait_request_loop_dispatches env _ _ _ _ _ hw1
  obtain ⟨q, hq, hquiet⟩ := connection_idlecheck_loop_quiet env _ _ _ _ _ hw2
  refine ⟨h.1.symm, w1, e1, q, he1, ?_, ?_, hg1.2, dispatches_quiet hquiet⟩
  · rw [← h.2]
    exact hw2
  · rw [← h.2]
    exact hq

/-- Every run of `wait_request` that returns has returned `-1` after a failed
`poll` without any dispatch, or `0` after the dispatch loop followed by the
idle sweep. -/
theorem wait_request_order (env : Env) (waittime r : Int) (w w' : World)
    (h : wait_request env w waittime = some (r, w')) :
    (r = -1 ∧ ∃ evs, w'.trace = w.trace ++ evs ∧ dispatches evs = []) ∨
    (r = 0 ∧ ∃ w1 evs1 evs2, w1.trace = w.trace ++ evs1 ∧
      connection_idlecheck env w1 = some w' ∧ w'.trace = w1.trace ++ evs2 ∧
      List.Pairwise dispatch_order (dispatches evs1) ∧ dispatches evs2 = []) := by
  unfold wait_request at h
  dsimp only at h
  split at h
  · split at h
    · exact Or.inr (wait_request_dispatch_order env _ _ _ _ h)
    · split at h
      · cases h
      · simp only [Option.some.injEq, Prod.mk.injEq] at h
        exact Or.inl ⟨h.1.symm, [Event.log_err LogMsg.poll_failed], by rw [← h.2]; rfl, rfl⟩
  · split at h
    · exact Or.inr (wait_request_dispatch_order env _ _
        { w with net := { w.net with
            pollfds := poll_fill (env.poll_revents w) (w.net.maxfdx + 1) 0 w.net.pollfds } }
        _ h)
    · cases h
/-- C16.  `wait_request` runs to completion in a well-formed state (`net_ok`)
when the application's functions leave the module's variables alone, `accept`
returns fresh descriptors in range and `poll` does not fail with `EBADF`.  And
every run of `wait_request` that returns has either returned `-1` after a
failed `poll`, without any handshake, handler call or sweep, or it has returned
`0`, and then its events are those of the dispatch loop (`evs1`, leading to the
world `w1`) followed by those of `connection_idlecheck` run on `w1` (`evs2`).
The handshakes and handler calls of `evs1` are in dispatch order: of any two of
them the earlier one belongs to a slot of strictly lower index, or both belong
to the same slot and are its handshake followed by the call of its handler.
The sweep adds no handshake and no handler call. -/
theorem wait_request_ascending (env : Env) (waittime : Int) (w : World) :
    (env_calls_ok env → env.poll_errno w ≠ some EBADF → net_ok w.net →
      ∃ r w', wait_request env w waittime = some (r, w')) ∧
    ∀ (r : Int) (w' : World), wait_request env w waittime = some (r, w') →
      (r = -1 ∧ ∃ evs, w'.trace = w.trace ++ evs ∧ dispatches evs = []) ∨
      (r = 0 ∧ ∃ w1 evs1 evs2, w1.trace = w.trace ++ evs1 ∧
        connection_idlecheck env w1 = some w' ∧ w'.trace = w1.trace ++ evs2 ∧
        List.Pairwise dispatch_order (dispatches evs1) ∧ dispatches evs2 = []) := by
  constructor
  · intro hcalls hpoll hnet
    obtain ⟨r, hr, _⟩ := wait_request_total env hcalls w waittime hpoll hnet
    exact ⟨r.1, r.2, hr⟩
  · intro r w' h
    exact wait_request_order env waittime r w w' h

/-- Witness of C16: one `wait_request` on `sample_two`, where both clients are
readable.  The run returns `0`; its dispatches are the handshake and the
handler of slot 1, then the handshake and the handler of slot 2. -/
theorem wait_request_ascending_witness :
    (∃ r w', wait_request sample_env sample_two 1 = some (r, w')) ∧
    wait_request sample_env sample_two 1 = some (0, sample_two_tick) ∧
    dispatches sample_two_tick.trace
      = [Event.server_auth 1 1 CS_ret.CS_AUTH_CHECK_PORT,
         Event.func 1 7 1 conn_type.FromClientDIS 0,
         Event.server_auth 2 2 CS_ret.CS_AUTH_CHECK_PORT,
         Event.func 2 7 2 conn_type.FromClientDIS 3] ∧
    (((0 : Int) = -1 ∧
        ∃ evs, sample_two_tick.trace = sample_two.trace ++ evs ∧ dispatches evs = []) ∨
      ((0 : Int) = 0 ∧ ∃ w1 evs1 evs2, w1.trace = sample_two.trace ++ evs1 ∧
        connection_idlecheck sample_env w1 = some sample_two_tick ∧
        sample_two_tick.trace = w1.trace ++ evs2 ∧
        List.Pairwise dispatch_order (dispatches evs1) ∧ dispatches evs2 = [])) :=
  ⟨(wait_request_ascending sample_env 1 sample_two).1 sample_env_calls_ok
      (by decide) sample_two_net_ok,
    by decide, by decide,
    (wait_request_ascending sample_env 1 sample_two).2 0 sample_two_tick (by decide)⟩

theorem net_closed_sock (but : Int) (c : connection) :
    (net_closed but c).cn_sock = c.cn_sock ∨ (net_closed but c).cn_sock = -1 := by
  unfold net_closed
  split
  · exact Or.inl rfl
  · split
    · exact Or.inl rfl
    · exact Or.inr rfl

/-- A slot of the world reached by the loop holds the descriptor it held at
the start, or none. -/
theorem net_close_inv_slot (but : Int) (w v : World) (i : Int)
    (h : net_close_inv but w i v) (j : Int) (c' : connection)
    (hj : aget v.net.svr_conn j = some c') :
    ∃ cj, aget w.net.svr_conn j = some cj ∧
      (c'.cn_sock = cj.cn_sock ∨ c'.cn_sock = -1) := by
  obtain ⟨hj0, hj1⟩ := aget_some_bounds hj
  obtain ⟨cj, hcj⟩ := aget_of_bounds w.net.svr_conn j hj0 (by rw [← h.2.1.2]; exact hj1)
  refine ⟨cj, hcj, ?_⟩
  have := h.2.2.1 j cj hcj
  rw [hj] at this
  cases this
  split
  · exact net_closed_sock but cj
  · exact Or.inl rfl

theorem close_events_no_hook (env : Env) (w : World) (sd idx : Int) (c : connection)
    (h : c.cn_oncl = 0) : ∀ e ∈ close_events env w sd idx c, e.is_oncl = false := by
  intro e he
  unfold close_events at he
  have hno : (if c.cn_oncl ≠ 0 then [Event.oncl idx c.cn_oncl sd] else []) = [] :=
    if_neg (by rw [h]; exact fun hh => hh rfl)
  rw [hno, List.append_nil] at he
  split at he
  · split at he
    · simp only [List.singleton_append, List.cons_append, List.nil_append, List.mem_cons,
        List.mem_singleton, List.mem_nil_iff, or_false] at he
      rcases he with he | he | he <;> rw [he] <;> rfl
    · simp only [List.singleton_append, List.append_nil, List.cons_append, List.nil_append,
        List.mem_cons, List.mem_singleton, List.mem_nil_iff, or_false] at he
      rcases he with he | he <;> rw [he] <;> rfl
  · rw [List.mem_singleton.mp he]
    rfl

/-- One pass of the loop of `net_close` over slot `i`. -/
theorem net_close_inv_step (env : Env) (but : Int) (w v : World) (i : Int) (c : connection)
    (hwf : table_wf w.net) (h : net_close_inv but w i v)
    (hc : aget w.net.svr_conn i = some c) (hne : c.cn_sock ≠ but) :
    ∃ v', close_conn env { v with net := { v.net with
        svr_conn := v.net.svr_conn.set i.toNat { c with cn_oncl := 0 } } } c.cn_sock
          = some v' ∧
      net_close_inv but w (i + 1) v' := by
  obtain ⟨⟨hm, hplw⟩, hlenw, hrange, huniq, hidle⟩ := hwf
  obtain ⟨⟨hmax, hini⟩, ⟨hpl, hlen⟩, hslots, hnum, evs, hevs, hquiet⟩ := h
  have hcv : aget v.net.svr_conn i = some c := by
    rw [hslots i c hc]
    simp
  obtain ⟨h0, h1⟩ := aget_some_bounds hcv
  have hslots1 : ∀ j cj, aget w.net.svr_conn j = some cj →
      aget (v.net.svr_conn.set i.toNat { c with cn_oncl := 0 }) j
        = some (if j < i + 1 then net_closed but cj
            else cj) ∨ (j = i ∧ c.cn_sock ≠ -1 ∧ cj = c) := by
    intro j cj hj
    by_cases hji : j = i
    · have hcc : cj = c := by
        rw [hji, hc] at hj
        exact (Option.some.inj hj).symm
      rw [hcc, hji]
      by_cases hlive : c.cn_sock = -1
      · left
        rw [aget_set_self _ _ _ h0 h1, if_pos (by omega)]
        unfold net_closed
        rw [if_neg hne, if_pos hlive]
      · exact Or.inr ⟨rfl, hlive, rfl⟩
    · left
      rw [aget_set_ne _ _ _ _ h0 (Ne.symm hji), hslots j cj hj]
      have : (j < i + 1) ↔ (j < i) := by omega
      simp only [this]
  have hlive1 : ((v.net.svr_conn.set i.toNat { c with cn_oncl := 0 }).countP
      (fun c => decide (c.cn_sock ≠ -1))) = live_count v.net :=
    countP_set_same _ _ i _ c hcv rfl
  by_cases hlive : c.cn_sock = -1
  · refine ⟨_, close_conn_out_of_range env _ _ (Or.inl (by omega)), ⟨hmax, hini⟩,
      ⟨hpl, ?_⟩, ?_, ?_, evs, hevs, hquiet⟩
    · show (v.net.svr_conn.set i.toNat _).length = _
      rw [List.length_set]
      exact hlen
    · intro j cj hj
      rcases hslots1 j cj hj with hs | ⟨_, hs, _⟩
      · exact hs
      · exact absurd hlive hs
    · show v.net.num_connections - (((v.net.svr_conn.set i.toNat _).countP
        (fun c => decide (c.cn_sock ≠ -1)) : Nat) : Int) = _
      rw [hlive1]
      exact hnum
  · have hsdw : 0 ≤ c.cn_sock ∧ c.cn_sock < w.net.max_connection := by
      rcases hrange c (aget_mem hc) with hr | hr
      · exact absurd hr hlive
      · exact hr
    have hc1 : aget (v.net.svr_conn.set i.toNat { c with cn_oncl := 0 }) i
        = some { c with cn_oncl := 0 } := aget_set_self _ _ _ h0 h1
    have hok1 : table_ok { v.net with
        svr_conn := v.net.svr_conn.set i.toNat { c with cn_oncl := 0 } } := by
      refine ⟨by rw [hmax]; exact hm, ?_, ?_⟩
      · show (((v.net.svr_conn.set i.toNat _).length : Nat) : Int) = v.net.max_connection
        rw [List.length_set, hlen, hmax]
        exact hlenw
      · intro c' hc'
        obtain ⟨j, hj⟩ := mem_aget hc'
        have hj' : aget (v.net.svr_conn.set i.toNat { c with cn_oncl := 0 }) j = some c' := hj
        have hmr := hm.2
        by_cases hji : j = i
        · rw [hji, hc1] at hj'
          cases hj'
          show int_range c.cn_sock
          unfold int_range at hmr ⊢
          omega
        · rw [aget_set_ne _ _ _ _ h0 (Ne.symm hji)] at hj'
          obtain ⟨cj, hcj, hs⟩ := net_close_inv_slot but w v i
            ⟨⟨hmax, hini⟩, ⟨hpl, hlen⟩, hslots, hnum, evs, hevs, hquiet⟩ j c' hj'
          have := hrange cj (aget_mem hcj)
          unfold int_range at hmr ⊢
          omega
    have hfind := find_actual_unique { v.net with
        svr_conn := v.net.svr_conn.set i.toNat { c with cn_oncl := 0 } } c.cn_sock i
      { c with cn_oncl := 0 } hok1 hsdw.1 hc1 rfl (by
        intro j c' hj hs'
        have hj' : aget (v.net.svr_conn.set i.toNat { c with cn_oncl := 0 }) j = some c' := hj
        by_contra hji
        rw [aget_set_ne _ _ _ _ h0 (fun hh => hji hh.symm)] at hj'
        obtain ⟨cj, hcj, hs⟩ := net_close_inv_slot but w v i
          ⟨⟨hmax, hini⟩, ⟨hpl, hlen⟩, hslots, hnum, evs, hevs, hquiet⟩ j c' hj'
        rcases hs with hs | hs
        · exact hji (huniq j i cj c hcj hc (by rw [← hs, hs']) (by rw [← hs, hs']; exact hlive))
        · rw [hs'] at hs
          exact hlive hs)
    have hpl' : (v.net.pollfds.length : Int) = v.net.max_connection := hpl
    obtain ⟨p, hp⟩ := aget_of_bounds v.net.pollfds i h0 (by
      have := hok1.2.1
      have hl : (((v.net.svr_conn.set i.toNat { c with cn_oncl := 0 }).length : Nat) : Int)
          = v.net.max_connection := this
      rw [List.length_set] at hl
      omega)
    obtain ⟨m', hclose, _, _⟩ := close_conn_found env
      { v with net := { v.net with
          svr_conn := v.net.svr_conn.set i.toNat { c with cn_oncl := 0 } } }
      c.cn_sock i { c with cn_oncl := 0 } p (by rw [← hmax] at hsdw; exact hsdw) hfind
      (by omega) hc1 hp (hidle c (aget_mem hc) hlive) (fun hh => absurd rfl hh)
    refine ⟨_, hclose, ⟨hmax, hini⟩, ⟨?_, ?_⟩, ?_, ?_, ?_⟩
    · show (((v.net.pollfds.set i.toNat { p with fd := -1, revents := 0 }).length : Nat) : Int)
        = v.net.max_connection
      rw [List.length_set]
      exact hpl
    · show ((v.net.svr_conn.set i.toNat _).set i.toNat _).length = _
      rw [List.length_set, List.length_set]
      exact hlen
    · intro j cj hj
      show aget ((v.net.svr_conn.set i.toNat { c with cn_oncl := 0 }).set i.toNat
        (cleaned_conn { c with cn_oncl := 0 })) j = _
      by_cases hji : j = i
      · have hcc : cj = c := by
          rw [hji, hc] at hj
          exact (Option.some.inj hj).symm
        rw [hcc, hji]
        rw [aget_set_self _ _ _ h0 (by rw [List.length_set]; exact h1), if_pos (by omega)]
        unfold net_closed
        rw [if_neg hne, if_neg hlive]
      · rw [aget_set_ne _ _ _ _ h0 (Ne.symm hji)]
        rcases hslots1 j cj hj with hs | ⟨hs, _, _⟩
        · exact hs
        · exact absurd hs hji
    · show v.net.num_connections - 1
        - ((((v.net.svr_conn.set i.toNat { c with cn_oncl := 0 }).set i.toNat
            (cleaned_conn { c with cn_oncl := 0 })).countP
              (fun c => decide (c.cn_sock ≠ -1)) : Nat) : Int) = _
      rw [live_count_release _ i { c with cn_oncl := 0 } (cleaned_conn { c with cn_oncl := 0 })
        hc1 hlive rfl, hlive1, ← hnum]
      omega
    · refine ⟨evs ++ close_events env { v with net := { v.net with
          svr_conn := v.net.svr_conn.set i.toNat { c with cn_oncl := 0 } } }
        c.cn_sock i { c with cn_oncl := 0 }, ?_, ?_⟩
      · show v.trace ++ _ = _
        rw [hevs, List.append_assoc]
      · intro e he
        rcases List.mem_append.mp he with he | he
        · exact hquiet e he
        · exact close_events_no_hook env _ _ _ _ rfl e he
/-- The loop of `net_close` returns, with every slot closed. -/
theorem net_close_loop_spec (env : Env) (but : Int) (w : World) (hwf : table_wf w.net) :
    ∀ (fuel : Nat) (i : Int) (v : World), net_close_inv but w i v → 0 ≤ i →
      i ≤ w.net.max_connection → w.net.max_connection ≤ i + fuel →
      ∃ v', net_close_loop env but fuel i v = some v' ∧
        net_close_inv but w w.net.max_connection v' := by
  intro fuel
  induction fuel with
  | zero =>
    intro i v h hi hle hfuel
    have hiv : ¬ i < v.net.max_connection := by rw [h.1.1]; omega
    have hi' : i = w.net.max_connection := by omega
    unfold net_close_loop
    rw [if_neg hiv]
    exact ⟨v, rfl, hi' ▸ h⟩
  | succ fuel ih =>
    intro i v h hi hle hfuel
    have hstep : w.net.max_connection ≤ i + 1 + fuel := by
      push_cast at hfuel
      omega
    unfold net_close_loop
    by_cases hiv : i < v.net.max_connection
    · rw [if_pos hiv]
      have hiw : i < w.net.max_connection := by rw [← h.1.1]; exact hiv
      obtain ⟨c, hc⟩ := aget_of_bounds w.net.svr_conn i hi (by have := hwf.2.1; omega)
      have hcv : aget v.net.svr_conn i = some c := by
        rw [h.2.2.1 i c hc]
        simp
      obtain ⟨h0, h1⟩ := aget_some_bounds hcv
      simp only [hcv, Option.bind_eq_bind, Option.some_bind]
      by_cases hne : c.cn_sock = but
      · rw [if_neg (by rw [hne]; exact fun hh => hh rfl)]
        refine ih (i + 1) v ?_ (by omega) (by omega) hstep
        obtain ⟨hmax, hpl, hslots, hrest⟩ := h
        refine ⟨hmax, hpl, ?_, hrest⟩
        intro j cj hj
        rw [hslots j cj hj]
        by_cases hji : j = i
        · have hcc : cj = c := by
            rw [hji, hc] at hj
            exact (Option.some.inj hj).symm
          rw [hcc, hji, if_neg (by omega), if_pos (by omega)]
          unfold net_closed
          rw [if_pos hne]
        · have : (j < i + 1) ↔ (j < i) := by omega
          simp only [this]
      · rw [if_pos hne]
        simp only [aset_of_bounds _ _ _ h0 h1, Option.some_bind,
          aget_set_self _ _ _ h0 h1]
        obtain ⟨v', hcl, hinv'⟩ := net_close_inv_step env but w v i c hwf h hc hne
        rw [hcl]
        simp only [Option.some_bind]
        exact ih (i + 1) v' hinv' (by omega) (by omega) hstep
    · rw [if_neg hiv]
      have hi' : i = w.net.max_connection := by rw [h.1.1] at hiv; omega
      exact ⟨v, rfl, hi' ▸ h⟩

theorem net_close_inv_start (but : Int) (w : World) (hpl : polls_ok w.net) :
    net_close_inv but w 0 w := by
  refine ⟨⟨rfl, rfl⟩, ⟨hpl, rfl⟩, ?_, rfl, [], by simp, fun _ he => absurd he (List.not_mem_nil _)⟩
  intro j c hj
  have := (aget_some_bounds hj).1
  rw [if_neg (by omega)]
  exact hj

theorem live_count_zero (s : NetState) (h : ∀ c ∈ s.svr_conn, c.cn_sock = -1) :
    live_count s = 0 := by
  unfold live_count
  rw [List.countP_eq_zero]
  intro c hc
  simp [h c hc]

/-- C17, amended.  Take an initialised table that is well formed
(`table_wf`: every descriptor in use lies in `[0, max_connection)` and is held
by one slot only, and no slot in use has the type `Idle`), with arbitrary
on-close hooks, and any value `but`.  Then `net_close(but)` returns; it calls
no on-close hook; the slot that holds `but` is left as it is, an empty slot
stays empty, and every other slot is released (reset by `cleanup_conn`).  With
`but = -1`, every slot ends empty, the network is marked as not initialised,
and `num_connections` ends at `0` if it was the number of slots in use. -/
theorem net_close_releases (env : Env) (w : World) (but : Int)
    (hinit : w.net.net_is_initialized ≠ 0) (hwf : table_wf w.net) :
    ∃ w', net_close env w but = some w' ∧
      (∃ evs, w'.trace = w.trace ++ evs ∧ ∀ e ∈ evs, e.is_oncl = false) ∧
      (∀ j c, aget w.net.svr_conn j = some c →
        aget w'.net.svr_conn j = some
          (if c.cn_sock = but then c
           else if c.cn_sock = -1 then { c with cn_oncl := 0 }
           else cleaned_conn { c with cn_oncl := 0 })) ∧
      (but = -1 → (∀ c' ∈ w'.net.svr_conn, c'.cn_sock = -1) ∧
        w'.net.net_is_initialized = 0 ∧
        (w.net.num_connections = (live_count w.net : Int) → w'.net.num_connections = 0)) := by
  have hlenw := hwf.2.1
  have hm := hwf.1.1
  obtain ⟨v, hv, ⟨hmax, hini⟩, ⟨hpl, hlen⟩, hslots, hnum, htrace⟩ :=
    net_close_loop_spec env but w hwf w.net.max_connection.toNat 0 w
      (net_close_inv_start but w hwf.1.2) (le_refl 0) (by omega)
      (by rw [Int.toNat_of_nonneg (by omega)]; omega)
  have hslots' : ∀ j c, aget w.net.svr_conn j = some c →
      aget v.net.svr_conn j = some (net_closed but c) := by
    intro j c hj
    have hjlt : j < w.net.max_connection := by
      have := (aget_some_bounds hj).2
      omega
    rw [hslots j c hj, if_pos hjlt]
  unfold net_close
  rw [if_neg hinit, hv]
  simp only [Option.bind_eq_bind, Option.some_bind]
  by_cases hb : but = -1
  · simp only [hb, if_true]
    refine ⟨_, rfl, ?_, ?_, ?_⟩
    · exact htrace
    · intro j c hj
      have := hslots' j c hj
      rw [hb] at this
      exact this
    · intro _
      have hempty : ∀ c' ∈ v.net.svr_conn, c'.cn_sock = -1 := by
        intro c' hc'
        obtain ⟨j, hj⟩ := mem_aget hc'
        obtain ⟨hj0, hj1⟩ := aget_some_bounds hj
        obtain ⟨cj, hcj⟩ := aget_of_bounds w.net.svr_conn j hj0 (by rw [← hlen]; exact hj1)
        have := hslots' j cj hcj
        rw [hj] at this
        cases this
        unfold net_closed
        rw [hb]
        split
        · rename_i he
          exact he
        · rfl
      refine ⟨hempty, rfl, ?_⟩
      intro hcount
      have hz := live_count_zero v.net hempty
      show v.net.num_connections = 0
      rw [hz] at hnum
      omega
  · simp only [hb, if_false]
    exact ⟨v, rfl, htrace, hslots', fun h => False.elim h⟩
/-- C17, counterexample.  Three initialised tables reached through `add_conn`
from the empty table of four slots, each followed by `net_close(-1)`.
After descriptor `3` was registered twice (slots 3 and 0) and the hook `9`
installed in slot 3: visiting slot 0, `close_conn(3)` finds slot 3, calls its
hook and releases it, and slot 0 still holds descriptor `3` at the end, with
`num_connections = 1`.  After `add_conn(1, Idle, ...)`: slot 1 still holds
descriptor `1`.  After `add_conn(5, ...)`, a descriptor beyond
`max_connection = 4`: slot 1 still holds descriptor `5`.  In all three runs the
network ends marked as not initialised. -/
theorem net_close_leaves_live :
    ((run_ops sample_env
        [TableOp.add_conn 3 conn_type.FromClientDIS 1 2000 7,
         TableOp.add_conn 3 conn_type.FromClientDIS 1 2000 7,
         TableOp.set_oncl 3 9] sample_ready).bind
      (fun w => net_close sample_env w (-1))).map
        (fun w' => ((aget w'.net.svr_conn 0).map (fun c => c.cn_sock),
          w'.net.num_connections, w'.net.net_is_initialized, w'.trace))
      = some (some 3, 1, 0,
          [Event.cs_close_socket 3, Event.close 3, Event.oncl 3 9 3]) ∧
    ((run_ops sample_env [TableOp.add_conn 1 conn_type.Idle 1 2000 7] sample_ready).bind
      (fun w => net_close sample_env w (-1))).map
        (fun w' => ((aget w'.net.svr_conn 1).map (fun c => c.cn_sock),
          w'.net.num_connections, w'.net.net_is_initialized))
      = some (some 1, 1, 0) ∧
    ((run_ops sample_env [TableOp.add_conn 5 conn_type.FromClientDIS 1 2000 7]
        sample_ready).bind
      (fun w => net_close sample_env w (-1))).map
        (fun w' => ((aget w'.net.svr_conn 1).map (fun c => c.cn_sock),
          w'.net.num_connections, w'.net.net_is_initialized))
      = some (some 5, 1, 0) := by
  decide

/-- Witness of the amended C17 on `sample_two`, whose slot 1 holds descriptor
`1` with the hook `9` and whose slot 2 holds descriptor `2`: `net_close(2)` and
`net_close(-1)`. -/
theorem net_close_releases_witness :
    sample_two.net.net_is_initialized ≠ 0 ∧
    (∃ w', net_close sample_env sample_two 2 = some w' ∧
      (∃ evs, w'.trace = sample_two.trace ++ evs ∧ ∀ e ∈ evs, e.is_oncl = false) ∧
      (∀ j c, aget sample_two.net.svr_conn j = some c →
        aget w'.net.svr_conn j = some
          (if c.cn_sock = 2 then c
           else if c.cn_sock = -1 then { c with cn_oncl := 0 }
           else cleaned_conn { c with cn_oncl := 0 })) ∧
      ((2 : Int) = -1 → (∀ c' ∈ w'.net.svr_conn, c'.cn_sock = -1) ∧
        w'.net.net_is_initialized = 0 ∧
        (sample_two.net.num_connections = (live_count sample_two.net : Int) →
          w'.net.num_connections = 0))) ∧
    (∃ w', net_close sample_env sample_two (-1) = some w' ∧
      (∃ evs, w'.trace = sample_two.trace ++ evs ∧ ∀ e ∈ evs, e.is_oncl = false) ∧
      (∀ j c, aget sample_two.net.svr_conn j = some c →
        aget w'.net.svr_conn j = some
          (if c.cn_sock = -1 then c
           else if c.cn_sock = -1 then { c with cn_oncl := 0 }
           else cleaned_conn { c with cn_oncl := 0 })) ∧
      ((-1 : Int) = -1 → (∀ c' ∈ w'.net.svr_conn, c'.cn_sock = -1) ∧
        w'.net.net_is_initialized = 0 ∧
        (sample_two.net.num_connections = (live_count sample_two.net : Int) →
          w'.net.num_connections = 0))) :=
  ⟨by decide,
    net_close_releases sample_env sample_two 2 (by decide)
      ⟨⟨by decide, by decide⟩, by decide, by decide, sock_uniq_of_pairwise _ (by decide),
        by decide⟩,
    net_close_releases sample_env sample_two (-1) (by decide)
      ⟨⟨by decide, by decide⟩, by decide, by decide, sock_uniq_of_pairwise _ (by decide),
        by decide⟩⟩

/-- C18, the code at the failing input.  Descriptor `1` of `sample_two` is
registered with the peer address `127.0.0.1`; the reverse lookup fails and the
caller passes `size = 4`.  With an array that has room for 16 bytes the call
returns `0` and has stored the nine characters of `127.0.0.1` and the null,
ten bytes where `size - 1 = 3` are allowed; with an array of exactly `size = 4`
bytes it stores outside the array.  On the other path, a resolved name
`NodeA` is cut to `nod` and the call returns `-1`. -/
theorem get_connecthost_fallback_overflows :
    get_connecthost (fun _ => none) sample_two 1 (List.replicate 16 0) 4
      = some (0, [49, 50, 55, 46, 48, 46, 48, 46, 49, 0, 0, 0, 0, 0, 0, 0]) ∧
    c_strlen [49, 50, 55, 46, 48, 46, 48, 46, 49, 0, 0, 0, 0, 0, 0, 0] = 9 ∧
    get_connecthost (fun _ => none) sample_two 1 (List.replicate 4 0) 4 = none ∧
    get_connecthost (fun _ => some [78, 111, 100, 101, 65]) sample_two 1
      (List.replicate 4 0) 4 = some (-1, [110, 111, 100, 0]) := by
  decide

/-- The first overflow guard on the `int` that `disrd` computes.  When `disrl_`
has read the coefficient (value `c`, `ndigs` digits, `nskips` skipped digits)
and `disrsi_` the exponent, and the variable `expon` (`nskips + uexpon`, or
`nskips - uexpon` for a negative exponent, in `unsigned` arithmetic converted
to `int`) plus `ndigs` exceeds `DBL_MAX_10_EXP + 1` (the `int` addition not
overflowing), `disrd` returns the conversion to `double` of `-HUGE_VAL` if
`c < 0` and of `HUGE_VAL` otherwise, and the status is `DIS_OVERFLOW` when the
commit callback succeeds (and `DIS_NOCOMMIT` when it fails). -/
theorem disrd_overflow (ar : LDArith) (env : DisEnv) (c : LDouble) (ndigs nskips : Nat)
    (negate : Int) (uexpon : Nat)
    (hcoef : env.disrl_ = (dis_ret.DIS_SUCCESS, c, ndigs, nskips))
    (hexp : env.disrsi_ = (dis_ret.DIS_SUCCESS, negate, uexpon))
    (hsum : int_range (disrd_expon negate nskips uexpon + toI32 ndigs))
    (hbig : ar.DBL_MAX_10_EXP + 1 < disrd_expon negate nskips uexpon + toI32 ndigs) :
    disrd ar env
      = some (ar.to_double
            (if c.lt_zero = true then LDouble.huge true else LDouble.huge false),
          if env.disr_commit false < 0 then dis_ret.DIS_NOCOMMIT
          else dis_ret.DIS_OVERFLOW) := by
  have h1 : ar.DBL_MAX_10_EXP < disrd_expon negate nskips uexpon + toI32 ndigs := by omega
  have hread : disrd_read ar env = some (huge_of c, dis_ret.DIS_OVERFLOW) := by
    unfold disrd_read
    rw [hcoef, hexp]
    simp only [if_true]
    unfold disrd_scale add_int
    simp only [hsum, if_true, Option.some_bind, gt_iff_lt, h1, hbig]
  unfold disrd
  rw [hread]
  rfl

/-- The first overflow guard at coefficient `1` with exponent `400`: `HUGE_VAL`
and `DIS_OVERFLOW`. -/
theorem disrd_overflow_witness :
    int_range (disrd_expon 0 0 400 + toI32 1) ∧
    sample_arith.DBL_MAX_10_EXP + 1 < disrd_expon 0 0 400 + toI32 1 ∧
    disrd sample_arith (sample_stream 1 400)
      = some (LDouble.huge false, dis_ret.DIS_OVERFLOW) :=
  ⟨by decide, by decide,
    disrd_overflow sample_arith (sample_stream 1 400) (LDouble.fin 1 0) 1 0 0 400 rfl rfl
      (by decide) (by decide)⟩

/-- A value above a threshold that is not negative is not negative. -/
theorem LDouble.gt_not_neg (x t : LDouble) (ht : t.lt_zero = false) (h : x.gt t = true) :
    x.lt_zero = false := by
  cases x with
  | fin m1 e1 =>
    cases t with
    | fin m2 e2 =>
      simp only [LDouble.gt, decide_eq_true_eq] at h
      simp only [LDouble.lt_zero, decide_eq_false_iff_not, not_lt] at ht ⊢
      by_contra hneg
      have hm1 : m1 < 0 := by omega
      have hp1 : (0 : Int) < ((10 ^ (e1 - min e1 e2).toNat : Nat) : Int) := by positivity
      have hp2 : (0 : Int) < ((10 ^ (e2 - min e1 e2).toNat : Nat) : Int) := by positivity
      have h1 : m1 * ((10 ^ (e1 - min e1 e2).toNat : Nat) : Int) < 0 :=
        Int.mul_neg_of_neg_of_pos hm1 hp1
      have h2 : 0 ≤ m2 * ((10 ^ (e2 - min e1 e2).toNat : Nat) : Int) :=
        Int.mul_nonneg ht (le_of_lt hp2)
      omega
    | huge neg =>
      simp only [LDouble.gt] at h
      simp only [LDouble.lt_zero] at ht
      rw [ht] at h
      exact absurd h (by decide)
  | huge neg1 =>
    cases t with
    | fin m2 e2 =>
      simp only [LDouble.gt, Bool.not_eq_true'] at h
      exact h
    | huge neg2 =>
      simp only [LDouble.gt, Bool.and_eq_true, Bool.not_eq_true'] at h
      exact h.1

/-- In the boundary case the second guard of `disrd` never yields
`-HUGE_VAL`: whenever `DBL_MAX / 10.0L` is not negative, a status
`DIS_OVERFLOW` comes with the value `HUGE_VAL`, whatever the sign of the
coefficient and however the platform rounds. -/
theorem disrd_boundary_never_negative (ar : LDArith) (env : DisEnv) (ldval v : LDouble)
    (expon : Int) (hpos : (ar.div ar.DBL_MAX (LDouble.fin 10 0)).lt_zero = false)
    (h : disrd_boundary ar env ldval expon = some (v, dis_ret.DIS_OVERFLOW)) :
    v = LDouble.huge false := by
  unfold disrd_boundary at h
  simp only [Option.map_eq_some'] at h
  obtain ⟨e1, _, h⟩ := h
  split at h
  · rename_i hgt
    simp only [Prod.mk.injEq, and_true] at h
    rw [← h]
    unfold huge_of
    rw [LDouble.gt_not_neg _ _ hpos hgt]
    rfl
  · simp only [Prod.mk.injEq] at h
    exact absurd h.2 (by decide)

set_option exponentiation.threshold 1100 in
/-- C20, the code at the failing input.  Coefficient `2` with exponent `308`
is the boundary case (`expon + ndigs = 309 = DBL_MAX_10_EXP + 1`) and
`2 * 10^307 > DBL_MAX / 10`: `disrd` reports `DIS_OVERFLOW` with `HUGE_VAL`.
For the coefficient `-2` the test `ldval > DBL_MAX / 10.0L` is false: `disrd`
multiplies by ten, `ldval` becomes `-2 * 10^308`, and the status stays
`DIS_SUCCESS`; the value returned is `-HUGE_VAL` only because the conversion
of `-2 * 10^308` to `double` overflows. -/
theorem disrd_boundary_signs_differ :
    disrd_expon 0 0 308 + toI32 1 = sample_arith.DBL_MAX_10_EXP + 1 ∧
    disrd sample_arith (sample_stream 2 308)
      = some (LDouble.huge false, dis_ret.DIS_OVERFLOW) ∧
    disrd_read sample_arith (sample_stream (-2) 308)
      = some (LDouble.fin (-20) 307, dis_ret.DIS_SUCCESS) ∧
    disrd sample_arith (sample_stream (-2) 308)
      = some (LDouble.huge true, dis_ret.DIS_SUCCESS) := by
  decide

set_option exponentiation.threshold 1100 in
/-- C19, the code at the failing input.  Coefficient `1` with exponent
`4294967295`: `nskips + uexpon` is computed in `unsigned` arithmetic and
stored in the `int` `expon`, which becomes `-1`; `expon + ndigs = 0` passes
both overflow guards, and `disrd` returns `1 * 10^(-1)` with the status
`DIS_SUCCESS`.  With exponent `2147483647` the addition `expon + (int)ndigs`
overflows an `int`, which is undefined. -/
theorem disrd_exponent_wraps :
    disrd_expon 0 0 4294967295 = -1 ∧
    disrd sample_arith (sample_stream 1 4294967295)
      = some (LDouble.fin 1 (-1), dis_ret.DIS_SUCCESS) ∧
    disrd sample_arith (sample_stream 1 2147483647) = none := by
  decide

/-- The traced function computes what `disrd` computes. -/
theorem disrd_traced_eq (ar : LDArith) (env : DisEnv) :
    disrd ar env = (disrd_traced ar env).map (fun r => (r.1, r.2.1)) := by
  unfold disrd disrd_traced disrd_read disrd_read_calls
  split
  · split
    · cases disrd_scale ar env env.disrl_.2.1 env.disrl_.2.2.1 env.disrl_.2.2.2
        env.disrsi_.2.1 env.disrsi_.2.2 <;> rfl
    · rfl
  · rfl

/-- The scaling of `disrd` ends with `DIS_SUCCESS` or `DIS_OVERFLOW`. -/
theorem disrd_scale_status (ar : LDArith) (env : DisEnv) (ldval : LDouble)
    (ndigs nskips : Nat) (negate : Int) (uexpon : Nat) (r : LDouble × dis_ret)
    (h : disrd_scale ar env ldval ndigs nskips negate uexpon = some r) :
    r.2 = dis_ret.DIS_SUCCESS ∨ r.2 = dis_ret.DIS_OVERFLOW := by
  unfold disrd_scale at h
  simp only [Option.bind_eq_some] at h
  obtain ⟨s, _, h⟩ := h
  split at h
  · split at h
    · simp only [Option.some.injEq] at h
      rw [← h]
      exact Or.inr rfl
    · unfold disrd_boundary at h
      simp only [Option.map_eq_some'] at h
      obtain ⟨e1, _, h⟩ := h
      split at h
      · rw [← h]
        exact Or.inr rfl
      · rw [← h]
        exact Or.inl rfl
  · split at h
    · simp only [Option.some.injEq] at h
      rw [← h]
      exact Or.inl rfl
    · simp only [Option.some.injEq] at h
      rw [← h]
      exact Or.inl rfl

/-- What `disrd_read_calls` returns: the result of `disrd_read`, and the calls
`disrl_`, then `disrsi_` unless `disrl_` has failed. -/
theorem disrd_read_calls_spec (ar : LDArith) (env : DisEnv) (pre : LDouble × dis_ret)
    (reads : List DisCall) (h : disrd_read_calls ar env = some (pre, reads)) :
    disrd_read ar env = some pre ∧
      reads = (if env.disrl_.1 = dis_ret.DIS_SUCCESS
        then [DisCall.disrl_, DisCall.disrsi_] else [DisCall.disrl_]) ∧
      (pre.2 = dis_ret.DIS_SUCCESS ↔
        (env.disrl_.1 = dis_ret.DIS_SUCCESS ∧ env.disrsi_.1 = dis_ret.DIS_SUCCESS ∧
          pre.2 ≠ dis_ret.DIS_OVERFLOW)) ∧
      (env.disrl_.1 ≠ dis_ret.DIS_NOCOMMIT → env.disrsi_.1 ≠ dis_ret.DIS_NOCOMMIT →
        pre.2 ≠ dis_ret.DIS_NOCOMMIT) := by
  unfold disrd_read_calls at h
  unfold disrd_read
  split at h
  · rename_i h1
    rw [if_pos h1, if_pos h1]
    split at h
    · rename_i h2
      simp only [Option.map_eq_some', Prod.mk.injEq] at h
      obtain ⟨r, hr, hpre, hreads⟩ := h
      rw [hpre] at hr
      have hst := disrd_scale_status ar env _ _ _ _ _ pre hr
      refine ⟨by rw [if_pos h2]; exact hr, hreads.symm, ?_, ?_⟩
      · constructor
        · intro hs
          exact ⟨h1, h2, by rw [hs]; decide⟩
        · intro hs
          rcases hst with hst | hst
          · exact hst
          · exact absurd hst hs.2.2
      · intro _ _
        rcases hst with hst | hst <;> rw [hst] <;> decide
    · rename_i h2
      simp only [Option.some.injEq, Prod.mk.injEq] at h
      obtain ⟨hpre, hreads⟩ := h
      refine ⟨by rw [if_neg h2, hpre], hreads.symm, ?_, ?_⟩
      · rw [← hpre]
        constructor
        · intro hs
          exact absurd hs h2
        · intro hs
          exact absurd hs.2.1 h2
      · intro _ hn
        rw [← hpre]
        exact hn
  · rename_i h1
    rw [if_neg h1, if_neg h1]
    simp only [Option.some.injEq, Prod.mk.injEq] at h
    obtain ⟨hpre, hreads⟩ := h
    refine ⟨by rw [hpre], hreads.symm, ?_, ?_⟩
    · rw [← hpre]
      constructor
      · intro hs
        exact absurd hs h1
      · intro hs
        exact absurd hs.1 h1
    · intro hn _
      rw [← hpre]
      exact hn

/-- C21.  `disrd` returns whenever a read fails or the two `int` additions of
the scaling do not overflow.  And whenever it returns: its calls on the stream
are `disrl_`, then `disrsi_` unless `disrl_` has failed, then the commit
callback, once and as the last call; the flag passed is true exactly when both
reads have answered `DIS_SUCCESS` and the scaling has not set `DIS_OVERFLOW`;
the status reported is `DIS_NOCOMMIT` if the callback returns a negative value
and otherwise the status `pre.2` computed before the commit (so, the readers
not answering `DIS_NOCOMMIT` themselves, it is `DIS_NOCOMMIT` exactly when the
callback returns a negative value); the value is the one computed before the
commit, converted to `double`. -/
theorem disrd_commit_once (ar : LDArith) (env : DisEnv) :
    ((env.disrl_.1 ≠ dis_ret.DIS_SUCCESS ∨ env.disrsi_.1 ≠ dis_ret.DIS_SUCCESS ∨
        (int_range (disrd_expon env.disrsi_.2.1 env.disrl_.2.2.2 env.disrsi_.2.2
            + toI32 env.disrl_.2.2.1) ∧
          int_range (disrd_expon env.disrsi_.2.1 env.disrl_.2.2.2 env.disrsi_.2.2 + -1))) →
      ∃ r, disrd_traced ar env = some r) ∧
    ∀ (v : LDouble) (st : dis_ret) (calls : List DisCall),
      disrd_traced ar env = some (v, st, calls) →
      ∃ (pre : LDouble × dis_ret) (flag : Bool),
        disrd_read ar env = some pre ∧ v = ar.to_double pre.1 ∧
        calls = (if env.disrl_.1 = dis_ret.DIS_SUCCESS
            then [DisCall.disrl_, DisCall.disrsi_] else [DisCall.disrl_])
          ++ [DisCall.disr_commit flag] ∧
        (flag = true ↔
          (env.disrl_.1 = dis_ret.DIS_SUCCESS ∧ env.disrsi_.1 = dis_ret.DIS_SUCCESS ∧
            pre.2 ≠ dis_ret.DIS_OVERFLOW)) ∧
        st = (if env.disr_commit flag < 0 then dis_ret.DIS_NOCOMMIT else pre.2) ∧
        (env.disrl_.1 ≠ dis_ret.DIS_NOCOMMIT → env.disrsi_.1 ≠ dis_ret.DIS_NOCOMMIT →
          (st = dis_ret.DIS_NOCOMMIT ↔ env.disr_commit flag < 0)) := by
  constructor
  · intro h
    unfold disrd_traced disrd_read_calls
    by_cases h1 : env.disrl_.1 = dis_ret.DIS_SUCCESS
    · rw [if_pos h1]
      by_cases h2 : env.disrsi_.1 = dis_ret.DIS_SUCCESS
      · rw [if_pos h2]
        rcases h with h | h | ⟨hs, he⟩
        · exact absurd h1 h
        · exact absurd h2 h
        · have hsc : ∃ r, disrd_scale ar env env.disrl_.2.1 env.disrl_.2.2.1
              env.disrl_.2.2.2 env.disrsi_.2.1 env.disrsi_.2.2 = some r := by
            unfold disrd_scale add_int
            simp only [hs, if_true, Option.some_bind]
            split
            · split
              · exact ⟨_, rfl⟩
              · unfold disrd_boundary add_int
                simp only [he, if_true, Option.map_some']
                exact ⟨_, rfl⟩
            · split
              · exact ⟨_, rfl⟩
              · exact ⟨_, rfl⟩
          obtain ⟨r, hr⟩ := hsc
          rw [hr]
          exact ⟨_, rfl⟩
      · rw [if_neg h2]
        exact ⟨_, rfl⟩
    · rw [if_neg h1]
      exact ⟨_, rfl⟩
  · intro v st calls h
    unfold disrd_traced at h
    simp only [Option.map_eq_some', Prod.mk.injEq] at h
    obtain ⟨⟨pre, reads⟩, hrc, hv, hst, hcalls⟩ := h
    obtain ⟨hread, hreads, hflag, hnc⟩ := disrd_read_calls_spec ar env pre reads hrc
    refine ⟨pre, decide (pre.2 = dis_ret.DIS_SUCCESS), hread, hv.symm, ?_, ?_, hst.symm, ?_⟩
    · rw [← hcalls, ← hreads]
    · rw [decide_eq_true_eq]
      exact hflag
    · intro hn1 hn2
      have hpre := hnc hn1 hn2
      rw [← hst]
      constructor
      · intro hs
        by_contra hneg
        rw [if_neg hneg] at hs
        exact hpre hs
      · intro hneg
        rw [if_pos hneg]

set_option exponentiation.threshold 1100 in
/-- Witness of C21: coefficient `1` with exponent `400` (both reads succeed,
overflow is detected, the commit succeeds), and a stream whose coefficient read
fails and whose commit fails. -/
theorem disrd_commit_once_witness :
    disrd_traced sample_arith (sample_stream 1 400)
      = some (LDouble.huge false, dis_ret.DIS_OVERFLOW,
          [DisCall.disrl_, DisCall.disrsi_, DisCall.disr_commit false]) ∧
    disrd_traced sample_arith sample_stream_bad
      = some (LDouble.fin 0 0, dis_ret.DIS_NOCOMMIT,
          [DisCall.disrl_, DisCall.disr_commit false]) ∧
    (∃ r, disrd_traced sample_arith sample_stream_bad = some r) ∧
    ∃ (pre : LDouble × dis_ret) (flag : Bool),
      disrd_read sample_arith sample_stream_bad = some pre ∧
      LDouble.fin 0 0 = sample_arith.to_double pre.1 ∧
      [DisCall.disrl_, DisCall.disr_commit false]
        = (if sample_stream_bad.disrl_.1 = dis_ret.DIS_SUCCESS
            then [DisCall.disrl_, DisCall.disrsi_] else [DisCall.disrl_])
          ++ [DisCall.disr_commit flag] ∧
      (flag = true ↔
        (sample_stream_bad.disrl_.1 = dis_ret.DIS_SUCCESS ∧
          sample_stream_bad.disrsi_.1 = dis_ret.DIS_SUCCESS ∧
          pre.2 ≠ dis_ret.DIS_OVERFLOW)) ∧
      dis_ret.DIS_NOCOMMIT
        = (if sample_stream_bad.disr_commit flag < 0 then dis_ret.DIS_NOCOMMIT else pre.2) ∧
      (sample_stream_bad.disrl_.1 ≠ dis_ret.DIS_NOCOMMIT →
        sample_stream_bad.disrsi_.1 ≠ dis_ret.DIS_NOCOMMIT →
        (dis_ret.DIS_NOCOMMIT = dis_ret.DIS_NOCOMMIT ↔
          sample_stream_bad.disr_commit flag < 0)) :=
  ⟨by decide, by decide,
    (disrd_commit_once sample_arith sample_stream_bad).1 (Or.inl (by decide)),
    (disrd_commit_once sample_arith sample_stream_bad).2 _ _ _ (by decide)⟩

/-- C22.  `decode_DIS_Register` is the reading, in this order and each from the
stream the read before has left, of the owner string (`disrfst`, at most
`PBS_MAXUSER` characters), the parent job id, the child job id, the dependency
type (`disrui`), the operation (`disrui`) and the cost (`disrsl`), ending at
the first read that fails.  It returns `DIS_SUCCESS` (`0`) exactly when all six
readers answer `DIS_SUCCESS`.  When a reader is the first to fail, the value
returned is the status it answered, the reads made are those up to it and no
other, the stream is as that reader left it, and the fields after it are
untouched.  When all succeed, the six fields hold what the readers returned. -/
theorem decode_DIS_Register_reads (rd : DisReaders) (stream : List Nat)
    (preq : rq_register) :
    let r1 := rd.disrfst stream rd.PBS_MAXUSER
    let r2 := rd.disrfst r1.2.2 rd.PBS_MAXSVRJOBID
    let r3 := rd.disrfst r2.2.2 rd.PBS_MAXCLTJOBID
    let r4 := rd.disrui r3.2.2
    let r5 := rd.disrui r4.2.2
    let r6 := rd.disrsl r5.2.2
    let t1 := (RegRead.disrfst rd.PBS_MAXUSER RegField.rq_owner, r1.1)
    let t2 := (RegRead.disrfst rd.PBS_MAXSVRJOBID RegField.rq_parent, r2.1)
    let t3 := (RegRead.disrfst rd.PBS_MAXCLTJOBID RegField.rq_child, r3.1)
    let t4 := (RegRead.disrui RegField.rq_dependtype, r4.2.1)
    let t5 := (RegRead.disrui RegField.rq_op, r5.2.1)
    let t6 := (RegRead.disrsl RegField.rq_cost, r6.2.1)
    decode_DIS_Register rd stream preq
        = read_in_order rd (register_items rd) stream preq [] ∧
    ((decode_DIS_Register rd stream preq).rc = 0 ↔
      r1.1 = 0 ∧ r2.1 = 0 ∧ r3.1 = 0 ∧ r4.2.1 = 0 ∧ r5.2.1 = 0 ∧ r6.2.1 = 0) ∧
    (r1.1 ≠ 0 → decode_DIS_Register rd stream preq
      = { rc := r1.1, preq := { preq with rq_owner := r1.2.1 }, stream := r1.2.2,
          reads := [t1] }) ∧
    (r1.1 = 0 → r2.1 ≠ 0 → decode_DIS_Register rd stream preq
      = { rc := r2.1, preq := { preq with rq_owner := r1.2.1, rq_parent := r2.2.1 },
          stream := r2.2.2, reads := [t1, t2] }) ∧
    (r1.1 = 0 → r2.1 = 0 → r3.1 ≠ 0 → decode_DIS_Register rd stream preq
      = { rc := r3.1,
          preq := { preq with rq_owner := r1.2.1, rq_parent := r2.2.1, rq_child := r3.2.1 },
          stream := r3.2.2, reads := [t1, t2, t3] }) ∧
    (r1.1 = 0 → r2.1 = 0 → r3.1 = 0 → r4.2.1 ≠ 0 → decode_DIS_Register rd stream preq
      = { rc := r4.2.1,
          preq := { preq with rq_owner := r1.2.1, rq_parent := r2.2.1, rq_child := r3.2.1,
                              rq_dependtype := r4.1 },
          stream := r4.2.2, reads := [t1, t2, t3, t4] }) ∧
    (r1.1 = 0 → r2.1 = 0 → r3.1 = 0 → r4.2.1 = 0 → r5.2.1 ≠ 0 →
      decode_DIS_Register rd stream preq
      = { rc := r5.2.1,
          preq := { preq with rq_owner := r1.2.1, rq_parent := r2.2.1, rq_child := r3.2.1,
                              rq_dependtype := r4.1, rq_op := r5.1 },
          stream := r5.2.2, reads := [t1, t2, t3, t4, t5] }) ∧
    (r1.1 = 0 → r2.1 = 0 → r3.1 = 0 → r4.2.1 = 0 → r5.2.1 = 0 →
      decode_DIS_Register rd stream preq
      = { rc := r6.2.1,
          preq := { rq_owner := r1.2.1, rq_parent := r2.2.1, rq_child := r3.2.1,
                    rq_dependtype := r4.1, rq_op := r5.1, rq_cost := r6.1 },
          stream := r6.2.2, reads := [t1, t2, t3, t4, t5, t6] }) := by
  dsimp only
  by_cases h1 : (rd.disrfst stream rd.PBS_MAXUSER).1 = 0
  · by_cases h2 : (rd.disrfst (rd.disrfst stream rd.PBS_MAXUSER).2.2 rd.PBS_MAXSVRJOBID).1 = 0
    · by_cases h3 : (rd.disrfst (rd.disrfst (rd.disrfst stream rd.PBS_MAXUSER).2.2
          rd.PBS_MAXSVRJOBID).2.2 rd.PBS_MAXCLTJOBID).1 = 0
      · by_cases h4 : (rd.disrui (rd.disrfst (rd.disrfst (rd.disrfst stream
            rd.PBS_MAXUSER).2.2 rd.PBS_MAXSVRJOBID).2.2 rd.PBS_MAXCLTJOBID).2.2).2.1 = 0
        · by_cases h5 : (rd.disrui (rd.disrui (rd.disrfst (rd.disrfst (rd.disrfst stream
              rd.PBS_MAXUSER).2.2 rd.PBS_MAXSVRJOBID).2.2 rd.PBS_MAXCLTJOBID).2.2).2.2).2.1 = 0
          · by_cases h6 : (rd.disrsl (rd.disrui (rd.disrui (rd.disrfst (rd.disrfst
                (rd.disrfst stream rd.PBS_MAXUSER).2.2 rd.PBS_MAXSVRJOBID).2.2
                rd.PBS_MAXCLTJOBID).2.2).2.2).2.2).2.1 = 0
            · simp [decode_DIS_Register, read_in_order, register_items, read_item,
                rq_register.set_text, rq_register.set_unsigned, rq_register.set_signed,
                h1, h2, h3, h4, h5, h6]
            · simp [decode_DIS_Register, read_in_order, register_items, read_item,
                rq_register.set_text, rq_register.set_unsigned, rq_register.set_signed,
                h1, h2, h3, h4, h5, h6]
          · simp [decode_DIS_Register, read_in_order, register_items, read_item,
              rq_register.set_text, rq_register.set_unsigned, rq_register.set_signed,
              h1, h2, h3, h4, h5]
        · simp [decode_DIS_Register, read_in_order, register_items, read_item,
            rq_register.set_text, rq_register.set_unsigned, rq_register.set_signed,
            h1, h2, h3, h4]
      · simp [decode_DIS_Register, read_in_order, register_items, read_item,
          rq_register.set_text, rq_register.set_unsigned, rq_register.set_signed,
          h1, h2, h3]
    · simp [decode_DIS_Register, read_in_order, register_items, read_item,
        rq_register.set_text, rq_register.set_unsigned, rq_register.set_signed, h1, h2]
  · simp [decode_DIS_Register, read_in_order, register_items, read_item,
      rq_register.set_text, rq_register.set_unsigned, rq_register.set_signed, h1]

/-- Witness of C22 on the toy encoding: a stream that holds all six items, and
a stream that ends after the parent job id, where the third read answers the
status `11`. -/
theorem decode_DIS_Register_reads_witness :
    decode_DIS_Register sample_readers [1, 97, 1, 98, 1, 99, 3, 4, 130] sample_request
      = { rc := 0,
          preq := { rq_owner := [97], rq_parent := [98], rq_child := [99],
                    rq_dependtype := 3, rq_op := 4, rq_cost := 2 },
          stream := [],
          reads := [(RegRead.disrfst 16 RegField.rq_owner, 0),
                    (RegRead.disrfst 8 RegField.rq_parent, 0),
                    (RegRead.disrfst 8 RegField.rq_child, 0),
                    (RegRead.disrui RegField.rq_dependtype, 0),
                    (RegRead.disrui RegField.rq_op, 0),
                    (RegRead.disrsl RegField.rq_cost, 0)] } ∧
    decode_DIS_Register sample_readers [1, 97, 1, 98] sample_request
      = { rc := 11,
          preq := { sample_request with rq_owner := [97], rq_parent := [98], rq_child := [] },
          stream := [],
          reads := [(RegRead.disrfst 16 RegField.rq_owner, 0),
                    (RegRead.disrfst 8 RegField.rq_parent, 0),
                    (RegRead.disrfst 8 RegField.rq_child, 11)] } :=
  ⟨(decode_DIS_Register_reads sample_readers [1, 97, 1, 98, 1, 99, 3, 4, 130]
      sample_request).2.2.2.2.2.2.2 (by decide) (by decide) (by decide) (by decide)
      (by decide),
    (decode_DIS_Register_reads sample_readers [1, 97, 1, 98] sample_request).2.2.2.2.1
      (by decide) (by decide) (by decide)⟩

/-- `encode_DIS_MoveJob` returns `0` or `1`, whatever `diswst` answers. -/
theorem encode_DIS_MoveJob_rc (diswst : List Nat → List Nat → Int × List Nat)
    (stream jobid destin : List Nat) :
    ((encode_DIS_MoveJob diswst stream jobid destin).rc = 0 ∧
      ∀ e ∈ (encode_DIS_MoveJob diswst stream jobid destin).writes, e.2 = 0) ∨
    ((encode_DIS_MoveJob diswst stream jobid destin).rc = 1 ∧
      ∃ e ∈ (encode_DIS_MoveJob diswst stream jobid destin).writes, e.2 ≠ 0) := by
  unfold encode_DIS_MoveJob
  dsimp only
  by_cases h1 : (diswst stream jobid).1 = 0
  · by_cases h2 : (diswst (diswst stream jobid).2 destin).1 = 0
    · left
      simp [h1, h2]
    · right
      simp [h1, h2]
  · right
    simp [h1]

/-- C23, the code at the failing input.  When the first `diswst` fails with the
status `9`, `encode_DIS_MoveJob` makes no second write and returns `1`, not
`9`; when the first write succeeds and the second fails with the status `10`,
it returns `1`, not `10`. -/
theorem encode_DIS_MoveJob_loses_code :
    encode_DIS_MoveJob (sample_diswst_fail 9) [] [49, 46, 97] [113]
      = { rc := 1, stream := [], writes := [([49, 46, 97], 9)] } ∧
    encode_DIS_MoveJob (sample_diswst_room 3 10) [] [49, 46, 97] [113]
      = { rc := 1, stream := [49, 46, 97], writes := [([49, 46, 97], 0), ([113], 10)] } := by
  decide

/-- The `while` loop of `selpoll_fd_clr` stops above every armed entry. -/
theorem selpoll_fd_clr_loop_armed (pollfds : List pollfd) :
    ∀ (fuel : Nat) (m m' : Int), selpoll_fd_clr_loop pollfds fuel m = some m' →
      (∀ j p, aget pollfds j = some p → p.fd ≠ -1 → j ≤ m) →
      ∀ j p, aget pollfds j = some p → p.fd ≠ -1 → j ≤ m' := by
  intro fuel
  induction fuel with
  | zero =>
    intro m m' h
    simp [selpoll_fd_clr_loop] at h
  | succ fuel ih =>
    intro m m' h harm
    unfold selpoll_fd_clr_loop at h
    split at h
    · simp only [Option.bind_eq_bind, Option.bind_eq_some] at h
      obtain ⟨q, hq, h⟩ := h
      split at h
      · rename_i hfd
        refine ih (m - 1) m' h ?_
        intro j p hj hp
        have hle := harm j p hj hp
        have hne : j ≠ m := by
          intro hjm
          rw [hjm, hq] at hj
          cases hj
          exact hp hfd
        omega
      · simp only [Option.some.injEq] at h
        rw [← h]
        exact harm
    · simp only [Option.some.injEq] at h
      rw [← h]
      exact harm

theorem selpoll_fd_clr_armed (s s' : NetState) (cndx : Int)
    (h : selpoll_fd_clr s cndx = some s') (harm : armed_below s) : armed_below s' := by
  unfold selpoll_fd_clr at h
  simp only [Option.bind_eq_bind, Option.bind_eq_some] at h
  obtain ⟨p, hp, pf, hpf, h⟩ := h
  obtain ⟨h0, h1, hpf'⟩ := aset_some hpf
  have hold : ∀ j q, aget pf j = some q → q.fd ≠ -1 → j ≠ cndx ∧ aget s.pollfds j = some q := by
    intro j q hj hq
    rw [hpf'] at hj
    by_cases hjc : j = cndx
    · rw [hjc, aget_set_self _ _ _ h0 h1] at hj
      cases hj
      exact absurd rfl hq
    · rw [aget_set_ne _ _ _ _ h0 (Ne.symm hjc)] at hj
      exact ⟨hjc, hj⟩
  split at h
  · rename_i hx
    simp only [Option.bind_eq_some] at h
    obtain ⟨m, hm, h⟩ := h
    simp only [Option.some.injEq] at h
    rw [← h]
    intro j q hj hq
    show j ≤ m
    refine selpoll_fd_clr_loop_armed pf _ _ _ hm ?_ j q hj hq
    intro j' q' hj' hq'
    obtain ⟨hne, hj''⟩ := hold j' q' hj' hq'
    have := harm j' q' hj'' hq'
    omega
  · simp only [Option.some.injEq] at h
    rw [← h]
    intro j q hj hq
    exact harm j q (hold j q hj hq).2 hq

theorem cleanup_conn_armed (s s' : NetState) (cndx : Int)
    (h : cleanup_conn s cndx = some s') (harm : armed_below s) : armed_below s' := by
  unfold cleanup_conn at h
  simp only [Option.bind_eq_bind, Option.bind_eq_some] at h
  obtain ⟨s1, hs1, c, _, sc, _, h⟩ := h
  simp only [Option.some.injEq] at h
  rw [← h]
  exact selpoll_fd_clr_armed s s1 cndx hs1 harm

/-- `close_conn` on a well-formed table keeps every armed entry at or below
`maxfdx`. -/
theorem close_conn_armed (env : Env) (w w' : World) (sd : Int) (hinv : table_inv env w)
    (harm : armed_below w.net) (h : close_conn env w sd = some w') : armed_below w'.net := by
  by_cases hrange : sd < 0 ∨ w.net.max_connection ≤ sd
  · rw [close_conn_out_of_range env w sd hrange] at h
    cases h
    exact harm
  · have hsd : 0 ≤ sd ∧ sd < w.net.max_connection := by omega
    obtain ⟨hok, hpl, hcount, hhooks⟩ := hinv
    have hsr : int_range sd := by
      have := hok.1.2
      unfold int_range at this ⊢
      omega
    obtain ⟨r, hfind, hiff, hfirst⟩ :=
      find_actual_index_probe w.net sd hok hsd.1 hsr
    by_cases hr : r = -1
    · rw [hr] at hfind
      rw [close_conn_not_found env w sd hfind] at h
      cases h
      exact harm
    · obtain ⟨_, _, _, ⟨c, hc, hsock⟩, _⟩ := hfirst hr
      by_cases hidle : c.cn_active = conn_type.Idle
      · rw [close_conn_idle env w sd r c hfind hc hidle] at h
        cases h
        exact harm
      · obtain ⟨h0, h1⟩ := aget_some_bounds hc
        obtain ⟨p, hp⟩ := aget_of_bounds w.net.pollfds r h0
          (by unfold polls_ok at hpl; have := hok.2.1; omega)
        have hlive : c.cn_sock ≠ -1 := by omega
        obtain ⟨m', hcl, _, _⟩ := cleanup_conn_eq w.net r c p hc hp
        have harm1 := cleanup_conn_armed w.net _ r hcl harm
        obtain ⟨m2, hclose, _, _⟩ := close_conn_found env w sd r c p hsd hfind hr hc hp hidle
          (hhooks c (aget_mem hc) hlive)
        -- the two descriptions of the cleaned state agree
        have hcl2 := cleanup_conn_eq w.net r c p hc hp
        obtain ⟨m3, hcl3, _, _⟩ := hcl2
        rw [hclose] at h
        cases h
        -- recover `maxfdx` from the run of `cleanup_conn`
        have hm : m2 = m' := by
          have hrun : close_conn env w sd = some
              { net := { w.net with
                  pollfds := w.net.pollfds.set r.toNat { p with fd := -1, revents := 0 },
                  maxfdx := m',
                  svr_conn := w.net.svr_conn.set r.toNat (cleaned_conn c),
                  num_connections := w.net.num_connections - 1 },
                now := w.now,
                trace := w.trace ++ close_events env w sd r c } := by
            have hrange' : ¬ (sd < 0 ∨ w.net.max_connection ≤ sd) := by omega
            have hh := hhooks c (aget_mem hc) hlive
            unfold hook_neutral at hh
            by_cases hpipe : c.cn_active = conn_type.ChildPipe <;>
            by_cases hcs : env.CS_close_socket w sd = CS_ret.CS_SUCCESS <;>
            by_cases hon : c.cn_oncl = 0 <;>
            simp [close_conn, hrange', hfind, hr, hc, hidle, hpipe, hcs, hon, hh, hcl,
              World.emit, close_events]
          rw [hclose] at hrun
          simp only [Option.some.injEq, World.mk.injEq, NetState.mk.injEq] at hrun
          exact hrun.1.2.2.2.2.1
        intro j q hj hq
        show j ≤ m2
        rw [hm]
        exact harm1 j q hj hq

theorem add_conn_armed (w w' : World) (sock r : Int) (type : conn_type)
    (addr port func : Nat) (hm : 0 < w.net.max_connection)
    (hlen : (w.net.svr_conn.length : Int) = w.net.max_connection) (hpl : polls_ok w.net)
    (hs : 0 ≤ sock) (harm : armed_below w.net)
    (h : add_conn w sock type addr port func = some (r, w')) : armed_below w'.net := by
  rcases add_conn_cases w sock type addr port func hm hlen hpl hs with
    hfull | ⟨q, c, p, hc, _, hp, hadd⟩
  · rw [hfull] at h
    cases h
    exact harm
  · rw [hadd] at h
    cases h
    obtain ⟨h0, h1⟩ := aget_some_bounds hp
    intro j pj hj hfd
    have hj' : aget (w.net.pollfds.set r.toNat { p with fd := sock, revents := 0 }) j
        = some pj := hj
    show j ≤ (if r > w.net.maxfdx then r else w.net.maxfdx)
    by_cases hjq : j = r
    · rw [hjq]
      split <;> omega
    · rw [aget_set_ne _ _ _ _ h0 (Ne.symm hjq)] at hj'
      have := harm j pj hj' hfd
      split <;> omega

theorem apply_op_armed (env : Env) (w w' : World) (op : TableOp) (hinv : table_inv env w)
    (hop : op_ok env w.net.max_connection op) (harm : armed_below w.net)
    (h : apply_op env w op = some w') : armed_below w'.net := by
  cases op with
  | add_conn sock type addr port func =>
    simp only [apply_op, Option.map_eq_some'] at h
    obtain ⟨r, hr, hw⟩ := h
    rw [← hw]
    exact add_conn_armed w r.2 sock r.1 type addr port func hinv.1.1.1 hinv.1.2.1 hinv.2.1
      hop.1 harm hr
  | close_conn sd => exact close_conn_armed env w w' sd hinv harm h
  | set_oncl idx f =>
    simp only [apply_op, Option.bind_eq_bind, Option.bind_eq_some, Option.some.injEq] at h
    obtain ⟨c, _, sc, _, hw⟩ := h
    rw [← hw]
    exact harm

theorem run_ops_armed (env : Env) (ops : List TableOp) :
    ∀ w w' : World, table_inv env w → (∀ op ∈ ops, op_ok env w.net.max_connection op) →
      armed_below w.net → run_ops env ops w = some w' → armed_below w'.net := by
  induction ops with
  | nil =>
    intro w w' _ _ harm h
    simp only [run_ops, Option.some.injEq] at h
    rw [← h]
    exact harm
  | cons op ops ih =>
    intro w w' hinv hops harm h
    simp only [run_ops, Option.bind_eq_some] at h
    obtain ⟨w1, h1, h⟩ := h
    obtain ⟨w1', h1', hinv1, hmax⟩ :=
      apply_op_inv env w op hinv (hops op (List.mem_cons_self _ _))
    rw [h1] at h1'
    cases h1'
    exact ih w1 w' hinv1 (fun o ho => hmax ▸ hops o (List.mem_cons_of_mem _ ho))
      (apply_op_armed env w w1 op hinv (hops op (List.mem_cons_self _ _)) harm h1) h

theorem sample_ops_ok : ∀ op ∈ sample_ops, op_ok sample_env 4 op := by
  intro op hop
  simp only [sample_ops, List.mem_cons, List.mem_singleton, List.not_mem_nil,
    or_false] at hop
  rcases hop with rfl | rfl | rfl | rfl | rfl | rfl | rfl | rfl
  · exact ⟨by decide, by decide⟩
  · exact ⟨by decide, by decide⟩
  · exact ⟨by decide, sample_env_neutral 9 (by decide)⟩
  · trivial
  · trivial
  · exact ⟨by decide, by decide⟩
  · trivial
  · trivial

/-- C27.  After `connection_init` and `selpoll_init` at program start, every
sequence of `add_conn` calls (descriptors `>= 0`), `close_conn` calls and
installations of on-close hooks that leave the module's variables alone runs to
completion, and in the state it leads to every index `i` with
`pollfds[i].fd != -1` satisfies `i <= maxfdx`: the range `0..maxfdx` that
`poll` and the dispatch loop of `wait_request` cover holds every armed
descriptor. -/
theorem armed_entries_below_maxfdx (env : Env) (nfiles : Int)
    (mem : Option (Nat → connection)) (mem2 : Option (Nat → pollfd)) (w0 w1 w2 : World)
    (ops : List TableOp) (hstart : w0.net = NetState.startup) (hn : int_range nfiles)
    (hinit : connection_init nfiles mem w0 = some (0, w1))
    (hpoll : selpoll_init mem2 w1 = (0, w2))
    (hops : ∀ op ∈ ops, op_ok env nfiles op) :
    ∃ w, run_ops env ops w2 = some w ∧
      ∀ i p, aget w.net.pollfds i = some p → p.fd ≠ -1 → i ≤ w.net.maxfdx := by
  obtain ⟨hinv, hmax⟩ := init_inv env nfiles mem mem2 w0 w1 w2 hstart hn hinit hpoll
  obtain ⟨w, hrun, _⟩ := run_ops_inv env ops w2 hinv (by rw [hmax]; exact hops)
  refine ⟨w, hrun, run_ops_armed env ops w2 w hinv (by rw [hmax]; exact hops) ?_ hrun⟩
  -- right after `selpoll_init` no entry is armed
  cases mem2 with
  | none => simp [selpoll_init] at hpoll
  | some gp =>
    simp only [selpoll_init, Prod.mk.injEq, true_and] at hpoll
    rw [← hpoll]
    intro j p hj hfd
    have hmem := aget_mem hj
    have hp : p = { fd := -1, events := POLLIN, revents := 0 } :=
      List.eq_of_mem_replicate hmem
    rw [hp] at hfd
    exact absurd rfl hfd

/-- Witness of C27: `sample_ops` run on the table initialised with four
slots. -/
theorem armed_entries_below_maxfdx_witness :
    connection_init 4 (some (fun _ => sample_garbage)) sample_start = some (0, sample_init1) ∧
    selpoll_init (some (fun _ => sample_vacant)) sample_init1 = (0, sample_init2) ∧
    ∃ w, run_ops sample_env sample_ops sample_init2 = some w ∧
      ∀ i p, aget w.net.pollfds i = some p → p.fd ≠ -1 → i ≤ w.net.maxfdx :=
  ⟨by decide, by decide,
    armed_entries_below_maxfdx sample_env 4 (some (fun _ => sample_garbage))
      (some (fun _ => sample_vacant)) sample_start sample_init1 sample_init2 sample_ops
      rfl (by decide) (by decide) (by decide) sample_ops_ok⟩

/-- C28, amended.  In a well-formed table, for a descriptor `sock` in
`[0, max_connection)` that no slot holds and a type other than `Idle`: if
`add_conn(sock, ...)` succeeds, a following `close_conn(sock)` returns, leaves
no slot holding `sock`, restores `num_connections` to its value before the
`add_conn`, and leaves every slot with the descriptor it had before the
`add_conn`. -/
theorem add_then_close_restores (env : Env) (w w1 : World) (sock r : Int)
    (type : conn_type) (addr port func : Nat)
    (hok : table_ok w.net) (hpl : polls_ok w.net)
    (hsd : 0 ≤ sock ∧ sock < w.net.max_connection)
    (hfresh : ∀ c ∈ w.net.svr_conn, c.cn_sock ≠ sock)
    (htype : type ≠ conn_type.Idle)
    (hadd : add_conn w sock type addr port func = some (r, w1)) (hr : r ≠ -1) :
    ∃ w2, close_conn env w1 sock = some w2 ∧
      (∀ c ∈ w2.net.svr_conn, c.cn_sock ≠ sock) ∧
      w2.net.num_connections = w.net.num_connections ∧
      ∀ j c, aget w.net.svr_conn j = some c →
        ∃ c2, aget w2.net.svr_conn j = some c2 ∧ c2.cn_sock = c.cn_sock := by
  rcases add_conn_cases w sock type addr port func hok.1.1 hok.2.1 hpl hsd.1 with
    hfull | ⟨q, c, p, hc, hempty, hp, hadd'⟩
  · rw [hfull] at hadd
    simp only [Option.some.injEq, Prod.mk.injEq] at hadd
    exact absurd hadd.1.symm hr
  · rw [hadd'] at hadd
    simp only [Option.some.injEq, Prod.mk.injEq] at hadd
    obtain ⟨hq, hw1⟩ := hadd
    obtain ⟨h0, h1⟩ := aget_some_bounds hc
    obtain ⟨_, hp1⟩ := aget_some_bounds hp
    have hsr : int_range sock := by
      have := hok.1.2
      unfold int_range at this ⊢
      omega
    have hok1 : table_ok w1.net := by
      rw [← hw1]
      exact table_ok_set w.net _ q.toNat _ hok rfl rfl hsr
    have hc1 : aget w1.net.svr_conn q = some (added_conn c w.now sock type addr port func) := by
      rw [← hw1]
      exact aget_set_self _ _ _ h0 h1
    have hp1' : aget w1.net.pollfds q = some { p with fd := sock, revents := 0 } := by
      rw [← hw1]
      exact aget_set_self _ _ _ h0 hp1
    have hother : ∀ j, j ≠ q → aget w1.net.svr_conn j = aget w.net.svr_conn j := by
      intro j hj
      rw [← hw1]
      exact aget_set_ne _ _ _ _ h0 (Ne.symm hj)
    have huniq : ∀ j c', aget w1.net.svr_conn j = some c' → c'.cn_sock = sock → j = q := by
      intro j c' hj hs
      by_contra hjq
      rw [hother j hjq] at hj
      exact hfresh c' (aget_mem hj) hs
    have hfind := find_actual_unique w1.net sock q _ hok1 hsd.1 hc1 rfl huniq
    have hmax1 : w1.net.max_connection = w.net.max_connection := by rw [← hw1]
    obtain ⟨m', hclose, _, _⟩ := close_conn_found env w1 sock q _ _
      (by rw [hmax1]; exact hsd) hfind (by omega) hc1 hp1' htype (fun hh => absurd rfl hh)
    refine ⟨_, hclose, ?_, ?_, ?_⟩
    · intro c2 hc2
      have hc2' : c2 ∈ w1.net.svr_conn.set q.toNat
          (cleaned_conn (added_conn c w.now sock type addr port func)) := hc2
      rcases List.mem_or_eq_of_mem_set hc2' with h2 | h2
      · obtain ⟨j, hj⟩ := mem_aget h2
        by_cases hjq : j = q
        · -- the slot of the registration is overwritten by the release
          intro hs
          have hq' := huniq j c2 hj hs
          rw [hq', hc1] at hj
          have hc2eq : c2 = added_conn c w.now sock type addr port func :=
            (Option.some.inj hj).symm
          -- `c2` occurs in the table after the release only outside slot `q`
          obtain ⟨k, hk⟩ := mem_aget hc2'
          by_cases hkq : k = q
          · rw [hkq, aget_set_self _ _ _ h0
              (by rw [← hw1]; simp only [List.length_set]; exact h1)] at hk
            have := congrArg connection.cn_sock (Option.some.inj hk)
            rw [hs] at this
            have h3 : (cleaned_conn (added_conn c w.now sock type addr port func)).cn_sock
                = -1 := rfl
            omega
          · rw [aget_set_ne _ _ _ _ h0 (Ne.symm hkq)] at hk
            exact hkq (huniq k c2 hk hs)
        · rw [hother j hjq] at hj
          exact hfresh c2 (aget_mem hj)
      · rw [h2]
        show (-1 : Int) ≠ sock
        omega
    · show w1.net.num_connections - 1 = w.net.num_connections
      rw [← hw1]
      show w.net.num_connections + 1 - 1 = w.net.num_connections
      omega
    · intro j cj hj
      show ∃ c2, aget (w1.net.svr_conn.set q.toNat _) j = some c2 ∧ _
      by_cases hjq : j = q
      · rw [hjq] at hj ⊢
        rw [hc] at hj
        cases hj
        rw [aget_set_self _ _ _ h0 (by rw [← hw1]; simp only [List.length_set]; exact h1)]
        exact ⟨_, rfl, hempty.symm⟩
      · rw [aget_set_ne _ _ _ _ h0 (Ne.symm hjq), hother j hjq]
        exact ⟨cj, hj, rfl⟩

/-- C28, counterexample.  In the empty table of four slots, descriptor `5` is
held by no slot and `add_conn(5, FromClientDIS, ...)` succeeds (slot 1); the
following `close_conn(5)` returns at its range check: slot 1 still holds `5`
and `num_connections` is `1`, not the `0` it was before. -/
theorem close_conn_keeps_out_of_range :
    sample_ready.net.num_connections = 0 ∧
    (∀ c ∈ sample_ready.net.svr_conn, c.cn_sock ≠ 5) ∧
    ((add_conn sample_ready 5 conn_type.FromClientDIS 1 2000 7).bind (fun r =>
      (close_conn sample_env r.2 5).map (fun w2 =>
        (r.1, (aget w2.net.svr_conn 1).map (fun c => c.cn_sock),
          w2.net.num_connections)))) = some (1, some 5, 1) := by
  decide

/-- Witness of the amended C28: descriptor `3` in the empty table of four
slots. -/
theorem add_then_close_restores_witness :
    add_conn sample_ready 3 conn_type.FromClientDIS 1 2000 7
      = some (3, registered sample_ready 3 sample_empty sample_vacant 3
          conn_type.FromClientDIS 1 2000 7) ∧
    ∃ w2, close_conn sample_env (registered sample_ready 3 sample_empty sample_vacant 3
        conn_type.FromClientDIS 1 2000 7) 3 = some w2 ∧
      (∀ c ∈ w2.net.svr_conn, c.cn_sock ≠ 3) ∧
      w2.net.num_connections = sample_ready.net.num_connections ∧
      ∀ j c, aget sample_ready.net.svr_conn j = some c →
        ∃ c2, aget w2.net.svr_conn j = some c2 ∧ c2.cn_sock = c.cn_sock :=
  ⟨by decide,
    add_then_close_restores sample_env sample_ready _ 3 3 conn_type.FromClientDIS 1 2000 7
      (by decide) (by decide) (by decide) (by decide) (by decide) (by decide) (by decide)⟩

/-! ## The slots and their poll entries -/

theorem slots_inv_set (b : Bool) (s s' : NetState) (i : Int) (x : connection) (q : pollfd)
    (h : slots_inv b s) (h0 : 0 ≤ i)
    (hsv : s'.svr_conn = s.svr_conn.set i.toNat x)
    (hpl : s'.pollfds = s.pollfds.set i.toNat q) (hq : q.fd = x.cn_sock)
    (hx : b = true → x.cn_sock ≠ -1 → x.cn_active ≠ conn_type.Idle) : slots_inv b s' := by
  obtain ⟨hlen, hsync, hstrict⟩ := h
  refine ⟨by rw [hsv, hpl, List.length_set, List.length_set]; exact hlen, ?_, ?_⟩
  · intro j c p hc hp
    rw [hsv] at hc
    rw [hpl] at hp
    by_cases hji : j = i
    · rw [hji] at hc hp
      have h1 := (aget_some_bounds hc).2
      have h2 := (aget_some_bounds hp).2
      rw [List.length_set] at h1 h2
      rw [aget_set_self _ _ _ h0 h1] at hc
      rw [aget_set_self _ _ _ h0 h2] at hp
      cases hc
      cases hp
      exact hq
    · rw [aget_set_ne _ _ _ _ h0 (Ne.symm hji)] at hc hp
      exact hsync j c p hc hp
  · intro hb c hc
    rw [hsv] at hc
    rcases List.mem_or_eq_of_mem_set hc with h1 | h1
    · exact hstrict hb c h1
    · rw [h1]
      exact hx hb

theorem slots_inv_set_conn (b : Bool) (s s' : NetState) (i : Int) (c x : connection)
    (h : slots_inv b s) (hc : aget s.svr_conn i = some c)
    (hsv : s'.svr_conn = s.svr_conn.set i.toNat x) (hpl : s'.pollfds = s.pollfds)
    (hsock : x.cn_sock = c.cn_sock) (hact : x.cn_active = c.cn_active) :
    slots_inv b s' := by
  obtain ⟨h0, h1⟩ := aget_some_bounds hc
  obtain ⟨p, hp⟩ := aget_of_bounds s.pollfds i h0 (by rw [← h.1]; exact h1)
  refine slots_inv_set b s s' i x p h h0 hsv ?_ ?_ ?_
  · rw [hpl]
    obtain ⟨hlt, hx⟩ := aget_getElem hp
    apply List.ext_getElem?
    intro n
    rw [List.getElem?_set]
    split
    · rename_i hn
      rw [← hn, List.getElem?_eq_getElem hlt, hx]
    · rfl
  · rw [hsock]
    exact h.2.1 i c p hc hp
  · intro hb hx
    rw [hact]
    exact h.2.2 hb c (aget_mem hc) (by rw [← hsock]; exact hx)

theorem slots_inv_same (b : Bool) (s s' : NetState) (h : slots_inv b s)
    (hsv : s'.svr_conn = s.svr_conn) (hpl : s'.pollfds = s.pollfds) : slots_inv b s' := by
  unfold slots_inv polls_sync at h ⊢
  rw [hsv, hpl]
  exact h

theorem selpoll_fd_clr_shape (s s' : NetState) (cndx : Int)
    (h : selpoll_fd_clr s cndx = some s') :
    ∃ p, aget s.pollfds cndx = some p ∧ s'.svr_conn = s.svr_conn ∧
      s'.pollfds = s.pollfds.set cndx.toNat { p with fd := -1, revents := 0 } := by
  unfold selpoll_fd_clr at h
  simp only [Option.bind_eq_bind, Option.bind_eq_some] at h
  obtain ⟨p, hp, pf, hpf, h⟩ := h
  obtain ⟨_, _, hpf'⟩ := aset_some hpf
  refine ⟨p, hp, ?_⟩
  split at h
  · simp only [Option.bind_eq_some] at h
    obtain ⟨m, _, h⟩ := h
    simp only [Option.some.injEq] at h
    rw [← h, hpf']
    exact ⟨rfl, rfl⟩
  · simp only [Option.some.injEq] at h
    rw [← h, hpf']
    exact ⟨rfl, rfl⟩

theorem cleanup_conn_shape (s s' : NetState) (cndx : Int)
    (h : cleanup_conn s cndx = some s') :
    ∃ c p, aget s.svr_conn cndx = some c ∧ aget s.pollfds cndx = some p ∧
      s'.svr_conn = s.svr_conn.set cndx.toNat (cleaned_conn c) ∧
      s'.pollfds = s.pollfds.set cndx.toNat { p with fd := -1, revents := 0 } ∧
      s'.num_connections = s.num_connections := by
  unfold cleanup_conn at h
  simp only [Option.bind_eq_bind, Option.bind_eq_some] at h
  obtain ⟨s1, hs1, c, hc, sc, hsc, h⟩ := h
  obtain ⟨p, hp, hsv, hpl⟩ := selpoll_fd_clr_shape s s1 cndx hs1
  have hnum := (selpoll_fd_clr_svr_conn s s1 cndx hs1).2.2.2
  obtain ⟨_, _, hsc'⟩ := aset_some hsc
  simp only [Option.some.injEq] at h
  rw [hsv] at hc hsc'
  refine ⟨c, p, hc, hp, ?_, ?_, ?_⟩
  · rw [← h, hsc']
    rfl
  · rw [← h]
    exact hpl
  · rw [← h]
    exact hnum

theorem cleanup_conn_slots (b : Bool) (s s' : NetState) (cndx : Int)
    (h : cleanup_conn s cndx = some s') (hinv : slots_inv b s) : slots_inv b s' := by
  obtain ⟨c, p, hc, _, hsv, hpl, _⟩ := cleanup_conn_shape s s' cndx h
  exact slots_inv_set b s s' cndx _ _ hinv (aget_some_bounds hc).1 hsv hpl rfl
    (fun _ hx => absurd rfl hx)

theorem add_conn_shape (w w' : World) (sock r : Int) (type : conn_type)
    (addr port func : Nat) (h : add_conn w sock type addr port func = some (r, w')) :
    (r = -1 ∧ w' = w) ∨
    ∃ c p, aget w.net.svr_conn r = some c ∧ aget w.net.pollfds r = some p ∧
      w'.net.svr_conn = w.net.svr_conn.set r.toNat (added_conn c w.now sock type addr port func) ∧
      w'.net.pollfds = w.net.pollfds.set r.toNat { p with fd := sock, revents := 0 } ∧
      w'.net.num_connections = w.net.num_connections + 1 := by
  unfold add_conn at h
  simp only [Option.bind_eq_bind, Option.bind_eq_some] at h
  obtain ⟨r0, _, h⟩ := h
  by_cases hr : r0 = -1
  · simp [hr] at h
    exact Or.inl ⟨h.1.symm, h.2.symm⟩
  · right
    simp only [hr, if_false, Option.bind_eq_some] at h
    obtain ⟨c, hc, sc, hsc, net2, hset, hres⟩ := h
    simp only [Option.some.injEq, Prod.mk.injEq] at hres
    obtain ⟨h0, h1, hsc'⟩ := aset_some hsc
    unfold selpoll_fd_set at hset
    simp only [Option.bind_eq_bind, Option.bind_eq_some] at hset
    obtain ⟨c2, hc2, p, hp, pf, hpf, hnet⟩ := hset
    obtain ⟨_, _, hpf'⟩ := aset_some hpf
    simp only [Option.some.injEq] at hnet
    have hc2' : aget sc r0 = some c2 := hc2
    rw [hsc', aget_set_self _ _ _ h0 h1] at hc2'
    rw [← hres.1] 
    refine ⟨c, p, hc, hp, ?_, ?_, ?_⟩
    · rw [← hres.2, ← hnet, hsc']
      show _ = w.net.svr_conn.set r0.toNat _
      unfold added_conn
      split <;> simp [PBS_NET_CONN_FROM_PRIVIL]
    · rw [← hres.2, ← hnet, hpf']
      show w.net.pollfds.set r0.toNat _ = _
      congr 1
      have : c2.cn_sock = sock := by
        rw [← Option.some.inj hc2']
        split <;> rfl
      rw [this]
    · rw [← hres.2, ← hnet]

theorem add_conn_slots (b : Bool) (w w' : World) (sock r : Int) (type : conn_type)
    (addr port func : Nat) (h : add_conn w sock type addr port func = some (r, w'))
    (htype : b = true → type ≠ conn_type.Idle) (hinv : slots_inv b w.net) :
    slots_inv b w'.net := by
  rcases add_conn_shape w w' sock r type addr port func h with ⟨_, hw⟩ | ⟨c, p, hc, _, hsv, hpl, _⟩
  · rw [hw]
    exact hinv
  · exact slots_inv_set b w.net w'.net r _ _ hinv (aget_some_bounds hc).1 hsv hpl rfl
      (fun hb _ => htype hb)

theorem add_conn_bind_slots (b : Bool) (w0 w' : World) (sock : Int) (type : conn_type)
    (addr port func : Nat)
    (h : ((some func).bind fun f =>
      (add_conn w0 sock type addr port f).bind fun r2 => some r2.2) = some w')
    (htype : b = true → type ≠ conn_type.Idle) (hinv : slots_inv b w0.net) :
    slots_inv b w'.net := by
  simp only [Option.some_bind, Option.bind_eq_some, Option.some.injEq] at h
  obtain ⟨r2, hadd, hw⟩ := h
  rw [← hw]
  exact add_conn_slots b w0 r2.2 sock r2.1 type addr port func hadd htype hinv

theorem accept_conn_slots (b : Bool) (env : Env) (w w' : World) (sd : Int)
    (h : accept_conn env w sd = some w') (hinv : slots_inv b w.net) : slots_inv b w'.net := by
  unfold accept_conn at h
  simp only [Option.bind_eq_bind, Option.bind_eq_some] at h
  obtain ⟨r, _, h⟩ := h
  by_cases hr : r = -1
  · simp [hr] at h
    rw [← h]
    exact hinv
  · simp only [hr, if_false, Option.bind_eq_some] at h
    obtain ⟨c, hc, sc, hsc, h⟩ := h
    obtain ⟨_, _, hsc'⟩ := aset_some hsc
    have hinv1 : slots_inv b { w.net with svr_conn := sc } :=
      slots_inv_set_conn b w.net _ r c _ hinv hc hsc' rfl rfl rfl
    split at h
    · simp only [Option.some.injEq] at h
      rw [← h]
      exact hinv1
    · split at h
      · simp only [Option.some.injEq] at h
        rw [← h]
        exact hinv1
      · simp only [Option.bind_eq_some] at h
        obtain ⟨c2, _, h⟩ := h
        split at h
        · exact add_conn_bind_slots b _ _ _ _ _ _ _ h (fun _ => by decide) hinv1
        · split at h
          · exact add_conn_bind_slots b _ _ _ _ _ _ _ h (fun _ => by decide) hinv1
          · simp at h

theorem call_func_slots (b : Bool) (env : Env)
    (henv : ∀ f sd v, slots_inv b v.net → slots_inv b (env.user_func f sd v))
    (w w' : World) (f : Nat) (sd : Int)
    (h : call_func env f sd w = some w') (hinv : slots_inv b w.net) : slots_inv b w'.net := by
  unfold call_func at h
  split at h
  · simp at h
  · split at h
    · exact accept_conn_slots b env w w' sd h hinv
    · simp only [Option.some.injEq] at h
      rw [← h]
      exact henv f sd w hinv

theorem close_conn_slots (b : Bool) (env : Env)
    (henv : ∀ f sd v, slots_inv b v.net → slots_inv b (env.user_func f sd v))
    (w w' : World) (sd : Int)
    (h : close_conn env w sd = some w') (hinv : slots_inv b w.net) : slots_inv b w'.net := by
  unfold close_conn at h
  split at h
  · simp only [Option.some.injEq] at h
    rw [← h]
    exact hinv
  · simp only [Option.bind_eq_bind, Option.bind_eq_some] at h
    obtain ⟨r, _, h⟩ := h
    split at h
    · simp only [Option.some.injEq] at h
      rw [← h]
      exact hinv
    · simp only [Option.bind_eq_some] at h
      obtain ⟨c, hc, h⟩ := h
      split at h
      · simp only [Option.some.injEq] at h
        rw [← h]
        exact hinv
      · have h1 : slots_inv b (if c.cn_active ≠ conn_type.ChildPipe then
            ((if env.CS_close_socket w sd ≠ CS_ret.CS_SUCCESS then
                (w.emit (Event.cs_close_socket sd)).emit (Event.log_err LogMsg.problem_closing)
              else w.emit (Event.cs_close_socket sd)).emit (Event.close sd))
            else w.emit (Event.close sd)).net := by
          split
          · split
            · exact hinv
            · exact hinv
          · exact hinv
        split at h
        · simp only [Option.bind_eq_some] at h
          obtain ⟨w2, hw2, net, hnet, hres⟩ := h
          simp only [Option.some.injEq] at hres
          rw [← hres]
          have hinv2 := call_func_slots b env henv _ w2 _ sd hw2 h1
          exact slots_inv_same b net _ (cleanup_conn_slots b w2.net net r hnet hinv2) rfl rfl
        · simp only [Option.some_bind, Option.bind_eq_some] at h
          obtain ⟨net, hnet, hres⟩ := h
          simp only [Option.some.injEq] at hres
          rw [← hres]
          exact slots_inv_same b net _ (cleanup_conn_slots b _ net r hnet h1) rfl rfl

theorem engage_authentication_slots (b : Bool) (env : Env) (w wa : World) (i r : Int)
    (h : engage_authentication env w i = some (r, wa)) (hinv : slots_inv b w.net) :
    slots_inv b wa.net := by
  unfold engage_authentication at h
  simp only [Option.bind_eq_bind, Option.bind_eq_some] at h
  obtain ⟨c, hc, h⟩ := h
  split at h
  · simp only [Option.some.injEq, Prod.mk.injEq] at h
    rw [← h.2]
    exact hinv
  · split at h
    · simp only [Option.bind_eq_some] at h
      obtain ⟨sc, hsc, h⟩ := h
      simp only [Option.some.injEq, Prod.mk.injEq] at h
      obtain ⟨_, _, hsc'⟩ := aset_some hsc
      rw [← h.2]
      exact slots_inv_set_conn b w.net _ i c _ hinv hc hsc' rfl rfl rfl
    · split at h
      · split at h
        · simp only [Option.bind_eq_some] at h
          obtain ⟨sc, hsc, h⟩ := h
          simp only [Option.some.injEq, Prod.mk.injEq] at h
          obtain ⟨_, _, hsc'⟩ := aset_some hsc
          rw [← h.2]
          exact slots_inv_set_conn b w.net _ i c _ hinv hc hsc' rfl rfl rfl
        · simp only [Option.some.injEq, Prod.mk.injEq] at h
          rw [← h.2]
          exact hinv
      · simp only [Option.some.injEq, Prod.mk.injEq] at h
        rw [← h.2]
        exact hinv

theorem wait_request_auth_slots (b : Bool) (env : Env) (w1 wa : World) (i r : Int)
    (c1 : connection) (h : wait_request_auth env w1 i c1 = some (r, wa))
    (hinv : slots_inv b w1.net) : slots_inv b wa.net := by
  unfold wait_request_auth at h
  split at h
  · split at h
    · exact engage_authentication_slots b env w1 wa i r h hinv
    · simp only [Option.some.injEq, Prod.mk.injEq] at h
      rw [← h.2]
      exact hinv
  · simp only [Option.some.injEq, Prod.mk.injEq] at h
    rw [← h.2]
    exact hinv

theorem wait_request_active_slots (b : Bool) (env : Env)
    (henv : ∀ f sd v, slots_inv b v.net → slots_inv b (env.user_func f sd v))
    (w1 w' : World) (i : Int) (c1 : connection)
    (h : wait_request_active env w1 i c1 = some w') (hinv : slots_inv b w1.net) :
    slots_inv b w'.net := by
  unfold wait_request_active at h
  simp only [Option.bind_eq_bind, Option.bind_eq_some] at h
  obtain ⟨a, ha, c2, _, h⟩ := h
  have ha' : wait_request_auth env w1 i c1 = some (a.1, a.2) := ha
  have hinv1 := wait_request_auth_slots b env w1 a.2 i a.1 c1 ha' hinv
  split at h
  · exact close_conn_slots b env henv _ _ _ h hinv1
  · exact call_func_slots b env henv _ _ _ _ h hinv1

theorem wait_request_ready_slots (b : Bool) (env : Env)
    (henv : ∀ f sd v, slots_inv b v.net → slots_inv b (env.user_func f sd v))
    (w0 w' : World) (i : Int)
    (h : wait_request_ready env w0 i = some w') (hinv : slots_inv b w0.net) :
    slots_inv b w'.net := by
  unfold wait_request_ready at h
  simp only [Option.bind_eq_bind, Option.bind_eq_some] at h
  obtain ⟨c, hc, sc, hsc, c1, _, h⟩ := h
  obtain ⟨_, _, hsc'⟩ := aset_some hsc
  have hinv1 : slots_inv b { w0.net with svr_conn := sc } :=
    slots_inv_set_conn b w0.net _ i c _ hinv hc hsc' rfl rfl rfl
  split at h
  · exact wait_request_active_slots b env henv
      { w0 with net := { w0.net with svr_conn := sc } } w' i c1 h hinv1
  · unfold wait_request_idle at h
    simp only [Option.bind_eq_bind, Option.bind_eq_some] at h
    obtain ⟨net, hnet, h⟩ := h
    simp only [Option.some.injEq] at h
    rw [← h]
    exact cleanup_conn_slots b _ net i hnet hinv1

theorem selpoll_fd_isset_slots (b : Bool) (w w' : World) (cndx r : Int)
    (h : selpoll_fd_isset w cndx = some (r, w')) (hinv : slots_inv b w.net) :
    slots_inv b w'.net := by
  unfold selpoll_fd_isset at h
  simp only [Option.bind_eq_bind, Option.bind_eq_some] at h
  obtain ⟨c, hc, h⟩ := h
  split at h
  · simp only [Option.some.injEq, Prod.mk.injEq] at h
    rw [← h.2]
    exact hinv
  · simp only [Option.bind_eq_some] at h
    obtain ⟨p, hp, h⟩ := h
    split at h
    · simp only [Option.some.injEq, Prod.mk.injEq] at h
      rw [← h.2]
      exact hinv
    · split at h
      · rename_i hne
        exact absurd (hinv.2.1 cndx c p hc hp) hne
      · split at h
        · simp only [Option.some.injEq, Prod.mk.injEq] at h
          rw [← h.2]
          exact hinv
        · simp only [Option.some.injEq, Prod.mk.injEq] at h
          rw [← h.2]
          exact hinv

theorem wait_request_body_slots (b : Bool) (env : Env)
    (henv : ∀ f sd v, slots_inv b v.net → slots_inv b (env.user_func f sd v))
    (i n n' : Int) (w w' : World)
    (h : wait_request_body env i n w = some (n', w')) (hinv : slots_inv b w.net) :
    slots_inv b w'.net := by
  unfold wait_request_body at h
  simp only [Option.bind_eq_bind, Option.bind_eq_some] at h
  obtain ⟨r, hr, h⟩ := h
  have hr' : selpoll_fd_isset w i = some (r.1, r.2) := hr
  have hinv1 := selpoll_fd_isset_slots b w r.2 i r.1 hr' hinv
  split at h
  · simp only [Option.map_eq_some'] at h
    obtain ⟨w3, hw3, h⟩ := h
    simp only [Prod.mk.injEq] at h
    rw [← h.2]
    exact wait_request_ready_slots b env henv r.2 w3 i hw3 hinv1
  · simp only [Option.some.injEq, Prod.mk.injEq] at h
    rw [← h.2]
    exact hinv1

theorem wait_request_loop_slots (b : Bool) (env : Env)
    (henv : ∀ f sd v, slots_inv b v.net → slots_inv b (env.user_func f sd v)) :
    ∀ (fuel : Nat) (i n : Int) (w w' : World),
      wait_request_loop env fuel i n w = some w' → slots_inv b w.net →
      slots_inv b w'.net := by
  intro fuel
  induction fuel with
  | zero =>
    intro i n w w' h hinv
    unfold wait_request_loop at h
    split at h
    · cases h
    · simp only [Option.some.injEq] at h
      rw [← h]
      exact hinv
  | succ fuel ih =>
    intro i n w w' h hinv
    unfold wait_request_loop at h
    split at h
    · simp only [Option.bind_eq_bind, Option.bind_eq_some] at h
      obtain ⟨r, hr, h⟩ := h
      have hr' : wait_request_body env i n w = some (r.1, r.2) := hr
      exact ih _ _ _ _ h (wait_request_body_slots b env henv i n r.1 w r.2 hr' hinv)
    · simp only [Option.some.injEq] at h
      rw [← h]
      exact hinv

theorem connection_idlecheck_loop_slots (b : Bool) (env : Env)
    (henv : ∀ f sd v, slots_inv b v.net → slots_inv b (env.user_func f sd v)) (now : Int) :
    ∀ (fuel : Nat) (i : Int) (w w' : World),
      connection_idlecheck_loop env now fuel i w = some w' → slots_inv b w.net →
      slots_inv b w'.net := by
  intro fuel
  induction fuel with
  | zero =>
    intro i w w' h hinv
    unfold connection_idlecheck_loop at h
    split at h
    · cases h
    · simp only [Option.some.injEq] at h
      rw [← h]
      exact hinv
  | succ fuel ih =>
    intro i w w' h hinv
    unfold connection_idlecheck_loop at h
    split at h
    · simp only [Option.bind_eq_bind, Option.bind_eq_some] at h
      obtain ⟨cp, _, h⟩ := h
      split at h
      · exact ih _ _ _ h hinv
      · split at h
        · exact ih _ _ _ h hinv
        · split at h
          · exact ih _ _ _ h hinv
          · simp only [Option.bind_eq_some] at h
            obtain ⟨w2, hw2, h⟩ := h
            exact ih _ _ _ h (close_conn_slots b env henv _ w2 _ hw2 hinv)
    · simp only [Option.some.injEq] at h
      rw [← h]
      exact hinv

theorem wait_request_dispatch_slots (b : Bool) (env : Env)
    (henv : ∀ f sd v, slots_inv b v.net → slots_inv b (env.user_func f sd v))
    (n r : Int) (w w' : World)
    (h : wait_request_dispatch env n w = some (r, w')) (hinv : slots_inv b w.net) :
    slots_inv b w'.net := by
  unfold wait_request_dispatch at h
  simp only [Option.bind_eq_bind, Option.bind_eq_some] at h
  obtain ⟨w1, hw1, w2, hw2, h⟩ := h
  simp only [Option.some.injEq, Prod.mk.injEq] at h
  rw [← h.2]
  exact connection_idlecheck_loop_slots b env henv _ _ _ _ _ hw2
    (wait_request_loop_slots b env henv _ _ _ _ _ hw1 hinv)

theorem poll_fill_slots (b : Bool) (rev : Nat → Nat) (nfds : Int) (s : NetState)
    (hinv : slots_inv b s) :
    slots_inv b { s with pollfds := poll_fill rev nfds 0 s.pollfds } := by
  obtain ⟨hlen, hsync, hstrict⟩ := hinv
  refine ⟨by rw [poll_fill_length]; exact hlen, ?_, hstrict⟩
  intro j c p hc hp
  obtain ⟨h0, h1⟩ := aget_some_bounds hp
  have h1' : j < s.pollfds.length := by
    have := poll_fill_length rev nfds s.pollfds 0
    have h1'' : j < ((poll_fill rev nfds 0 s.pollfds).length : Int) := h1
    omega
  obtain ⟨p0, hp0⟩ := aget_of_bounds s.pollfds j h0 h1'
  have hp' : aget (poll_fill rev nfds 0 s.pollfds) j = some p := hp
  rw [aget_poll_fill rev nfds s.pollfds j p0 hp0] at hp'
  have hfd : p.fd = p0.fd := by
    rw [← Option.some.inj hp']
    split <;> rfl
  rw [hfd]
  exact hsync j c p0 hc hp0

theorem wait_request_slots (b : Bool) (env : Env)
    (henv : ∀ f sd v, slots_inv b v.net → slots_inv b (env.user_func f sd v))
    (waittime r : Int) (w w' : World)
    (h : wait_request env w waittime = some (r, w')) (hinv : slots_inv b w.net) :
    slots_inv b w'.net := by
  unfold wait_request at h
  dsimp only at h
  split at h
  · split at h
    · exact wait_request_dispatch_slots b env henv _ _ _ _ h hinv
    · split at h
      · cases h
      · simp only [Option.some.injEq, Prod.mk.injEq] at h
        rw [← h.2]
        exact hinv
  · split at h
    · exact wait_request_dispatch_slots b env henv _ _
        { w with net := { w.net with
            pollfds := poll_fill (env.poll_revents w) (w.net.maxfdx + 1) 0 w.net.pollfds } }
        _ h (poll_fill_slots b _ _ w.net hinv)
    · cases h

theorem apply_net_op_slots (b : Bool) (env : Env)
    (henv : ∀ f sd v, slots_inv b v.net → slots_inv b (env.user_func f sd v))
    (w w' : World) (op : NetOp) (hop : b = true → op.not_idle)
    (h : apply_net_op env w op = some w') (hinv : slots_inv b w.net) :
    slots_inv b w'.net := by
  cases op with
  | add_conn sock type addr port func =>
    simp only [apply_net_op, Option.map_eq_some'] at h
    obtain ⟨r, hr, hw⟩ := h
    rw [← hw]
    exact add_conn_slots b w r.2 sock r.1 type addr port func hr hop hinv
  | close_conn sd => exact close_conn_slots b env henv w w' sd h hinv
  | wait_request dt waittime =>
    simp only [apply_net_op, Option.map_eq_some'] at h
    obtain ⟨r, hr, hw⟩ := h
    rw [← hw]
    exact wait_request_slots b env henv waittime r.1 _ r.2 hr hinv

theorem run_net_ops_slots (b : Bool) (env : Env)
    (henv : ∀ f sd v, slots_inv b v.net → slots_inv b (env.user_func f sd v))
    (ops : List NetOp) :
    ∀ (w w' : World), (b = true → ∀ op ∈ ops, op.not_idle) →
      run_net_ops env ops w = some w' → slots_inv b w.net → slots_inv b w'.net := by
  induction ops with
  | nil =>
    intro w w' _ h hinv
    simp only [run_net_ops, Option.some.injEq] at h
    rw [← h]
    exact hinv
  | cons op ops ih =>
    intro w w' hops h hinv
    simp only [run_net_ops, Option.bind_eq_some] at h
    obtain ⟨w1, h1, h⟩ := h
    exact ih w1 w' (fun hb o ho => hops hb o (List.mem_cons_of_mem _ ho)) h
      (apply_net_op_slots b env henv w w1 op
        (fun hb => hops hb op (List.mem_cons_self _ _)) h1 hinv)

theorem init_network_listen_slots (b : Bool) (ienv : InitEnv) (w w' : World)
    (type : conn_type) (port readfunc : Nat) (r : Int)
    (h : init_network_listen ienv w type port readfunc = some (r, w'))
    (htype : type ≠ conn_type.Idle) (hinv : slots_inv b w.net) : slots_inv b w'.net := by
  unfold init_network_listen at h
  dsimp only at h
  split at h
  · simp only [Option.some.injEq, Prod.mk.injEq] at h
    rw [← h.2]
    exact hinv
  · simp only [Option.bind_eq_bind, Option.bind_eq_some] at h
    obtain ⟨net2, hnet2, h⟩ := h
    have hinv2 : slots_inv b net2 := by
      unfold read_func_store at hnet2
      split at hnet2
      · simp only [Option.some.injEq] at hnet2
        rw [← hnet2]
        exact hinv
      · split at hnet2
        · simp only [Option.some.injEq] at hnet2
          rw [← hnet2]
          exact hinv
        · cases hnet2
    split at h
    · simp only [Option.some.injEq, Prod.mk.injEq] at h
      rw [← h.2]
      exact hinv2
    · split at h
      · simp only [Option.some.injEq, Prod.mk.injEq] at h
        rw [← h.2]
        exact hinv2
      · simp only [Option.bind_eq_some] at h
        obtain ⟨r2, hadd, h⟩ := h
        have hinv3 : slots_inv b r2.2.net :=
          add_conn_slots b _ r2.2 _ r2.1 _ _ _ _ hadd (fun _ => htype) hinv2
        split at h
        · simp only [Option.some.injEq, Prod.mk.injEq] at h
          rw [← h.2]
          exact hinv3
        · simp only [Option.some.injEq, Prod.mk.injEq] at h
          rw [← h.2]
          exact hinv3

/-- The first successful `init_network` of a program leaves every poll entry
with the descriptor of its slot and no slot in use of type `Idle`. -/
theorem init_network_slots (ienv : InitEnv) (w0 w1 : World) (port readfunc : Nat)
    (hstart : w0.net = NetState.startup) (hn : int_range (ienv.nfiles w0))
    (hinit : init_network ienv w0 port readfunc = some (0, w1)) :
    slots_inv true w1.net := by
  unfold init_network at hinit
  have h0 : w0.net.initialized = 0 := by rw [hstart]; rfl
  simp only [h0, if_true, Option.bind_eq_bind, Option.bind_eq_some] at hinit
  obtain ⟨r1, hr1, hinit⟩ := hinit
  split at hinit
  · simp at hinit
  · rename_i hr1neg
    split at hinit
    · simp at hinit
    · rename_i hr2neg
      have halloc : alloc_ok w0.net := by
        left
        rw [hstart]
        decide
      obtain ⟨hmA, hlenA, hemptyA⟩ :=
        connection_init_ok _ _ w0 r1.2 r1.1 halloc hn hr1 hr1neg
      cases hm : ienv.malloc_poll r1.2 with
      | none =>
        rw [hm] at hr2neg
        exact absurd (show ((-1 : Int) < 0) by decide) hr2neg
      | some g2 =>
        rw [hm] at hinit
        refine init_network_listen_slots true ienv _ w1 _ port readfunc 0 hinit
          (by decide) ?_
        refine ⟨?_, ?_, ?_⟩
        · show r1.2.net.svr_conn.length
            = (List.replicate r1.2.net.max_connection.toNat
                ({ fd := -1, events := POLLIN, revents := 0 } : pollfd)).length
          rw [List.length_replicate]
          omega
        · intro j c p hc hp
          have hp' : aget (List.replicate r1.2.net.max_connection.toNat
              ({ fd := -1, events := POLLIN, revents := 0 } : pollfd)) j = some p := hp
          have hpe := List.eq_of_mem_replicate (aget_mem hp')
          have hce : c.cn_sock = -1 := hemptyA c (aget_mem hc)
          rw [hpe, hce]
        · intro _ c hc hlive
          exact absurd (hemptyA c hc) hlive

theorem slots_inv_weaken (b : Bool) (s : NetState) (h : slots_inv true s) : slots_inv b s :=
  ⟨h.1, h.2.1, fun _ => h.2.2 rfl⟩

theorem env_neutral_slots (b : Bool) (env : Env)
    (henv : ∀ f sd v, env.user_func f sd v = v.net) :
    ∀ f sd v, slots_inv b v.net → slots_inv b (env.user_func f sd v) := by
  intro f sd v h
  rw [henv]
  exact h

/-- C25, amended.  Start from the state a successful first `init_network` leaves
and make any sequence of `add_conn`, `close_conn` and `wait_request` calls, the
application's handlers and hooks leaving the module's variables alone.  In
every state so reached each slot `i` has `pollfds[i].fd = cn_sock`: a slot in
use is registered under its descriptor and an empty slot has `fd = -1`.  If
moreover no `add_conn` of the sequence passes type `Idle`, every slot in use
has a type other than `Idle`. -/
theorem slots_registered (ienv : InitEnv) (env : Env) (w0 w1 w : World)
    (port readfunc : Nat) (ops : List NetOp)
    (hstart : w0.net = NetState.startup) (hn : int_range (ienv.nfiles w0))
    (henv : ∀ f sd v, env.user_func f sd v = v.net)
    (hinit : init_network ienv w0 port readfunc = some (0, w1))
    (hrun : run_net_ops env ops w1 = some w) :
    (∀ i c, aget w.net.svr_conn i = some c →
      ∃ p, aget w.net.pollfds i = some p ∧ p.fd = c.cn_sock) ∧
    ((∀ op ∈ ops, op.not_idle) →
      ∀ c ∈ w.net.svr_conn, c.cn_sock ≠ -1 → c.cn_active ≠ conn_type.Idle) := by
  have hinv1 := init_network_slots ienv w0 w1 port readfunc hstart hn hinit
  constructor
  · have hinv := run_net_ops_slots false env (env_neutral_slots false env henv) ops w1 w
      (fun hb => absurd hb (by decide)) hrun (slots_inv_weaken false _ hinv1)
    intro i c hc
    obtain ⟨h0, h1⟩ := aget_some_bounds hc
    obtain ⟨p, hp⟩ := aget_of_bounds w.net.pollfds i h0 (by rw [← hinv.1]; exact h1)
    exact ⟨p, hp, hinv.2.1 i c p hc hp⟩
  · intro hops
    have hinv := run_net_ops_slots true env (env_neutral_slots true env henv) ops w1 w
      (fun _ => hops) hrun hinv1
    exact hinv.2.2 rfl

/-- C25, counterexample.  After `init_network(15001, 7)` at program start,
`add_conn(1, Idle, ...)` succeeds and leaves slot 1 in use (`cn_sock = 1`,
registered in `pollfds[1]`) with type `Idle`. -/
theorem idle_slot_in_use :
    ((init_network sample_ienv sample_start 15001 7).bind (fun r =>
      (run_net_ops sample_env [NetOp.add_conn 1 conn_type.Idle 1 2000 7] r.2).map (fun w =>
        (r.1, (aget w.net.svr_conn 1).map (fun c => (c.cn_sock, c.cn_active)),
          (aget w.net.pollfds 1).map (fun p => p.fd)))))
      = some (0, some (1, conn_type.Idle), some 1) := by
  decide

/-- Witness of the amended C25: a client registered, served and closed after
`init_network(15001, 7)`. -/
theorem slots_registered_witness :
    init_network sample_ienv sample_start 15001 7 = some (0, sample_primary) ∧
    run_net_ops sample_env sample_net_ops sample_primary = some sample_served ∧
    (∀ i c, aget sample_served.net.svr_conn i = some c →
      ∃ p, aget sample_served.net.pollfds i = some p ∧ p.fd = c.cn_sock) ∧
    ((∀ op ∈ sample_net_ops, op.not_idle) →
      ∀ c ∈ sample_served.net.svr_conn, c.cn_sock ≠ -1 → c.cn_active ≠ conn_type.Idle) :=
  ⟨by decide, by decide,
    slots_registered sample_ienv sample_env sample_start sample_primary sample_served
      15001 7 sample_net_ops rfl (by decide) (fun _ _ _ => rfl) (by decide) (by decide)⟩

/-- C26, evaluated.  In the empty table of four slots `add_conn(1, Idle, ...)`
registers descriptor `1` (`num_connections = 1`, one slot in use).  The next
`wait_request`, with descriptor `1` readable, force-closes the slot through
`cleanup_conn` and returns `0`: no slot is in use any more, but
`num_connections` is still `1`. -/
theorem idle_force_close_keeps_count :
    ((add_conn sample_ready 1 conn_type.Idle 1 2000 7).bind (fun r =>
      (wait_request sample_env r.2 1).map (fun t =>
        ((r.2.net.num_connections, live_count r.2.net), t.1,
          (t.2.net.num_connections, live_count t.2.net)))))
      = some ((1, 1), 0, (1, 0)) := by
  decide

/-! ## Node allocation of the Scyld MOM -/

/-- C29, evaluated.  Two free nodes of one CPU each, of which only node 0 is
up, and job `7` asking for two CPUs: `set_mach_vars` returns `JOB_EXEC_RETRY`
(too few free, up nodes) and leaves node 0 assigned to the job.  The retry of
the same job, now with both nodes up, finds the job on node 0, logs "nodes
already allocated" and returns `JOB_EXEC_RETRY` again; only with the array as
it was before the first call does it succeed. -/
theorem set_mach_vars_keeps_partial_allocation :
    set_mach_vars sample_up_first 2 sample_nodes 7 (some 2)
      = some { ret := job_exec.JOB_EXEC_RETRY,
               node_array := [{ n_job := some 7, n_cpus := 1 }, { n_job := none, n_cpus := 1 }],
               logged := false, job_map := none } ∧
    set_mach_vars (fun _ => true) 2
        [{ n_job := some 7, n_cpus := 1 }, { n_job := none, n_cpus := 1 }] 7 (some 2)
      = some { ret := job_exec.JOB_EXEC_RETRY,
               node_array := [{ n_job := some 7, n_cpus := 1 }, { n_job := none, n_cpus := 1 }],
               logged := true, job_map := none } ∧
    set_mach_vars (fun _ => true) 2 sample_nodes 7 (some 2)
      = some { ret := job_exec.JOB_EXEC_OK,
               node_array := [{ n_job := some 7, n_cpus := 1 }, { n_job := some 7, n_cpus := 1 }],
               logged := false, job_map := some [48, 58, 49] } := by
  decide

/-- `set_mach_vars` leaves `node_array` as it is when it returns
`JOB_EXEC_FAIL1`. -/
theorem set_mach_vars_fail1_unchanged (node_up : Int → Bool) (num_pcpus : Int)
    (node_array : List bnode) (pjob : Nat) (ncpus : Option Int) (r : MachResult)
    (h : set_mach_vars node_up num_pcpus node_array pjob ncpus = some r)
    (hret : r.ret = job_exec.JOB_EXEC_FAIL1) : r.node_array = node_array := by
  unfold set_mach_vars at h
  cases ncpus with
  | none =>
    simp only [Option.some.injEq] at h
    rw [← h]
  | some at_long =>
    simp only at h
    split at h
    · simp only [Option.some.injEq] at h
      rw [← h]
    · split at h
      · simp only [Option.some.injEq] at h
        rw [← h]
      · simp only [Option.bind_eq_bind, Option.bind_eq_some] at h
        obtain ⟨s, _, h⟩ := h
        cases s with
        | already na =>
          simp only [Option.some.injEq] at h
          rw [← h] at hret
          cases hret
        | left found buf na =>
          simp only at h
          split at h
          · simp only [Option.some.injEq] at h
            rw [← h] at hret
            cases hret
          · split at h
            · cases h
            · simp only [Option.some.injEq] at h
              rw [← h] at hret
              cases hret

/-! ## The client commands `qrls` and `qstart` -/

theorem qrls_scan_spec : ∀ (v : List Nat) (k : hold_counts),
    ((qrls_scan v k).1 = false ↔
      ∀ ch ∈ v, ch = 117 ∨ ch = 111 ∨ ch = 115 ∨ ch = 112 ∨ ch = 110) ∧
    ((∀ ch ∈ v, ch = 117 ∨ ch = 111 ∨ ch = 115 ∨ ch = 112 ∨ ch = 110) →
      (qrls_scan v k).2.n_cnt = k.n_cnt + (v.count 110 : Nat) ∧
      (qrls_scan v k).2.u_cnt + (qrls_scan v k).2.o_cnt + (qrls_scan v k).2.s_cnt
          + (qrls_scan v k).2.p_cnt
        = k.u_cnt + k.o_cnt + k.s_cnt + k.p_cnt
          + (v.countP (fun c => decide (c ≠ 110)) : Nat)) := by
  intro v
  induction v with
  | nil =>
    intro k
    simp [qrls_scan]
  | cons ch pc ih =>
    intro k
    by_cases h1 : ch = 117
    · subst h1
      obtain ⟨ha, hb⟩ := ih { k with u_cnt := k.u_cnt + 1 }
      simp only [qrls_scan, if_true]
      refine ⟨by rw [ha]; simp, ?_⟩
      intro hall
      obtain ⟨hn, hs⟩ := hb (fun c hc => hall c (List.mem_cons_of_mem _ hc))
      rw [hn, hs]
      simp [List.count_cons, List.countP_cons]
      omega
    · by_cases h2 : ch = 111
      · subst h2
        obtain ⟨ha, hb⟩ := ih { k with o_cnt := k.o_cnt + 1 }
        simp only [qrls_scan, h1, if_false, if_true]
        refine ⟨by rw [ha]; simp, ?_⟩
        intro hall
        obtain ⟨hn, hs⟩ := hb (fun c hc => hall c (List.mem_cons_of_mem _ hc))
        rw [hn, hs]
        simp [List.count_cons, List.countP_cons]
        omega
      · by_cases h3 : ch = 115
        · subst h3
          obtain ⟨ha, hb⟩ := ih { k with s_cnt := k.s_cnt + 1 }
          simp only [qrls_scan, h1, h2, if_false, if_true]
          refine ⟨by rw [ha]; simp, ?_⟩
          intro hall
          obtain ⟨hn, hs⟩ := hb (fun c hc => hall c (List.mem_cons_of_mem _ hc))
          rw [hn, hs]
          simp [List.count_cons, List.countP_cons]
          omega
        · by_cases h4 : ch = 112
          · subst h4
            obtain ⟨ha, hb⟩ := ih { k with p_cnt := k.p_cnt + 1 }
            simp only [qrls_scan, h1, h2, h3, if_false, if_true]
            refine ⟨by rw [ha]; simp, ?_⟩
            intro hall
            obtain ⟨hn, hs⟩ := hb (fun c hc => hall c (List.mem_cons_of_mem _ hc))
            rw [hn, hs]
            simp [List.count_cons, List.countP_cons]
            omega
          · by_cases h5 : ch = 110
            · subst h5
              obtain ⟨ha, hb⟩ := ih { k with n_cnt := k.n_cnt + 1 }
              simp only [qrls_scan, h1, h2, h3, h4, if_false, if_true]
              refine ⟨by rw [ha]; simp, ?_⟩
              intro hall
              obtain ⟨hn, hs⟩ := hb (fun c hc => hall c (List.mem_cons_of_mem _ hc))
              rw [hn, hs]
              simp [List.count_cons, List.countP_cons]
              omega
            · simp only [qrls_scan, h1, h2, h3, h4, h5, if_false]
              constructor
              · constructor
                · intro h
                  cases h
                · intro hall
                  have := hall ch (List.mem_cons_self _ _)
                  omega
              · intro hall
                have := hall ch (List.mem_cons_self _ _)
                omega

/-- The case `'h'` on a value that fits `hold_type` (leading whitespace
skipped): it returns; for a well-formed hold list `errflg` and the trace are
unchanged and the value is stored; for any other value `errflg` is raised;
nothing but messages is written. -/
theorem qrls_opt_h_checks (optarg : List Nat) (st : QrlsState)
    (hfit : (optarg.dropWhile isspace).length ≤ MAX_HOLD_TYPE_LEN) :
    ∃ st', qrls_opt_h optarg st = some st' ∧
      (hold_list_ok optarg → st'.errflg = st.errflg ∧
        st'.hold_type = optarg.dropWhile isspace ∧ st'.trace = st.trace) ∧
      (¬ hold_list_ok optarg → st.errflg < st'.errflg) ∧
      ∃ q, st'.trace = st.trace ++ q ∧ ∀ e ∈ q, e.is_stderr = true := by
  unfold qrls_opt_h hold_list_ok
  dsimp only
  generalize optarg.dropWhile isspace = v at hfit ⊢
  obtain ⟨hleg, hcnt⟩ := qrls_scan_spec v
    { u_cnt := 0, o_cnt := 0, s_cnt := 0, n_cnt := 0, p_cnt := 0 }
  generalize qrls_scan v { u_cnt := 0, o_cnt := 0, s_cnt := 0, n_cnt := 0, p_cnt := 0 } = r
    at hleg hcnt ⊢
  have hone : ∀ e ∈ [CmdEvent.stderr CmdMsg.illegal_h_value], e.is_stderr = true := by
    intro e he
    simp only [List.mem_singleton] at he
    rw [he]
    rfl
  have htwo : ∀ e ∈ [CmdEvent.stderr CmdMsg.illegal_h_value,
      CmdEvent.stderr CmdMsg.illegal_h_value], e.is_stderr = true := by
    intro e he
    simp only [List.mem_cons, List.mem_singleton, List.not_mem_nil, or_false] at he
    rcases he with rfl | rfl <;> rfl
  by_cases hv : v.length = 0
  · have hnil : v = [] := List.length_eq_zero.mp hv
    simp only [hv, if_true]
    refine ⟨_, rfl, fun h => absurd hnil h.1, fun _ => ?_, _, rfl, hone⟩
    show st.errflg < st.errflg + 1
    omega
  · have hne : v ≠ [] := fun h => hv (by rw [h]; rfl)
    simp only [hv, if_false]
    by_cases hall : ∀ ch ∈ v, ch = 117 ∨ ch = 111 ∨ ch = 115 ∨ ch = 112 ∨ ch = 110
    · have hr1 : r.1 = false := hleg.mpr hall
      obtain ⟨hn, hs⟩ := hcnt hall
      simp only [hr1, Bool.false_eq_true, if_false]
      have hnmem : r.2.n_cnt ≠ 0 ↔ 110 ∈ v := by
        have hn' : r.2.n_cnt = (v.count 110 : Nat) := by rw [hn]; simp
        rw [hn']
        have : 0 < List.count 110 v ↔ 110 ∈ v := List.count_pos_iff
        constructor
        · intro h
          exact this.mp (by omega)
        · intro h
          have := this.mpr h
          omega
      have hsmem : r.2.u_cnt + r.2.o_cnt + r.2.s_cnt + r.2.p_cnt ≠ 0 ↔
          ∃ ch ∈ v, ch ≠ 110 := by
        have hs' : r.2.u_cnt + r.2.o_cnt + r.2.s_cnt + r.2.p_cnt
            = (v.countP (fun c => decide (c ≠ 110)) : Nat) := by rw [hs]; simp
        rw [hs']
        have : 0 < List.countP (fun c => decide (c ≠ 110)) v ↔
            ∃ a ∈ v, (fun c => decide (c ≠ 110)) a = true := List.countP_pos_iff
        constructor
        · intro h
          obtain ⟨c, hc, hd⟩ := this.mp (by omega)
          exact ⟨c, hc, by simpa using hd⟩
        · intro ⟨c, hc, hd⟩
          have := this.mpr ⟨c, hc, by simpa using hd⟩
          omega
      by_cases hmix : r.2.n_cnt ≠ 0 ∧ r.2.u_cnt + r.2.o_cnt + r.2.s_cnt + r.2.p_cnt ≠ 0
      · rw [if_pos hmix]
        refine ⟨_, rfl, ?_, fun _ => ?_, _, rfl, hone⟩
        · intro h
          exact absurd ⟨hnmem.mp hmix.1, hsmem.mp hmix.2⟩ h.2.2
        · show st.errflg < st.errflg + 1
          omega
      · have hfit' : v.length + 1 ≤ MAX_HOLD_TYPE_LEN + 1 := by omega
        rw [if_neg hmix, if_pos hfit']
        refine ⟨_, rfl, fun _ => ⟨rfl, rfl, rfl⟩, ?_, [], by simp, by simp⟩
        intro h
        exfalso
        apply h
        refine ⟨hne, hall, ?_⟩
        intro ⟨h1, h2⟩
        exact hmix ⟨hnmem.mpr h1, hsmem.mpr h2⟩
    · have hr1 : r.1 = true := by
        cases hr : r.1 with
        | true => rfl
        | false => exact absurd (hleg.mp hr) hall
      simp only [hr1, if_true]
      by_cases hmix : r.2.n_cnt ≠ 0 ∧ r.2.u_cnt + r.2.o_cnt + r.2.s_cnt + r.2.p_cnt ≠ 0
      · rw [if_pos hmix]
        refine ⟨_, rfl, fun h => absurd h.2.1 hall, fun _ => ?_, _, ?_, htwo⟩
        · show st.errflg < st.errflg + 1 + 1
          omega
        · show st.trace ++ [CmdEvent.stderr CmdMsg.illegal_h_value]
              ++ [CmdEvent.stderr CmdMsg.illegal_h_value] = _
          simp
      · have hfit' : v.length + 1 ≤ MAX_HOLD_TYPE_LEN + 1 := by omega
        rw [if_neg hmix, if_pos hfit']
        refine ⟨_, rfl, fun h => absurd h.2.1 hall, fun _ => ?_, _, rfl, hone⟩
        show st.errflg < st.errflg + 1
        omega

theorem qrls_opts_total : ∀ (os : List (Int × List Nat)) (st : QrlsState),
    (∀ o ∈ os, o.1 = 104 → (o.2.dropWhile isspace).length ≤ MAX_HOLD_TYPE_LEN) →
    ∃ st', qrls_opts os st = some st' ∧ st.errflg ≤ st'.errflg ∧
      ∃ q, st'.trace = st.trace ++ q ∧ ∀ e ∈ q, e.is_stderr = true := by
  intro os
  induction os with
  | nil =>
    intro st _
    exact ⟨st, rfl, le_refl _, [], by simp, by simp⟩
  | cons o os ih =>
    intro st hfit
    have hrest : ∀ o' ∈ os, o'.1 = 104 →
        (o'.2.dropWhile isspace).length ≤ MAX_HOLD_TYPE_LEN :=
      fun o' ho' => hfit o' (List.mem_cons_of_mem _ ho')
    by_cases hh : o.1 = 104
    · obtain ⟨st1, h1, hok, hbad, q1, hq1, hs1⟩ :=
        qrls_opt_h_checks o.2 st (hfit o (List.mem_cons_self _ _) hh)
      obtain ⟨st2, h2, hle, q2, hq2, hs2⟩ := ih st1 hrest
      have hle1 : st.errflg ≤ st1.errflg := by
        by_cases hc : hold_list_ok o.2
        · rw [(hok hc).1]
        · exact le_of_lt (hbad hc)
      refine ⟨st2, ?_, le_trans hle1 hle, q1 ++ q2, by rw [hq2, hq1, List.append_assoc], ?_⟩
      · simp only [qrls_opts, hh, if_true, h1, Option.some_bind, h2]
      · intro e he
        rcases List.mem_append.mp he with h | h
        · exact hs1 e h
        · exact hs2 e h
    · obtain ⟨st2, h2, hle, q2, hq2, hs2⟩ := ih { st with errflg := st.errflg + 1 } hrest
      refine ⟨st2, ?_, ?_, q2, hq2, hs2⟩
      · simp only [qrls_opts, hh, if_false, h2]
      · have : st.errflg + 1 ≤ st2.errflg := hle
        omega

/-- C24, amended.  When the version test `execution_mode` returns: `qrls`
invoked with no job identifier (and `-h` values of at most
`MAX_HOLD_TYPE_LEN` characters, leading whitespace skipped) writes messages to
`stderr` only and exits with status `2`; `qstart` invoked with no destination
writes its usage text and exits with status `1`. -/
theorem usage_error_status (env : CmdEnv) (argv_rls argv_start : List (List Nat))
    (hmode : env.execution_mode argv_rls = none)
    (hfit : ∀ o ∈ (env.getopt argv_rls).1, o.1 = 104 →
      (o.2.dropWhile isspace).length ≤ MAX_HOLD_TYPE_LEN)
    (hnone : (env.getopt argv_rls).2 ≥ argv_rls.length)
    (hmode2 : env.execution_mode argv_start = none)
    (hargc : argv_start.length = 1) :
    (∃ tr, qrls_main env argv_rls = some (2, tr) ∧ ∀ e ∈ tr, e.is_stderr = true) ∧
    qstart_main env argv_start = some (1, [CmdEvent.stderr CmdMsg.qstart_usage]) := by
  constructor
  · obtain ⟨st, hst, _, q, hq, hs⟩ := qrls_opts_total (env.getopt argv_rls).1
      { errflg := 0, hold_type := [], trace := [] } hfit
    refine ⟨st.trace ++ [CmdEvent.stderr CmdMsg.qrls_usage], ?_, ?_⟩
    · simp only [qrls_main, hmode, hst, Option.bind_eq_bind, Option.some_bind, hnone, or_true,
        if_true]
    · intro e he
      rcases List.mem_append.mp he with h | h
      · rw [hq] at h
        exact hs e (by simpa using h)
      · simp only [List.mem_singleton] at h
        rw [h]
        rfl
  · simp only [qstart_main, hmode2, hargc, if_true]

/-- C24, counterexample.  `qstart` invoked with no destination (`argc == 1`)
exits with status `1`, not `2`. -/
theorem qstart_usage_exits_one :
    qstart_main sample_cmd_env [sample_qstart]
      = some (1, [CmdEvent.stderr CmdMsg.qstart_usage]) := by
  decide

/-- Witness of the amended C24: `qrls -h x` and `qstart`, both without an
operand. -/
theorem usage_error_status_witness :
    (∃ tr, qrls_main sample_cmd_env [sample_qrls, [45, 104], [120]] = some (2, tr) ∧
      ∀ e ∈ tr, e.is_stderr = true) ∧
    qstart_main sample_cmd_env [sample_qstart]
      = some (1, [CmdEvent.stderr CmdMsg.qstart_usage]) :=
  usage_error_status sample_cmd_env [sample_qrls, [45, 104], [120]] [sample_qstart]
    rfl (by decide) (by decide) rfl (by decide)

/-- C30, evaluated.  The value of 33 letters `u` is a well-formed hold list,
but the case `'h'` copies it into `hold_type`, an array of
`MAX_HOLD_TYPE_LEN + 1 = 33` characters, with an unbounded `strcpy`: the
terminating null is stored past the end of the array, so `qrls -h uuu...u 1`
has no defined behaviour.  With 32 letters the value is accepted and the job
released with that hold list. -/
theorem qrls_hold_list_overflows :
    hold_list_ok (List.replicate 33 117) ∧
    qrls_opt_h (List.replicate 33 117) { errflg := 0, hold_type := [], trace := [] } = none ∧
    qrls_main sample_cmd_env [sample_qrls, [45, 104], List.replicate 33 117, [49]] = none ∧
    qrls_main sample_cmd_env [sample_qrls, [45, 104], List.replicate 32 117, [49]]
      = some (0, [CmdEvent.CS_client_init, CmdEvent.get_server [49],
          CmdEvent.cnt2server (some [115]),
          CmdEvent.pbs_rlsjob 1 [49] (List.replicate 32 117),
          CmdEvent.pbs_disconnect 1, CmdEvent.CS_close_app]) := by
  decide

theorem qrls_opts_checks : ∀ (os : List (Int × List Nat)) (st : QrlsState),
    (∀ o ∈ os, o.1 = 104 → (o.2.dropWhile isspace).length ≤ MAX_HOLD_TYPE_LEN) →
    ∃ st', qrls_opts os st = some st' ∧
      ((∃ o ∈ os, o.1 ≠ 104 ∨ ¬ hold_list_ok o.2) → st.errflg < st'.errflg) ∧
      ((∀ o ∈ os, o.1 = 104 ∧ hold_list_ok o.2) →
        st'.errflg = st.errflg ∧ st'.trace = st.trace) := by
  intro os
  induction os with
  | nil =>
    intro st _
    refine ⟨st, rfl, ?_, fun _ => ⟨rfl, rfl⟩⟩
    intro ⟨o, ho, _⟩
    exact absurd ho (List.not_mem_nil _)
  | cons o os ih =>
    intro st hfit
    have hrest : ∀ o' ∈ os, o'.1 = 104 →
        (o'.2.dropWhile isspace).length ≤ MAX_HOLD_TYPE_LEN :=
      fun o' ho' => hfit o' (List.mem_cons_of_mem _ ho')
    by_cases hh : o.1 = 104
    · obtain ⟨st1, h1, hok, hbad, _⟩ :=
        qrls_opt_h_checks o.2 st (hfit o (List.mem_cons_self _ _) hh)
      obtain ⟨st2, h2, hlt, hsame⟩ := ih st1 hrest
      obtain ⟨st2', h2', hle, _⟩ := qrls_opts_total os st1 hrest
      rw [h2] at h2'
      cases h2'
      refine ⟨st2, by simp only [qrls_opts, hh, if_true, h1, Option.some_bind, h2], ?_, ?_⟩
      · intro ⟨o', ho', hbad'⟩
        rcases List.mem_cons.mp ho' with heq | hmem
        · rw [heq] at hbad'
          rcases hbad' with hb | hb
          · exact absurd hh hb
          · exact lt_of_lt_of_le (hbad hb) hle
        · have := hlt ⟨o', hmem, hbad'⟩
          by_cases hc : hold_list_ok o.2
          · rw [← (hok hc).1]
            exact this
          · exact lt_trans (hbad hc) this
      · intro hall
        obtain ⟨he, ht⟩ := hsame (fun o' ho' => hall o' (List.mem_cons_of_mem _ ho'))
        obtain ⟨he1, _, ht1⟩ := hok (hall o (List.mem_cons_self _ _)).2
        exact ⟨by rw [he, he1], by rw [ht, ht1]⟩
    · obtain ⟨st2, h2, _, _⟩ := ih { st with errflg := st.errflg + 1 } hrest
      obtain ⟨st2', h2', hle, _⟩ := qrls_opts_total os { st with errflg := st.errflg + 1 } hrest
      rw [h2] at h2'
      cases h2'
      refine ⟨st2, by simp only [qrls_opts, hh, if_false, h2], ?_, ?_⟩
      · intro _
        have : st.errflg + 1 ≤ st2.errflg := hle
        omega
      · intro hall
        exact absurd (hall o (List.mem_cons_self _ _)).1 hh

theorem qrls_release_prefix (env : CmdEnv) (hold_type job_id_out : List Nat) :
    ∀ (fuel : Nat) (located : Bool) (server_out : List Nat) (any_failed : Int)
      (tr : List CmdEvent) (r : Int × List CmdEvent),
      qrls_release env hold_type job_id_out fuel located server_out any_failed tr = some r →
      ∃ q, r.2 = tr ++ q := by
  intro fuel
  induction fuel with
  | zero =>
    intro located server_out any_failed tr r h
    simp [qrls_release] at h
  | succ fuel ih =>
    intro located server_out any_failed tr r h
    unfold qrls_release at h
    dsimp only at h
    split at h
    · simp only [Option.some.injEq] at h
      rw [← h]
      exact ⟨_, by simp only [List.append_assoc]; rfl⟩
    · split at h
      · simp only [Option.some.injEq] at h
        rw [← h]
        exact ⟨_, by simp only [List.append_assoc]; rfl⟩
      · split at h
        · split at h
          · split at h
            · obtain ⟨q, hq⟩ := ih _ _ _ _ _ h
              exact ⟨_, by rw [hq]; simp only [List.append_assoc]; rfl⟩
            · cases h
          · simp only [Option.some.injEq] at h
            rw [← h]
            exact ⟨_, by simp only [List.append_assoc]; rfl⟩
        · simp only [Option.some.injEq] at h
          rw [← h]
          exact ⟨_, by simp only [List.append_assoc]; rfl⟩

theorem qrls_jobs_prefix (env : CmdEnv) (argv : List (List Nat)) (hold_type : List Nat) :
    ∀ (fuel : Nat) (optind any_failed : Int) (tr : List CmdEvent) (r : Int × List CmdEvent),
      qrls_jobs env argv hold_type fuel optind any_failed tr = some r →
      ∃ q, r.2 = tr ++ q := by
  intro fuel
  induction fuel with
  | zero =>
    intro optind any_failed tr r h
    unfold qrls_jobs at h
    split at h
    · cases h
    · simp only [Option.some.injEq] at h
      rw [← h]
      exact ⟨[], by simp⟩
  | succ fuel ih =>
    intro optind any_failed tr r h
    unfold qrls_jobs at h
    split at h
    · simp only [Option.bind_eq_bind, Option.bind_eq_some] at h
      obtain ⟨job_id, _, h⟩ := h
      split at h
      · split at h
        · obtain ⟨q, hq⟩ := ih _ _ _ _ h
          exact ⟨_, by rw [hq]; simp only [List.append_assoc]; rfl⟩
        · simp only [Option.bind_eq_some] at h
          obtain ⟨r1, hr1, h⟩ := h
          obtain ⟨q1, hq1⟩ := qrls_release_prefix env _ _ _ _ _ _ _ _ hr1
          obtain ⟨q, hq⟩ := ih _ _ _ _ h
          exact ⟨_, by rw [hq, hq1]; simp only [List.append_assoc]; rfl⟩
      · cases h
    · simp only [Option.some.injEq] at h
      rw [← h]
      exact ⟨[], by simp⟩

/-- `qrls` on `-h` values that fit `hold_type`, when the version test returns:
if some option is not `-h` with a well-formed hold list, `qrls` writes
messages to `stderr` only and exits with status `2`; if every option is such
a `-h` and an operand follows, no usage error is raised: the first thing
`qrls` does is to initialise the security library. -/
theorem qrls_hold_list_checked (env : CmdEnv) (argv : List (List Nat))
    (hmode : env.execution_mode argv = none)
    (hfit : ∀ o ∈ (env.getopt argv).1, o.1 = 104 →
      (o.2.dropWhile isspace).length ≤ MAX_HOLD_TYPE_LEN) :
    ((∃ o ∈ (env.getopt argv).1, o.1 ≠ 104 ∨ ¬ hold_list_ok o.2) →
      ∃ tr, qrls_main env argv = some (2, tr) ∧ ∀ e ∈ tr, e.is_stderr = true) ∧
    ((∀ o ∈ (env.getopt argv).1, o.1 = 104 ∧ hold_list_ok o.2) →
      (env.getopt argv).2 < argv.length →
      ∀ r, qrls_main env argv = some r → r.2.head? = some CmdEvent.CS_client_init) := by
  obtain ⟨st, hst, hbad, hgood⟩ := qrls_opts_checks (env.getopt argv).1
    { errflg := 0, hold_type := [], trace := [] } hfit
  obtain ⟨st', hst', _, q, hq, hs⟩ := qrls_opts_total (env.getopt argv).1
    { errflg := 0, hold_type := [], trace := [] } hfit
  rw [hst] at hst'
  cases hst'
  constructor
  · intro hex
    have hlt := hbad hex
    have hne : st.errflg ≠ 0 := by
      have : (0 : Int) < st.errflg := hlt
      omega
    refine ⟨st.trace ++ [CmdEvent.stderr CmdMsg.qrls_usage], ?_, ?_⟩
    · simp only [qrls_main, hmode, hst, Option.bind_eq_bind, Option.some_bind, hne, ne_eq,
        not_false_eq_true, true_or, if_true]
    · intro e he
      rcases List.mem_append.mp he with h | h
      · rw [hq] at h
        exact hs e (by simpa using h)
      · simp only [List.mem_singleton] at h
        rw [h]
        rfl
  · intro hall hop r hr
    obtain ⟨he, ht⟩ := hgood hall
    have he0 : st.errflg = 0 := he
    have ht0 : st.trace = [] := ht
    have hcond : ¬ (st.errflg ≠ 0 ∨ (env.getopt argv).2 ≥ argv.length) := by
      rw [he0]
      intro h
      rcases h with h | h
      · exact h rfl
      · omega
    simp only [qrls_main, hmode, hst, Option.bind_eq_bind, Option.some_bind] at hr
    rw [if_neg hcond, ht0] at hr
    split at hr
    · simp only [Option.some.injEq] at hr
      rw [← hr]
      rfl
    · simp only [Option.bind_eq_some] at hr
      obtain ⟨r1, hr1, hr⟩ := hr
      simp only [Option.some.injEq] at hr
      obtain ⟨q1, hq1⟩ := qrls_jobs_prefix env _ _ _ _ _ _ _ hr1
      rw [← hr, hq1]
      rfl

theorem nodes_taken_refl (pjob : Nat) (l : List bnode) : nodes_taken pjob l l := by
  refine ⟨rfl, ?_⟩
  intro i a b ha hb
  rw [ha] at hb
  exact Or.inl (Option.some.inj hb).symm

theorem nodes_taken_set (pjob : Nat) (l0 l : List bnode) (i : Int) (np : bnode)
    (h : nodes_taken pjob l0 l) (hnp : aget l i = some np) (hfree : np.n_job = none) :
    nodes_taken pjob l0 (l.set i.toNat { np with n_job := some pjob }) := by
  obtain ⟨h0, h1⟩ := aget_some_bounds hnp
  refine ⟨by rw [List.length_set]; exact h.1, ?_⟩
  intro j a b ha hb
  by_cases hji : j = i
  · rw [hji] at ha hb
    rw [aget_set_self _ _ _ h0 h1] at hb
    rcases h.2 i a np ha hnp with heq | ⟨_, heq⟩
    · right
      rw [← heq]
      exact ⟨hfree, (Option.some.inj hb).symm⟩
    · rw [heq] at hfree
      cases hfree
  · rw [aget_set_ne _ _ _ _ h0 (Ne.symm hji)] at hb
    exact h.2 j a b ha hb

theorem set_mach_vars_loop_taken (node_up : Int → Bool) (pjob : Nat) (num num_pcpus : Int)
    (l0 : List bnode) :
    ∀ (fuel : Nat) (i found : Int) (buf : List Nat) (l : List bnode) (s : MachScan),
      nodes_taken pjob l0 l →
      set_mach_vars_loop node_up pjob num num_pcpus fuel i found buf l = some s →
      nodes_taken pjob l0 s.nodes := by
  intro fuel
  induction fuel with
  | zero =>
    intro i found buf l s hinv h
    unfold set_mach_vars_loop at h
    split at h
    · cases h
    · simp only [Option.some.injEq] at h
      rw [← h]
      exact hinv
  | succ fuel ih =>
    intro i found buf l s hinv h
    unfold set_mach_vars_loop at h
    split at h
    · simp only [Option.bind_eq_bind, Option.bind_eq_some] at h
      obtain ⟨np, hnp, h⟩ := h
      split at h
      · simp only [Option.some.injEq] at h
        rw [← h]
        exact hinv
      · split at h
        · exact ih _ _ _ _ _ hinv h
        · rename_i hfree
          split at h
          · exact ih _ _ _ _ _ hinv h
          · simp only [Option.bind_eq_some] at h
            obtain ⟨l1, hl1, r, _, h⟩ := h
            obtain ⟨_, _, hl1'⟩ := aset_some hl1
            have hfree' : np.n_job = none := by
              by_contra hc
              exact hfree hc
            have hinv1 : nodes_taken pjob l0 l1 := by
              rw [hl1']
              exact nodes_taken_set pjob l0 l i np hinv hnp hfree'
            split at h
            · simp only [Option.some.injEq] at h
              rw [← h]
              exact hinv1
            · exact ih _ _ _ _ _ hinv1 h
    · simp only [Option.some.injEq] at h
      rw [← h]
      exact hinv

/-- Whatever `set_mach_vars` returns, the nodes it has changed were free and
now belong to the job; nothing is given back. -/
theorem set_mach_vars_only_assigns (node_up : Int → Bool) (num_pcpus : Int)
    (node_array : List bnode) (pjob : Nat) (ncpus : Option Int) (r : MachResult)
    (h : set_mach_vars node_up num_pcpus node_array pjob ncpus = some r) :
    nodes_taken pjob node_array r.node_array := by
  unfold set_mach_vars at h
  cases ncpus with
  | none =>
    simp only [Option.some.injEq] at h
    rw [← h]
    exact nodes_taken_refl _ _
  | some at_long =>
    simp only at h
    split at h
    · simp only [Option.some.injEq] at h
      rw [← h]
      exact nodes_taken_refl _ _
    · split at h
      · simp only [Option.some.injEq] at h
        rw [← h]
        exact nodes_taken_refl _ _
      · simp only [Option.bind_eq_bind, Option.bind_eq_some] at h
        obtain ⟨s, hs, h⟩ := h
        have hinv := set_mach_vars_loop_taken node_up pjob _ num_pcpus node_array _ _ _ _ _ s
          (nodes_taken_refl _ _) hs
        cases s with
        | already na =>
          simp only [Option.some.injEq] at h
          rw [← h]
          exact hinv
        | left found buf na =>
          simp only at h
          split at h
          · simp only [Option.some.injEq] at h
            rw [← h]
            exact hinv
          · split at h
            · cases h
            · simp only [Option.some.injEq] at h
              rw [← h]
              exact hinv

/-! ## The count across a tick -/

theorem counted_same (s s' : NetState) (h : counted s) (hsv : s'.svr_conn = s.svr_conn)
    (hnum : s'.num_connections = s.num_connections) : counted s' := by
  unfold counted live_count at h ⊢
  rw [hsv, hnum]
  exact h

theorem counted_touch (s s' : NetState) (i : Int) (c x : connection) (h : counted s)
    (hc : aget s.svr_conn i = some c) (hsv : s'.svr_conn = s.svr_conn.set i.toNat x)
    (hnum : s'.num_connections = s.num_connections)
    (hsock : x.cn_sock = c.cn_sock) (hact : x.cn_active = c.cn_active) : counted s' := by
  unfold counted live_count at h ⊢
  rw [hsv, hnum]
  refine ⟨?_, ?_⟩
  · rw [countP_set_same _ _ i x c hc (by simp only [hsock])]
    exact h.1
  · intro y hy
    rcases List.mem_or_eq_of_mem_set hy with h1 | h1
    · exact h.2 y h1
    · rw [h1, hsock, hact]
      exact h.2 c (aget_mem hc)

theorem counted_fill (s s' : NetState) (i : Int) (c x : connection) (h : counted s)
    (hc : aget s.svr_conn i = some c) (hsv : s'.svr_conn = s.svr_conn.set i.toNat x)
    (hnum : s'.num_connections = s.num_connections + 1)
    (hempty : c.cn_sock = -1) (hsock : x.cn_sock ≠ -1)
    (hact : x.cn_active ≠ conn_type.Idle) : counted s' := by
  unfold counted live_count at h ⊢
  rw [hsv, hnum]
  refine ⟨?_, ?_⟩
  · rw [countP_set_aget _ _ i x c hc, h.1]
    simp [hempty, hsock]
  · intro y hy
    rcases List.mem_or_eq_of_mem_set hy with h1 | h1
    · exact h.2 y h1
    · rw [h1]
      exact ⟨fun hh => absurd hh hsock, fun hh => absurd hh hact⟩

theorem counted_release (s s' : NetState) (i : Int) (c x : connection) (h : counted s)
    (hc : aget s.svr_conn i = some c) (hsv : s'.svr_conn = s.svr_conn.set i.toNat x)
    (hnum : s'.num_connections = s.num_connections - 1)
    (hlive : c.cn_sock ≠ -1) (hsock : x.cn_sock = -1)
    (hact : x.cn_active = conn_type.Idle) : counted s' := by
  unfold counted live_count at h ⊢
  rw [hsv, hnum]
  refine ⟨?_, ?_⟩
  · rw [live_count_release _ i c x hc hlive hsock, h.1]
  · intro y hy
    rcases List.mem_or_eq_of_mem_set hy with h1 | h1
    · exact h.2 y h1
    · rw [h1]
      exact ⟨fun _ => hact, fun _ => hsock⟩

theorem keeps_active_refl (s : NetState) : keeps_active s s :=
  fun _ c hc hact => ⟨c, hc, hact⟩

theorem keeps_active_trans (s1 s2 s3 : NetState) (h12 : keeps_active s1 s2)
    (h23 : keeps_active s2 s3) : keeps_active s1 s3 := by
  intro i c hc hact
  obtain ⟨c2, hc2, hact2⟩ := h12 i c hc hact
  exact h23 i c2 hc2 hact2

theorem keeps_active_same (s s' : NetState) (hsv : s'.svr_conn = s.svr_conn) :
    keeps_active s s' := by
  intro i c hc hact
  exact ⟨c, by rw [hsv]; exact hc, hact⟩

theorem keeps_active_set (s s' : NetState) (i : Int) (c x : connection)
    (hc : aget s.svr_conn i = some c) (hsv : s'.svr_conn = s.svr_conn.set i.toNat x)
    (hact : c.cn_active ≠ conn_type.Idle → x.cn_active ≠ conn_type.Idle) :
    keeps_active s s' := by
  obtain ⟨h0, h1⟩ := aget_some_bounds hc
  intro j cj hj hactj
  rw [hsv]
  by_cases hji : j = i
  · rw [hji] at hj ⊢
    rw [hc] at hj
    have hcc : cj = c := (Option.some.inj hj).symm
    rw [aget_set_self _ _ _ h0 h1]
    exact ⟨x, rfl, hact (by rw [← hcc]; exact hactj)⟩
  · rw [aget_set_ne _ _ _ _ h0 (Ne.symm hji)]
    exact ⟨cj, hj, hactj⟩

theorem find_usable_loop_empty (svr_conn : List connection) (max_connection j : Int) :
    ∀ (fuel : Nat) (i r : Int), find_usable_loop svr_conn max_connection j fuel i = some r →
      r ≠ -1 → ∃ c, aget svr_conn r = some c ∧ c.cn_sock = -1 := by
  intro fuel
  induction fuel with
  | zero =>
    intro i r h
    simp [find_usable_loop] at h
  | succ fuel ih =>
    intro i r h hr
    unfold find_usable_loop at h
    simp only [Option.bind_eq_bind, Option.bind_eq_some] at h
    obtain ⟨c, hc, h⟩ := h
    split at h
    · simp only [Option.bind_eq_some] at h
      obtain ⟨i', _, h⟩ := h
      split at h
      · simp only [Option.some.injEq] at h
        exact absurd h.symm hr
      · exact ih _ _ h hr
    · rename_i hempty
      simp only [Option.some.injEq] at h
      rw [← h]
      exact ⟨c, hc, by simpa using hempty⟩

theorem add_conn_slot_empty (w w' : World) (sock r : Int) (type : conn_type)
    (addr port func : Nat) (h : add_conn w sock type addr port func = some (r, w'))
    (hr : r ≠ -1) : ∃ c, aget w.net.svr_conn r = some c ∧ c.cn_sock = -1 := by
  unfold add_conn at h
  simp only [Option.bind_eq_bind, Option.bind_eq_some] at h
  obtain ⟨r0, hfind, h⟩ := h
  by_cases hr0 : r0 = -1
  · simp [hr0] at h
    exact absurd h.1.symm hr
  · simp only [hr0, if_false, Option.bind_eq_some] at h
    obtain ⟨c, _, sc, _, net2, _, hres⟩ := h
    simp only [Option.some.injEq, Prod.mk.injEq] at hres
    rw [← hres.1]
    unfold connection_find_usable_index at hfind
    simp only [Option.bind_eq_bind, Option.bind_eq_some] at hfind
    obtain ⟨j, _, hloop⟩ := hfind
    exact find_usable_loop_empty _ _ _ _ _ _ hloop hr0

theorem add_conn_counted (w w' : World) (sock r : Int) (type : conn_type)
    (addr port func : Nat) (h : add_conn w sock type addr port func = some (r, w'))
    (hsock : sock ≠ -1) (htype : type ≠ conn_type.Idle) (hinv : counted w.net) :
    counted w'.net ∧ keeps_active w.net w'.net := by
  rcases add_conn_shape w w' sock r type addr port func h with
    ⟨_, hw⟩ | ⟨c, p, hc, _, hsv, _, hnum⟩
  · rw [hw]
    exact ⟨hinv, keeps_active_refl _⟩
  · have hr : r ≠ -1 := by
      have := (aget_some_bounds hc).1
      omega
    obtain ⟨c0, hc0, hempty⟩ := add_conn_slot_empty w w' sock r type addr port func h hr
    rw [hc] at hc0
    have hcc : c0 = c := (Option.some.inj hc0).symm
    rw [hcc] at hempty
    exact ⟨counted_fill w.net w'.net r c _ hinv hc hsv hnum hempty hsock htype,
      keeps_active_set w.net w'.net r c _ hc hsv (fun _ => htype)⟩

theorem add_conn_bind_counted (w0 w' : World) (sock : Int) (type : conn_type)
    (addr port func : Nat)
    (h : ((some func).bind fun f =>
      (add_conn w0 sock type addr port f).bind fun r2 => some r2.2) = some w')
    (hsock : sock ≠ -1) (htype : type ≠ conn_type.Idle) (hinv : counted w0.net) :
    counted w'.net ∧ keeps_active w0.net w'.net := by
  simp only [Option.some_bind, Option.bind_eq_some, Option.some.injEq] at h
  obtain ⟨r2, hadd, hw⟩ := h
  rw [← hw]
  exact add_conn_counted w0 r2.2 sock r2.1 type addr port func hadd hsock htype hinv

theorem accept_conn_counted (env : Env) (w w' : World) (sd : Int)
    (h : accept_conn env w sd = some w') (hinv : counted w.net) :
    counted w'.net ∧ keeps_active w.net w'.net := by
  unfold accept_conn at h
  simp only [Option.bind_eq_bind, Option.bind_eq_some] at h
  obtain ⟨r, _, h⟩ := h
  by_cases hr : r = -1
  · simp [hr] at h
    rw [← h]
    exact ⟨hinv, keeps_active_refl _⟩
  · simp only [hr, if_false, Option.bind_eq_some] at h
    obtain ⟨c, hc, sc, hsc, h⟩ := h
    obtain ⟨_, _, hsc'⟩ := aset_some hsc
    have hinv1 : counted { w.net with svr_conn := sc } :=
      counted_touch w.net _ r c _ hinv hc hsc' rfl rfl rfl
    have hk1 : keeps_active w.net { w.net with svr_conn := sc } :=
      keeps_active_set w.net _ r c _ hc hsc' (fun hh => hh)
    split at h
    · simp only [Option.some.injEq] at h
      rw [← h]
      exact ⟨hinv1, hk1⟩
    · rename_i hnew
      split at h
      · simp only [Option.some.injEq] at h
        rw [← h]
        exact ⟨hinv1, hk1⟩
      · simp only [Option.bind_eq_some] at h
        obtain ⟨c2, _, h⟩ := h
        split at h
        · obtain ⟨ha, hb⟩ := add_conn_bind_counted _ _ _ _ _ _ _ h hnew (by decide) hinv1
          exact ⟨ha, keeps_active_trans _ _ _ hk1 hb⟩
        · split at h
          · obtain ⟨ha, hb⟩ := add_conn_bind_counted _ _ _ _ _ _ _ h hnew (by decide) hinv1
            exact ⟨ha, keeps_active_trans _ _ _ hk1 hb⟩
          · simp at h

theorem call_func_counted (env : Env) (henv : ∀ f sd v, env.user_func f sd v = v.net)
    (w w' : World) (f : Nat) (sd : Int)
    (h : call_func env f sd w = some w') (hinv : counted w.net) :
    counted w'.net ∧ keeps_active w.net w'.net := by
  unfold call_func at h
  split at h
  · simp at h
  · split at h
    · exact accept_conn_counted env w w' sd h hinv
    · simp only [Option.some.injEq] at h
      rw [← h]
      show counted (env.user_func f sd w) ∧ keeps_active w.net (env.user_func f sd w)
      rw [henv]
      exact ⟨hinv, keeps_active_refl _⟩

theorem close_conn_counted (env : Env) (henv : ∀ f sd v, env.user_func f sd v = v.net)
    (w w' : World) (sd : Int)
    (h : close_conn env w sd = some w') (hinv : counted w.net) : counted w'.net := by
  unfold close_conn at h
  split at h
  · simp only [Option.some.injEq] at h
    rw [← h]
    exact hinv
  · simp only [Option.bind_eq_bind, Option.bind_eq_some] at h
    obtain ⟨r, _, h⟩ := h
    split at h
    · simp only [Option.some.injEq] at h
      rw [← h]
      exact hinv
    · simp only [Option.bind_eq_some] at h
      obtain ⟨c, hc, h⟩ := h
      split at h
      · simp only [Option.some.injEq] at h
        rw [← h]
        exact hinv
      · rename_i hact
        have hfin : ∀ (w2 : World) (net : NetState), counted w2.net →
            keeps_active w.net w2.net → cleanup_conn w2.net r = some net →
            counted { net with num_connections := net.num_connections - 1 } := by
          intro w2 net hinv2 hk2 hnet
          obtain ⟨c2, p2, hc2, _, hsv, _, hnum⟩ := cleanup_conn_shape w2.net net r hnet
          obtain ⟨c3, hc3, hact3⟩ := hk2 r c hc hact
          rw [hc2] at hc3
          have hcc : c3 = c2 := (Option.some.inj hc3).symm
          rw [hcc] at hact3
          have hlive : c2.cn_sock ≠ -1 := fun hh =>
            hact3 ((hinv2.2 c2 (aget_mem hc2)).mp hh)
          exact counted_release w2.net _ r c2 _ hinv2 hc2 hsv
            (by show net.num_connections - 1 = _; rw [hnum]) hlive rfl rfl
        have h1 : counted (if c.cn_active ≠ conn_type.ChildPipe then
            ((if env.CS_close_socket w sd ≠ CS_ret.CS_SUCCESS then
                (w.emit (Event.cs_close_socket sd)).emit (Event.log_err LogMsg.problem_closing)
              else w.emit (Event.cs_close_socket sd)).emit (Event.close sd))
            else w.emit (Event.close sd)).net ∧
            keeps_active w.net (if c.cn_active ≠ conn_type.ChildPipe then
            ((if env.CS_close_socket w sd ≠ CS_ret.CS_SUCCESS then
                (w.emit (Event.cs_close_socket sd)).emit (Event.log_err LogMsg.problem_closing)
              else w.emit (Event.cs_close_socket sd)).emit (Event.close sd))
            else w.emit (Event.close sd)).net := by
          split
          · split
            · exact ⟨hinv, keeps_active_refl _⟩
            · exact ⟨hinv, keeps_active_refl _⟩
          · exact ⟨hinv, keeps_active_refl _⟩
        split at h
        · simp only [Option.bind_eq_some] at h
          obtain ⟨w2, hw2, net, hnet, hres⟩ := h
          simp only [Option.some.injEq] at hres
          rw [← hres]
          obtain ⟨ha, hb⟩ := call_func_counted env henv _ w2 _ sd hw2 h1.1
          exact hfin w2 net ha (keeps_active_trans _ _ _ h1.2 hb) hnet
        · simp only [Option.some_bind, Option.bind_eq_some] at h
          obtain ⟨net, hnet, hres⟩ := h
          simp only [Option.some.injEq] at hres
          rw [← hres]
          exact hfin _ net h1.1 h1.2 hnet

theorem engage_authentication_counted (env : Env) (w wa : World) (i r : Int)
    (h : engage_authentication env w i = some (r, wa)) (hinv : counted w.net) :
    counted wa.net ∧ keeps_active w.net wa.net := by
  unfold engage_authentication at h
  simp only [Option.bind_eq_bind, Option.bind_eq_some] at h
  obtain ⟨c, hc, h⟩ := h
  split at h
  · simp only [Option.some.injEq, Prod.mk.injEq] at h
    rw [← h.2]
    exact ⟨hinv, keeps_active_refl _⟩
  · split at h
    · simp only [Option.bind_eq_some] at h
      obtain ⟨sc, hsc, h⟩ := h
      simp only [Option.some.injEq, Prod.mk.injEq] at h
      obtain ⟨_, _, hsc'⟩ := aset_some hsc
      rw [← h.2]
      exact ⟨counted_touch w.net _ i c _ hinv hc hsc' rfl rfl rfl,
        keeps_active_set w.net _ i c _ hc hsc' (fun hh => hh)⟩
    · split at h
      · split at h
        · simp only [Option.bind_eq_some] at h
          obtain ⟨sc, hsc, h⟩ := h
          simp only [Option.some.injEq, Prod.mk.injEq] at h
          obtain ⟨_, _, hsc'⟩ := aset_some hsc
          rw [← h.2]
          exact ⟨counted_touch w.net _ i c _ hinv hc hsc' rfl rfl rfl,
            keeps_active_set w.net _ i c _ hc hsc' (fun hh => hh)⟩
        · simp only [Option.some.injEq, Prod.mk.injEq] at h
          rw [← h.2]
          exact ⟨hinv, keeps_active_refl _⟩
      · simp only [Option.some.injEq, Prod.mk.injEq] at h
        rw [← h.2]
        exact ⟨hinv, keeps_active_refl _⟩

theorem wait_request_auth_counted (env : Env) (w1 wa : World) (i r : Int)
    (c1 : connection) (h : wait_request_auth env w1 i c1 = some (r, wa))
    (hinv : counted w1.net) : counted wa.net := by
  unfold wait_request_auth at h
  split at h
  · split at h
    · exact (engage_authentication_counted env w1 wa i r h hinv).1
    · simp only [Option.some.injEq, Prod.mk.injEq] at h
      rw [← h.2]
      exact hinv
  · simp only [Option.some.injEq, Prod.mk.injEq] at h
    rw [← h.2]
    exact hinv

theorem wait_request_active_counted (env : Env)
    (henv : ∀ f sd v, env.user_func f sd v = v.net)
    (w1 w' : World) (i : Int) (c1 : connection)
    (h : wait_request_active env w1 i c1 = some w') (hinv : counted w1.net) :
    counted w'.net := by
  unfold wait_request_active at h
  simp only [Option.bind_eq_bind, Option.bind_eq_some] at h
  obtain ⟨a, ha, c2, _, h⟩ := h
  have ha' : wait_request_auth env w1 i c1 = some (a.1, a.2) := ha
  have hinv1 := wait_request_auth_counted env w1 a.2 i a.1 c1 ha' hinv
  split at h
  · exact close_conn_counted env henv _ _ _ h hinv1
  · exact (call_func_counted env henv _ _ _ _ h hinv1).1

/-- A ready slot that is in use, in a table where only empty slots are of type
`Idle`, is never force-closed: the count is kept. -/
theorem wait_request_ready_counted (env : Env)
    (henv : ∀ f sd v, env.user_func f sd v = v.net)
    (w0 w' : World) (i : Int)
    (hlive : ∀ c, aget w0.net.svr_conn i = some c → c.cn_sock ≠ -1)
    (h : wait_request_ready env w0 i = some w') (hinv : counted w0.net) :
    counted w'.net := by
  unfold wait_request_ready at h
  simp only [Option.bind_eq_bind, Option.bind_eq_some] at h
  obtain ⟨c, hc, sc, hsc, c1, hc1, h⟩ := h
  obtain ⟨h0, h1, hsc'⟩ := aset_some hsc
  have hinv1 : counted { w0.net with svr_conn := sc } :=
    counted_touch w0.net _ i c _ hinv hc hsc' rfl rfl rfl
  split at h
  · exact wait_request_active_counted env henv
      { w0 with net := { w0.net with svr_conn := sc } } w' i c1 h hinv1
  · rename_i hidle
    exfalso
    have hc1' : aget sc i = some c1 := hc1
    rw [hsc', aget_set_self _ _ _ h0 h1] at hc1'
    have hact : c1.cn_active = c.cn_active := by
      rw [← Option.some.inj hc1']
    have hcidle : c.cn_active = conn_type.Idle := by
      rw [← hact]
      by_contra hne
      exact hidle hne
    exact hlive c hc ((hinv.2 c (aget_mem hc)).mpr hcidle)

theorem selpoll_fd_isset_counted (w w' : World) (cndx r : Int)
    (h : selpoll_fd_isset w cndx = some (r, w')) :
    w'.net.svr_conn = w.net.svr_conn ∧ w'.net.num_connections = w.net.num_connections ∧
      (r ≠ 0 → ∃ c, aget w.net.svr_conn cndx = some c ∧ 0 ≤ c.cn_sock) := by
  unfold selpoll_fd_isset at h
  simp only [Option.bind_eq_bind, Option.bind_eq_some] at h
  obtain ⟨c, hc, h⟩ := h
  split at h
  · simp only [Option.some.injEq, Prod.mk.injEq] at h
    rw [← h.2]
    exact ⟨rfl, rfl, fun hr => absurd h.1.symm hr⟩
  · rename_i hsock
    simp only [Option.bind_eq_some] at h
    obtain ⟨p, _, h⟩ := h
    split at h
    · simp only [Option.some.injEq, Prod.mk.injEq] at h
      rw [← h.2]
      exact ⟨rfl, rfl, fun hr => absurd h.1.symm hr⟩
    · split at h
      · simp only [Option.bind_eq_some] at h
        obtain ⟨target, _, h⟩ := h
        split at h
        · simp only [Option.bind_eq_some] at h
          obtain ⟨net, hnet, h⟩ := h
          simp only [Option.some.injEq, Prod.mk.injEq] at h
          rw [← h.2]
          have := selpoll_fd_clr_svr_conn _ _ _ hnet
          exact ⟨this.1, this.2.2.2, fun hr => absurd h.1.symm hr⟩
        · simp only [Option.some.injEq, Prod.mk.injEq] at h
          rw [← h.2]
          exact ⟨rfl, rfl, fun hr => absurd h.1.symm hr⟩
      · split at h
        · simp only [Option.some.injEq, Prod.mk.injEq] at h
          rw [← h.2]
          exact ⟨rfl, rfl, fun _ => ⟨c, hc, by omega⟩⟩
        · simp only [Option.some.injEq, Prod.mk.injEq] at h
          rw [← h.2]
          exact ⟨rfl, rfl, fun hr => absurd h.1.symm hr⟩

theorem wait_request_body_counted (env : Env)
    (henv : ∀ f sd v, env.user_func f sd v = v.net)
    (i n n' : Int) (w w' : World)
    (h : wait_request_body env i n w = some (n', w')) (hinv : counted w.net) :
    counted w'.net := by
  unfold wait_request_body at h
  simp only [Option.bind_eq_bind, Option.bind_eq_some] at h
  obtain ⟨r, hr, h⟩ := h
  have hr' : selpoll_fd_isset w i = some (r.1, r.2) := hr
  obtain ⟨hsv, hnum, hready⟩ := selpoll_fd_isset_counted w r.2 i r.1 hr'
  have hinv1 : counted r.2.net := counted_same w.net r.2.net hinv hsv hnum
  split at h
  · rename_i hne
    simp only [Option.map_eq_some'] at h
    obtain ⟨w3, hw3, h⟩ := h
    simp only [Prod.mk.injEq] at h
    rw [← h.2]
    refine wait_request_ready_counted env henv r.2 w3 i ?_ hw3 hinv1
    intro c hc
    obtain ⟨c0, hc0, hpos⟩ := hready hne
    rw [hsv, hc0] at hc
    have hcc : c = c0 := (Option.some.inj hc).symm
    rw [hcc]
    omega
  · simp only [Option.some.injEq, Prod.mk.injEq] at h
    rw [← h.2]
    exact hinv1

theorem wait_request_loop_counted (env : Env)
    (henv : ∀ f sd v, env.user_func f sd v = v.net) :
    ∀ (fuel : Nat) (i n : Int) (w w' : World),
      wait_request_loop env fuel i n w = some w' → counted w.net → counted w'.net := by
  intro fuel
  induction fuel with
  | zero =>
    intro i n w w' h hinv
    unfold wait_request_loop at h
    split at h
    · cases h
    · simp only [Option.some.injEq] at h
      rw [← h]
      exact hinv
  | succ fuel ih =>
    intro i n w w' h hinv
    unfold wait_request_loop at h
    split at h
    · simp only [Option.bind_eq_bind, Option.bind_eq_some] at h
      obtain ⟨r, hr, h⟩ := h
      have hr' : wait_request_body env i n w = some (r.1, r.2) := hr
      exact ih _ _ _ _ h (wait_request_body_counted env henv i n r.1 w r.2 hr' hinv)
    · simp only [Option.some.injEq] at h
      rw [← h]
      exact hinv

theorem connection_idlecheck_loop_counted (env : Env)
    (henv : ∀ f sd v, env.user_func f sd v = v.net) (now : Int) :
    ∀ (fuel : Nat) (i : Int) (w w' : World),
      connection_idlecheck_loop env now fuel i w = some w' → counted w.net →
      counted w'.net := by
  intro fuel
  induction fuel with
  | zero =>
    intro i w w' h hinv
    unfold connection_idlecheck_loop at h
    split at h
    · cases h
    · simp only [Option.some.injEq] at h
      rw [← h]
      exact hinv
  | succ fuel ih =>
    intro i w w' h hinv
    unfold connection_idlecheck_loop at h
    split at h
    · simp only [Option.bind_eq_bind, Option.bind_eq_some] at h
      obtain ⟨cp, _, h⟩ := h
      split at h
      · exact ih _ _ _ h hinv
      · split at h
        · exact ih _ _ _ h hinv
        · split at h
          · exact ih _ _ _ h hinv
          · simp only [Option.bind_eq_some] at h
            obtain ⟨w2, hw2, h⟩ := h
            exact ih _ _ _ h (close_conn_counted env henv _ w2 _ hw2 hinv)
    · simp only [Option.some.injEq] at h
      rw [← h]
      exact hinv

theorem wait_request_dispatch_counted (env : Env)
    (henv : ∀ f sd v, env.user_func f sd v = v.net)
    (n r : Int) (w w' : World)
    (h : wait_request_dispatch env n w = some (r, w')) (hinv : counted w.net) :
    counted w'.net := by
  unfold wait_request_dispatch at h
  simp only [Option.bind_eq_bind, Option.bind_eq_some] at h
  obtain ⟨w1, hw1, w2, hw2, h⟩ := h
  simp only [Option.some.injEq, Prod.mk.injEq] at h
  rw [← h.2]
  exact connection_idlecheck_loop_counted env henv _ _ _ _ _ hw2
    (wait_request_loop_counted env henv _ _ _ _ _ hw1 hinv)

/-- Outside the force-close of a slot of type `Idle`, a tick keeps the count.
In a table where `num_connections` is the number of non-empty slots and a slot
is empty exactly when its type is `Idle`, and with handlers and hooks that
leave the module's variables alone, every `wait_request` that returns leaves
such a table, whatever `poll` has reported. -/
theorem wait_request_keeps_count (env : Env)
    (henv : ∀ f sd v, env.user_func f sd v = v.net)
    (waittime r : Int) (w w' : World)
    (h : wait_request env w waittime = some (r, w')) (hinv : counted w.net) :
    counted w'.net := by
  unfold wait_request at h
  dsimp only at h
  split at h
  · split at h
    · exact wait_request_dispatch_counted env henv _ _ _ _ h hinv
    · split at h
      · cases h
      · simp only [Option.some.injEq, Prod.mk.injEq] at h
        rw [← h.2]
        exact hinv
  · split at h
    · exact wait_request_dispatch_counted env henv _ _
        { w with net := { w.net with
            pollfds := poll_fill (env.poll_revents w) (w.net.maxfdx + 1) 0 w.net.pollfds } }
        _ h (counted_same w.net _ hinv rfl rfl)
    · cases h

/-- The status `execute` of `qstart` leaves in `exitstatus`: `2` when the
connection or the request fails, and otherwise the value it found. -/
theorem qstart_execute_status (env : CmdEnv) (queue server : Option (List Nat))
    (exitstatus : Int) (tr : List CmdEvent) :
    (qstart_execute env queue server exitstatus tr).1
      = if env.cnt2server tr server > 0 ∧
          env.pbs_manager (tr ++ [CmdEvent.cnt2server server])
            (env.cnt2server tr server) queue = 0
        then exitstatus else 2 := by
  unfold qstart_execute
  dsimp only
  by_cases h1 : env.cnt2server tr server > 0
  · by_cases h2 : env.pbs_manager (tr ++ [CmdEvent.cnt2server server])
        (env.cnt2server tr server) queue = 0
    · simp [h1, h2]
    · simp [h1, h2]
  · simp [h1]

end PBS
